import Mathlib

/-!
# isChIP: ingestion of interval files (Data.h / Data.cpp)

Shallow embedding of the ambiguity engine `Obj::Ambig`, of the feature check
`BedF::CheckItemPos`, of the ingestion loop `Bed::InitChild` and of the
sort-and-recheck pass `BedType::SortItems`, for the `_ISCHIP` build with the
chromosome collection kept in a vector (`_NO_UNODMAP`).

Conventions.
* `chrlen`, `chrid` and `long` values are unbounded `Nat` / `Int`: their
  typedefs are declared outside `Data.h` / `Data.cpp` and every modelled
  computation is taken on values that fit.
* A function that can throw returns the state reached together with an
  `Outcome`, so that the state at the moment of the throw stays observable.
* An access outside the item buffer (undefined behaviour in C++) is the
  outcome `fail Err.OutOfRange`.
-/

namespace IsChIP

/-! ## Ambiguity engine -/

/-- Ambiguous cases, `Obj::Ambig::eCase`. -/
inductive eCase where
  | DUPL | CROSS | ADJAC | COVER | SHORT | DIFFSZ | SCORE | EXCEED | NEGL
  deriving DecidableEq, Repr

/-- Reactions to an ambiguous case, `Obj::Ambig::eAction`. -/
inductive eAction where
  | ACCEPT | HANDLE | OMIT | OMIT_SILENT | ABORTING
  deriving DecidableEq, Repr

/-- Levels of printed information, `Obj::eInfo`. -/
inductive eInfo where
  | iNONE | iLAC | iNM | iEXT | iSTAT
  deriving DecidableEq, Repr

/-- Position of an `eInfo` value in its enumeration. -/
def eInfo.toNat : eInfo → Nat
  | .iNONE => 0 | .iLAC => 1 | .iNM => 2 | .iEXT => 3 | .iSTAT => 4

/-- Errors thrown while a file is ingested. -/
inductive Err where
  /-- `Err::BP_NEGPOS`: negative position. -/
  | BP_NEGPOS
  /-- `Err::BP_BADEND`: start is not less than end. -/
  | BP_BADEND
  /-- `Ambig::Abort`: line exception carrying the message of the case. -/
  | LineExcept (c : eCase)
  /-- `"is unsorted. Option --chr ... is forbidden"`. -/
  | UnsortedChroms
  /-- Access outside the item buffer. -/
  | OutOfRange
  /-- `Err::TF_EMPTY`: no items for the requested chromosomes. -/
  | TF_EMPTY
  /-- `Chrom::Absent(cID, what)`: the chromosome is absent in the named file. -/
  | Absent (cID : Nat) (what : String)
  /-- `"no common chromosomes"`. -/
  | NoCommonChroms
  /-- `"Feature size ... is less than stated ..."` of `CheckFeaturesLength`. -/
  | FeatureSize (size len : Nat)
  deriving DecidableEq, Repr

/-- Result of a call that may throw. -/
inductive Outcome (α : Type) where
  | ok (v : α)
  | fail (e : Err)
  deriving DecidableEq, Repr

/-- What is written to the shared output sink. -/
inductive Output where
  /-- The line break written before the first alarm. -/
  | EOL
  /-- `ThrowLineWarning` for a case. -/
  | LineWarning (c : eCase)
  /-- The warning `"unsorted features. Sorting may take time."`. -/
  | UnsortedWarning
  /-- Title and file name written by `Obj::Init`. -/
  | FileName
  /-- An error printed as a warning (`Err::Throw` without throwing). -/
  | Warning (e : Err)
  /-- The title written by `Ambig::Print` in its additional mode. -/
  | Title (t : String)
  /-- The total number of items, with the word "total" when `withTotal`. -/
  | TotalCount (n : Nat) (withTotal : Bool)
  /-- The comma written before the accepted items. -/
  | Comma
  /-- The number of accepted items written by `PrintItems`. -/
  | Accepted (n : Nat)
  /-- The entity name written by `PrintItems`, with the chromosome when `perChrom`. -/
  | Entity (n : Nat) (perChrom : Bool)
  /-- The words "from which". -/
  | FromWhich
  /-- One line of `PrintCaseStat`: the case, its counter and the total. -/
  | CaseStat (c : eCase) (cnt allCnt : Nat)
  /-- The line "total accepted" with the accepted and the total count. -/
  | TotalAccepted (accepted total : Nat)
  deriving DecidableEq, Repr

/-- One slot of `Ambig::_cases`: the configured action and the counter. -/
structure Case where
  Type_ : eAction
  Count : Nat
  deriving DecidableEq, Repr

/-- State of `Obj::Ambig`: `_cases`, `_info`, `_alarm`, `_alarmPrinted`,
the cached `_count` (`none` is `CHRLEN_UNDEF`), `unsortedItems`, and the
text written so far. -/
structure Ambig where
  cases : eCase → Case
  info : eInfo
  alarm : Bool
  alarmPrinted : Bool
  count : Option Nat
  unsortedItems : Bool
  out : List Output

/-- Constructor `Ambig::Ambig(info, alarm, format, dupl, crossANDadjac, diffsz)`:
counters zeroed by `memset`, then the actions assigned; `NEGL` keeps the
zero byte, which reads as `ACCEPT`. -/
def Ambig.new (info : eInfo) (alarm : Bool) (dupl crossANDadjac diffsz : eAction) : Ambig where
  cases := fun c =>
    match c with
    | .DUPL => ⟨dupl, 0⟩
    | .CROSS => ⟨crossANDadjac, 0⟩
    | .ADJAC => ⟨crossANDadjac, 0⟩
    | .COVER => ⟨.OMIT, 0⟩
    | .SHORT => ⟨.OMIT, 0⟩
    | .SCORE => ⟨.OMIT, 0⟩
    | .DIFFSZ => ⟨diffsz, 0⟩
    | .EXCEED => ⟨.OMIT, 0⟩
    | .NEGL => ⟨.ACCEPT, 0⟩
  info := info
  alarm := alarm
  alarmPrinted := decide (info.toNat ≤ eInfo.iLAC.toNat)
  count := none
  unsortedItems := false
  out := []

/-- The constructor with its default arguments `dupl = OMIT`,
`crossANDadjac = HANDLE`, `diffsz = ACCEPT`: the engine of `BedF`. -/
def Ambig.newDefault (info : eInfo) (alarm : Bool) : Ambig :=
  Ambig.new info alarm .OMIT .HANDLE .ACCEPT

/-- `_cases[ambig].Count++`. -/
def Ambig.incr (a : Ambig) (c : eCase) : Ambig :=
  { a with cases := fun d => if d = c then ⟨(a.cases d).Type_, (a.cases d).Count + 1⟩ else a.cases d }

/-- `Ambig::PrintLineAlarm`. -/
def Ambig.PrintLineAlarm (a : Ambig) (c : eCase) : Ambig :=
  if a.alarm then
    let a1 := if !a.alarmPrinted then { a with out := a.out ++ [Output.EOL], alarmPrinted := true } else a
    { a1 with out := a1.out ++ [Output.LineWarning c] }
  else a

/-- `Ambig::Accept`. -/
def Ambig.Accept (a : Ambig) (_c : eCase) : Ambig × Outcome Int := (a, .ok 1)

/-- `Ambig::Handle`. -/
def Ambig.Handle (a : Ambig) (c : eCase) : Ambig × Outcome Int := (a.PrintLineAlarm c, .ok 0)

/-- `Ambig::Omit`. -/
def Ambig.Omit (a : Ambig) (c : eCase) : Ambig × Outcome Int := (a.PrintLineAlarm c, .ok (-1))

/-- `Ambig::OmitQuiet`. -/
def Ambig.OmitQuiet (a : Ambig) (_c : eCase) : Ambig × Outcome Int := (a, .ok (-1))

/-- `Ambig::Abort`: `ThrowExcept(_Msgs[ambg].LineAlarm)`. -/
def Ambig.Abort (a : Ambig) (c : eCase) : Ambig × Outcome Int := (a, .fail (.LineExcept c))

/-- The table `Ambig::_Actions`, indexed by the action. -/
def Ambig.Actions (t : eAction) (a : Ambig) (c : eCase) : Ambig × Outcome Int :=
  match t with
  | .ACCEPT => a.Accept c
  | .HANDLE => a.Handle c
  | .OMIT => a.Omit c
  | .OMIT_SILENT => a.OmitQuiet c
  | .ABORTING => a.Abort c

/-- `Ambig::TreatCase`: count the case, then run its configured reaction. -/
def Ambig.TreatCase (a : Ambig) (ambig : eCase) : Ambig × Outcome Int :=
  let a1 := a.incr ambig
  Ambig.Actions (a1.cases ambig).Type_ a1 ambig

/-! ## Regions -/

/-- Modelled from the spec: `Region` is declared outside `Data.h` / `Data.cpp`;
an interval is a half-open `[start, end)` position pair. -/
structure Region where
  Start : Nat
  End : Nat
  deriving DecidableEq, Repr

/-- Modelled from the spec: `Region::Length` is declared outside the sources;
the length of the half-open interval. -/
def Region.Length (r : Region) : Nat := r.End - r.Start

/-- Modelled from the spec: `Region::Adjoin` is declared outside the sources;
"previous interval's end equals candidate's start". -/
def Region.Adjoin (p r : Region) : Bool := decide (r.Start = p.End)

/-- Modelled from the spec: `Region::Cover` is declared outside the sources;
"previous interval fully contains candidate (or the reverse, by a symmetric
containment test)". -/
def Region.Cover (p r : Region) : Bool :=
  (decide (p.Start ≤ r.Start) && decide (r.End ≤ p.End)) ||
  (decide (r.Start ≤ p.Start) && decide (p.End ≤ r.End))

/-- Modelled from the spec: `Region::Cross` is declared outside the sources;
"intervals overlap". -/
def Region.Cross (p r : Region) : Bool := decide (r.Start < p.End) && decide (p.Start < r.End)

/-- `Ambig::InitRegn`: `start` and `end_` are `LongField(1)` and `LongField(2)`
of the current line. Returns the region (initialised or left as it was) and
whether it was initialised. -/
def Ambig.InitRegn (a : Ambig) (start end_ : Int) (rgn : Region) (cLen : Nat) :
    Ambig × Region × Outcome Bool :=
  if start < 0 ∨ end_ < 0 then (a, rgn, .fail .BP_NEGPOS)
  else if start ≥ end_ then (a, rgn, .fail .BP_BADEND)
  else if cLen > 0 ∧ end_.toNat > cLen then
    match a.TreatCase .EXCEED with
    | (a1, .fail e) => (a1, rgn, .fail e)
    | (a1, .ok r) =>
      if r < 0 then (a1, rgn, .ok false)
      else (a1, ⟨start.toNat, end_.toNat⟩, .ok true)
  else (a, ⟨start.toNat, end_.toNat⟩, .ok true)

/-! ## Features -/

/-- `Featr`: a region with a score (the `float` score is only stored and
compared, it is kept as an integer). -/
structure Featr extends Region where
  Score : Int
  deriving DecidableEq, Repr

/-- `BedF::CorrectItemsEnd`: returns the feature referred to by `it` after the
call and the result. -/
def CorrectItemsEnd (it : Featr) (end_ : Nat) (treatCaseRes : Int) : Featr × Bool :=
  if treatCaseRes > 0 then (it, true)
  else if treatCaseRes = 0 then ({ it with End := end_ }, false)
  else (it, false)

/-- `BedF::CheckItemPos` (`_ISCHIP` build): `it` is the feature the iterator
refers to, `minFtrLen` is `_minFtrLen`. Returns the feature after the call,
the engine after the call and the result. -/
def CheckItemPos (minFtrLen : Nat) (it : Featr) (rgn : Region) (ambig : Ambig) :
    Featr × Ambig × Outcome Bool :=
  let currRgn := it.toRegion
  if rgn = currRgn then
    match ambig.TreatCase .DUPL with
    | (a, .fail e) => (it, a, .fail e)
    | (a, .ok r) => (it, a, .ok (decide (r ≥ 0)))
  else if rgn.Length < minFtrLen then
    match ambig.TreatCase .SHORT with
    | (a, .fail e) => (it, a, .fail e)
    | (a, .ok r) => (it, a, .ok (decide (r ≥ 0)))
  else if currRgn.Adjoin rgn then
    match ambig.TreatCase .ADJAC with
    | (a, .fail e) => (it, a, .fail e)
    | (a, .ok r) => ((CorrectItemsEnd it rgn.End r).1, a, .ok (CorrectItemsEnd it rgn.End r).2)
  else if currRgn.Cover rgn then
    match ambig.TreatCase .COVER with
    | (a, .fail e) => (it, a, .fail e)
    | (a, .ok r) => (it, a, .ok (decide (r ≥ 0)))
  else if currRgn.Cross rgn then
    match ambig.TreatCase .CROSS with
    | (a, .fail e) => (it, a, .fail e)
    | (a, .ok r) => ((CorrectItemsEnd it rgn.End r).1, a, .ok (CorrectItemsEnd it rgn.End r).2)
  else (it, ambig, .ok true)

/-! ## Item buffer and chromosome index -/

/-- Modelled from the spec: `Region::CompareByStartPos` is declared outside the
sources; "sort its sub-range of the item buffer by start position". -/
def CompareByStartPos (r1 r2 : Featr) : Bool := decide (r1.Start < r2.Start)

/-- Insertion of one feature into a list sorted by start. -/
def insertByStart (x : Featr) : List Featr → List Featr
  | [] => [x]
  | y :: ys => if CompareByStartPos y x then y :: insertByStart x ys else x :: y :: ys

/-- The call `sort(it, itLast+1, I::CompareByStartPos)` on a range of the
buffer. `std::sort` leaves the relative order of features with equal starts
unspecified; here they keep their order. -/
def sortByStart : List Featr → List Featr
  | [] => []
  | x :: xs => insertByStart x (sortByStart xs)

/-- `ChromItemsInd`: range of item indexes of one chromosome, `LastInd`
inclusive. -/
structure ChromItemsInd where
  Treated : Bool
  FirstInd : Nat
  LastInd : Nat
  deriving DecidableEq, Repr

/-- Constructor `ChromItemsInd(firstInd, lastInd)`; every call passes
`lastInd ≥ 1`. -/
def ChromItemsInd.new (firstInd lastInd : Nat) : ChromItemsInd :=
  ⟨true, firstInd, lastInd - 1⟩

/-- `ChromItemsInd::ItemsCount`, `LastInd - FirstInd + 1` in unsigned
arithmetic (so an empty range `LastInd = FirstInd - 1` counts 0). -/
def ChromItemsInd.ItemsCount (c : ChromItemsInd) : Nat := c.LastInd + 1 - c.FirstInd

/-- `BedF` (`_ISCHIP` build): the chromosome collection `Chroms<ChromItemsInd>`
(vector of pairs, in insertion order), the item buffer `_items`, `_itemsCnt`,
`_minFtrLen` and `_maxScore`. -/
structure BedF where
  chroms : List (Nat × ChromItemsInd)
  items : List Featr
  itemsCnt : Nat
  minFtrLen : Nat
  maxScore : Int
  deriving DecidableEq, Repr

/-- A `BedF` before `Init`: empty containers, `_maxScore = vUNDEF`. -/
def BedF.new (bsLen : Nat) : BedF := ⟨[], [], 0, bsLen, -1⟩

/-- `Chroms::AddVal`: `_chroms.push_back(chrItem(cID, val))`. -/
def BedF.AddVal (b : BedF) (cID : Nat) (val : ChromItemsInd) : BedF :=
  { b with chroms := b.chroms ++ [(cID, val)] }

/-- Insertion of one chromosome entry into a list sorted by id. -/
def insertByID (x : Nat × ChromItemsInd) : List (Nat × ChromItemsInd) → List (Nat × ChromItemsInd)
  | [] => [x]
  | y :: ys => if y.1 < x.1 then y :: insertByID x ys else x :: y :: ys

/-- `Chroms::Sort`: `sort(Begin(), End(), Compare)`, by chromosome id. -/
def sortByID : List (Nat × ChromItemsInd) → List (Nat × ChromItemsInd)
  | [] => []
  | x :: xs => insertByID x (sortByID xs)

/-- `BedF::AddPos` (`_ISCHIP` build); it always returns `true`. -/
def BedF.AddPos (b : BedF) (rgn : Region) (score : Int) : BedF × Bool :=
  ({ b with items := b.items ++ [⟨rgn, score⟩],
            maxScore := if score > b.maxScore then score else b.maxScore }, true)

/-- `BedType::CheckLastPos`: `CheckItemPos(_items.end()-1, rgn, ambig)`. -/
def BedF.CheckLastPos (b : BedF) (rgn : Region) (ambig : Ambig) : BedF × Ambig × Outcome Bool :=
  match b.items.getLast? with
  | none => (b, ambig, .fail .OutOfRange)
  | some last =>
    match CheckItemPos b.minFtrLen last rgn ambig with
    | (last1, a, r) => ({ b with items := b.items.dropLast ++ [last1] }, a, r)

/-- The recheck loop of `SortItems` over the sorted range of one chromosome:
`prev` is the item at `it-1`, the list holds the items from `it` to `itLast`.
Returns the range after the loop, the engine, the number of erased items and
whether an exception left the loop. -/
def recheck (minFtrLen : Nat) : Featr → List Featr → Ambig → List Featr × Ambig × Nat × Outcome Unit
  | prev, [], a => ([prev], a, 0, .ok ())
  | prev, x :: xs, a =>
    match CheckItemPos minFtrLen prev x.toRegion a with
    | (prev1, a1, .fail e) => (prev1 :: x :: xs, a1, 0, .fail e)
    | (prev1, a1, .ok true) =>
      match recheck minFtrLen x xs a1 with
      | (l, a2, n, r) => (prev1 :: l, a2, n, r)
    | (prev1, a1, .ok false) =>
      match recheck minFtrLen prev1 xs a1 with
      | (l, a2, n, r) => (l, a2, n + 1, r)

/-- The range of one chromosome after sorting and rechecking. -/
def recheckRange (minFtrLen : Nat) (seg : List Featr) (a : Ambig) :
    List Featr × Ambig × Nat × Outcome Unit :=
  match sortByStart seg with
  | [] => ([], a, 0, .ok ())
  | p :: rest => recheck minFtrLen p rest a

/-- One turn of the chromosome loop of `BedType::SortItems`: `rmvCnt` is the
counter as left by the previous turn. Returns the entry, the buffer, `_itemsCnt`,
the engine and `rmvCnt` after the turn. An unsigned wrap of `FirstInd -= rmvCnt`
or `LastInd -= rmvCnt`, or a range that does not lie in the buffer, is an
access outside the buffer. -/
def SortItems.turn (minFtrLen : Nat) (cit : Nat × ChromItemsInd) (items : List Featr)
    (itemsCnt : Nat) (a : Ambig) (rmvCnt : Nat) :
    (Nat × ChromItemsInd) × List Featr × Nat × Ambig × Nat × Outcome Unit :=
  if rmvCnt > cit.2.FirstInd ∨ rmvCnt > cit.2.LastInd then
    (cit, items, itemsCnt, a, rmvCnt, .fail .OutOfRange)
  else
    let first := cit.2.FirstInd - rmvCnt
    let last := cit.2.LastInd - rmvCnt
    let cnt := itemsCnt - rmvCnt
    if first ≤ last + 1 ∧ last + 1 ≤ items.length then
      match recheckRange minFtrLen ((items.drop first).take (last + 1 - first)) a with
      | (seg, a1, n, r) =>
        ((cit.1, { cit.2 with FirstInd := first, LastInd := last - n }),
          items.take first ++ seg ++ items.drop (last + 1), cnt, a1, n, r)
    else ((cit.1, { cit.2 with FirstInd := first, LastInd := last }), items, cnt, a, rmvCnt,
      .fail .OutOfRange)

/-- The chromosome loop of `BedType::SortItems`. -/
def SortItems.loop (minFtrLen : Nat) : List (Nat × ChromItemsInd) → List Featr → Nat → Ambig → Nat →
    List (Nat × ChromItemsInd) × List Featr × Nat × Ambig × Outcome Unit
  | [], items, itemsCnt, a, _ => ([], items, itemsCnt, a, .ok ())
  | cit :: cs, items, itemsCnt, a, rmvCnt =>
    match SortItems.turn minFtrLen cit items itemsCnt a rmvCnt with
    | (cit1, items1, cnt1, a1, _, .fail e) => (cit1 :: cs, items1, cnt1, a1, .fail e)
    | (cit1, items1, cnt1, a1, n, .ok _) =>
      match SortItems.loop minFtrLen cs items1 cnt1 a1 n with
      | (cs1, items2, cnt2, a2, r) => (cit1 :: cs1, items2, cnt2, a2, r)

/-- `BedType::SortItems` for features. -/
def BedF.SortItems (b : BedF) (ambig : Ambig) : BedF × Ambig × Outcome Unit :=
  match SortItems.loop b.minFtrLen b.chroms b.items b.itemsCnt ambig 0 with
  | (cs, items, cnt, a, r) => ({ b with chroms := cs, items := items, itemsCnt := cnt }, a, r)

/-! ## Ingestion -/

/-- One line of the tab file as `InitChild` reads it: `ChromName()`,
`LongField(1)`, `LongField(2)` and the score `FloatField(4)`. -/
structure Line where
  ChromName : String
  start : Int
  end_ : Int
  score : Int
  deriving DecidableEq, Repr

/-- The chromosome resolver `Chrom` (an external collaborator): `Chrom::ID`,
`Chrom::UnID`, `Chrom::M`, `Chrom::StatedAll()` and `Chrom::StatedID()`. -/
structure Chrom where
  ID : String → Nat
  UnID : Nat
  M : Nat
  StatedAll : Bool
  StatedID : Nat

/-- The local variables of `Bed::InitChild`. -/
structure Locals where
  firstInd : Nat
  cntLines : Nat
  currInd : Nat
  rgn : Region
  prevStart : Nat
  cLen : Nat
  cCurrID : Nat
  needSortChrom : Bool
  cName : String
  deriving DecidableEq, Repr

/-- Everything the loop of `Bed::InitChild` reads and writes. -/
structure Session where
  bed : BedF
  ambig : Ambig
  loc : Locals

/-- How one turn of the `do ... while` loop ends: `next` goes to `GetLine()`
(end of the body or `continue`), `stop` is `break`. -/
inductive Flow where
  | next | stop
  deriving DecidableEq, Repr

/-- Chromosome length for an id: `cSizes->Size(cID)` when sizes are given,
otherwise `cLen` is left as it was. -/
def chromLen (cSizes : Option (Nat → Nat)) (cID : Nat) (cLen : Nat) : Nat :=
  match cSizes with
  | some f => f cID
  | none => cLen

/-- The end of the loop body of `Bed::InitChild`:
`if(AddPos(rgn, file)) currInd++; else ambig.TreatCase(ambig.SCORE); prevStart = rgn.Start;`. -/
def addItem (ln : Line) (s : Session) : Session × Outcome Flow :=
  match s.bed.AddPos s.loc.rgn ln.score with
  | (b, true) =>
    ({ s with bed := b, loc := { s.loc with currInd := s.loc.currInd + 1, prevStart := s.loc.rgn.Start } },
      .ok .next)
  | (b, false) =>
    match s.ambig.TreatCase .SCORE with
    | (a, .fail e) => ({ s with bed := b, ambig := a }, .fail e)
    | (a, .ok _) =>
      ({ s with bed := b, ambig := a, loc := { s.loc with prevStart := s.loc.rgn.Start } }, .ok .next)

/-- The part of the loop body of `Bed::InitChild` that opens a chromosome
(from `cCurrID = cNextID` on). -/
def openChrom (cSizes : Option (Nat → Nat)) (ln : Line) (cNextID : Nat) (s : Session) :
    Session × Outcome Flow :=
  let cLen := chromLen cSizes cNextID s.loc.cLen
  let loc := { s.loc with cCurrID := cNextID, firstInd := s.loc.currInd,
                          cntLines := s.loc.cntLines + 1, cLen := cLen }
  match s.ambig.InitRegn ln.start ln.end_ loc.rgn cLen with
  | (a, rgn, .fail e) => ({ s with ambig := a, loc := { loc with rgn := rgn } }, .fail e)
  | (a, rgn, .ok false) => ({ s with ambig := a, loc := { loc with rgn := rgn } }, .ok .next)
  | (a, rgn, .ok true) => addItem ln { s with ambig := a, loc := { loc with rgn := rgn } }

/-- The `else` branch of the loop body of `Bed::InitChild`: a line with the
chromosome name of the line before. -/
def sameChrom (chrom : Chrom) (ln : Line) (s : Session) : Session × Outcome Flow :=
  if s.loc.cCurrID = chrom.UnID ∨ (¬ chrom.StatedAll ∧ s.loc.cCurrID ≠ chrom.StatedID) then
    (s, .ok .next)
  else
    let loc := { s.loc with cntLines := s.loc.cntLines + 1 }
    match s.ambig.InitRegn ln.start ln.end_ loc.rgn loc.cLen with
    | (a, rgn, .fail e) => ({ s with ambig := a, loc := { loc with rgn := rgn } }, .fail e)
    | (a, rgn, .ok false) => ({ s with ambig := a, loc := { loc with rgn := rgn } }, .ok .next)
    | (a, rgn, .ok true) =>
      let a1 := if rgn.Start < loc.prevStart then { a with unsortedItems := true } else a
      match s.bed.CheckLastPos rgn a1 with
      | (b, a2, .fail e) => ({ bed := b, ambig := a2, loc := { loc with rgn := rgn } }, .fail e)
      | (b, a2, .ok false) => ({ bed := b, ambig := a2, loc := { loc with rgn := rgn } }, .ok .next)
      | (b, a2, .ok true) => addItem ln { bed := b, ambig := a2, loc := { loc with rgn := rgn } }

/-- The loop body of `Bed::InitChild` for the current line. -/
def step (chrom : Chrom) (cSizes : Option (Nat → Nat)) (ln : Line) (s : Session) :
    Session × Outcome Flow :=
  if s.loc.cName ≠ ln.ChromName then
    let cNextID := chrom.ID ln.ChromName
    if cNextID = chrom.UnID then
      ({ s with loc := { s.loc with cCurrID := cNextID } }, .ok .next)
    else
      let s1 := { s with loc := { s.loc with cName := ln.ChromName } }
      if chrom.StatedAll then
        let b := if s1.loc.currInd ≠ s1.loc.firstInd then
            s1.bed.AddVal s1.loc.cCurrID (ChromItemsInd.new s1.loc.firstInd s1.loc.currInd)
          else s1.bed
        let needSort := if cNextID < s1.loc.cCurrID ∧ cNextID ≠ chrom.M then true
          else s1.loc.needSortChrom
        openChrom cSizes ln cNextID { s1 with bed := b, loc := { s1.loc with needSortChrom := needSort } }
      else if s1.loc.rgn.End ≠ 0 then (s1, .ok .stop)
      else if s1.loc.needSortChrom then (s1, .fail .UnsortedChroms)
      else if cNextID ≠ chrom.StatedID then (s1, .ok .next)
      else openChrom cSizes ln cNextID s1
  else sameChrom chrom ln s

/-- The `do ... while( file.GetLine() )` loop of `Bed::InitChild` over the
lines not yet read. -/
def readLines (chrom : Chrom) (cSizes : Option (Nat → Nat)) : List Line → Session → Session × Outcome Unit
  | [], s => (s, .ok ())
  | ln :: rest, s =>
    match step chrom cSizes ln s with
    | (s1, .fail e) => (s1, .fail e)
    | (s1, .ok .stop) => (s1, .ok ())
    | (s1, .ok .next) => readLines chrom cSizes rest s1

/-- The statements of `Bed::InitChild` after the loop; the result is the pair
`(cntLines, AllItemsCount())`. -/
def finish (chrom : Chrom) (s : Session) : BedF × Ambig × Outcome (Nat × Nat) :=
  if s.loc.rgn.End ≠ 0 ∧ s.loc.currInd ≠ 0 then
    let b1 := if s.loc.cCurrID ≠ chrom.UnID then
        s.bed.AddVal s.loc.cCurrID (ChromItemsInd.new s.loc.firstInd s.loc.currInd)
      else s.bed
    let b2 := if s.loc.needSortChrom then { b1 with chroms := sortByID b1.chroms } else b1
    if s.ambig.unsortedItems then
      match b2.SortItems { s.ambig with out := s.ambig.out ++ [Output.UnsortedWarning] } with
      | (b3, a, .fail e) => (b3, a, .fail e)
      | (b3, a, .ok _) => ({ b3 with itemsCnt := b3.items.length }, a, .ok (s.loc.cntLines, b3.items.length))
    else ({ b2 with itemsCnt := b2.items.length }, s.ambig, .ok (s.loc.cntLines, b2.items.length))
  else ({ s.bed with itemsCnt := s.bed.items.length }, s.ambig, .ok (s.loc.cntLines, s.bed.items.length))

/-- The local variables of `Bed::InitChild` when the loop is entered; `first`
is the first line of the file. The default-constructed `Region rgn` is taken
as `(0, 0)`: the code reads `rgn.End` as "no region initialised yet". -/
def initLocals (chrom : Chrom) (cSizes : Option (Nat → Nat)) (first : Line) : Locals :=
  { firstInd := 0, cntLines := 0, currInd := 0, rgn := ⟨0, 0⟩, prevStart := 0,
    cLen := chromLen cSizes (chrom.ID first.ChromName) 0, cCurrID := chrom.ID first.ChromName,
    needSortChrom := false, cName := "" }

/-- `Bed::InitChild` for features: `lines` are the lines of the file
(`GetFirstLine` fails on a file without lines), `cSizes` the chromosome sizes
when given. -/
def BedF.InitChild (b : BedF) (chrom : Chrom) (cSizes : Option (Nat → Nat)) (ambig : Ambig)
    (lines : List Line) : BedF × Ambig × Outcome (Nat × Nat) :=
  match lines with
  | [] => (b, ambig, .ok (0, 0))
  | first :: _ =>
    match readLines chrom cSizes lines
        { bed := b, ambig := ambig, loc := initLocals chrom cSizes first } with
    | (s, .fail e) => (s.bed, s.ambig, .fail e)
    | (s, .ok _) => finish chrom s

/-! ## Statistics, `Obj::Init` and `BedF::Extend` -/

/-- The cases in the order of the enumeration `eCase`. -/
def eCase.all : List eCase :=
  [.DUPL, .CROSS, .ADJAC, .COVER, .SHORT, .DIFFSZ, .SCORE, .EXCEED, .NEGL]

/-- Conversion of an integer to `chrlen` where the code relies on unsigned
wrap-around; `chrlen` is taken as an unsigned 32-bit integer there. -/
def chrlenWrap (x : Int) : Nat := (x % 4294967296).toNat

/-- `UNDEFINED`, that is `vUNDEF` (-1) stored in a `chrlen`: the mark of a
removed item. -/
def UNDEFINED : Nat := 4294967295

/-- `Ambig::Count`: the sum of the counters, computed once and kept in `_count`. -/
def Ambig.Count (a : Ambig) : Ambig × Nat :=
  match a.count with
  | some n => (a, n)
  | none =>
    ({ a with count := some (eCase.all.map (fun c => (a.cases c).Count)).sum },
      (eCase.all.map (fun c => (a.cases c).Count)).sum)

/-- `Ambig::PrintCaseStat`: nothing for a counter equal to 0. -/
def Ambig.PrintCaseStat (a : Ambig) (ambig : eCase) (allCnt : Nat) : Ambig :=
  if (a.cases ambig).Count = 0 then a
  else { a with out := a.out ++ [Output.CaseStat ambig (a.cases ambig).Count allCnt] }

/-- `Ambig::PrintItems`; `unID` is `Chrom::UnID`. -/
def Ambig.PrintItems (a : Ambig) (unID cID : Nat) (prAcceptItems : Bool) (itemCnt : Nat) : Ambig :=
  let a1 := if prAcceptItems then { a with out := a.out ++ [Output.Accepted itemCnt] } else a
  if a1.info.toNat > eInfo.iNM.toNat then
    { a1 with out := a1.out ++ [Output.Entity itemCnt (decide (cID ≠ unID))] }
  else a1

/-- The second part of `Ambig::Print`, from `if(Count() && _info == Obj::iSTAT)`
on; `res` is the result so far. The counter of `NEGL` is computed in unsigned
arithmetic. -/
def Ambig.PrintStat (a : Ambig) (unID cID : Nat) (title : Option String)
    (totalItemCnt acceptItemCnt : Nat) (res : Bool) : Ambig × Bool :=
  match a.Count with
  | (a1, cnt) =>
    if cnt ≠ 0 ∧ a1.info = eInfo.iSTAT then
      let a2 := if title.isNone then { a1 with out := a1.out ++ [Output.Comma, Output.FromWhich, Output.EOL] }
        else a1
      let a3 := eCase.all.foldl (fun x c => x.PrintCaseStat c totalItemCnt) a2
      let a4 :=
        if cID = unID then
          let negl := (eCase.all.dropLast).foldl
            (fun n c => if (a3.cases c).Type_ = eAction.ACCEPT then chrlenWrap (n + (a3.cases c).Count)
              else n)
            (chrlenWrap ((totalItemCnt : Int) - acceptItemCnt - cnt))
          let a31 : Ambig := { a3 with cases := fun d =>
            if d = eCase.NEGL then ⟨(a3.cases d).Type_, negl⟩ else a3.cases d }
          a31.PrintCaseStat eCase.NEGL totalItemCnt
        else a3
      ({ a4 with out := a4.out ++ [Output.TotalAccepted acceptItemCnt totalItemCnt] }, true)
    else (a1, res)

/-- `Ambig::Print`; `title` is `none` for `NULL`, `unID` is `Chrom::UnID`. -/
def Ambig.Print (a : Ambig) (unID cID : Nat) (title : Option String)
    (totalItemCnt acceptItemCnt : Nat) : Ambig × Bool :=
  if a.info.toNat ≤ eInfo.iLAC.toNat ∨ totalItemCnt = 0 then (a, false)
  else
    match title with
    | some t =>
      if a.info.toNat < eInfo.iEXT.toNat ∨ totalItemCnt = acceptItemCnt then (a, false)
      else
        let a1 := { a with out := a.out ++ [Output.Title t] }
        let a2 := if a1.info = eInfo.iEXT then a1.PrintItems unID cID true acceptItemCnt else a1
        Ambig.PrintStat { a2 with out := a2.out ++ [Output.EOL] } unID cID title totalItemCnt
          acceptItemCnt false
    | none =>
      let printAccept := decide (a.info = eInfo.iEXT ∧ totalItemCnt ≠ acceptItemCnt)
      let a1 := if a.info.toNat > eInfo.iNM.toNat then
          { a with out := a.out ++ [Output.TotalCount totalItemCnt (decide (totalItemCnt ≠ acceptItemCnt))] }
        else a
      let a2 := if printAccept then { a1 with out := a1.out ++ [Output.Comma] } else a1
      Ambig.PrintStat (a2.PrintItems unID cID printAccept acceptItemCnt) unID cID title totalItemCnt
        acceptItemCnt true

/-- The fields of `Obj`. -/
structure Obj where
  isBad : Bool
  EOLneeded : Bool
  deriving DecidableEq, Repr

/-- `Obj::PrintEOL`, the engine holding the output. -/
def Obj.PrintEOL (o : Obj) (a : Ambig) (printEOL : Bool) : Obj × Ambig :=
  ({ o with EOLneeded := false },
    if printEOL || o.EOLneeded then { a with out := a.out ++ [Output.EOL] } else a)

/-- `Obj::Init` of a `BedF` that has just been constructed (`_isBad` and
`_EOLneeded` false). The file type check, the opening of the file and the
timer are left out. When `abortInvalid` is false an error is printed as a
warning and the object is marked bad instead of throwing. -/
def BedF.Init (b : BedF) (chrom : Chrom) (cSizes : Option (Nat → Nat)) (ambig : Ambig)
    (lines : List Line) (isInfo abortInvalid : Bool) : BedF × Obj × Ambig × Outcome Unit :=
  let o0 : Obj := ⟨false, isInfo⟩
  let a0 := if isInfo then { ambig with out := ambig.out ++ [Output.FileName] } else ambig
  match b.InitChild chrom cSizes a0 lines with
  | (b1, a1, .fail e) =>
    if abortInvalid then (b1, ⟨true, true⟩, a1, .fail e)
    else (b1, ⟨true, false⟩, { a1 with out := a1.out ++ [Output.Warning e, Output.EOL] }, .ok ())
  | (b1, a1, .ok items) =>
    if items.2 = 0 then
      if abortInvalid then (b1, ⟨true, true⟩, a1, .fail .TF_EMPTY)
      else
        match Ambig.Print { a1 with out := a1.out ++ [Output.Warning .TF_EMPTY] } chrom.UnID
            chrom.StatedID none items.1 items.2 with
        | (a2, printed) =>
          match Obj.PrintEOL ⟨true, true⟩ a2 (printed && !a2.alarmPrinted) with
          | (o2, a3) => (b1, o2, a3, .ok ())
    else
      match a1.Print chrom.UnID chrom.StatedID none items.1 items.2 with
      | (a2, printed) =>
        match Obj.PrintEOL o0 a2 (printed && !a2.alarmPrinted) with
        | (o2, a3) => (b1, o2, a3, .ok ())

/-- Modelled from the spec: `Region::Extend` is declared outside the sources;
"widen start by L and end by L, clamping into `[0, chromLength)` when a length
is known" (`cLen = 0`: no length known). -/
def Region.Extend (r : Region) (extLen : Int) (cLen : Nat) : Region :=
  ⟨((r.Start : Int) - extLen).toNat,
    if cLen > 0 ∧ (r.End : Int) + extLen > cLen then cLen else ((r.End : Int) + extLen).toNat⟩

/-- The call `fit->Extend(extLen, cLen)` on a feature. -/
def Featr.Extend (f : Featr) (extLen : Int) (cLen : Nat) : Featr :=
  { f with toRegion := f.toRegion.Extend extLen cLen }

/-- What the scan of `BedF::Extend` reads and writes: the buffer, `rmvCnt`,
`allrmvCnt` and the local engine. -/
structure ExtScan where
  items : List Featr
  rmvCnt : Nat
  allrmvCnt : Nat
  ambig : Ambig

/-- The `else` branch of the scan of `BedF::Extend`. -/
def Extend.keep (st : ExtScan) (items : List Featr) (a : Ambig) : ExtScan × Outcome Unit :=
  ({ items := items, rmvCnt := 0, allrmvCnt := st.allrmvCnt + st.rmvCnt, ambig := a }, .ok ())

/-- The merge branch of the scan of `BedF::Extend` for the item `fit` at index `i`:
`rmvCnt++; (fit-rmvCnt)->End = fit->End; fit->Start = UNDEFINED`. -/
def Extend.merge (st : ExtScan) (items : List Featr) (i : Nat) (fit : Featr) (a : Ambig) :
    ExtScan × Outcome Unit :=
  if st.rmvCnt + 1 > i then ({ st with items := items, ambig := a }, .fail .OutOfRange)
  else
    match items.get? (i - (st.rmvCnt + 1)) with
    | none => ({ st with items := items, ambig := a }, .fail .OutOfRange)
    | some kept =>
      ({ items := (items.set (i - (st.rmvCnt + 1)) { kept with End := fit.End }).set i
            { fit with Start := UNDEFINED },
         rmvCnt := st.rmvCnt + 1, allrmvCnt := st.allrmvCnt, ambig := a }, .ok ())

/-- The body of the inner loop of `BedF::Extend` for the item at index `i`. -/
def Extend.item (extLen : Int) (cLen : Nat) (i : Nat) (st : ExtScan) : ExtScan × Outcome Unit :=
  match st.items.get? i, st.items.get? (i - 1) with
  | some fit, some prev =>
    let fit1 := fit.Extend extLen cLen
    let items1 := st.items.set i fit1
    if fit1.Start < prev.End then
      match st.ambig.TreatCase .CROSS with
      | (a, .fail e) => ({ st with items := items1, ambig := a }, .fail e)
      | (a, .ok r) => if r ≥ 0 then Extend.merge st items1 i fit1 a else Extend.keep st items1 a
    else if fit1.Start = prev.End then
      match st.ambig.TreatCase .ADJAC with
      | (a, .fail e) => ({ st with items := items1, ambig := a }, .fail e)
      | (a, .ok r) => if r ≥ 0 then Extend.merge st items1 i fit1 a else Extend.keep st items1 a
    else Extend.keep st items1 st.ambig
  | _, _ => (st, .fail .OutOfRange)

/-- The inner loop of `BedF::Extend` over `n` items from index `i` on. -/
def Extend.scan (extLen : Int) (cLen : Nat) : Nat → Nat → ExtScan → ExtScan × Outcome Unit
  | 0, _, st => (st, .ok ())
  | n + 1, i, st =>
    match Extend.item extLen cLen i st with
    | (st1, .fail e) => (st1, .fail e)
    | (st1, .ok _) => Extend.scan extLen cLen n (i + 1) st1

/-- The loop of `BedF::Extend` through the chromosomes; `cLen` is the length
kept from the chromosome before when no sizes are given. An empty range makes
the loop run outside the buffer. -/
def Extend.chroms (extLen : Int) (cSizes : Option (Nat → Nat)) :
    List (Nat × ChromItemsInd) → Nat → ExtScan → ExtScan × Outcome Unit
  | [], _, st => (st, .ok ())
  | cit :: cs, cLen, st =>
    match st.items.get? cit.2.FirstInd with
    | none => (st, .fail .OutOfRange)
    | some fit =>
      if cit.2.LastInd < cit.2.FirstInd then (st, .fail .OutOfRange)
      else
        match Extend.scan extLen (chromLen cSizes cit.1 cLen) (cit.2.LastInd - cit.2.FirstInd)
            (cit.2.FirstInd + 1)
            { st with items := st.items.set cit.2.FirstInd (fit.Extend extLen (chromLen cSizes cit.1 cLen)),
                      rmvCnt := 0 } with
        | (st1, .fail e) => (st1, .fail e)
        | (st1, .ok _) => Extend.chroms extLen cSizes cs (chromLen cSizes cit.1 cLen) st1

/-- The compaction of `BedF::Extend`: the new buffer takes, chromosome after
chromosome, the items not marked as removed; `allrmvCnt` counts the marked
items met so far. Returns the entries, the new buffer and `allrmvCnt`. -/
def Extend.compact (items : List Featr) :
    List (Nat × ChromItemsInd) → List Featr → Nat → List (Nat × ChromItemsInd) × List Featr × Nat
  | [], newItems, allrmvCnt => ([], newItems, allrmvCnt)
  | cit :: cs, newItems, allrmvCnt =>
    let seg := (items.drop cit.2.FirstInd).take (cit.2.LastInd + 1 - cit.2.FirstInd)
    let rmvCnt := (seg.filter (fun f => decide (f.Start = UNDEFINED))).length
    match Extend.compact items cs (newItems ++ seg.filter (fun f => decide (f.Start ≠ UNDEFINED)))
        (allrmvCnt + rmvCnt) with
    | (cs1, newItems1, all1) =>
      ((cit.1, { cit.2 with FirstInd := chrlenWrap ((cit.2.FirstInd : Int) - allrmvCnt),
                            LastInd := chrlenWrap ((cit.2.LastInd : Int) - (allrmvCnt + rmvCnt)) }) :: cs1,
        newItems1, all1)

/-- `BedF::Extend`; `unID` is `Chrom::UnID`. The local variable `rmvCnt` is
read as 0 when the index is empty. Returns the object, the text written and
the result. -/
def BedF.Extend (b : BedF) (o : Obj) (unID : Nat) (extLen : Int) (cSizes : Option (Nat → Nat))
    (info : eInfo) : BedF × Obj × List Output × Outcome Bool :=
  if extLen = 0 then (b, o, [], .ok false)
  else
    match Extend.chroms extLen cSizes b.chroms 0
        { items := b.items, rmvCnt := 0, allrmvCnt := 0, ambig := Ambig.newDefault info false } with
    | (st, .fail e) => ({ b with items := st.items }, o, st.ambig.out, .fail e)
    | (st, .ok _) =>
      let c := if st.rmvCnt ≠ 0 then Extend.compact st.items b.chroms [] 0
        else (b.chroms, st.items, st.allrmvCnt)
      match st.ambig.Print unID (match c.1 with | [cit] => cit.1 | _ => unID) (some "after extension")
          b.itemsCnt (b.itemsCnt - c.2.2) with
      | (a1, printed) =>
        match o.PrintEOL a1 printed with
        | (o1, a2) =>
          ({ b with chroms := c.1, items := c.2.1, itemsCnt := b.itemsCnt - c.2.2 }, o1, a2.out, .ok true)

/-! ## Cross-reference of two chromosome collections -/

/-- `Chroms::FindChrom` (vector build): true if chromosome `cID` exists in
the container. -/
def Chroms.FindChrom (cs : List (Nat × ChromItemsInd)) (cID : Nat) : Bool :=
  match cs with
  | [] => false
  | it :: rest => if it.1 = cID then true else Chroms.FindChrom rest cID

/-- First loop of `Chroms::SetCommonChroms`, over the entries of this
instance still to visit: `TREATED(it) = obj.FindChrom(CID(it))`, counted in
`commCnt` when true, warned about when false and `printWarn`. Returns the
entries as left, `commCnt` and the text written. -/
def Chroms.SetCommonChroms.own (obj : List (Nat × ChromItemsInd)) (printWarn : Bool) :
    List (Nat × ChromItemsInd) → Nat → List Output →
      List (Nat × ChromItemsInd) × Nat × List Output
  | [], commCnt, out => ([], commCnt, out)
  | it :: rest, commCnt, out =>
    let treated := Chroms.FindChrom obj it.1
    let r :=
      if treated then Chroms.SetCommonChroms.own obj printWarn rest (commCnt + 1) out
      else if printWarn then
        Chroms.SetCommonChroms.own obj printWarn rest commCnt
          (out ++ [Output.Warning (Err.Absent it.1 "second file")])
      else Chroms.SetCommonChroms.own obj printWarn rest commCnt out
    ((it.1, { it.2 with Treated := treated }) :: r.1, r.2)

/-- Second loop of `Chroms::SetCommonChroms`, over the entries of the
compared object still to visit: an entry that this instance does not hold
gets `TREATED(it) = false` and, when `printWarn`, a warning. -/
def Chroms.SetCommonChroms.compared (this : List (Nat × ChromItemsInd)) (printWarn : Bool) :
    List (Nat × ChromItemsInd) → List Output → List (Nat × ChromItemsInd) × List Output
  | [], out => ([], out)
  | it :: rest, out =>
    if !Chroms.FindChrom this it.1 then
      let r := Chroms.SetCommonChroms.compared this printWarn rest
        (if printWarn then out ++ [Output.Warning (Err.Absent it.1 "first file")] else out)
      ((it.1, { it.2 with Treated := false }) :: r.1, r.2)
    else
      let r := Chroms.SetCommonChroms.compared this printWarn rest out
      (it :: r.1, r.2)

/-- `Chroms::SetCommonChroms(obj, printWarn, throwExcept)`: returns this
instance, the compared object, the text written and the count of common
chromosomes. `Err::Throw(throwExcept)` is declared outside the sources; it is
taken as the comment of the function documents it, "if true then throw
exception if no common chroms finded, otherwise print warning". -/
def Chroms.SetCommonChroms (this obj : List (Nat × ChromItemsInd))
    (printWarn throwExcept : Bool) (out : List Output) :
    List (Nat × ChromItemsInd) × List (Nat × ChromItemsInd) × List Output × Outcome Nat :=
  match Chroms.SetCommonChroms.own obj printWarn this 0 out with
  | (this1, commCnt, out1) =>
    match Chroms.SetCommonChroms.compared this1 printWarn obj out1 with
    | (obj1, out2) =>
      if commCnt = 0 then
        if throwExcept then (this1, obj1, out2, .fail .NoCommonChroms)
        else (this1, obj1, out2 ++ [Output.Warning .NoCommonChroms], .ok commCnt)
      else (this1, obj1, out2, .ok commCnt)

/-! ## Reads: `BedR` and its ingestion (build without `_ISCHIP` and `_VALIGN`) -/

/-- Modelled from the spec: `Read` is declared outside `Data.h` / `Data.cpp`;
a point item, of which the sources read the start position `Pos`. -/
structure Read where
  Pos : Nat
  deriving DecidableEq, Repr

/-- `BedR`: the chromosome collection, the item buffer `_items`, `_itemsCnt`,
`_readLen`, `_minScore` and `_maxScore`. -/
structure BedR where
  chroms : List (Nat × ChromItemsInd)
  items : List Read
  itemsCnt : Nat
  readLen : Nat
  minScore : Int
  maxScore : Int
  deriving DecidableEq, Repr

/-- A `BedR` before `Init`: `_readLen(0), _minScore(minScore)`; the
constructor leaves `_maxScore` as it finds it, so it is an argument here. -/
def BedR.new (minScore maxScore : Int) : BedR := ⟨[], [], 0, 0, minScore, maxScore⟩

/-- The engine the constructor of `BedR` builds:
`Ambig(info, alarm, FT::ABED, acceptDupl ? ACCEPT : OMIT_SILENT, ACCEPT, OMIT)`. -/
def BedR.newAmbig (info : eInfo) (alarm acceptDupl : Bool) : Ambig :=
  Ambig.new info alarm (if acceptDupl then .ACCEPT else .OMIT_SILENT) .ACCEPT .OMIT

/-- `Chroms::AddVal` on the collection of a `BedR`. -/
def BedR.AddVal (b : BedR) (cID : Nat) (val : ChromItemsInd) : BedR :=
  { b with chroms := b.chroms ++ [(cID, val)] }

/-- `BedR::Regn`: `Region(it->Pos, it->Pos + _readLen)`. -/
def BedR.Regn (b : BedR) (it : Read) : Region := ⟨it.Pos, it.Pos + b.readLen⟩

/-- `BedR::CheckItemPos`: `it` is the read the iterator refers to. Returns
the instance (its `_readLen` may be initialised), the engine and the result.
`first` is the state after the first statement, its result `true` meaning
that the second statement is reached. `rgn.Length() - 1` is taken on a
region with `Start < End`, as `InitRegn` and `Regn` give it. -/
def BedR.CheckItemPos (b : BedR) (it : Read) (rgn : Region) (ambig : Ambig) :
    BedR × Ambig × Outcome Bool :=
  let first : BedR × Ambig × Outcome Bool :=
    if b.readLen = 0 then ({ b with readLen := rgn.Length - 1 }, ambig, .ok true)
    else if b.readLen ≠ rgn.Length - 1 then
      match ambig.TreatCase .DIFFSZ with
      | (a, .fail e) => (b, a, .fail e)
      | (a, .ok r) => (b, a, .ok (decide (¬ r < 0)))
    else (b, ambig, .ok true)
  match first with
  | (b1, a1, .fail e) => (b1, a1, .fail e)
  | (b1, a1, .ok false) => (b1, a1, .ok false)
  | (b1, a1, .ok true) =>
    if rgn.Start = it.Pos then
      match a1.TreatCase .DUPL with
      | (a2, .fail e) => (b1, a2, .fail e)
      | (a2, .ok r) => (b1, a2, .ok (decide (¬ r < 0)))
    else (b1, a1, .ok true)

/-- `BedR::AddPos` (without `_VALIGN`): `score` is `FloatField(4)` of the
current line. -/
def BedR.AddPos (b : BedR) (rgn : Region) (score : Int) : BedR × Bool :=
  if score ≤ b.minScore then (b, false)
  else ({ b with items := b.items ++ [⟨rgn.Start⟩],
                 maxScore := if score > b.maxScore then score else b.maxScore }, true)

/-- `BedType::CheckLastPos` for reads: `CheckItemPos(_items.end()-1, rgn, ambig)`. -/
def BedR.CheckLastPos (b : BedR) (rgn : Region) (ambig : Ambig) : BedR × Ambig × Outcome Bool :=
  match b.items.getLast? with
  | none => (b, ambig, .fail .OutOfRange)
  | some last => b.CheckItemPos last rgn ambig

/-- Modelled from the spec: `Read::CompareByStartPos` is declared outside the
sources; reads are compared by their start position. -/
def Read.CompareByStartPos (r1 r2 : Read) : Bool := decide (r1.Pos < r2.Pos)

/-- Insertion of one read into a list sorted by position. -/
def insertByPos (x : Read) : List Read → List Read
  | [] => [x]
  | y :: ys => if Read.CompareByStartPos y x then y :: insertByPos x ys else x :: y :: ys

/-- The call `sort(it, itLast+1, I::CompareByStartPos)` on a range of reads;
reads with equal positions keep their order. -/
def sortByPos : List Read → List Read
  | [] => []
  | x :: xs => insertByPos x (sortByPos xs)

/-- The recheck loop of `SortItems` over the sorted range of one chromosome
of reads: `prev` is the read at `it-1`, the list holds the reads from `it` to
`itLast`. Returns the instance, the range after the loop, the engine, the
number of erased reads and whether an exception left the loop. -/
def BedR.recheck : BedR → Read → List Read → Ambig → BedR × List Read × Ambig × Nat × Outcome Unit
  | b, prev, [], a => (b, [prev], a, 0, .ok ())
  | b, prev, x :: xs, a =>
    match b.CheckItemPos prev (b.Regn x) a with
    | (b1, a1, .fail e) => (b1, prev :: x :: xs, a1, 0, .fail e)
    | (b1, a1, .ok true) =>
      match BedR.recheck b1 x xs a1 with
      | (b2, l, a2, n, r) => (b2, prev :: l, a2, n, r)
    | (b1, a1, .ok false) =>
      match BedR.recheck b1 prev xs a1 with
      | (b2, l, a2, n, r) => (b2, l, a2, n + 1, r)

/-- The range of one chromosome of reads after sorting and rechecking. -/
def BedR.recheckRange (b : BedR) (seg : List Read) (a : Ambig) :
    BedR × List Read × Ambig × Nat × Outcome Unit :=
  match sortByPos seg with
  | [] => (b, [], a, 0, .ok ())
  | p :: rest => BedR.recheck b p rest a

/-- One turn of the chromosome loop of `BedType::SortItems` for reads, as
`SortItems.turn` for features. -/
def BedR.SortItems.turn (b : BedR) (cit : Nat × ChromItemsInd) (a : Ambig) (rmvCnt : Nat) :
    (Nat × ChromItemsInd) × BedR × Ambig × Nat × Outcome Unit :=
  if rmvCnt > cit.2.FirstInd ∨ rmvCnt > cit.2.LastInd then
    (cit, b, a, rmvCnt, .fail .OutOfRange)
  else
    let first := cit.2.FirstInd - rmvCnt
    let last := cit.2.LastInd - rmvCnt
    let b0 := { b with itemsCnt := b.itemsCnt - rmvCnt }
    if first ≤ last + 1 ∧ last + 1 ≤ b.items.length then
      match BedR.recheckRange b0 ((b.items.drop first).take (last + 1 - first)) a with
      | (b1, seg, a1, n, r) =>
        ((cit.1, { cit.2 with FirstInd := first, LastInd := last - n }),
          { b1 with items := b.items.take first ++ seg ++ b.items.drop (last + 1) }, a1, n, r)
    else ((cit.1, { cit.2 with FirstInd := first, LastInd := last }), b0, a, rmvCnt,
      .fail .OutOfRange)

/-- The chromosome loop of `BedType::SortItems` for reads. -/
def BedR.SortItems.loop : List (Nat × ChromItemsInd) → BedR → Ambig → Nat →
    List (Nat × ChromItemsInd) × BedR × Ambig × Outcome Unit
  | [], b, a, _ => ([], b, a, .ok ())
  | cit :: cs, b, a, rmvCnt =>
    match BedR.SortItems.turn b cit a rmvCnt with
    | (cit1, b1, a1, _, .fail e) => (cit1 :: cs, b1, a1, .fail e)
    | (cit1, b1, a1, n, .ok _) =>
      match BedR.SortItems.loop cs b1 a1 n with
      | (cs1, b2, a2, r) => (cit1 :: cs1, b2, a2, r)

/-- `BedType::SortItems` for reads. -/
def BedR.SortItems (b : BedR) (ambig : Ambig) : BedR × Ambig × Outcome Unit :=
  match BedR.SortItems.loop b.chroms b ambig 0 with
  | (cs, b1, a, r) => ({ b1 with chroms := cs }, a, r)

/-- `Ambig::SetTreatedChrom` on the field `_treatcID` (a `short`, `-1`
initially). -/
def SetTreatedChrom (unID : Nat) (treatcID : Int) (cid : Nat) : Int :=
  if treatcID = -1 then cid
  else if treatcID ≠ unID then unID
  else treatcID

/-- Everything the loop of `Bed::InitChild` reads and writes when the items
are reads; `treatcID` is the field `_treatcID` of the engine, which this
build has. -/
structure SessionR where
  bed : BedR
  ambig : Ambig
  treatcID : Int
  loc : Locals

/-- The end of the loop body of `Bed::InitChild`, for reads:
`if(AddPos(rgn, file)) currInd++; else ambig.TreatCase(ambig.SCORE); prevStart = rgn.Start;`. -/
def BedR.addItem (ln : Line) (s : SessionR) : SessionR × Outcome Flow :=
  match s.bed.AddPos s.loc.rgn ln.score with
  | (b, true) =>
    ({ s with bed := b, loc := { s.loc with currInd := s.loc.currInd + 1, prevStart := s.loc.rgn.Start } },
      .ok .next)
  | (b, false) =>
    match s.ambig.TreatCase .SCORE with
    | (a, .fail e) => ({ s with bed := b, ambig := a }, .fail e)
    | (a, .ok _) =>
      ({ s with bed := b, ambig := a, loc := { s.loc with prevStart := s.loc.rgn.Start } }, .ok .next)

/-- The part of the loop body of `Bed::InitChild` that opens a chromosome
(from `cCurrID = cNextID` on), for reads. -/
def BedR.openChrom (unID : Nat) (cSizes : Option (Nat → Nat)) (ln : Line) (cNextID : Nat)
    (s : SessionR) : SessionR × Outcome Flow :=
  let cLen := chromLen cSizes cNextID s.loc.cLen
  let t := SetTreatedChrom unID s.treatcID cNextID
  let loc := { s.loc with cCurrID := cNextID, firstInd := s.loc.currInd,
                          cntLines := s.loc.cntLines + 1, cLen := cLen }
  match s.ambig.InitRegn ln.start ln.end_ loc.rgn cLen with
  | (a, rgn, .fail e) =>
    ({ s with ambig := a, treatcID := t, loc := { loc with rgn := rgn } }, .fail e)
  | (a, rgn, .ok false) =>
    ({ s with ambig := a, treatcID := t, loc := { loc with rgn := rgn } }, .ok .next)
  | (a, rgn, .ok true) =>
    BedR.addItem ln { s with ambig := a, treatcID := t, loc := { loc with rgn := rgn } }

/-- The `else` branch of the loop body of `Bed::InitChild`, for reads. -/
def BedR.sameChrom (chrom : Chrom) (ln : Line) (s : SessionR) : SessionR × Outcome Flow :=
  if s.loc.cCurrID = chrom.UnID ∨ (¬ chrom.StatedAll ∧ s.loc.cCurrID ≠ chrom.StatedID) then
    (s, .ok .next)
  else
    let loc := { s.loc with cntLines := s.loc.cntLines + 1 }
    match s.ambig.InitRegn ln.start ln.end_ loc.rgn loc.cLen with
    | (a, rgn, .fail e) => ({ s with ambig := a, loc := { loc with rgn := rgn } }, .fail e)
    | (a, rgn, .ok false) => ({ s with ambig := a, loc := { loc with rgn := rgn } }, .ok .next)
    | (a, rgn, .ok true) =>
      let a1 := if rgn.Start < loc.prevStart then { a with unsortedItems := true } else a
      match s.bed.CheckLastPos rgn a1 with
      | (b, a2, .fail e) =>
        ({ s with bed := b, ambig := a2, loc := { loc with rgn := rgn } }, .fail e)
      | (b, a2, .ok false) =>
        ({ s with bed := b, ambig := a2, loc := { loc with rgn := rgn } }, .ok .next)
      | (b, a2, .ok true) =>
        BedR.addItem ln { s with bed := b, ambig := a2, loc := { loc with rgn := rgn } }

/-- The loop body of `Bed::InitChild` for the current line, for reads. -/
def BedR.step (chrom : Chrom) (cSizes : Option (Nat → Nat)) (ln : Line) (s : SessionR) :
    SessionR × Outcome Flow :=
  if s.loc.cName ≠ ln.ChromName then
    let cNextID := chrom.ID ln.ChromName
    if cNextID = chrom.UnID then
      ({ s with loc := { s.loc with cCurrID := cNextID } }, .ok .next)
    else
      let s1 := { s with loc := { s.loc with cName := ln.ChromName } }
      if chrom.StatedAll then
        let b := if s1.loc.currInd ≠ s1.loc.firstInd then
            s1.bed.AddVal s1.loc.cCurrID (ChromItemsInd.new s1.loc.firstInd s1.loc.currInd)
          else s1.bed
        let needSort := if cNextID < s1.loc.cCurrID ∧ cNextID ≠ chrom.M then true
          else s1.loc.needSortChrom
        BedR.openChrom chrom.UnID cSizes ln cNextID
          { s1 with bed := b, loc := { s1.loc with needSortChrom := needSort } }
      else if s1.loc.rgn.End ≠ 0 then (s1, .ok .stop)
      else if s1.loc.needSortChrom then (s1, .fail .UnsortedChroms)
      else if cNextID ≠ chrom.StatedID then (s1, .ok .next)
      else BedR.openChrom chrom.UnID cSizes ln cNextID s1
  else BedR.sameChrom chrom ln s

/-- The `do ... while( file.GetLine() )` loop of `Bed::InitChild` over the
lines not yet read, for reads. -/
def BedR.readLines (chrom : Chrom) (cSizes : Option (Nat → Nat)) :
    List Line → SessionR → SessionR × Outcome Unit
  | [], s => (s, .ok ())
  | ln :: rest, s =>
    match BedR.step chrom cSizes ln s with
    | (s1, .fail e) => (s1, .fail e)
    | (s1, .ok .stop) => (s1, .ok ())
    | (s1, .ok .next) => BedR.readLines chrom cSizes rest s1

/-- The statements of `Bed::InitChild` after the loop, for reads; the result
is the pair `(cntLines, AllItemsCount())`. -/
def BedR.finish (chrom : Chrom) (s : SessionR) : BedR × Ambig × Outcome (Nat × Nat) :=
  if s.loc.rgn.End ≠ 0 ∧ s.loc.currInd ≠ 0 then
    let b1 := if s.loc.cCurrID ≠ chrom.UnID then
        s.bed.AddVal s.loc.cCurrID (ChromItemsInd.new s.loc.firstInd s.loc.currInd)
      else s.bed
    let b2 := if s.loc.needSortChrom then { b1 with chroms := sortByID b1.chroms } else b1
    if s.ambig.unsortedItems then
      match b2.SortItems { s.ambig with out := s.ambig.out ++ [Output.UnsortedWarning] } with
      | (b3, a, .fail e) => (b3, a, .fail e)
      | (b3, a, .ok _) => ({ b3 with itemsCnt := b3.items.length }, a, .ok (s.loc.cntLines, b3.items.length))
    else ({ b2 with itemsCnt := b2.items.length }, s.ambig, .ok (s.loc.cntLines, b2.items.length))
  else ({ s.bed with itemsCnt := s.bed.items.length }, s.ambig, .ok (s.loc.cntLines, s.bed.items.length))

/-- `Bed::InitChild` for reads: `lines` are the lines of the file, `cSizes`
the chromosome sizes when given, `treatcID` the field `_treatcID` of the
engine. -/
def BedR.InitChild (b : BedR) (chrom : Chrom) (cSizes : Option (Nat → Nat)) (ambig : Ambig)
    (treatcID : Int) (lines : List Line) : BedR × Ambig × Outcome (Nat × Nat) :=
  match lines with
  | [] => (b, ambig, .ok (0, 0))
  | first :: _ =>
    match BedR.readLines chrom cSizes lines
        { bed := b, ambig := ambig, treatcID := treatcID,
          loc := initLocals chrom cSizes first } with
    | (s, .fail e) => (s.bed, s.ambig, .fail e)
    | (s, .ok _) => BedR.finish chrom s

/-! ## `BedF::CheckFeaturesLength` -/

/-- The inner loop of `BedF::CheckFeaturesLength`,
`for(fit=ItemsBegin(cit); fit!=fitLast; fit++)`: `i` is the index `fit` refers
to and the last argument the number of turns left before `fit` meets
`fitLast`. -/
def CheckFeaturesLength.scan (items : List Featr) (len : Nat) : Nat → Nat → Outcome Unit
  | _, 0 => .ok ()
  | i, n + 1 =>
    match items.get? i with
    | none => .fail .OutOfRange
    | some f =>
      if f.toRegion.Length < len then .fail (.FeatureSize f.toRegion.Length len)
      else CheckFeaturesLength.scan items len (i + 1) n

/-- The loop of `BedF::CheckFeaturesLength` through the chromosomes. When
`ItemsBegin(cit)` lies behind `ItemsEnd(cit)` the iterator cannot meet
`fitLast` before it leaves the buffer. -/
def CheckFeaturesLength.chroms (items : List Featr) (len : Nat) :
    List (Nat × ChromItemsInd) → Outcome Unit
  | [] => .ok ()
  | cit :: cs =>
    let turns := if cit.2.FirstInd ≤ cit.2.LastInd + 1 then cit.2.LastInd + 1 - cit.2.FirstInd
      else items.length + 1
    match CheckFeaturesLength.scan items len cit.2.FirstInd turns with
    | .fail e => .fail e
    | .ok _ => CheckFeaturesLength.chroms items len cs

/-- `BedF::CheckFeaturesLength(len, lenDefinition, sender)`: returns the
instance as the call leaves it (no statement of the function writes to it)
and the outcome. -/
def BedF.CheckFeaturesLength (b : BedF) (len : Nat) : BedF × Outcome Unit :=
  (b, CheckFeaturesLength.chroms b.items len b.chroms)

/-! ## Definitions used to state the properties -/

/-- The counter of a case. -/
def Ambig.cnt (a : Ambig) (c : eCase) : Nat := (a.cases c).Count

/-- The action configured for a case. -/
def Ambig.act (a : Ambig) (c : eCase) : eAction := (a.cases c).Type_

/-- The first matching case of the interval-item check as the specification
lists them, for a previous interval `p` and a candidate `c`: equal bounds
(Duplicate), candidate length below the minimum (TooShort), previous end equal
to candidate start (Adjacent), one interval containing the other (Covered),
any other overlap (Crossed); `none` when no case matches. -/
def firstCase (minFtrLen : Nat) (p c : Region) : Option eCase :=
  if c.Start = p.Start ∧ c.End = p.End then some .DUPL
  else if c.End - c.Start < minFtrLen then some .SHORT
  else if c.Start = p.End then some .ADJAC
  else if (p.Start ≤ c.Start ∧ c.End ≤ p.End) ∨ (c.Start ≤ p.Start ∧ p.End ≤ c.End) then some .COVER
  else if c.Start < p.End ∧ p.Start < c.End then some .CROSS
  else none

/-- The feature appended for a line. -/
def Line.featr (ln : Line) : Featr := ⟨⟨ln.start.toNat, ln.end_.toNat⟩, ln.score⟩

/-- A resolver for files whose chromosomes are named `1`, `2` and `3`, in the
mode "all chromosomes": any other name is unrecognised (id 255). -/
def chromNumbered : Chrom :=
  { ID := fun n => if n = "1" then 1 else if n = "2" then 2 else if n = "3" then 3 else 255,
    UnID := 255, M := 24, StatedAll := true, StatedID := 255 }

/-- A record of a file together with the scores of its further copies. -/
structure Group where
  Start : Nat
  End : Nat
  score : Int
  more : List Int

/-- The feature stored for a group. -/
def Group.featr (g : Group) : Featr := ⟨⟨g.Start, g.End⟩, g.score⟩

/-- The lines of a group: the record, then its copies. -/
def Group.lines (name : String) (g : Group) : List Line :=
  ⟨name, g.Start, g.End, g.score⟩ :: g.more.map (fun sc => ⟨name, g.Start, g.End, sc⟩)

/-- The lines of a file made of groups. -/
def groupLines (name : String) : List Group → List Line
  | [] => []
  | g :: gs => g.lines name ++ groupLines name gs

/-- Number of lines that repeat an earlier line. -/
def dupCount : List Group → Nat
  | [] => 0
  | g :: gs => g.more.length + dupCount gs

/-- Each group is a well-formed interval inside a chromosome of length `L`
(`L = 0`: no length known). -/
def Group.inside (L : Nat) (g : Group) : Prop := g.Start < g.End ∧ ¬ (0 < L ∧ L < g.End)

/-- Every group after `g` starts strictly after the end of the group before
it and is not shorter than `m`. -/
def separatedFrom (m : Nat) : Group → List Group → Prop
  | _, [] => True
  | g, g1 :: gs => g.End < g1.Start ∧ ¬ (g1.End - g1.Start < m) ∧ separatedFrom m g1 gs

/-- What holds of the session between two lines of a sorted one-chromosome
file: `g` is the last record stored, `pre` the items before it. -/
structure Inv (chrom : Chrom) (name : String) (m L : Nat) (g : Group) (pre : List Featr)
    (S : Session) : Prop where
  hName : S.loc.cName = name
  hID : S.loc.cCurrID = chrom.ID name
  hLen : S.loc.cLen = L
  hMin : S.bed.minFtrLen = m
  hItems : S.bed.items = pre ++ [g.featr]
  hRgn : S.loc.rgn = ⟨g.Start, g.End⟩
  hPrev : S.loc.prevStart = g.Start
  hCur : S.loc.currInd ≠ 0
  hSort : S.ambig.unsortedItems = false
  hDupl : (S.ambig.cases eCase.DUPL).Type_ = eAction.OMIT

/-- A file in which the block of chromosome 2 (holding `[20,30)` twice, the
copies apart from each other) comes before the blocks of chromosomes 1 and 3. -/
def blocksOutOfOrder : List Line :=
  [⟨"2", 20, 30, 1⟩, ⟨"2", 50, 60, 1⟩, ⟨"2", 20, 30, 1⟩,
   ⟨"1", 10, 20, 1⟩, ⟨"1", 30, 40, 1⟩,
   ⟨"3", 5, 8, 1⟩, ⟨"3", 100, 110, 1⟩]

/-- The items of the range of a chromosome entry: indexes `FirstInd` to
`LastInd` of the buffer. -/
def BedF.rangeItems (b : BedF) (c : ChromItemsInd) : List Featr :=
  (b.items.drop c.FirstInd).take (c.LastInd + 1 - c.FirstInd)

/-- The default feature policy on the five cases of the interval-item check:
Duplicate, TooShort and Covered are Omit, Adjacent and Crossed are Handle. -/
def defaultPolicy (a : Ambig) : Prop :=
  (a.cases eCase.DUPL).Type_ = eAction.OMIT ∧ (a.cases eCase.SHORT).Type_ = eAction.OMIT ∧
  (a.cases eCase.ADJAC).Type_ = eAction.HANDLE ∧ (a.cases eCase.COVER).Type_ = eAction.OMIT ∧
  (a.cases eCase.CROSS).Type_ = eAction.HANDLE

/-- Consecutive features are non-conflicting: each ends strictly before the
next starts. -/
def separatedF : List Featr → Prop
  | x :: y :: rest => x.End < y.Start ∧ separatedF (y :: rest)
  | _ => True

/-- The features are in ascending order of start, none before `n`. -/
def ascendingFrom : Nat → List Featr → Prop
  | _, [] => True
  | n, x :: rest => n ≤ x.Start ∧ ascendingFrom x.Start rest

/-- The resolver `chromNumbered` in the mode "single chromosome", the
chromosome with id `target` being requested. -/
def chromSingle (target : Nat) : Chrom :=
  { chromNumbered with StatedAll := false, StatedID := target }

/-- A resolver in the mode "all chromosomes" for files whose chromosomes are
named `X`, `Y` and `M`, with ids 88, 89 and 77; the id of `M` is the
mitochondrial exception. -/
def chromLettered : Chrom :=
  { ID := fun n => if n = "X" then 88 else if n = "Y" then 89 else if n = "M" then 77 else 255,
    UnID := 255, M := 77, StatedAll := true, StatedID := 255 }

/-- A `BedF` holding `[100,200)`, `[210,300)` for chromosome 1 and `[100,200)`,
`[500,600)` for chromosome 2, as ingestion leaves it. -/
def bedTwoChroms : BedF :=
  ⟨[(1, ⟨true, 0, 1⟩), (2, ⟨true, 2, 3⟩)],
    [⟨⟨100, 200⟩, 1⟩, ⟨⟨210, 300⟩, 1⟩, ⟨⟨100, 200⟩, 1⟩, ⟨⟨500, 600⟩, 1⟩], 4, 0, 1⟩

/-- The feature was appended for a record of chromosome `id`: its start and
its score are those of a line of `lines` that names `id`. -/
def appendedFor (chrom : Chrom) (lines : List Line) (id : Nat) (f : Featr) : Prop :=
  ∃ ln ∈ lines, chrom.ID ln.ChromName = id ∧ f.Start = ln.start.toNat ∧ f.Score = ln.score

/-- The ids of the chromosome blocks of a file, in the order of the file: a
block starts at each line whose chromosome name differs from the name of the
line before it (from `name` for the first line). -/
def blockIds (chrom : Chrom) : String → List Line → List Nat
  | _, [] => []
  | name, ln :: rest =>
    if name ≠ ln.ChromName then chrom.ID ln.ChromName :: blockIds chrom ln.ChromName rest
    else blockIds chrom name rest

/-- Some id of the list is below the id before it and is not the id `M`. -/
def descends (M : Nat) : List Nat → Prop
  | a :: b :: rest => (b < a ∧ b ≠ M) ∨ descends M (b :: rest)
  | _ => False

/-- The start and the score of a feature: what the checks never change. -/
def Featr.key (f : Featr) : Nat × Int := (f.Start, f.Score)

/-- The pair is the start and the score of a record of chromosome `id`. -/
def keyFor (chrom : Chrom) (lines : List Line) (id : Nat) (k : Nat × Int) : Prop :=
  ∃ ln ∈ lines, chrom.ID ln.ChromName = id ∧ k.1 = ln.start.toNat ∧ k.2 = ln.score

/-- The concatenation of the segments of a list of chromosome segments. -/
def flat : List (Nat × List (Nat × Int)) → List (Nat × Int)
  | [] => []
  | p :: rest => p.2 ++ flat rest

/-- The index entries of consecutive segments, the first of them at `off`. -/
def rangesOf : Nat → List (Nat × List (Nat × Int)) → List (Nat × ChromItemsInd)
  | _, [] => []
  | off, p :: rest => (p.1, ⟨true, off, off + p.2.length - 1⟩) :: rangesOf (off + p.2.length) rest

/-- What holds of the session between two lines when all chromosomes are
requested and every line names a recognised chromosome: `segs` are the
segments of the buffer recorded in the index with their chromosome ids, `cur`
is the segment of the open chromosome, `rest` are the lines not yet read. -/
structure AllInv (chrom : Chrom) (lines rest : List Line) (segs : List (Nat × List (Nat × Int)))
    (cur : List (Nat × Int)) (S : Session) : Prop where
  hKeys : S.bed.items.map Featr.key = flat segs ++ cur
  hChroms : S.bed.chroms = rangesOf 0 segs
  hFirst : S.loc.firstInd = (flat segs).length
  hCurr : S.loc.currInd = S.bed.items.length
  hSegs : ∀ p ∈ segs, p.2 ≠ [] ∧ ∀ k ∈ p.2, keyFor chrom lines p.1 k
  hCur : ∀ k ∈ cur, keyFor chrom lines S.loc.cCurrID k
  hNodup : (segs.map Prod.fst ++ (if S.loc.cName = "" then [] else [S.loc.cCurrID]) ++
    blockIds chrom S.loc.cName rest).Nodup
  hDesc : S.loc.needSortChrom = true ∨
    descends chrom.M (S.loc.cCurrID :: blockIds chrom S.loc.cName rest)
  hID : S.loc.cCurrID ≠ chrom.UnID
  hStart : S.loc.cName = "" → segs = [] ∧ cur = []
  hName : S.loc.cName ≠ "" → chrom.ID S.loc.cName = S.loc.cCurrID
  hEmpty : S.loc.rgn.End = 0 → S.bed.items = []

/-- A `BedF` holding `[100,200)`, `[210,300)` and `[500,600)` for chromosome 1,
as ingestion leaves it. -/
def bedThreeFeatures : BedF :=
  ⟨[(1, ⟨true, 0, 2⟩)], [⟨⟨100, 200⟩, 1⟩, ⟨⟨210, 300⟩, 1⟩, ⟨⟨500, 600⟩, 1⟩], 3, 0, 1⟩

/-- The eight cases other than NEGL, in the order of the enumeration. -/
def otherCases : List eCase :=
  [.DUPL, .CROSS, .ADJAC, .COVER, .SHORT, .DIFFSZ, .SCORE, .EXCEED]

/-- The sum of the counters of the eight cases other than NEGL. -/
def Ambig.sumOthers (a : Ambig) : Nat := (otherCases.map (fun c => (a.cases c).Count)).sum

/-- The sum of the counters of those of the eight cases other than NEGL whose
configured action is Accept. -/
def Ambig.sumAccepted (a : Ambig) : Nat :=
  ((otherCases.filter (fun c => decide ((a.cases c).Type_ = eAction.ACCEPT))).map
    (fun c => (a.cases c).Count)).sum

/-- The entry of a chromosome collection with `Treated` telling whether its
id is among `ids`. -/
def markTreated (ids : List Nat) (p : Nat × ChromItemsInd) : Nat × ChromItemsInd :=
  (p.1, { p.2 with Treated := decide (p.1 ∈ ids) })

/-- The entry of a chromosome collection with `Treated` cleared unless its
id is among `ids`. -/
def clearAbsent (ids : List Nat) (q : Nat × ChromItemsInd) : Nat × ChromItemsInd :=
  if q.1 ∈ ids then q else (q.1, { q.2 with Treated := false })

/-- The number of entries of `A` whose id is among `ids`. -/
def commonEntries (A : List (Nat × ChromItemsInd)) (ids : List Nat) : Nat :=
  (A.filter (fun p => decide (p.1 ∈ ids))).length

/-- A feature with `Start < End` whose start is the start field of one of the
lines, a field that is not negative. -/
def wellFormedFrom (lines : List Line) (f : Featr) : Prop :=
  f.Start < f.End ∧ ∃ ln ∈ lines, 0 ≤ ln.start ∧ (f.Start : Int) = ln.start

/-- The result of a check that treats a case: the engine after `TreatCase`
and the rejection of the candidate exactly on a negative decision. -/
def decided (o : Ambig × Outcome Int) : Ambig × Outcome Bool :=
  match o with
  | (a, .fail e) => (a, .fail e)
  | (a, .ok r) => (a, .ok (decide (0 ≤ r)))

/-- The engine `a1` differs from the engine `a` at most in the slots of the
cases that the ingestion of reads treats: PositionExceedsLength,
DifferentSize, Duplicate and FilteredByScore. -/
def onlyReadCases (a a1 : Ambig) : Prop :=
  ∀ c, c ≠ eCase.EXCEED → c ≠ eCase.DIFFSZ → c ≠ eCase.DUPL → c ≠ eCase.SCORE →
    a1.cases c = a.cases c

/-- The instance after the first statement of `BedR::CheckItemPos` when no
case is treated there: the read length is recorded if none was. -/
def BedR.recorded (b : BedR) (rgn : Region) : BedR :=
  if b.readLen = 0 then { b with readLen := rgn.Length - 1 } else b

/-- A sequence of `TreatCase` calls on one engine, whatever their outcomes;
the engine after the last call. -/
def treatAll (a : Ambig) : List eCase → Ambig
  | [] => a
  | c :: cs => treatAll (a.TreatCase c).1 cs

/-- The line alarms of a sequence of calls: one for every call whose action
is Handle or Omit when the alarm flag is enabled, none otherwise. -/
def alarmsOf (a : Ambig) (cs : List eCase) : List Output :=
  if a.alarm then
    (cs.filter (fun c => decide (a.act c = eAction.HANDLE ∨ a.act c = eAction.OMIT))).map
      Output.LineWarning
  else []

/-- The leading line break of a sequence of calls: one when the sequence has
an alarm and none has been printed before. -/
def lineBreak (a : Ambig) (cs : List eCase) : List Output :=
  if a.alarmPrinted = false ∧ alarmsOf a cs ≠ [] then [Output.EOL] else []

/-- Chromosome sizes that give chromosome 2 the length 100 and no length to
the others. -/
def sizesSecond : Option (Nat → Nat) := some (fun id => if id = 2 then 100 else 0)

/-- The session in which `Bed::InitChild` enters its loop on a new `BedF`
without minimum length, with the default engine, for files whose first line
names `first`. -/
def startSession (first : String) : Session :=
  { bed := BedF.new 0, ambig := Ambig.newDefault eInfo.iSTAT false,
    loc := initLocals chromNumbered none ⟨first, 0, 0, 0⟩ }

/-- The records of one chromosome as a file sorted by start holds them: the
chromosome name, the first record and the further records, each with the
scores of its copies. -/
structure Block where
  name : String
  first : Group
  rest : List Group

/-- The groups of a block. -/
def Block.groups (b : Block) : List Group := b.first :: b.rest

/-- The lines of a file made of blocks. -/
def blockLines : List Block → List Line
  | [] => []
  | b :: bs => groupLines b.name b.groups ++ blockLines bs

/-- One feature for every distinct record of a file of blocks, in the order of
the file. -/
def blockItems : List Block → List Featr
  | [] => []
  | b :: bs => b.groups.map Group.featr ++ blockItems bs

/-- Number of lines of a file of blocks that repeat an earlier line: the sum
of `k - 1` over the distinct records, `k` being the number of times the record
occurs. -/
def blockDups : List Block → Nat
  | [] => 0
  | b :: bs => dupCount b.groups + blockDups bs

/-- The block names a recognised chromosome, and its distinct records are
well-formed, do not end beyond the chromosome length, are not shorter than `m`
(the first one included) and each ends strictly before the next one starts. -/
def Block.admissible (chrom : Chrom) (cSizes : Option (Nat → Nat)) (m : Nat) (b : Block) : Prop :=
  chrom.ID b.name ≠ chrom.UnID ∧
  (∀ g ∈ b.groups, g.inside (chromLen cSizes (chrom.ID b.name) 0)) ∧
  ¬ (b.first.End - b.first.Start < m) ∧ separatedFrom m b.first b.rest

/-- The lines of a file that holds the given records of one chromosome, in
the given order. -/
def featrLines (name : String) (fs : List Featr) : List Line :=
  fs.map (fun f => ⟨name, f.Start, f.End, f.Score⟩)

/-- The distinct records (start and end) among the records of one chromosome. -/
def distinctRegions (fs : List Featr) : List Region := (fs.map Featr.toRegion).dedup

/-- Number of records that repeat an earlier record: the sum of `k - 1` over
the distinct records, `k` being the number of times the record occurs. -/
def repeats (fs : List Featr) : Nat :=
  ((distinctRegions fs).map (fun r => (fs.map Featr.toRegion).count r - 1)).sum

/-- The record is well-formed, does not end beyond the chromosome length `L`
(`L = 0`: no length known) and is not shorter than `m`. -/
def Featr.admissible (m L : Nat) (f : Featr) : Prop :=
  f.Start < f.End ∧ ¬ (0 < L ∧ L < f.End) ∧ ¬ (f.End - f.Start < m)

/-- Two records are copies of each other or apart: one ends strictly before
the other starts. -/
def Featr.sameOrApart (x y : Featr) : Prop :=
  x.toRegion = y.toRegion ∨ x.End < y.Start ∨ y.End < x.Start

/-- What holds of the session between two lines of a one-chromosome file in
any order: `seen` are the records read so far, `c0` is the Duplicate counter
before the first line. -/
structure InvU (chrom : Chrom) (name : String) (m L c0 : Nat) (seen : List Featr)
    (S : Session) : Prop where
  hName : S.loc.cName = name
  hID : S.loc.cCurrID = chrom.ID name
  hLen : S.loc.cLen = L
  hMin : S.bed.minFtrLen = m
  hLast : ∃ pre last, S.bed.items = pre ++ [last] ∧ S.loc.prevStart = last.Start
  hMem : ∀ r, r ∈ S.bed.items.map Featr.toRegion ↔ r ∈ seen.map Featr.toRegion
  hEnd : S.loc.rgn.End ≠ 0
  hCur : S.loc.currInd = S.bed.items.length
  hFirst : S.loc.firstInd = 0
  hChroms : S.bed.chroms = []
  hNeed : S.loc.needSortChrom = false
  hCnt : S.loc.cntLines = seen.length
  hDupl : (S.ambig.cases eCase.DUPL).Type_ = eAction.OMIT
  hCount : (S.ambig.cases eCase.DUPL).Count + S.bed.items.length = c0 + seen.length
  hSorted : S.ambig.unsortedItems = false → separatedF S.bed.items

-- End of the definitions; the theorems follow.

/-! ## The ambiguity engine: `TreatCase` -/

theorem incr_act (a : Ambig) (c d : eCase) : (a.incr c).act d = a.act d := by
  unfold Ambig.incr Ambig.act
  by_cases h : d = c <;> simp [h]

theorem incr_cnt_self (a : Ambig) (c : eCase) : (a.incr c).cnt c = a.cnt c + 1 := by
  simp [Ambig.incr, Ambig.cnt]

theorem incr_cnt_other (a : Ambig) (c d : eCase) (h : d ≠ c) : (a.incr c).cnt d = a.cnt d := by
  simp [Ambig.incr, Ambig.cnt, h]

theorem PrintLineAlarm_cases (a : Ambig) (c : eCase) : (a.PrintLineAlarm c).cases = a.cases := by
  unfold Ambig.PrintLineAlarm
  by_cases h1 : a.alarm <;> by_cases h2 : a.alarmPrinted <;> simp [h1, h2]

theorem PrintLineAlarm_unsorted (a : Ambig) (c : eCase) :
    (a.PrintLineAlarm c).unsortedItems = a.unsortedItems := by
  unfold Ambig.PrintLineAlarm
  by_cases h1 : a.alarm <;> by_cases h2 : a.alarmPrinted <;> simp [h1, h2]

/-- The cases of the engine after `TreatCase`: those after the increment. -/
theorem TreatCase_cases (a : Ambig) (c : eCase) : (a.TreatCase c).1.cases = (a.incr c).cases := by
  simp only [Ambig.TreatCase, Ambig.Actions]
  split <;>
    simp [Ambig.Accept, Ambig.Handle, Ambig.Omit, Ambig.OmitQuiet, Ambig.Abort, PrintLineAlarm_cases]

theorem TreatCase_cnt_self (a : Ambig) (c : eCase) : (a.TreatCase c).1.cnt c = a.cnt c + 1 := by
  have h := TreatCase_cases a c
  unfold Ambig.cnt
  rw [h]
  exact incr_cnt_self a c

theorem TreatCase_cnt_other (a : Ambig) (c d : eCase) (h : d ≠ c) :
    (a.TreatCase c).1.cnt d = a.cnt d := by
  have h1 := TreatCase_cases a c
  unfold Ambig.cnt
  rw [h1]
  exact incr_cnt_other a c d h

theorem TreatCase_act (a : Ambig) (c d : eCase) : (a.TreatCase c).1.act d = a.act d := by
  have h1 := TreatCase_cases a c
  unfold Ambig.act
  rw [h1]
  exact incr_act a c d

theorem TreatCase_result (a : Ambig) (c : eCase) :
    (a.TreatCase c).2 =
      match a.act c with
      | .ACCEPT => .ok 1
      | .HANDLE => .ok 0
      | .OMIT => .ok (-1)
      | .OMIT_SILENT => .ok (-1)
      | .ABORTING => .fail (.LineExcept c) := by
  have h := incr_act a c c
  unfold Ambig.act at h
  simp only [Ambig.TreatCase, Ambig.Actions, Ambig.act, h]
  cases (a.cases c).Type_ <;>
    simp [Ambig.Accept, Ambig.Handle, Ambig.Omit, Ambig.OmitQuiet, Ambig.Abort]

/-- C1: whenever the action configured for case `c` is not Abort, `TreatCase c`
adds exactly 1 to the counter of `c` and returns +1 for Accept, 0 for Handle
and -1 for Omit and OmitSilent. -/
theorem TreatCase_counts_and_decides (a : Ambig) (c : eCase)
    (h : (a.cases c).Type_ ≠ eAction.ABORTING) :
    ((a.TreatCase c).1.cases c).Count = (a.cases c).Count + 1 ∧
    ((a.cases c).Type_ = eAction.ACCEPT → (a.TreatCase c).2 = Outcome.ok 1) ∧
    ((a.cases c).Type_ = eAction.HANDLE → (a.TreatCase c).2 = Outcome.ok 0) ∧
    ((a.cases c).Type_ = eAction.OMIT → (a.TreatCase c).2 = Outcome.ok (-1)) ∧
    ((a.cases c).Type_ = eAction.OMIT_SILENT → (a.TreatCase c).2 = Outcome.ok (-1)) ∧
    (∃ r : Int, (a.TreatCase c).2 = Outcome.ok r ∧ (r = 1 ∨ r = 0 ∨ r = -1)) := by
  have hr := TreatCase_result a c
  have hc := TreatCase_cnt_self a c
  unfold Ambig.cnt at hc
  unfold Ambig.act at hr
  refine ⟨hc, ?_, ?_, ?_, ?_, ?_⟩
  · intro h1; rw [hr, h1]
  · intro h1; rw [hr, h1]
  · intro h1; rw [hr, h1]
  · intro h1; rw [hr, h1]
  · rw [hr]
    cases h2 : (a.cases c).Type_
    · exact ⟨1, rfl, Or.inl rfl⟩
    · exact ⟨0, rfl, Or.inr (Or.inl rfl)⟩
    · exact ⟨-1, rfl, Or.inr (Or.inr rfl)⟩
    · exact ⟨-1, rfl, Or.inr (Or.inr rfl)⟩
    · exact absurd h2 h

/-- Witness for C1: the default feature engine on the Duplicate case (Omit). -/
theorem TreatCase_counts_and_decides_witness :
    ((Ambig.newDefault eInfo.iSTAT true).cases eCase.DUPL).Type_ ≠ eAction.ABORTING ∧
    ((((Ambig.newDefault eInfo.iSTAT true).TreatCase eCase.DUPL).1.cases eCase.DUPL).Count = 1 ∧
      ((Ambig.newDefault eInfo.iSTAT true).TreatCase eCase.DUPL).2 = Outcome.ok (-1)) :=
  ⟨by decide,
    (TreatCase_counts_and_decides (Ambig.newDefault eInfo.iSTAT true) eCase.DUPL (by decide)).1,
    (TreatCase_counts_and_decides (Ambig.newDefault eInfo.iSTAT true) eCase.DUPL (by decide)).2.2.2.1
      rfl⟩

/-- C6: `TreatCase c` throws exactly when the action configured for `c` is
Abort; when it throws, the counter of `c` has grown by exactly 1 and every
other counter is as before. -/
theorem TreatCase_throws_iff_abort (a : Ambig) (c : eCase) :
    ((∃ e, (a.TreatCase c).2 = Outcome.fail e) ↔ (a.cases c).Type_ = eAction.ABORTING) ∧
    ((a.cases c).Type_ = eAction.ABORTING →
      (a.TreatCase c).2 = Outcome.fail (Err.LineExcept c) ∧
      ((a.TreatCase c).1.cases c).Count = (a.cases c).Count + 1 ∧
      ∀ d, d ≠ c → ((a.TreatCase c).1.cases d).Count = (a.cases d).Count) := by
  have hr := TreatCase_result a c
  have hc := TreatCase_cnt_self a c
  have ho := TreatCase_cnt_other a c
  unfold Ambig.cnt at hc ho
  unfold Ambig.act at hr
  refine ⟨⟨?_, ?_⟩, ?_⟩
  · rintro ⟨e, he⟩
    rw [hr] at he
    cases h2 : (a.cases c).Type_ <;> rw [h2] at he <;> first | rfl | cases he
  · intro h2
    exact ⟨Err.LineExcept c, by rw [hr, h2]⟩
  · intro h2
    exact ⟨by rw [hr, h2], hc, ho⟩

/-- Witness for C6: an engine whose Duplicate action is Abort. -/
theorem TreatCase_throws_iff_abort_witness :
    ((Ambig.new eInfo.iSTAT true eAction.ABORTING eAction.HANDLE eAction.ACCEPT).cases
        eCase.DUPL).Type_ = eAction.ABORTING ∧
    ((Ambig.new eInfo.iSTAT true eAction.ABORTING eAction.HANDLE eAction.ACCEPT).TreatCase
        eCase.DUPL).2 = Outcome.fail (Err.LineExcept eCase.DUPL) ∧
    (((Ambig.new eInfo.iSTAT true eAction.ABORTING eAction.HANDLE eAction.ACCEPT).TreatCase
        eCase.DUPL).1.cases eCase.DUPL).Count = 1 :=
  ⟨rfl,
    ((TreatCase_throws_iff_abort
      (Ambig.new eInfo.iSTAT true eAction.ABORTING eAction.HANDLE eAction.ACCEPT) eCase.DUPL).2 rfl).1,
    ((TreatCase_throws_iff_abort
      (Ambig.new eInfo.iSTAT true eAction.ABORTING eAction.HANDLE eAction.ACCEPT) eCase.DUPL).2 rfl).2.1⟩

/-! ## Region initialisation: `InitRegn` -/

/-- `InitRegn` on a line whose end lies beyond the chromosome. -/
theorem InitRegn_exceeding (a : Ambig) (start end_ : Int) (rgn : Region) (cLen : Nat)
    (h0 : 0 ≤ start) (h1 : start < end_) (hx : 0 < cLen ∧ (cLen : Int) < end_) :
    a.InitRegn start end_ rgn cLen =
      match (a.TreatCase eCase.EXCEED).2 with
      | .fail e => ((a.TreatCase eCase.EXCEED).1, rgn, .fail e)
      | .ok r =>
        if r < 0 then ((a.TreatCase eCase.EXCEED).1, rgn, .ok false)
        else ((a.TreatCase eCase.EXCEED).1, ⟨start.toNat, end_.toNat⟩, .ok true) := by
  have h2 : ¬ (start < 0 ∨ end_ < 0) := by omega
  have h3 : ¬ (start ≥ end_) := by omega
  have h4 : cLen > 0 ∧ end_.toNat > cLen := by omega
  unfold Ambig.InitRegn
  rw [if_neg h2, if_neg h3, if_pos h4]
  rcases h : a.TreatCase eCase.EXCEED with ⟨a1, r⟩
  cases r <;> rfl

/-- `InitRegn` on a line that does not reach beyond the chromosome. -/
theorem InitRegn_inside (a : Ambig) (start end_ : Int) (rgn : Region) (cLen : Nat)
    (h0 : 0 ≤ start) (h1 : start < end_) (hx : ¬ (0 < cLen ∧ (cLen : Int) < end_)) :
    a.InitRegn start end_ rgn cLen = (a, ⟨start.toNat, end_.toNat⟩, .ok true) := by
  have h2 : ¬ (start < 0 ∨ end_ < 0) := by omega
  have h3 : ¬ (start ≥ end_) := by omega
  have h4 : ¬ (cLen > 0 ∧ end_.toNat > cLen) := by omega
  unfold Ambig.InitRegn
  rw [if_neg h2, if_neg h3, if_neg h4]

/-- C4: `InitRegn` throws the negative-position error when a raw position is
negative (tested first), the bad-end error when `start >= end`, in both cases
with the engine (all counters) and the region as they were; on `0 <= start < end`
with an EXCEED action other than Abort it does not throw. -/
theorem InitRegn_fatal_geometry (a : Ambig) (start end_ : Int) (rgn : Region) (cLen : Nat) :
    (start < 0 ∨ end_ < 0 → a.InitRegn start end_ rgn cLen = (a, rgn, Outcome.fail Err.BP_NEGPOS)) ∧
    (0 ≤ start → 0 ≤ end_ → end_ ≤ start →
      a.InitRegn start end_ rgn cLen = (a, rgn, Outcome.fail Err.BP_BADEND)) ∧
    (0 ≤ start → start < end_ → (a.cases eCase.EXCEED).Type_ ≠ eAction.ABORTING →
      ∃ b, (a.InitRegn start end_ rgn cLen).2.2 = Outcome.ok b) := by
  refine ⟨?_, ?_, ?_⟩
  · intro h
    unfold Ambig.InitRegn
    rw [if_pos h]
  · intro h0 h1 h2
    have h3 : ¬ (start < 0 ∨ end_ < 0) := by omega
    have h4 : start ≥ end_ := by omega
    unfold Ambig.InitRegn
    rw [if_neg h3, if_pos h4]
  · intro h0 h1 hab
    by_cases hx : 0 < cLen ∧ (cLen : Int) < end_
    · rw [InitRegn_exceeding a start end_ rgn cLen h0 h1 hx]
      have hr := TreatCase_result a eCase.EXCEED
      unfold Ambig.act at hr
      rw [hr]
      cases h5 : (a.cases eCase.EXCEED).Type_
      · exact ⟨true, rfl⟩
      · exact ⟨true, rfl⟩
      · exact ⟨false, rfl⟩
      · exact ⟨false, rfl⟩
      · exact absurd h5 hab
    · rw [InitRegn_inside a start end_ rgn cLen h0 h1 hx]
      exact ⟨true, rfl⟩

/-- Witness for C4: the line `-3 .. 7`, the line `9 .. 4` and the line `5 .. 2000`
on a chromosome of length 1000, with the default feature engine. -/
theorem InitRegn_fatal_geometry_witness :
    (Ambig.newDefault eInfo.iSTAT true).InitRegn (-3) 7 ⟨0, 0⟩ 1000 =
      (Ambig.newDefault eInfo.iSTAT true, ⟨0, 0⟩, Outcome.fail Err.BP_NEGPOS) ∧
    (Ambig.newDefault eInfo.iSTAT true).InitRegn 9 4 ⟨0, 0⟩ 1000 =
      (Ambig.newDefault eInfo.iSTAT true, ⟨0, 0⟩, Outcome.fail Err.BP_BADEND) ∧
    (∃ b, ((Ambig.newDefault eInfo.iSTAT true).InitRegn 5 2000 ⟨0, 0⟩ 1000).2.2 = Outcome.ok b) :=
  ⟨(InitRegn_fatal_geometry (Ambig.newDefault eInfo.iSTAT true) (-3) 7 ⟨0, 0⟩ 1000).1
      (Or.inl (by decide)),
    (InitRegn_fatal_geometry (Ambig.newDefault eInfo.iSTAT true) 9 4 ⟨0, 0⟩ 1000).2.1
      (by decide) (by decide) (by decide),
    (InitRegn_fatal_geometry (Ambig.newDefault eInfo.iSTAT true) 5 2000 ⟨0, 0⟩ 1000).2.2
      (by decide) (by decide) (by decide)⟩

/-- C5: on `0 <= start < end`, `InitRegn` calls `TreatCase(EXCEED)` exactly when
`cLen > 0` and `end > cLen`; it returns false with the region untouched exactly
when that call decides Reject, and returns true with the region `[start, end)`
when the call is not made or decides otherwise. So an exceeding line is dropped
under Omit, kept unmodified under Accept, and EXCEED counts 1 more in both. -/
theorem InitRegn_exceed_policy (a : Ambig) (start end_ : Int) (rgn : Region) (cLen : Nat)
    (h0 : 0 ≤ start) (h1 : start < end_) :
    (¬ (0 < cLen ∧ (cLen : Int) < end_) →
      a.InitRegn start end_ rgn cLen = (a, ⟨start.toNat, end_.toNat⟩, Outcome.ok true)) ∧
    (0 < cLen ∧ (cLen : Int) < end_ →
      (a.InitRegn start end_ rgn cLen).1 = (a.TreatCase eCase.EXCEED).1 ∧
      (∀ r : Int, (a.TreatCase eCase.EXCEED).2 = Outcome.ok r → r < 0 →
        (a.InitRegn start end_ rgn cLen).2 = (rgn, Outcome.ok false)) ∧
      (∀ r : Int, (a.TreatCase eCase.EXCEED).2 = Outcome.ok r → 0 ≤ r →
        (a.InitRegn start end_ rgn cLen).2 = (⟨start.toNat, end_.toNat⟩, Outcome.ok true))) ∧
    ((a.InitRegn start end_ rgn cLen).2.2 = Outcome.ok false ↔
      (0 < cLen ∧ (cLen : Int) < end_ ∧ ∃ r : Int, (a.TreatCase eCase.EXCEED).2 = Outcome.ok r ∧ r < 0)) ∧
    (0 < cLen ∧ (cLen : Int) < end_ → (a.cases eCase.EXCEED).Type_ = eAction.OMIT →
      (a.InitRegn start end_ rgn cLen).2 = (rgn, Outcome.ok false) ∧
      ((a.InitRegn start end_ rgn cLen).1.cases eCase.EXCEED).Count =
        (a.cases eCase.EXCEED).Count + 1) ∧
    (0 < cLen ∧ (cLen : Int) < end_ → (a.cases eCase.EXCEED).Type_ = eAction.ACCEPT →
      (a.InitRegn start end_ rgn cLen).2 = (⟨start.toNat, end_.toNat⟩, Outcome.ok true) ∧
      ((a.InitRegn start end_ rgn cLen).1.cases eCase.EXCEED).Count =
        (a.cases eCase.EXCEED).Count + 1) := by
  have hr := TreatCase_result a eCase.EXCEED
  have hc := TreatCase_cnt_self a eCase.EXCEED
  unfold Ambig.cnt at hc
  unfold Ambig.act at hr
  refine ⟨fun hx => InitRegn_inside a start end_ rgn cLen h0 h1 hx, ?_, ?_, ?_, ?_⟩
  · intro hx
    have he := InitRegn_exceeding a start end_ rgn cLen h0 h1 hx
    refine ⟨?_, ?_, ?_⟩
    · rw [he]
      cases h5 : (a.TreatCase eCase.EXCEED).2 with
      | fail e => rfl
      | ok r => by_cases h6 : r < 0 <;> simp [h6]
    · intro r hr1 hr2
      rw [he, hr1]
      simp [hr2]
    · intro r hr1 hr2
      rw [he, hr1]
      have h6 : ¬ r < 0 := by omega
      simp [h6]
  · by_cases hx : 0 < cLen ∧ (cLen : Int) < end_
    · have he := InitRegn_exceeding a start end_ rgn cLen h0 h1 hx
      rw [he]
      constructor
      · intro h5
        refine ⟨hx.1, hx.2, ?_⟩
        cases h6 : (a.TreatCase eCase.EXCEED).2 with
        | fail e => rw [h6] at h5; simp at h5
        | ok r =>
          rw [h6] at h5
          by_cases h7 : r < 0
          · exact ⟨r, rfl, h7⟩
          · simp [h7] at h5
      · rintro ⟨_, _, r, hr1, hr2⟩
        rw [hr1]
        simp [hr2]
    · rw [InitRegn_inside a start end_ rgn cLen h0 h1 hx]
      constructor
      · intro h5; simp at h5
      · rintro ⟨h5, h6, _⟩
        exact absurd ⟨h5, h6⟩ hx
  · intro hx hact
    have he := InitRegn_exceeding a start end_ rgn cLen h0 h1 hx
    rw [hact] at hr
    rw [he, hr]
    exact ⟨rfl, hc⟩
  · intro hx hact
    have he := InitRegn_exceeding a start end_ rgn cLen h0 h1 hx
    rw [hact] at hr
    rw [he, hr]
    exact ⟨rfl, hc⟩

/-- Witness for C5: the line `5 .. 2000` on a chromosome of length 1000 is
dropped by the default feature engine (EXCEED is Omit) and counted once. -/
theorem InitRegn_exceed_policy_witness :
    ((Ambig.newDefault eInfo.iSTAT true).InitRegn 5 2000 ⟨0, 0⟩ 1000).2 = (⟨0, 0⟩, Outcome.ok false) ∧
    (((Ambig.newDefault eInfo.iSTAT true).InitRegn 5 2000 ⟨0, 0⟩ 1000).1.cases eCase.EXCEED).Count
      = ((Ambig.newDefault eInfo.iSTAT true).cases eCase.EXCEED).Count + 1 :=
  (InitRegn_exceed_policy (Ambig.newDefault eInfo.iSTAT true) 5 2000 ⟨0, 0⟩ 1000
    (by decide) (by decide)).2.2.2.1 ⟨by decide, by decide⟩ rfl

/-! ## The interval-item check: `BedF::CheckItemPos` -/

theorem Region.eq_iff (r p : Region) : r = p ↔ r.Start = p.Start ∧ r.End = p.End := by
  cases r; cases p; simp

/-- `CheckItemPos` treats the first matching case, once, and nothing else. -/
theorem CheckItemPos_eq (m : Nat) (it : Featr) (rgn : Region) (a : Ambig) :
    CheckItemPos m it rgn a =
      match firstCase m it.toRegion rgn with
      | none => (it, a, .ok true)
      | some c =>
        match (a.TreatCase c).2 with
        | .fail e => (it, (a.TreatCase c).1, .fail e)
        | .ok r =>
          if c = eCase.ADJAC ∨ c = eCase.CROSS then
            ((CorrectItemsEnd it rgn.End r).1, (a.TreatCase c).1, .ok (CorrectItemsEnd it rgn.End r).2)
          else (it, (a.TreatCase c).1, .ok (decide (r ≥ 0))) := by
  unfold CheckItemPos firstCase
  simp only [Region.eq_iff, Region.Length, Region.Adjoin, Region.Cover, Region.Cross,
    Bool.and_eq_true, Bool.or_eq_true, decide_eq_true_eq]
  by_cases h1 : rgn.Start = it.Start ∧ rgn.End = it.End
  · simp only [h1, and_self, ↓reduceIte]
    rcases h : a.TreatCase eCase.DUPL with ⟨a1, r⟩
    cases r <;> simp [h]
  · simp only [h1, ↓reduceIte]
    by_cases h2 : rgn.End - rgn.Start < m
    · simp only [h2, ↓reduceIte]
      rcases h : a.TreatCase eCase.SHORT with ⟨a1, r⟩
      cases r <;> simp [h]
    · simp only [h2, ↓reduceIte]
      by_cases h3 : rgn.Start = it.End
      · simp only [h3, ↓reduceIte]
        rcases h : a.TreatCase eCase.ADJAC with ⟨a1, r⟩
        cases r <;> simp [h]
      · simp only [h3, ↓reduceIte]
        by_cases h4 : (it.Start ≤ rgn.Start ∧ rgn.End ≤ it.End) ∨
            (rgn.Start ≤ it.Start ∧ it.End ≤ rgn.End)
        · simp only [h4, ↓reduceIte]
          rcases h : a.TreatCase eCase.COVER with ⟨a1, r⟩
          cases r <;> simp [h]
        · simp only [h4, ↓reduceIte]
          by_cases h5 : rgn.Start < it.End ∧ it.Start < rgn.End
          · simp only [h5, and_self, ↓reduceIte]
            rcases h : a.TreatCase eCase.CROSS with ⟨a1, r⟩
            cases r <;> simp [h]
          · simp only [h5, ↓reduceIte]

/-- The case treated for an adjacent or a crossing candidate. -/
theorem firstCase_adjacent_crossed (m : Nat) (it rgn : Region) (c : eCase)
    (hne : rgn ≠ it) (hlen : ¬ rgn.Length < m)
    (hcase : (rgn.Start = it.End ∧ c = eCase.ADJAC) ∨
      (rgn.Start ≠ it.End ∧ rgn.Start < it.End ∧ it.Start < rgn.End ∧
        ¬ (it.Start ≤ rgn.Start ∧ rgn.End ≤ it.End) ∧
        ¬ (rgn.Start ≤ it.Start ∧ it.End ≤ rgn.End) ∧ c = eCase.CROSS)) :
    firstCase m it rgn = some c := by
  have h1 : ¬ (rgn.Start = it.Start ∧ rgn.End = it.End) := fun h => hne ((Region.eq_iff rgn it).2 h)
  have h2 : ¬ rgn.End - rgn.Start < m := hlen
  unfold firstCase
  rcases hcase with ⟨h3, rfl⟩ | ⟨h3, h4, h5, h6, h7, rfl⟩
  · rw [if_neg h1, if_neg h2, if_pos h3]
  · have h8 : ¬ ((it.Start ≤ rgn.Start ∧ rgn.End ≤ it.End) ∨
        (rgn.Start ≤ it.Start ∧ it.End ≤ rgn.End)) := fun h => h.elim h6 h7
    rw [if_neg h1, if_neg h2, if_neg h3, if_neg h8, if_pos ⟨h4, h5⟩]

/-- C2: for a previous feature `it` and a candidate `rgn` that are not equal,
the candidate not too short, and either adjacent (`it.End = rgn.Start`, case
ADJAC) or overlapping without containment (case CROSS): on the decision Merge
(0, action Handle) the end of the previous feature becomes the end of the
candidate and the candidate is rejected; on Accept (+1) the candidate is
accepted and the previous feature is unmodified; on Reject (-1, actions Omit
and OmitSilent) the candidate is rejected and the previous feature is
unmodified. In each case `TreatCase` is called once, for that case. -/
theorem CheckItemPos_adjacent_crossed (m : Nat) (it : Featr) (rgn : Region) (a : Ambig) (c : eCase)
    (hne : rgn ≠ it.toRegion) (hlen : ¬ rgn.Length < m)
    (hcase : (rgn.Start = it.End ∧ c = eCase.ADJAC) ∨
      (rgn.Start ≠ it.End ∧ rgn.Start < it.End ∧ it.Start < rgn.End ∧
        ¬ (it.Start ≤ rgn.Start ∧ rgn.End ≤ it.End) ∧
        ¬ (rgn.Start ≤ it.Start ∧ it.End ≤ rgn.End) ∧ c = eCase.CROSS)) :
    ((a.TreatCase c).2 = Outcome.ok 0 →
      CheckItemPos m it rgn a = ({ it with End := rgn.End }, (a.TreatCase c).1, Outcome.ok false)) ∧
    ((a.TreatCase c).2 = Outcome.ok 1 →
      CheckItemPos m it rgn a = (it, (a.TreatCase c).1, Outcome.ok true)) ∧
    ((a.TreatCase c).2 = Outcome.ok (-1) →
      CheckItemPos m it rgn a = (it, (a.TreatCase c).1, Outcome.ok false)) ∧
    ((a.cases c).Type_ = eAction.HANDLE →
      CheckItemPos m it rgn a = ({ it with End := rgn.End }, (a.TreatCase c).1, Outcome.ok false)) ∧
    ((a.cases c).Type_ = eAction.ACCEPT →
      CheckItemPos m it rgn a = (it, (a.TreatCase c).1, Outcome.ok true)) ∧
    ((a.cases c).Type_ = eAction.OMIT ∨ (a.cases c).Type_ = eAction.OMIT_SILENT →
      CheckItemPos m it rgn a = (it, (a.TreatCase c).1, Outcome.ok false)) := by
  have hf := firstCase_adjacent_crossed m it.toRegion rgn c hne hlen hcase
  have hc : c = eCase.ADJAC ∨ c = eCase.CROSS := by
    rcases hcase with ⟨_, h⟩ | ⟨_, _, _, _, _, h⟩
    · exact Or.inl h
    · exact Or.inr h
  have hr := TreatCase_result a c
  unfold Ambig.act at hr
  have key : ∀ r : Int, (a.TreatCase c).2 = Outcome.ok r →
      CheckItemPos m it rgn a =
        ((CorrectItemsEnd it rgn.End r).1, (a.TreatCase c).1, Outcome.ok (CorrectItemsEnd it rgn.End r).2) := by
    intro r h
    rw [CheckItemPos_eq, hf]
    simp only [h, hc, ↓reduceIte]
  have k0 := key 0
  have k1 := key 1
  have k2 := key (-1)
  simp only [CorrectItemsEnd] at k0 k1 k2
  refine ⟨fun h => ?_, fun h => ?_, fun h => ?_, fun h => ?_, fun h => ?_, fun h => ?_⟩
  · simpa using k0 h
  · simpa using k1 h
  · simpa using k2 h
  · rw [h] at hr; simpa using k0 hr
  · rw [h] at hr; simpa using k1 hr
  · rcases h with h | h <;> (rw [h] at hr; simpa using k2 hr)

/-- Witness for C2: previous feature `[10,20)`, adjacent candidate `[20,30)`,
default feature engine (ADJAC is Handle): the previous feature becomes `[10,30)`. -/
theorem CheckItemPos_adjacent_crossed_witness :
    CheckItemPos 0 ⟨⟨10, 20⟩, 1⟩ ⟨20, 30⟩ (Ambig.newDefault eInfo.iSTAT false) =
      (⟨⟨10, 30⟩, 1⟩, ((Ambig.newDefault eInfo.iSTAT false).TreatCase eCase.ADJAC).1,
        Outcome.ok false) :=
  (CheckItemPos_adjacent_crossed 0 ⟨⟨10, 20⟩, 1⟩ ⟨20, 30⟩ (Ambig.newDefault eInfo.iSTAT false)
    eCase.ADJAC (by decide) (by decide) (Or.inl ⟨rfl, rfl⟩)).2.2.2.1 rfl

/-- C3, as stated, fails: with a minimum feature length of 100 the candidate
`[50,60)` is disjoint from and not adjacent to the previous feature `[10,20)`,
yet it is treated as TooShort: the SHORT counter goes from 0 to 1 and, under
the default policy, the candidate is rejected. -/
theorem CheckItemPos_disjoint_short_rejected :
    (CheckItemPos 100 ⟨⟨10, 20⟩, 1⟩ ⟨50, 60⟩ (Ambig.newDefault eInfo.iSTAT false)).2.2
      = Outcome.ok false ∧
    ((Ambig.newDefault eInfo.iSTAT false).cases eCase.SHORT).Count = 0 ∧
    ((CheckItemPos 100 ⟨⟨10, 20⟩, 1⟩ ⟨50, 60⟩ (Ambig.newDefault eInfo.iSTAT false)).2.1.cases
      eCase.SHORT).Count = 1 := by
  refine ⟨by rfl, by rfl, by rfl⟩

/-- C3 (amended): every call of `CheckItemPos` calls `TreatCase` at most once,
for the first matching case in the order Duplicate, TooShort, Adjacent,
Covered, Crossed; a well-formed candidate that is disjoint from and not
adjacent to the well-formed previous feature, and not shorter than the
configured minimum, is accepted with the engine (every counter) and the
previous feature as they were. -/
theorem CheckItemPos_first_case_only (m : Nat) (it : Featr) (rgn : Region) (a : Ambig) :
    (CheckItemPos m it rgn a).2.1 =
      (match firstCase m it.toRegion rgn with
        | none => a
        | some c => (a.TreatCase c).1) ∧
    (it.Start < it.End → rgn.Start < rgn.End → (it.End ≤ rgn.Start ∨ rgn.End ≤ it.Start) →
      rgn.Start ≠ it.End → ¬ rgn.Length < m →
      CheckItemPos m it rgn a = (it, a, Outcome.ok true)) := by
  constructor
  · rw [CheckItemPos_eq]
    cases h : firstCase m it.toRegion rgn with
    | none => rfl
    | some c =>
      simp only
      cases h2 : (a.TreatCase c).2 with
      | fail e => rfl
      | ok r => by_cases h3 : c = eCase.ADJAC ∨ c = eCase.CROSS <;> simp [h3]
  · intro hi hr hd hna hlen
    have hf : firstCase m it.toRegion rgn = none := by
      have h1 : ¬ (rgn.Start = it.Start ∧ rgn.End = it.End) := by omega
      have h2 : ¬ rgn.End - rgn.Start < m := hlen
      have h4 : ¬ ((it.Start ≤ rgn.Start ∧ rgn.End ≤ it.End) ∨
          (rgn.Start ≤ it.Start ∧ it.End ≤ rgn.End)) := by omega
      have h5 : ¬ (rgn.Start < it.End ∧ it.Start < rgn.End) := by omega
      unfold firstCase
      rw [if_neg h1, if_neg h2, if_neg hna, if_neg h4, if_neg h5]
    rw [CheckItemPos_eq, hf]

/-- Witness for C3 (amended): previous feature `[10,20)`, candidate `[50,60)`,
minimum length 5. -/
theorem CheckItemPos_first_case_only_witness :
    CheckItemPos 5 ⟨⟨10, 20⟩, 1⟩ ⟨50, 60⟩ (Ambig.newDefault eInfo.iSTAT false) =
      (⟨⟨10, 20⟩, 1⟩, Ambig.newDefault eInfo.iSTAT false, Outcome.ok true) :=
  (CheckItemPos_first_case_only 5 ⟨⟨10, 20⟩, 1⟩ ⟨50, 60⟩ (Ambig.newDefault eInfo.iSTAT false)).2
    (by decide) (by decide) (Or.inl (by decide)) (by decide) (by decide)

/-! ## The ingestion loop: `Bed::InitChild` -/

/-- The loop body on a line that opens a chromosome while no item of an open
chromosome waits to be recorded, the line lying inside the chromosome. -/
theorem step_open_first (chrom : Chrom) (cSizes : Option (Nat → Nat)) (ln : Line) (s : Session)
    (hname : s.loc.cName ≠ ln.ChromName) (hid : chrom.ID ln.ChromName ≠ chrom.UnID)
    (hmode : chrom.StatedAll = true ∨ chrom.ID ln.ChromName = chrom.StatedID)
    (hcur : s.loc.currInd = s.loc.firstInd) (hcid : s.loc.cCurrID = chrom.ID ln.ChromName)
    (hend : s.loc.rgn.End = 0) (hns : s.loc.needSortChrom = false)
    (h0 : 0 ≤ ln.start) (h1 : ln.start < ln.end_)
    (hx : ¬ (0 < chromLen cSizes (chrom.ID ln.ChromName) s.loc.cLen ∧
      (chromLen cSizes (chrom.ID ln.ChromName) s.loc.cLen : Int) < ln.end_)) :
    step chrom cSizes ln s =
      ({ bed := { s.bed with items := s.bed.items ++ [ln.featr],
                             maxScore := if ln.score > s.bed.maxScore then ln.score else s.bed.maxScore },
         ambig := s.ambig,
         loc := { s.loc with cName := ln.ChromName, cCurrID := chrom.ID ln.ChromName,
                             firstInd := s.loc.currInd, cntLines := s.loc.cntLines + 1,
                             cLen := chromLen cSizes (chrom.ID ln.ChromName) s.loc.cLen,
                             rgn := ⟨ln.start.toNat, ln.end_.toNat⟩,
                             currInd := s.loc.currInd + 1, prevStart := ln.start.toNat } },
        .ok .next) := by
  unfold step
  rw [if_pos hname]
  simp only [hid, ↓reduceIte]
  rcases hmode with hm | hm
  · simp only [hm, ↓reduceIte, hcur, hcid, ne_eq, not_true_eq_false, lt_self_iff_false, false_and, hns]
    unfold openChrom
    simp only [InitRegn_inside s.ambig ln.start ln.end_ _ _ h0 h1 hx]
    simp [addItem, BedF.AddPos, Line.featr, hcur]
  · by_cases hall : chrom.StatedAll = true
    · simp only [hall, ↓reduceIte, hcur, hcid, ne_eq, not_true_eq_false, lt_self_iff_false, false_and, hns]
      unfold openChrom
      simp only [InitRegn_inside s.ambig ln.start ln.end_ _ _ h0 h1 hx]
      simp [addItem, BedF.AddPos, Line.featr, hcur]
    · have hm2 : (chrom.ID ln.ChromName ≠ chrom.StatedID) = False := by simp [hm]
      simp only [hall, ↓reduceIte, hend, hns, hm2, ne_eq, not_true_eq_false, Bool.false_eq_true]
      unfold openChrom
      simp only [InitRegn_inside s.ambig ln.start ln.end_ _ _ h0 h1 hx]
      simp [addItem, BedF.AddPos, Line.featr, hcur]

/-- The loop body on a further line of the open chromosome, the line lying
inside the chromosome and the buffer being non-empty. -/
theorem step_same (chrom : Chrom) (cSizes : Option (Nat → Nat)) (ln : Line) (s : Session)
    (pre : List Featr) (last : Featr)
    (hname : s.loc.cName = ln.ChromName) (hid : s.loc.cCurrID ≠ chrom.UnID)
    (hmode : chrom.StatedAll = true ∨ s.loc.cCurrID = chrom.StatedID)
    (h0 : 0 ≤ ln.start) (h1 : ln.start < ln.end_)
    (hx : ¬ (0 < s.loc.cLen ∧ (s.loc.cLen : Int) < ln.end_))
    (hitems : s.bed.items = pre ++ [last]) :
    step chrom cSizes ln s =
      match CheckItemPos s.bed.minFtrLen last ⟨ln.start.toNat, ln.end_.toNat⟩
          (if ln.start.toNat < s.loc.prevStart then { s.ambig with unsortedItems := true }
            else s.ambig) with
      | (last1, a2, .fail e) =>
        ({ bed := { s.bed with items := pre ++ [last1] }, ambig := a2,
           loc := { s.loc with cntLines := s.loc.cntLines + 1,
                               rgn := ⟨ln.start.toNat, ln.end_.toNat⟩ } }, .fail e)
      | (last1, a2, .ok false) =>
        ({ bed := { s.bed with items := pre ++ [last1] }, ambig := a2,
           loc := { s.loc with cntLines := s.loc.cntLines + 1,
                               rgn := ⟨ln.start.toNat, ln.end_.toNat⟩ } }, .ok .next)
      | (last1, a2, .ok true) =>
        ({ bed := { s.bed with items := pre ++ [last1] ++ [ln.featr],
                               maxScore := if ln.score > s.bed.maxScore then ln.score
                                 else s.bed.maxScore },
           ambig := a2,
           loc := { s.loc with cntLines := s.loc.cntLines + 1,
                               rgn := ⟨ln.start.toNat, ln.end_.toNat⟩,
                               currInd := s.loc.currInd + 1, prevStart := ln.start.toNat } },
          .ok .next) := by
  have hskip : ¬ (s.loc.cCurrID = chrom.UnID ∨ (¬ chrom.StatedAll = true ∧ s.loc.cCurrID ≠ chrom.StatedID)) := by
    rintro (h | ⟨h2, h3⟩)
    · exact hid h
    · rcases hmode with h4 | h4
      · exact h2 h4
      · exact h3 h4
  unfold step
  rw [if_neg (not_not.mpr hname)]
  unfold sameChrom
  rw [if_neg hskip]
  simp only [InitRegn_inside s.ambig ln.start ln.end_ _ _ h0 h1 hx]
  unfold BedF.CheckLastPos
  simp only [hitems, List.getLast?_append, List.getLast?_singleton, List.dropLast_concat]
  rcases h : CheckItemPos s.bed.minFtrLen last ⟨ln.start.toNat, ln.end_.toNat⟩
      (if ln.start.toNat < s.loc.prevStart then { s.ambig with unsortedItems := true }
        else s.ambig) with ⟨last1, a2, r⟩
  cases r with
  | fail e => simp [h]
  | ok b => cases b <;> simp [h, addItem, BedF.AddPos, Line.featr]

theorem chromLen_idem (cSizes : Option (Nat → Nat)) (cID x : Nat) :
    chromLen cSizes cID (chromLen cSizes cID x) = chromLen cSizes cID x := by
  cases cSizes <;> rfl

/-- `TreatCase` leaves `unsortedItems` as it was. -/
theorem TreatCase_unsorted (a : Ambig) (c : eCase) :
    (a.TreatCase c).1.unsortedItems = a.unsortedItems := by
  simp only [Ambig.TreatCase, Ambig.Actions]
  split <;>
    simp [Ambig.Accept, Ambig.Handle, Ambig.Omit, Ambig.OmitQuiet, Ambig.Abort,
      PrintLineAlarm_unsorted, Ambig.incr]

/-- `CheckItemPos` when no case matches. -/
theorem CheckItemPos_none (m : Nat) (it : Featr) (rgn : Region) (a : Ambig)
    (hf : firstCase m it.toRegion rgn = none) : CheckItemPos m it rgn a = (it, a, .ok true) := by
  rw [CheckItemPos_eq, hf]

/-- `CheckItemPos` on an adjacent or crossing candidate, by the decision. -/
theorem CheckItemPos_merge (m : Nat) (it : Featr) (rgn : Region) (a : Ambig) (c : eCase) (r : Int)
    (hf : firstCase m it.toRegion rgn = some c) (hc : c = eCase.ADJAC ∨ c = eCase.CROSS)
    (h : (a.TreatCase c).2 = Outcome.ok r) :
    CheckItemPos m it rgn a =
      ((CorrectItemsEnd it rgn.End r).1, (a.TreatCase c).1, Outcome.ok (CorrectItemsEnd it rgn.End r).2) := by
  rw [CheckItemPos_eq, hf]
  simp only [h, hc, ↓reduceIte]

/-- `CheckItemPos` on a duplicate, short or covered candidate, by the decision. -/
theorem CheckItemPos_plain (m : Nat) (it : Featr) (rgn : Region) (a : Ambig) (c : eCase) (r : Int)
    (hf : firstCase m it.toRegion rgn = some c) (hc : ¬ (c = eCase.ADJAC ∨ c = eCase.CROSS))
    (h : (a.TreatCase c).2 = Outcome.ok r) :
    CheckItemPos m it rgn a = (it, (a.TreatCase c).1, Outcome.ok (decide (r ≥ 0))) := by
  rw [CheckItemPos_eq, hf]
  simp only [h, hc, ↓reduceIte]

theorem TreatCase_handle (a : Ambig) (c : eCase) (h : (a.cases c).Type_ = eAction.HANDLE) :
    (a.TreatCase c).2 = Outcome.ok 0 := by
  have hr := TreatCase_result a c
  unfold Ambig.act at hr
  rw [hr, h]

theorem TreatCase_omit (a : Ambig) (c : eCase) (h : (a.cases c).Type_ = eAction.OMIT) :
    (a.TreatCase c).2 = Outcome.ok (-1) := by
  have hr := TreatCase_result a c
  unfold Ambig.act at hr
  rw [hr, h]

/-- The `finish` part when the items have been read in order. -/
theorem finish_sorted (chrom : Chrom) (s : Session) (hend : s.loc.rgn.End ≠ 0)
    (hcur : s.loc.currInd ≠ 0) (huns : s.ambig.unsortedItems = false) :
    (finish chrom s).1.items = s.bed.items ∧ (finish chrom s).2.1 = s.ambig ∧
    (finish chrom s).2.2 = .ok (s.loc.cntLines, s.bed.items.length) := by
  unfold finish
  rw [if_pos ⟨hend, hcur⟩]
  simp only [huns, Bool.false_eq_true, ↓reduceIte]
  by_cases h1 : s.loc.cCurrID ≠ chrom.UnID <;> by_cases h2 : s.loc.needSortChrom = true <;>
    simp [h1, h2, BedF.AddVal]

/-- C7 (amended): two exactly adjacent features `[s,e)` and `[e,e2)` of one
recognised chromosome, neither shorter than the configured minimum length nor
ending beyond the chromosome length, ingested as the two records of a file in
either order with Adjacent configured as Handle: the buffer holds the single
feature `[s,e2)`, two lines are counted and one item accepted, the Duplicate
counter is unchanged and the Adjacent counter has grown by exactly 1. -/
theorem adjacent_pair_merged (chrom : Chrom) (cSizes : Option (Nat → Nat)) (m : Nat) (a : Ambig)
    (name : String) (s e e2 : Nat) (sc1 sc2 : Int) (lines : List Line)
    (hname : name ≠ "") (hid : chrom.ID name ≠ chrom.UnID)
    (hmode : chrom.StatedAll = true ∨ chrom.ID name = chrom.StatedID)
    (hadj : (a.cases eCase.ADJAC).Type_ = eAction.HANDLE)
    (huns : a.unsortedItems = false)
    (h1 : s < e) (h2 : e < e2) (hlen1 : ¬ e - s < m) (hlen2 : ¬ e2 - e < m)
    (hx : ¬ (0 < chromLen cSizes (chrom.ID name) 0 ∧ chromLen cSizes (chrom.ID name) 0 < e2))
    (hlines : lines = [⟨name, s, e, sc1⟩, ⟨name, e, e2, sc2⟩] ∨
      lines = [⟨name, e, e2, sc2⟩, ⟨name, s, e, sc1⟩]) :
    ((BedF.new m).InitChild chrom cSizes a lines).1.items = [⟨⟨s, e2⟩, sc1⟩] ∧
    ((BedF.new m).InitChild chrom cSizes a lines).2.2 = Outcome.ok (2, 1) ∧
    (((BedF.new m).InitChild chrom cSizes a lines).2.1.cases eCase.DUPL).Count
      = (a.cases eCase.DUPL).Count ∧
    (((BedF.new m).InitChild chrom cSizes a lines).2.1.cases eCase.ADJAC).Count
      = (a.cases eCase.ADJAC).Count + 1 := by
  have hcD := TreatCase_cnt_other a eCase.ADJAC eCase.DUPL (by decide)
  have hcA := TreatCase_cnt_self a eCase.ADJAC
  unfold Ambig.cnt at hcD hcA
  rcases hlines with rfl | rfl
  · -- the features come in order
    unfold BedF.InitChild
    simp only [readLines]
    rw [step_open_first chrom cSizes _ _ (by simpa [initLocals] using hname.symm) hid hmode rfl rfl rfl rfl
      (by simp) (by simpa using h1) (by simp [initLocals, chromLen_idem]; omega)]
    simp only
    rw [step_same chrom cSizes _ _ [] ⟨⟨s, e⟩, sc1⟩ rfl hid hmode (by simp) (by simpa using h2)
      (by simp [initLocals, chromLen_idem]; omega) (by simp [BedF.new, Line.featr])]
    have hf : firstCase m (⟨⟨s, e⟩, sc1⟩ : Featr).toRegion ⟨e, e2⟩ = some eCase.ADJAC :=
      firstCase_adjacent_crossed m _ _ _ (by simp [Region.eq_iff]; omega) (by simpa [Region.Length] using hlen2)
        (Or.inl ⟨rfl, rfl⟩)
    have hch := CheckItemPos_merge m ⟨⟨s, e⟩, sc1⟩ ⟨e, e2⟩ a eCase.ADJAC 0 hf (Or.inl rfl)
      (TreatCase_handle a _ hadj)
    have hlt : ¬ e < s := by omega
    have hu2 : (a.TreatCase eCase.ADJAC).1.unsortedItems = false := by rw [TreatCase_unsorted, huns]
    have he2 : e2 ≠ 0 := by omega
    simp only [Int.toNat_ofNat, hlt, ↓reduceIte, BedF.new, hch, CorrectItemsEnd]
    simp [finish, initLocals, hu2, he2, hcD, hcA, BedF.AddVal, hid]
  · -- the features come in reverse order
    unfold BedF.InitChild
    simp only [readLines]
    rw [step_open_first chrom cSizes _ _ (by simpa [initLocals] using hname.symm) hid hmode rfl rfl rfl rfl
      (by simp) (by simpa using h2) (by simp [initLocals, chromLen_idem]; omega)]
    simp only
    rw [step_same chrom cSizes _ _ [] ⟨⟨e, e2⟩, sc2⟩ rfl hid hmode (by simp) (by simpa using h1)
      (by simp [initLocals, chromLen_idem]; omega) (by simp [BedF.new, Line.featr])]
    have hf : firstCase m (⟨⟨e, e2⟩, sc2⟩ : Featr).toRegion ⟨s, e⟩ = none := by
      have c1 : ¬ (s = e ∧ e = e2) := by omega
      have c3 : ¬ (s = e2) := by omega
      have c4 : ¬ ((e ≤ s ∧ e ≤ e2) ∨ (s ≤ e ∧ e2 ≤ e)) := by omega
      have c5 : ¬ (s < e2 ∧ e < e) := by omega
      simp only [firstCase]
      rw [if_neg c1, if_neg hlen1, if_neg c3, if_neg c4, if_neg c5]
    have hf2 : firstCase m (⟨⟨s, e⟩, sc1⟩ : Featr).toRegion ⟨e, e2⟩ = some eCase.ADJAC :=
      firstCase_adjacent_crossed m _ _ _ (by simp [Region.eq_iff]; omega) (by simpa [Region.Length] using hlen2)
        (Or.inl ⟨rfl, rfl⟩)
    have he2 : e2 ≠ 0 := by omega
    have he : e ≠ 0 := by omega
    simp only [Int.toNat_ofNat, h1, ↓reduceIte, BedF.new, CheckItemPos_none _ _ _ _ hf]
    have hch := CheckItemPos_merge m ⟨⟨s, e⟩, sc1⟩ ⟨e, e2⟩
      { a with unsortedItems := true, out := a.out ++ [Output.UnsortedWarning] } eCase.ADJAC 0 hf2
      (Or.inl rfl) (TreatCase_handle _ _ hadj)
    have hcD2 := TreatCase_cnt_other
      { a with unsortedItems := true, out := a.out ++ [Output.UnsortedWarning] } eCase.ADJAC eCase.DUPL
      (by decide)
    have hcA2 := TreatCase_cnt_self
      { a with unsortedItems := true, out := a.out ++ [Output.UnsortedWarning] } eCase.ADJAC
    simp only [Ambig.cnt] at hcD2 hcA2
    simp only [CorrectItemsEnd] at hch
    simp [finish, initLocals, he2, he, BedF.AddVal, hid, BedF.SortItems, SortItems.loop, SortItems.turn,
      ChromItemsInd.new, recheckRange, sortByStart, insertByStart, CompareByStartPos, Line.featr, h1, recheck,
      hch, hcD2, hcA2]

/-- Witness for C7 (amended): the records `[10,20)` and `[20,30)` of chromosome 1. -/
theorem adjacent_pair_merged_witness :
    ((BedF.new 0).InitChild chromNumbered none (Ambig.newDefault eInfo.iSTAT false)
      [⟨"1", 10, 20, 1⟩, ⟨"1", 20, 30, 1⟩]).1.items = [⟨⟨10, 30⟩, 1⟩] :=
  (adjacent_pair_merged chromNumbered none 0 (Ambig.newDefault eInfo.iSTAT false) "1" 10 20 30 1 1
    [⟨"1", 10, 20, 1⟩, ⟨"1", 20, 30, 1⟩] (by decide) (by decide) (Or.inl rfl) rfl rfl
    (by decide) (by decide) (by decide) (by decide) (by decide) (Or.inl rfl)).1

/-- C7, as stated, fails: with a minimum feature length of 100 the adjacent
records `[10,20)` and `[20,30)` of chromosome 1 are not merged under the
default policy; the second is omitted as TooShort, the buffer keeps `[10,20)`
and the Adjacent counter stays 0. -/
theorem adjacent_pair_short_not_merged :
    ((BedF.new 100).InitChild chromNumbered none (Ambig.newDefault eInfo.iSTAT false)
      [⟨"1", 10, 20, 1⟩, ⟨"1", 20, 30, 1⟩]).1.items = [⟨⟨10, 20⟩, 1⟩] ∧
    (((BedF.new 100).InitChild chromNumbered none (Ambig.newDefault eInfo.iSTAT false)
      [⟨"1", 10, 20, 1⟩, ⟨"1", 20, 30, 1⟩]).2.1.cases eCase.ADJAC).Count = 0 ∧
    (((BedF.new 100).InitChild chromNumbered none (Ambig.newDefault eInfo.iSTAT false)
      [⟨"1", 10, 20, 1⟩, ⟨"1", 20, 30, 1⟩]).2.1.cases eCase.SHORT).Count = 1 := by
  refine ⟨by decide, by decide, by decide⟩

/-- The loop body on a copy of the last stored record: counted as Duplicate and
omitted. -/
theorem step_dup (chrom : Chrom) (cSizes : Option (Nat → Nat)) (name : String) (m L : Nat)
    (g : Group) (pre : List Featr) (S : Session) (sc : Int)
    (hid : chrom.ID name ≠ chrom.UnID)
    (hmode : chrom.StatedAll = true ∨ chrom.ID name = chrom.StatedID)
    (hg : g.inside L) (inv : Inv chrom name m L g pre S) :
    ∃ S1, step chrom cSizes ⟨name, g.Start, g.End, sc⟩ S = (S1, .ok .next) ∧
      Inv chrom name m L g pre S1 ∧ S1.loc.cntLines = S.loc.cntLines + 1 ∧
      (S1.ambig.cases eCase.DUPL).Count = (S.ambig.cases eCase.DUPL).Count + 1 := by
  obtain ⟨hName, hID, hLen, hMin, hItems, hRgn, hPrev, hCur, hSort, hDupl⟩ := inv
  have hst := step_same chrom cSizes ⟨name, g.Start, g.End, sc⟩ S pre g.featr hName
    (by rw [hID]; exact hid) (by rw [hID]; exact hmode) (by simp) (by simpa using hg.1)
    (by rw [hLen]; simpa using hg.2) hItems
  have hf : firstCase m g.featr.toRegion ⟨g.Start, g.End⟩ = some eCase.DUPL := by
    simp [firstCase, Group.featr]
  have hlt : ¬ g.Start < S.loc.prevStart := by rw [hPrev]; omega
  have hch := CheckItemPos_plain m g.featr ⟨g.Start, g.End⟩ S.ambig eCase.DUPL (-1) hf (by decide)
    (TreatCase_omit _ _ hDupl)
  simp only [Int.toNat_ofNat, hlt, ↓reduceIte, hMin, hch] at hst
  have hc := TreatCase_cnt_self S.ambig eCase.DUPL
  have ht := TreatCase_act S.ambig eCase.DUPL eCase.DUPL
  unfold Ambig.cnt at hc
  unfold Ambig.act at ht
  refine ⟨_, hst, ⟨hName, hID, hLen, rfl, rfl, rfl, hPrev, hCur, ?_, ?_⟩, rfl, hc⟩
  · simp only [TreatCase_unsorted, hSort]
  · simp only [ht, hDupl]

/-- The loop body on the first record of the next group: appended. -/
theorem step_fresh (chrom : Chrom) (cSizes : Option (Nat → Nat)) (name : String) (m L : Nat)
    (g g1 : Group) (pre : List Featr) (S : Session)
    (hid : chrom.ID name ≠ chrom.UnID)
    (hmode : chrom.StatedAll = true ∨ chrom.ID name = chrom.StatedID)
    (hg : g.inside L) (hg1 : g1.inside L) (hsep : g.End < g1.Start) (hlen : ¬ (g1.End - g1.Start < m))
    (inv : Inv chrom name m L g pre S) :
    ∃ S1, step chrom cSizes ⟨name, g1.Start, g1.End, g1.score⟩ S = (S1, .ok .next) ∧
      Inv chrom name m L g1 (pre ++ [g.featr]) S1 ∧ S1.loc.cntLines = S.loc.cntLines + 1 ∧
      (S1.ambig.cases eCase.DUPL).Count = (S.ambig.cases eCase.DUPL).Count := by
  obtain ⟨hName, hID, hLen, hMin, hItems, hRgn, hPrev, hCur, hSort, hDupl⟩ := inv
  have hst := step_same chrom cSizes ⟨name, g1.Start, g1.End, g1.score⟩ S pre g.featr hName
    (by rw [hID]; exact hid) (by rw [hID]; exact hmode) (by simp) (by simpa using hg1.1)
    (by rw [hLen]; simpa using hg1.2) hItems
  have h1 := hg.1
  have h2 := hg1.1
  have hf : firstCase m g.featr.toRegion ⟨g1.Start, g1.End⟩ = none := by
    have c1 : ¬ (g1.Start = g.Start ∧ g1.End = g.End) := by omega
    have c3 : ¬ (g1.Start = g.End) := by omega
    have c4 : ¬ ((g.Start ≤ g1.Start ∧ g1.End ≤ g.End) ∨ (g1.Start ≤ g.Start ∧ g.End ≤ g1.End)) := by
      omega
    have c5 : ¬ (g1.Start < g.End ∧ g.Start < g1.End) := by omega
    simp only [firstCase, Group.featr]
    rw [if_neg c1, if_neg hlen, if_neg c3, if_neg c4, if_neg c5]
  have hlt : ¬ g1.Start < S.loc.prevStart := by rw [hPrev]; omega
  simp only [Int.toNat_ofNat, hlt, ↓reduceIte, hMin, CheckItemPos_none _ _ _ _ hf] at hst
  refine ⟨_, hst, ⟨hName, hID, hLen, rfl, ?_, rfl, rfl, ?_, hSort, hDupl⟩, rfl, rfl⟩
  · simp [Line.featr, Group.featr]
  · simp

/-- The copies of the last stored record are all counted as duplicates. -/
theorem readLines_dups (chrom : Chrom) (cSizes : Option (Nat → Nat)) (name : String) (m L : Nat)
    (g : Group) (pre : List Featr) (hid : chrom.ID name ≠ chrom.UnID)
    (hmode : chrom.StatedAll = true ∨ chrom.ID name = chrom.StatedID) (hg : g.inside L)
    (scores : List Int) (rest : List Line) :
    ∀ S : Session, Inv chrom name m L g pre S →
    ∃ S1, readLines chrom cSizes (scores.map (fun sc => ⟨name, g.Start, g.End, sc⟩) ++ rest) S =
        readLines chrom cSizes rest S1 ∧
      Inv chrom name m L g pre S1 ∧ S1.loc.cntLines = S.loc.cntLines + scores.length ∧
      (S1.ambig.cases eCase.DUPL).Count = (S.ambig.cases eCase.DUPL).Count + scores.length := by
  induction scores with
  | nil => intro S inv; exact ⟨S, rfl, inv, rfl, rfl⟩
  | cons sc scs ih =>
    intro S inv
    obtain ⟨S1, hs, inv1, hc1, hd1⟩ := step_dup chrom cSizes name m L g pre S sc hid hmode hg inv
    obtain ⟨S2, hs2, inv2, hc2, hd2⟩ := ih S1 inv1
    refine ⟨S2, ?_, inv2, ?_, ?_⟩
    · simp only [List.map_cons, List.cons_append, readLines, hs]
      exact hs2
    · rw [hc2, hc1, List.length_cons]; omega
    · rw [hd2, hd1, List.length_cons]; omega

/-- A file of groups has one line per group and one per further copy. -/
theorem groupLines_length (name : String) (gs : List Group) :
    (groupLines name gs).length = gs.length + dupCount gs := by
  induction gs with
  | nil => rfl
  | cons g gs ih => simp [groupLines, Group.lines, dupCount, ih]; omega

/-- The first line of a file that begins with a record of a recognised
chromosome. -/
theorem step_first (chrom : Chrom) (cSizes : Option (Nat → Nat)) (m : Nat) (a : Ambig)
    (name : String) (g : Group)
    (hname : name ≠ "") (hid : chrom.ID name ≠ chrom.UnID)
    (hmode : chrom.StatedAll = true ∨ chrom.ID name = chrom.StatedID)
    (hdupl : (a.cases eCase.DUPL).Type_ = eAction.OMIT) (huns : a.unsortedItems = false)
    (hg : g.inside (chromLen cSizes (chrom.ID name) 0)) :
    ∃ S1, step chrom cSizes ⟨name, g.Start, g.End, g.score⟩
        { bed := BedF.new m, ambig := a,
          loc := initLocals chrom cSizes ⟨name, g.Start, g.End, g.score⟩ } = (S1, .ok .next) ∧
      Inv chrom name m (chromLen cSizes (chrom.ID name) 0) g [] S1 ∧
      S1.loc.cntLines = 1 ∧ S1.ambig = a := by
  have hstep := step_open_first chrom cSizes ⟨name, g.Start, g.End, g.score⟩
    { bed := BedF.new m, ambig := a,
      loc := initLocals chrom cSizes ⟨name, g.Start, g.End, g.score⟩ }
    (by simpa [initLocals] using hname.symm) hid hmode rfl rfl rfl rfl
    (by simp) (by simpa using hg.1) (by simpa [initLocals, chromLen_idem] using hg.2)
  refine ⟨_, hstep, ⟨rfl, rfl, by simp [initLocals, chromLen_idem], rfl,
    by simp [BedF.new, Line.featr, Group.featr], by simp, by simp, by simp [initLocals], huns, hdupl⟩,
    by simp [initLocals], rfl⟩

/-! ## Unsorted input and the sort-and-recheck pass -/

/-- C9: the code at the failing input. The records `[10,20)`, `[5,30)` of
chromosome 1 set `unsortedItems` and leave the buffer `[10,20)` (the second
record is omitted as Covered while it is read, before any sorting), whereas
the same records sorted by start, `[5,30)`, `[10,20)`, leave the buffer
`[5,30)`. -/
theorem unsorted_differs_from_presorted :
    ((BedF.new 0).InitChild chromNumbered none (Ambig.newDefault eInfo.iSTAT false)
      [⟨"1", 10, 20, 1⟩, ⟨"1", 5, 30, 1⟩]).2.1.unsortedItems = true ∧
    ((BedF.new 0).InitChild chromNumbered none (Ambig.newDefault eInfo.iSTAT false)
      [⟨"1", 10, 20, 1⟩, ⟨"1", 5, 30, 1⟩]).2.2 = Outcome.ok (2, 1) ∧
    ((BedF.new 0).InitChild chromNumbered none (Ambig.newDefault eInfo.iSTAT false)
      [⟨"1", 10, 20, 1⟩, ⟨"1", 5, 30, 1⟩]).1.items = [⟨⟨10, 20⟩, 1⟩] ∧
    ((BedF.new 0).InitChild chromNumbered none (Ambig.newDefault eInfo.iSTAT false)
      [⟨"1", 5, 30, 1⟩, ⟨"1", 10, 20, 1⟩]).1.items = [⟨⟨5, 30⟩, 1⟩] := by
  refine ⟨by decide, by decide, by decide, by decide⟩

/-- C10: the code at the failing input. Ingestion of `blocksOutOfOrder` under
the default policy ends normally after `Sort` and `SortItems`; the duplicate
removed from the range of chromosome 2 shifts the range of chromosome 3 only,
and the range `[3,4]` recorded for chromosome 1 then holds `[30,40)` followed
by `[5,8)`: it is not sorted by start. -/
theorem SortItems_leaves_unsorted_range :
    ((BedF.new 0).InitChild chromNumbered none (Ambig.newDefault eInfo.iSTAT false)
      blocksOutOfOrder).2.2 = Outcome.ok (7, 6) ∧
    ((BedF.new 0).InitChild chromNumbered none (Ambig.newDefault eInfo.iSTAT false)
      blocksOutOfOrder).1.chroms = [(1, ⟨true, 3, 4⟩), (2, ⟨true, 0, 1⟩), (3, ⟨true, 4, 5⟩)] ∧
    ((BedF.new 0).InitChild chromNumbered none (Ambig.newDefault eInfo.iSTAT false)
      blocksOutOfOrder).1.rangeItems ⟨true, 3, 4⟩ = [⟨⟨30, 40⟩, 1⟩, ⟨⟨5, 8⟩, 1⟩] ∧
    (BedF.SortItems
      ⟨[(1, ⟨true, 3, 4⟩), (2, ⟨true, 0, 2⟩), (3, ⟨true, 5, 6⟩)],
        [⟨⟨20, 30⟩, 1⟩, ⟨⟨50, 60⟩, 1⟩, ⟨⟨20, 30⟩, 1⟩, ⟨⟨10, 20⟩, 1⟩, ⟨⟨30, 40⟩, 1⟩, ⟨⟨5, 8⟩, 1⟩,
          ⟨⟨100, 110⟩, 1⟩], 7, 0, 1⟩
      (Ambig.newDefault eInfo.iSTAT false)).1 =
      ⟨[(1, ⟨true, 3, 4⟩), (2, ⟨true, 0, 1⟩), (3, ⟨true, 4, 5⟩)],
        [⟨⟨20, 30⟩, 1⟩, ⟨⟨50, 60⟩, 1⟩, ⟨⟨10, 20⟩, 1⟩, ⟨⟨30, 40⟩, 1⟩, ⟨⟨5, 8⟩, 1⟩, ⟨⟨100, 110⟩, 1⟩],
        6, 0, 1⟩ := by
  refine ⟨by decide, by decide, by decide, by decide⟩

/-! ## The sort-and-recheck pass on one range -/

/-- `TreatCase` keeps the policy. -/
theorem defaultPolicy_TreatCase (a : Ambig) (c : eCase) (h : defaultPolicy a) :
    defaultPolicy (a.TreatCase c).1 := by
  have ht := TreatCase_act a c
  unfold Ambig.act at ht
  unfold defaultPolicy at *
  simp only [ht]
  exact h

/-- Under the default policy a candidate that matches a case is rejected; the
previous feature keeps its start and stays well-formed when the candidate is
well-formed and does not start before it. -/
theorem CheckItemPos_default_some (m : Nat) (it : Featr) (rgn : Region) (a : Ambig) (c : eCase)
    (hp : defaultPolicy a) (hf : firstCase m it.toRegion rgn = some c) :
    ∃ it1, CheckItemPos m it rgn a = (it1, (a.TreatCase c).1, Outcome.ok false) ∧
      it1.Start = it.Start ∧ (it1.End = it.End ∨ it1.End = rgn.End) := by
  obtain ⟨h1, h2, h3, h4, h5⟩ := hp
  have hc : c = eCase.DUPL ∨ c = eCase.SHORT ∨ c = eCase.ADJAC ∨ c = eCase.COVER ∨ c = eCase.CROSS := by
    unfold firstCase at hf
    split_ifs at hf <;> simp at hf <;> simp [← hf]
  rcases hc with rfl | rfl | rfl | rfl | rfl
  · exact ⟨it, by rw [CheckItemPos_plain m it rgn a _ (-1) hf (by decide) (TreatCase_omit _ _ h1)]; rfl,
      rfl, Or.inl rfl⟩
  · exact ⟨it, by rw [CheckItemPos_plain m it rgn a _ (-1) hf (by decide) (TreatCase_omit _ _ h2)]; rfl,
      rfl, Or.inl rfl⟩
  · exact ⟨{ it with End := rgn.End },
      by rw [CheckItemPos_merge m it rgn a _ 0 hf (Or.inl rfl) (TreatCase_handle _ _ h3)]; rfl,
      rfl, Or.inr rfl⟩
  · exact ⟨it, by rw [CheckItemPos_plain m it rgn a _ (-1) hf (by decide) (TreatCase_omit _ _ h4)]; rfl,
      rfl, Or.inl rfl⟩
  · exact ⟨{ it with End := rgn.End },
      by rw [CheckItemPos_merge m it rgn a _ 0 hf (Or.inr rfl) (TreatCase_handle _ _ h5)]; rfl,
      rfl, Or.inr rfl⟩

/-- When no case matches a well-formed candidate that does not start before the
well-formed previous feature, the candidate starts strictly after its end. -/
theorem firstCase_none_separated (m : Nat) (p c : Region) (hp : p.Start < p.End)
    (hc : c.Start < c.End) (hle : p.Start ≤ c.Start) (hf : firstCase m p c = none) :
    p.End < c.Start := by
  unfold firstCase at hf
  split_ifs at hf with h1 h2 h3 h4 h5
  omega

/-- The recheck loop under the default policy, on a range in ascending order
of start: it ends normally and leaves well-formed features, each ending
strictly before the next starts. -/
theorem recheck_separated (m : Nat) (xs : List Featr) :
    ∀ (prev : Featr) (a : Ambig), defaultPolicy a → prev.Start < prev.End →
      (∀ x ∈ xs, x.Start < x.End) → ascendingFrom prev.Start xs →
      (recheck m prev xs a).2.2.2 = Outcome.ok () ∧
      separatedF (recheck m prev xs a).1 ∧
      (∀ x ∈ (recheck m prev xs a).1, x.Start < x.End) ∧
      (∃ hd tl, (recheck m prev xs a).1 = hd :: tl ∧ hd.Start = prev.Start) ∧
      defaultPolicy (recheck m prev xs a).2.1 ∧
      (recheck m prev xs a).1.length + (recheck m prev xs a).2.2.1 = xs.length + 1 := by
  induction xs with
  | nil =>
    intro prev a hp hv _ _
    simp [recheck, separatedF, hv, hp]
  | cons x xs ih =>
    intro prev a hp hv hall hasc
    have hx : x.Start < x.End := hall x (List.mem_cons_self _ _)
    have hxs : ∀ y ∈ xs, y.Start < y.End := fun y hy => hall y (List.mem_cons_of_mem _ hy)
    obtain ⟨hle, hasc2⟩ := hasc
    cases hf : firstCase m prev.toRegion x.toRegion with
    | none =>
      have hsep := firstCase_none_separated m _ _ hv hx hle hf
      have ih1 := ih x a hp hx hxs hasc2
      rcases hrec : recheck m x xs a with ⟨l, a2, n, r⟩
      rw [hrec] at ih1
      obtain ⟨r1, r2, r3, ⟨hd, tl, r4, r5⟩, r6, r7⟩ := ih1
      simp only at r1 r2 r3 r4 r6 r7
      simp only [recheck, CheckItemPos_none m prev x.toRegion a hf, hrec]
      refine ⟨r1, ?_, ?_, ⟨prev, _, rfl, rfl⟩, r6, ?_⟩
      · rw [r4]; rw [r4] at r2
        exact ⟨by rw [r5]; exact hsep, r2⟩
      · intro y hy
        rcases List.mem_cons.1 hy with rfl | hy
        · exact hv
        · exact r3 y hy
      · simp only [List.length_cons]; omega
    | some c =>
      obtain ⟨it1, hch, hs1, he1⟩ := CheckItemPos_default_some m prev x.toRegion a c hp hf
      have hv1 : it1.Start < it1.End := by rcases he1 with h | h <;> omega
      have hasc3 : ascendingFrom it1.Start xs := by
        cases xs with
        | nil => trivial
        | cons y ys => exact ⟨by have := hasc2.1; omega, hasc2.2⟩
      have ih1 := ih it1 _ (defaultPolicy_TreatCase a c hp) hv1 hxs hasc3
      rcases hrec : recheck m it1 xs (a.TreatCase c).1 with ⟨l, a2, n, r⟩
      rw [hrec] at ih1
      obtain ⟨r1, r2, r3, ⟨hd, tl, r4, r5⟩, r6, r7⟩ := ih1
      simp only at r1 r2 r3 r4 r6 r7
      simp only [recheck, hch, hrec]
      refine ⟨r1, r2, r3, ⟨hd, tl, r4, by rw [r5, hs1]⟩, r6, ?_⟩
      simp only [List.length_cons]; omega

theorem insertByStart_mem (x y : Featr) (l : List Featr) :
    y ∈ insertByStart x l ↔ y = x ∨ y ∈ l := by
  induction l with
  | nil => simp [insertByStart]
  | cons z zs ih =>
    unfold insertByStart
    split_ifs
    · simp only [List.mem_cons, ih]; tauto
    · simp only [List.mem_cons]

theorem sortByStart_mem (y : Featr) (l : List Featr) : y ∈ sortByStart l ↔ y ∈ l := by
  induction l with
  | nil => simp [sortByStart]
  | cons z zs ih => simp only [sortByStart, insertByStart_mem, ih, List.mem_cons]

theorem insertByStart_ascending (x : Featr) (l : List Featr) :
    ∀ n, n ≤ x.Start → ascendingFrom n l → ascendingFrom n (insertByStart x l) := by
  induction l with
  | nil => intro n hn _; exact ⟨hn, trivial⟩
  | cons z zs ih =>
    intro n hn hl
    unfold insertByStart
    by_cases h : CompareByStartPos z x = true
    · rw [if_pos h]
      have h2 : z.Start < x.Start := by simpa [CompareByStartPos] using h
      exact ⟨hl.1, ih z.Start (by omega) hl.2⟩
    · rw [if_neg h]
      have h2 : ¬ z.Start < x.Start := by simpa [CompareByStartPos] using h
      exact ⟨hn, by omega, hl.2⟩

/-- The sorted range is in ascending order of start. -/
theorem sortByStart_ascending (l : List Featr) : ascendingFrom 0 (sortByStart l) := by
  induction l with
  | nil => trivial
  | cons z zs ih => exact insertByStart_ascending z _ 0 (Nat.zero_le _) ih

/-- Sorting and rechecking one range of well-formed features under the default
policy ends normally and leaves the range free of conflicts: every feature
ends strictly before the next one starts. -/
theorem recheckRange_separated (m : Nat) (seg : List Featr) (a : Ambig) (hp : defaultPolicy a)
    (hv : ∀ x ∈ seg, x.Start < x.End) :
    (recheckRange m seg a).2.2.2 = Outcome.ok () ∧ separatedF (recheckRange m seg a).1 ∧
    (∀ x ∈ (recheckRange m seg a).1, x.Start < x.End) ∧
    (recheckRange m seg a).1.length + (recheckRange m seg a).2.2.1 = seg.length := by
  have hasc := sortByStart_ascending seg
  have hmem := fun y => sortByStart_mem y seg
  have hlen : (sortByStart seg).length = seg.length := by
    induction seg with
    | nil => rfl
    | cons z zs ih =>
      have hins : ∀ (x : Featr) (l : List Featr), (insertByStart x l).length = l.length + 1 := by
        intro x l
        induction l with
        | nil => rfl
        | cons w ws ihw => unfold insertByStart; split_ifs <;> simp [ihw]
      simp only [sortByStart, hins, List.length_cons]
      rw [ih (fun x hx => hv x (List.mem_cons_of_mem _ hx)) (sortByStart_ascending zs)
        (fun y => sortByStart_mem y zs)]
  unfold recheckRange
  cases hs : sortByStart seg with
  | nil =>
    rw [hs] at hlen
    simp only [separatedF, List.not_mem_nil, false_implies, implies_true, true_and]
    exact hlen
  | cons p rest =>
    rw [hs] at hasc hlen
    have hvp : p.Start < p.End := hv p ((hmem p).1 (by rw [hs]; exact List.mem_cons_self _ _))
    have hvr : ∀ x ∈ rest, x.Start < x.End :=
      fun x hx => hv x ((hmem x).1 (by rw [hs]; exact List.mem_cons_of_mem _ hx))
    obtain ⟨r1, r2, r3, _, _, r7⟩ := recheck_separated m rest p a hp hvp hvr hasc.2
    refine ⟨r1, r2, r3, ?_⟩
    rw [r7, ← hlen]; rfl

/-- On a buffer that is the range of a single chromosome, `SortItems` under the
default policy ends normally and leaves well-formed features, each ending
strictly before the next starts, with the range equal to the whole buffer. -/
theorem SortItems_single_range (b : BedF) (a : Ambig) (cID : Nat) (t : Bool)
    (hp : defaultPolicy a) (hv : ∀ x ∈ b.items, x.Start < x.End) (hne : b.items ≠ [])
    (hch : b.chroms = [(cID, ⟨t, 0, b.items.length - 1⟩)]) :
    (b.SortItems a).2.2 = Outcome.ok () ∧ separatedF (b.SortItems a).1.items ∧
    (∀ x ∈ (b.SortItems a).1.items, x.Start < x.End) ∧
    (b.SortItems a).1.chroms = [(cID, ⟨t, 0, (b.SortItems a).1.items.length - 1⟩)] := by
  have hpos : 0 < b.items.length := List.length_pos.2 hne
  have hlast : b.items.length - 1 + 1 = b.items.length := by omega
  obtain ⟨r1, r2, r3, r4⟩ := recheckRange_separated b.minFtrLen b.items a hp hv
  rcases hrec : recheckRange b.minFtrLen b.items a with ⟨seg, a1, n, r⟩
  rw [hrec] at r1 r2 r3 r4
  simp only at r1 r2 r3 r4
  simp only [BedF.SortItems, hch, SortItems.loop, SortItems.turn, Nat.not_lt_zero, false_or,
    Nat.sub_zero, hlast, List.drop_zero, List.take_length, List.take_zero, List.nil_append,
    List.drop_length, List.append_nil, hrec, r1, if_false, Nat.zero_le, le_refl, and_self, if_true]
  have hl : b.items.length - 1 - n = seg.length - 1 := by omega
  exact ⟨trivial, r2, r3, by rw [hl]⟩

/-! ## Ranges after the sort-and-recheck pass -/

/-- C11: the code at the failing input. The block of chromosome 2 holds
`[20,30)` twice, apart from each other, and comes before the block of
chromosome 1. After `Sort` the entry of chromosome 1 (range `[3,4]`) is
traversed first; the duplicate then erased from the range of chromosome 2
leaves a buffer of 4 items, but the range of chromosome 1 is still `[3,4]`:
it is not shifted by the item removed before it and ends outside the buffer.
The last part is `SortItems` itself on the buffer of 5 items with the ranges
`[3,4]` and `[0,2]`, which partition it. -/
theorem SortItems_range_not_shifted :
    ((BedF.new 0).InitChild chromNumbered none (Ambig.newDefault eInfo.iSTAT false)
      [⟨"2", 20, 30, 1⟩, ⟨"2", 50, 60, 1⟩, ⟨"2", 20, 30, 1⟩, ⟨"1", 10, 20, 1⟩, ⟨"1", 30, 40, 1⟩]).2.2
      = Outcome.ok (5, 4) ∧
    ((BedF.new 0).InitChild chromNumbered none (Ambig.newDefault eInfo.iSTAT false)
      [⟨"2", 20, 30, 1⟩, ⟨"2", 50, 60, 1⟩, ⟨"2", 20, 30, 1⟩, ⟨"1", 10, 20, 1⟩, ⟨"1", 30, 40, 1⟩]).1.items
      = [⟨⟨20, 30⟩, 1⟩, ⟨⟨50, 60⟩, 1⟩, ⟨⟨10, 20⟩, 1⟩, ⟨⟨30, 40⟩, 1⟩] ∧
    ((BedF.new 0).InitChild chromNumbered none (Ambig.newDefault eInfo.iSTAT false)
      [⟨"2", 20, 30, 1⟩, ⟨"2", 50, 60, 1⟩, ⟨"2", 20, 30, 1⟩, ⟨"1", 10, 20, 1⟩, ⟨"1", 30, 40, 1⟩]).1.chroms
      = [(1, ⟨true, 3, 4⟩), (2, ⟨true, 0, 1⟩)] ∧
    (BedF.SortItems
      ⟨[(1, ⟨true, 3, 4⟩), (2, ⟨true, 0, 2⟩)],
        [⟨⟨20, 30⟩, 1⟩, ⟨⟨50, 60⟩, 1⟩, ⟨⟨20, 30⟩, 1⟩, ⟨⟨10, 20⟩, 1⟩, ⟨⟨30, 40⟩, 1⟩], 5, 0, 1⟩
      (Ambig.newDefault eInfo.iSTAT false)).1 =
      ⟨[(1, ⟨true, 3, 4⟩), (2, ⟨true, 0, 1⟩)],
        [⟨⟨20, 30⟩, 1⟩, ⟨⟨50, 60⟩, 1⟩, ⟨⟨10, 20⟩, 1⟩, ⟨⟨30, 40⟩, 1⟩], 5, 0, 1⟩ := by
  refine ⟨by decide, by decide, by decide, by decide⟩

/-- C12: the code at the failing input. Every name resolves and each
chromosome has one block, chromosome 3 (holding `[7,9)` twice, apart from each
other) before chromosome 1. After the passes the buffer has 3 items, the range
of chromosome 3 is `[0,1]` and the range recorded for chromosome 1 is `[3,3]`:
it lies outside the buffer and holds nothing, while the item `[10,20)` of
chromosome 1, at index 2, lies in no range. -/
theorem ranges_do_not_cover_buffer :
    ((BedF.new 0).InitChild chromNumbered none (Ambig.newDefault eInfo.iSTAT false)
      [⟨"3", 7, 9, 1⟩, ⟨"3", 1, 3, 1⟩, ⟨"3", 7, 9, 1⟩, ⟨"1", 10, 20, 1⟩]).2.2 = Outcome.ok (4, 3) ∧
    ((BedF.new 0).InitChild chromNumbered none (Ambig.newDefault eInfo.iSTAT false)
      [⟨"3", 7, 9, 1⟩, ⟨"3", 1, 3, 1⟩, ⟨"3", 7, 9, 1⟩, ⟨"1", 10, 20, 1⟩]).1.items
      = [⟨⟨1, 3⟩, 1⟩, ⟨⟨7, 9⟩, 1⟩, ⟨⟨10, 20⟩, 1⟩] ∧
    ((BedF.new 0).InitChild chromNumbered none (Ambig.newDefault eInfo.iSTAT false)
      [⟨"3", 7, 9, 1⟩, ⟨"3", 1, 3, 1⟩, ⟨"3", 7, 9, 1⟩, ⟨"1", 10, 20, 1⟩]).1.chroms
      = [(1, ⟨true, 3, 3⟩), (3, ⟨true, 0, 1⟩)] ∧
    ((BedF.new 0).InitChild chromNumbered none (Ambig.newDefault eInfo.iSTAT false)
      [⟨"3", 7, 9, 1⟩, ⟨"3", 1, 3, 1⟩, ⟨"3", 7, 9, 1⟩, ⟨"1", 10, 20, 1⟩]).1.rangeItems ⟨true, 3, 3⟩
      = [] := by
  refine ⟨by decide, by decide, by decide, by decide⟩

/-! ## Unrecognised chromosomes and the last range -/

/-- C13: the code at the failing inputs. After the line of the unrecognised
chromosome `Un`, the further record `[30,40)` of chromosome 1 is neither
counted nor stored and no range is recorded for chromosome 1 at the end of
the file; when a block of chromosome 2 follows instead, the item of
chromosome 1 is recorded as the range `[0,0]` under the id 255 of the
unrecognised chromosome. -/
theorem unresolved_line_loses_open_chromosome :
    ((BedF.new 0).InitChild chromNumbered none (Ambig.newDefault eInfo.iSTAT false)
      [⟨"1", 10, 20, 1⟩, ⟨"Un", 5, 6, 1⟩, ⟨"1", 30, 40, 1⟩]).1.items = [⟨⟨10, 20⟩, 1⟩] ∧
    ((BedF.new 0).InitChild chromNumbered none (Ambig.newDefault eInfo.iSTAT false)
      [⟨"1", 10, 20, 1⟩, ⟨"Un", 5, 6, 1⟩, ⟨"1", 30, 40, 1⟩]).1.chroms = [] ∧
    ((BedF.new 0).InitChild chromNumbered none (Ambig.newDefault eInfo.iSTAT false)
      [⟨"1", 10, 20, 1⟩, ⟨"Un", 5, 6, 1⟩, ⟨"1", 30, 40, 1⟩]).2.2 = Outcome.ok (1, 1) ∧
    ((BedF.new 0).InitChild chromNumbered none (Ambig.newDefault eInfo.iSTAT false)
      [⟨"1", 10, 20, 1⟩, ⟨"Un", 5, 6, 1⟩, ⟨"2", 30, 40, 1⟩]).1.chroms
      = [(2, ⟨true, 1, 1⟩), (255, ⟨true, 0, 0⟩)] := by
  refine ⟨by decide, by decide, by decide, by decide⟩

/-- C14: the code at the failing input. Chromosome 1 has length 1000 and
chromosome 2 length 100; the only record of chromosome 2, `[10,200)`, is
omitted as exceeding, so no item is appended for chromosome 2, and yet the
range `FirstInd = 1`, `LastInd = 0` is recorded for it at the end of the file. -/
theorem last_range_recorded_without_items :
    ((BedF.new 0).InitChild chromNumbered (some (fun c => if c = 1 then 1000 else 100))
      (Ambig.newDefault eInfo.iSTAT false) [⟨"1", 10, 20, 1⟩, ⟨"2", 10, 200, 1⟩]).1.items
      = [⟨⟨10, 20⟩, 1⟩] ∧
    ((BedF.new 0).InitChild chromNumbered (some (fun c => if c = 1 then 1000 else 100))
      (Ambig.newDefault eInfo.iSTAT false) [⟨"1", 10, 20, 1⟩, ⟨"2", 10, 200, 1⟩]).1.chroms
      = [(1, ⟨true, 0, 0⟩), (2, ⟨true, 1, 0⟩)] ∧
    ((BedF.new 0).InitChild chromNumbered (some (fun c => if c = 1 then 1000 else 100))
      (Ambig.newDefault eInfo.iSTAT false) [⟨"1", 10, 20, 1⟩, ⟨"2", 10, 200, 1⟩]).2.2
      = Outcome.ok (2, 1) := by
  refine ⟨by decide, by decide, by decide⟩

/-! ## `BedF::Extend` -/

/-- C20: the code at the example and at the failing input. Alone on their
chromosome, `[100,200)` and `[210,300)` extended by 10 become the single
feature `[90,310)`. In `bedTwoChroms` the same pair is followed by a
chromosome without merge: the pair is merged into `[90,310)` but the scan
forgets the removal when it passes to chromosome 2, the buffer is not
compacted and still holds the second feature marked as removed, the ranges
are unchanged and the item count stays 4. -/
theorem Extend_forgets_removal :
    ((BedF.Extend ⟨[(1, ⟨true, 0, 1⟩)], [⟨⟨100, 200⟩, 1⟩, ⟨⟨210, 300⟩, 1⟩], 2, 0, 1⟩ ⟨false, false⟩
      255 10 none eInfo.iSTAT).1.items = [⟨⟨90, 310⟩, 1⟩]) ∧
    ((BedF.Extend ⟨[(1, ⟨true, 0, 1⟩)], [⟨⟨100, 200⟩, 1⟩, ⟨⟨210, 300⟩, 1⟩], 2, 0, 1⟩ ⟨false, false⟩
      255 10 none eInfo.iSTAT).1.itemsCnt = 1) ∧
    ((bedTwoChroms.Extend ⟨false, false⟩ 255 10 none eInfo.iSTAT).2.2.2 = Outcome.ok true) ∧
    ((bedTwoChroms.Extend ⟨false, false⟩ 255 10 none eInfo.iSTAT).1.items
      = [⟨⟨90, 310⟩, 1⟩, ⟨⟨UNDEFINED, 310⟩, 1⟩, ⟨⟨90, 210⟩, 1⟩, ⟨⟨490, 610⟩, 1⟩]) ∧
    ((bedTwoChroms.Extend ⟨false, false⟩ 255 10 none eInfo.iSTAT).1.chroms
      = [(1, ⟨true, 0, 1⟩), (2, ⟨true, 2, 3⟩)]) ∧
    ((bedTwoChroms.Extend ⟨false, false⟩ 255 10 none eInfo.iSTAT).1.itemsCnt = 4) := by
  refine ⟨by decide, by decide, by decide, by decide, by decide, by decide⟩

/-! ## A requested chromosome that the file does not name -/

/-- The end of the loop body always appends the item of the line. -/
theorem addItem_eq (ln : Line) (s : Session) :
    addItem ln s =
      ({ bed := { s.bed with items := s.bed.items ++ [⟨s.loc.rgn, ln.score⟩],
                             maxScore := if ln.score > s.bed.maxScore then ln.score else s.bed.maxScore },
         ambig := s.ambig,
         loc := { s.loc with currInd := s.loc.currInd + 1, prevStart := s.loc.rgn.Start } },
        .ok .next) := rfl

/-- The three ways `InitRegn` ends: it throws an error of the line, or rejects
the line leaving the region as it was, or initialises the region with the
positions of a well-formed line; the cases of the engine are those after at
most one `TreatCase(EXCEED)`. -/
theorem InitRegn_cases (a : Ambig) (start end_ : Int) (rgn : Region) (cLen : Nat) :
    (∃ e, (a.InitRegn start end_ rgn cLen).2.2 = .fail e ∧
      (e = .BP_NEGPOS ∨ e = .BP_BADEND ∨ e = .LineExcept .EXCEED)) ∨
    ((a.InitRegn start end_ rgn cLen).2.2 = .ok false ∧ (a.InitRegn start end_ rgn cLen).2.1 = rgn ∧
      (a.InitRegn start end_ rgn cLen).1 = (a.TreatCase .EXCEED).1) ∨
    ((a.InitRegn start end_ rgn cLen).2.2 = .ok true ∧
      (a.InitRegn start end_ rgn cLen).2.1 = ⟨start.toNat, end_.toNat⟩ ∧ 0 ≤ start ∧ start < end_ ∧
      ((a.InitRegn start end_ rgn cLen).1 = a ∨
        (a.InitRegn start end_ rgn cLen).1 = (a.TreatCase .EXCEED).1)) := by
  by_cases h1 : start < 0 ∨ end_ < 0
  · left
    exact ⟨.BP_NEGPOS, by unfold Ambig.InitRegn; rw [if_pos h1], Or.inl rfl⟩
  · by_cases h2 : start ≥ end_
    · left
      exact ⟨.BP_BADEND, by unfold Ambig.InitRegn; rw [if_neg h1, if_pos h2], Or.inr (Or.inl rfl)⟩
    · have h0 : 0 ≤ start := by omega
      have h3 : start < end_ := by omega
      by_cases hx : 0 < cLen ∧ (cLen : Int) < end_
      · rw [InitRegn_exceeding a start end_ rgn cLen h0 h3 hx]
        have hr := TreatCase_result a eCase.EXCEED
        cases h5 : (a.TreatCase eCase.EXCEED).2 with
        | fail e =>
          left
          refine ⟨e, rfl, Or.inr (Or.inr ?_)⟩
          rw [h5] at hr
          cases h6 : a.act eCase.EXCEED <;> rw [h6] at hr <;> simp at hr
          exact hr
        | ok r =>
          by_cases h6 : r < 0
          · right; left
            simp [h6]
          · right; right
            simp [h6, h0, h3]
      · right; right
        rw [InitRegn_inside a start end_ rgn cLen h0 h3 hx]
        exact ⟨rfl, rfl, h0, h3, Or.inl rfl⟩

/-- `CheckItemPos` throws only the line exception of a case; the feature it
returns is the previous feature, possibly with the end of the candidate. -/
theorem CheckItemPos_cases (m : Nat) (it : Featr) (rgn : Region) (a : Ambig) :
    ((CheckItemPos m it rgn a).1 = it ∨ (CheckItemPos m it rgn a).1 = { it with End := rgn.End }) ∧
    (∀ e, (CheckItemPos m it rgn a).2.2 = .fail e → ∃ c, e = .LineExcept c) ∧
    ((CheckItemPos m it rgn a).2.1 = a ∨ ∃ c, (CheckItemPos m it rgn a).2.1 = (a.TreatCase c).1) := by
  have h := CheckItemPos_eq m it rgn a
  cases hf : firstCase m it.toRegion rgn with
  | none =>
    rw [hf] at h
    rw [h]
    exact ⟨Or.inl rfl, fun e h => by simp at h, Or.inl rfl⟩
  | some c =>
    rw [hf] at h
    have hr := TreatCase_result a c
    cases h5 : (a.TreatCase c).2 with
    | fail e =>
      simp only [h5] at h
      rw [h]
      refine ⟨Or.inl rfl, fun e1 h1 => ⟨c, ?_⟩, Or.inr ⟨c, rfl⟩⟩
      simp only [Outcome.fail.injEq] at h1
      rw [h5] at hr
      cases h6 : a.act c <;> rw [h6] at hr <;> simp at hr
      rw [← h1, hr]
    | ok r =>
      by_cases hc : c = eCase.ADJAC ∨ c = eCase.CROSS
      · simp only [h5, hc, ↓reduceIte] at h
        rw [h]
        refine ⟨?_, fun e h => by simp at h, Or.inr ⟨c, rfl⟩⟩
        unfold CorrectItemsEnd
        split_ifs
        · exact Or.inl rfl
        · exact Or.inr rfl
        · exact Or.inl rfl
      · simp only [h5, hc, ↓reduceIte] at h
        rw [h]
        exact ⟨Or.inl rfl, fun e h => by simp at h, Or.inr ⟨c, rfl⟩⟩


/-- When `InitRegn` throws, the region is as it was. -/
theorem InitRegn_fail_rgn (a : Ambig) (start end_ : Int) (rgn : Region) (cLen : Nat) :
    ∀ e, (a.InitRegn start end_ rgn cLen).2.2 = .fail e → (a.InitRegn start end_ rgn cLen).2.1 = rgn := by
  intro e
  unfold Ambig.InitRegn
  split_ifs
  · intro _; rfl
  · intro _; rfl
  · rcases a.TreatCase eCase.EXCEED with ⟨a1, r⟩
    cases r with
    | fail e1 => intro _; rfl
    | ok r =>
      simp only
      split_ifs
      · intro h; simp at h
      · intro h; simp at h
  · intro h; simp at h

/-- The outcomes of `openChrom`: the line is refused (an error of `InitRegn`, or
the line is rejected as exceeding the chromosome) and the buffer is as before,
or the item of the line is appended. -/
theorem openChrom_shape (cSizes : Option (Nat → Nat)) (ln : Line) (id : Nat) (s : Session)
    (o : Session × Outcome Flow) (h : openChrom cSizes ln id s = o) :
    o.1.bed.chroms = s.bed.chroms ∧ o.1.bed.minFtrLen = s.bed.minFtrLen ∧
    o.1.loc.cName = s.loc.cName ∧ o.1.loc.needSortChrom = s.loc.needSortChrom ∧
    o.1.loc.cCurrID = id ∧ o.1.loc.firstInd = s.loc.currInd ∧
    o.1.loc.cntLines = s.loc.cntLines + 1 ∧
    ((((∃ e, o.2 = .fail e ∧ (e = .BP_NEGPOS ∨ e = .BP_BADEND ∨ e = .LineExcept .EXCEED)) ∨
          o.2 = .ok .next) ∧
        o.1.bed.items = s.bed.items ∧ o.1.loc.rgn = s.loc.rgn ∧ o.1.loc.currInd = s.loc.currInd) ∨
      (o.2 = .ok .next ∧ 0 ≤ ln.start ∧ ln.start < ln.end_ ∧
        o.1.bed.items = s.bed.items ++ [ln.featr] ∧ o.1.loc.rgn = ln.featr.toRegion ∧
        o.1.loc.currInd = s.loc.currInd + 1)) := by
  subst h
  have hc := InitRegn_cases s.ambig ln.start ln.end_ s.loc.rgn (chromLen cSizes id s.loc.cLen)
  rcases hI : s.ambig.InitRegn ln.start ln.end_ s.loc.rgn (chromLen cSizes id s.loc.cLen)
    with ⟨a, rgn, r⟩
  rw [hI] at hc
  simp only at hc
  rcases hc with ⟨e, he, hk⟩ | ⟨hr, hg, _⟩ | ⟨hr, hg, h0, h1, _⟩
  · subst he
    have ho : openChrom cSizes ln id s =
        ({ s with ambig := a,
                  loc := { s.loc with cCurrID := id, firstInd := s.loc.currInd,
                                      cntLines := s.loc.cntLines + 1,
                                      cLen := chromLen cSizes id s.loc.cLen, rgn := rgn } },
          .fail e) := by
      simp only [openChrom, hI]
    rw [ho]
    have hg : rgn = s.loc.rgn := by
      have := InitRegn_fail_rgn s.ambig ln.start ln.end_ s.loc.rgn (chromLen cSizes id s.loc.cLen)
      rw [hI] at this
      exact this e rfl
    exact ⟨rfl, rfl, rfl, rfl, rfl, rfl, rfl, Or.inl ⟨Or.inl ⟨e, rfl, hk⟩, rfl, hg, rfl⟩⟩
  · subst hr
    have ho : openChrom cSizes ln id s =
        ({ s with ambig := a,
                  loc := { s.loc with cCurrID := id, firstInd := s.loc.currInd,
                                      cntLines := s.loc.cntLines + 1,
                                      cLen := chromLen cSizes id s.loc.cLen, rgn := rgn } },
          .ok .next) := by
      simp only [openChrom, hI]
    rw [ho]
    exact ⟨rfl, rfl, rfl, rfl, rfl, rfl, rfl, Or.inl ⟨Or.inr rfl, rfl, hg, rfl⟩⟩
  · subst hr
    have ho : openChrom cSizes ln id s =
        addItem ln { s with ambig := a,
                            loc := { s.loc with cCurrID := id, firstInd := s.loc.currInd,
                                                cntLines := s.loc.cntLines + 1,
                                                cLen := chromLen cSizes id s.loc.cLen, rgn := rgn } } := by
      simp only [openChrom, hI]
    rw [ho, addItem_eq]
    subst hg
    exact ⟨rfl, rfl, rfl, rfl, rfl, rfl, rfl, Or.inr ⟨rfl, h0, h1, rfl, rfl, rfl⟩⟩

/-- The outcomes of `CheckLastPos`: on an empty buffer the access is outside
the buffer; otherwise only the end of the last item may change, and only the
line exception of a case is thrown. -/
theorem CheckLastPos_shape (b : BedF) (rgn : Region) (a : Ambig)
    (o : BedF × Ambig × Outcome Bool) (h : b.CheckLastPos rgn a = o) :
    o.1.chroms = b.chroms ∧ o.1.minFtrLen = b.minFtrLen ∧ o.1.maxScore = b.maxScore ∧
    ((b.items = [] ∧ o.1.items = [] ∧ o.2.2 = .fail .OutOfRange) ∨
      (∃ init last last1, b.items = init ++ [last] ∧ o.1.items = init ++ [last1] ∧
        (last1 = last ∨ last1 = { last with End := rgn.End }) ∧
        (∀ e, o.2.2 = .fail e → ∃ c, e = .LineExcept c))) := by
  subst h
  cases hl : b.items.getLast? with
  | none =>
    have he : b.items = [] := List.getLast?_eq_none_iff.mp hl
    have ho : b.CheckLastPos rgn a = (b, a, .fail .OutOfRange) := by
      unfold BedF.CheckLastPos
      simp only [hl]
    rw [ho]
    exact ⟨rfl, rfl, rfl, Or.inl ⟨he, he, rfl⟩⟩
  | some last =>
    have hc := CheckItemPos_cases b.minFtrLen last rgn a
    rcases hC : CheckItemPos b.minFtrLen last rgn a with ⟨last1, a1, r⟩
    rw [hC] at hc
    simp only at hc
    have ho : b.CheckLastPos rgn a = ({ b with items := b.items.dropLast ++ [last1] }, a1, r) := by
      unfold BedF.CheckLastPos
      simp only [hl, hC]
    rw [ho]
    refine ⟨rfl, rfl, rfl, Or.inr ⟨b.items.dropLast, last, last1, ?_, rfl, hc.1, hc.2.1⟩⟩
    have := List.dropLast_append_getLast? last (by simpa using hl)
    exact this.symm

/-- The outcomes of `sameChrom`: the line is skipped; or it is counted and
refused by `InitRegn`; or the region is set from the line and the last item of
the buffer is checked against it, after which the item of the line is appended
or not. -/
theorem sameChrom_shape (chrom : Chrom) (ln : Line) (s : Session)
    (o : Session × Outcome Flow) (h : sameChrom chrom ln s = o) :
    o.1.bed.chroms = s.bed.chroms ∧ o.1.bed.minFtrLen = s.bed.minFtrLen ∧
    o.1.loc.cName = s.loc.cName ∧ o.1.loc.needSortChrom = s.loc.needSortChrom ∧
    o.1.loc.cCurrID = s.loc.cCurrID ∧ o.1.loc.firstInd = s.loc.firstInd ∧
    (((s.loc.cCurrID = chrom.UnID ∨ (¬ chrom.StatedAll ∧ s.loc.cCurrID ≠ chrom.StatedID)) ∧
        o = (s, .ok .next)) ∨
      (¬ (s.loc.cCurrID = chrom.UnID ∨ (¬ chrom.StatedAll ∧ s.loc.cCurrID ≠ chrom.StatedID)) ∧
        o.1.loc.cntLines = s.loc.cntLines + 1 ∧
        ((((∃ e, o.2 = .fail e ∧ (e = .BP_NEGPOS ∨ e = .BP_BADEND ∨ e = .LineExcept .EXCEED)) ∨
              o.2 = .ok .next) ∧
            o.1.bed.items = s.bed.items ∧ o.1.loc.rgn = s.loc.rgn ∧
            o.1.loc.currInd = s.loc.currInd) ∨
          (0 ≤ ln.start ∧ ln.start < ln.end_ ∧ o.1.loc.rgn = ln.featr.toRegion ∧
            ((s.bed.items = [] ∧ o.1.bed.items = [] ∧ o.2 = .fail .OutOfRange ∧
                o.1.loc.currInd = s.loc.currInd) ∨
              (∃ init last last1, s.bed.items = init ++ [last] ∧
                (last1 = last ∨ last1 = { last with End := ln.end_.toNat }) ∧
                ((((∃ c, o.2 = .fail (.LineExcept c)) ∨ o.2 = .ok .next) ∧
                    o.1.bed.items = init ++ [last1] ∧ o.1.loc.currInd = s.loc.currInd) ∨
                  (o.2 = .ok .next ∧ o.1.bed.items = init ++ [last1] ++ [ln.featr] ∧
                    o.1.loc.currInd = s.loc.currInd + 1)))))))) := by
  subst h
  by_cases hs : s.loc.cCurrID = chrom.UnID ∨ (¬ chrom.StatedAll ∧ s.loc.cCurrID ≠ chrom.StatedID)
  · have ho : sameChrom chrom ln s = (s, .ok .next) := by
      unfold sameChrom
      rw [if_pos hs]
    rw [ho]
    exact ⟨rfl, rfl, rfl, rfl, rfl, rfl, Or.inl ⟨hs, rfl⟩⟩
  · have hc := InitRegn_cases s.ambig ln.start ln.end_ s.loc.rgn s.loc.cLen
    have hf := InitRegn_fail_rgn s.ambig ln.start ln.end_ s.loc.rgn s.loc.cLen
    rcases hI : s.ambig.InitRegn ln.start ln.end_ s.loc.rgn s.loc.cLen with ⟨a, rgn, r⟩
    rw [hI] at hc hf
    simp only at hc hf
    rcases hc with ⟨e, he, hk⟩ | ⟨hr, hg, _⟩ | ⟨hr, hg, h0, h1, _⟩
    · subst he
      have ho : sameChrom chrom ln s =
          ({ s with ambig := a,
                    loc := { s.loc with cntLines := s.loc.cntLines + 1, rgn := rgn } },
            .fail e) := by
        unfold sameChrom
        rw [if_neg hs]
        simp only [hI]
      rw [ho]
      exact ⟨rfl, rfl, rfl, rfl, rfl, rfl,
        Or.inr ⟨hs, rfl, Or.inl ⟨Or.inl ⟨e, rfl, hk⟩, rfl, hf e rfl, rfl⟩⟩⟩
    · subst hr
      have ho : sameChrom chrom ln s =
          ({ s with ambig := a,
                    loc := { s.loc with cntLines := s.loc.cntLines + 1, rgn := rgn } },
            .ok .next) := by
        unfold sameChrom
        rw [if_neg hs]
        simp only [hI]
      rw [ho]
      exact ⟨rfl, rfl, rfl, rfl, rfl, rfl, Or.inr ⟨hs, rfl, Or.inl ⟨Or.inr rfl, rfl, hg, rfl⟩⟩⟩
    · subst hr
      subst hg
      have hL := CheckLastPos_shape s.bed ⟨ln.start.toNat, ln.end_.toNat⟩
        (if ln.start.toNat < s.loc.prevStart then { a with unsortedItems := true } else a)
      rcases hC : s.bed.CheckLastPos ⟨ln.start.toNat, ln.end_.toNat⟩
        (if ln.start.toNat < s.loc.prevStart then { a with unsortedItems := true } else a)
        with ⟨b1, a2, r⟩
      have hL := hL _ hC
      simp only at hL
      obtain ⟨hch, hmin, _, hL⟩ := hL
      cases r with
      | fail e =>
        have ho : sameChrom chrom ln s =
            ({ bed := b1, ambig := a2,
               loc := { s.loc with cntLines := s.loc.cntLines + 1,
                                   rgn := ⟨ln.start.toNat, ln.end_.toNat⟩ } },
              .fail e) := by
          unfold sameChrom
          rw [if_neg hs]
          simp only [hI, hC]
        rw [ho]
        refine ⟨hch, hmin, rfl, rfl, rfl, rfl, Or.inr ⟨hs, rfl, Or.inr ⟨h0, h1, rfl, ?_⟩⟩⟩
        rcases hL with ⟨he, he1, hr⟩ | ⟨init, last, last1, hi, hi1, hl, hr⟩
        · simp only [Outcome.fail.injEq] at hr
          subst hr
          exact Or.inl ⟨he, he1, rfl, rfl⟩
        · obtain ⟨c, hc⟩ := hr e rfl
          subst hc
          exact Or.inr ⟨init, last, last1, hi, hl, Or.inl ⟨Or.inl ⟨c, rfl⟩, hi1, rfl⟩⟩
      | ok r =>
        rcases hL with ⟨he, he1, hr⟩ | ⟨init, last, last1, hi, hi1, hl, hr⟩
        · simp at hr
        · cases r with
          | false =>
            have ho : sameChrom chrom ln s =
                ({ bed := b1, ambig := a2,
                   loc := { s.loc with cntLines := s.loc.cntLines + 1,
                                       rgn := ⟨ln.start.toNat, ln.end_.toNat⟩ } },
                  .ok .next) := by
              unfold sameChrom
              rw [if_neg hs]
              simp only [hI, hC]
            rw [ho]
            exact ⟨hch, hmin, rfl, rfl, rfl, rfl, Or.inr ⟨hs, rfl, Or.inr ⟨h0, h1, rfl,
              Or.inr ⟨init, last, last1, hi, hl, Or.inl ⟨Or.inr rfl, hi1, rfl⟩⟩⟩⟩⟩
          | true =>
            have ho : sameChrom chrom ln s =
                addItem ln { bed := b1, ambig := a2,
                             loc := { s.loc with cntLines := s.loc.cntLines + 1,
                                                 rgn := ⟨ln.start.toNat, ln.end_.toNat⟩ } } := by
              unfold sameChrom
              rw [if_neg hs]
              simp only [hI, hC]
            rw [ho, addItem_eq]
            refine ⟨hch, hmin, rfl, rfl, rfl, rfl, Or.inr ⟨hs, rfl, Or.inr ⟨h0, h1, rfl,
              Or.inr ⟨init, last, last1, hi, hl, Or.inr ⟨rfl, ?_, rfl⟩⟩⟩⟩⟩
            show b1.items ++ [_] = _
            rw [hi1]
            rfl

/-! ## The branches of the loop body -/

/-- A line that names an unrecognised chromosome. -/
theorem step_unrecognised (chrom : Chrom) (cSizes : Option (Nat → Nat)) (ln : Line) (s : Session)
    (hname : s.loc.cName ≠ ln.ChromName) (hun : chrom.ID ln.ChromName = chrom.UnID) :
    step chrom cSizes ln s = ({ s with loc := { s.loc with cCurrID := chrom.UnID } }, .ok .next) := by
  unfold step
  rw [if_pos hname]
  simp only [hun, ↓reduceIte]

/-- A line with the name of the line before. -/
theorem step_same_name (chrom : Chrom) (cSizes : Option (Nat → Nat)) (ln : Line) (s : Session)
    (hname : s.loc.cName = ln.ChromName) :
    step chrom cSizes ln s = sameChrom chrom ln s := by
  unfold step
  rw [if_neg (by simpa using hname)]

/-- A line that names another recognised chromosome, all chromosomes being
requested. -/
theorem step_all_change (chrom : Chrom) (cSizes : Option (Nat → Nat)) (ln : Line) (s : Session)
    (hname : s.loc.cName ≠ ln.ChromName) (hun : chrom.ID ln.ChromName ≠ chrom.UnID)
    (hmode : chrom.StatedAll = true) :
    step chrom cSizes ln s =
      openChrom cSizes ln (chrom.ID ln.ChromName)
        { s with
          bed := if s.loc.currInd ≠ s.loc.firstInd then
              s.bed.AddVal s.loc.cCurrID (ChromItemsInd.new s.loc.firstInd s.loc.currInd)
            else s.bed,
          loc := { s.loc with
            cName := ln.ChromName,
            needSortChrom := if chrom.ID ln.ChromName < s.loc.cCurrID ∧ chrom.ID ln.ChromName ≠ chrom.M
              then true else s.loc.needSortChrom } } := by
  unfold step
  rw [if_pos hname]
  simp only [hun, ↓reduceIte, hmode]

/-- A line that names another recognised chromosome, one chromosome being
requested, after a region has been initialised. -/
theorem step_single_stop (chrom : Chrom) (cSizes : Option (Nat → Nat)) (ln : Line) (s : Session)
    (hname : s.loc.cName ≠ ln.ChromName) (hun : chrom.ID ln.ChromName ≠ chrom.UnID)
    (hmode : chrom.StatedAll = false) (hend : s.loc.rgn.End ≠ 0) :
    step chrom cSizes ln s = ({ s with loc := { s.loc with cName := ln.ChromName } }, .ok .stop) := by
  unfold step
  rw [if_pos hname]
  simp only [hun, ↓reduceIte, hmode, Bool.false_eq_true]
  rw [if_pos hend]

/-- A line that names another recognised chromosome, not the requested one,
before any region has been initialised. -/
theorem step_single_skip (chrom : Chrom) (cSizes : Option (Nat → Nat)) (ln : Line) (s : Session)
    (hname : s.loc.cName ≠ ln.ChromName) (hun : chrom.ID ln.ChromName ≠ chrom.UnID)
    (hmode : chrom.StatedAll = false) (hend : s.loc.rgn.End = 0)
    (hns : s.loc.needSortChrom = false) (hst : chrom.ID ln.ChromName ≠ chrom.StatedID) :
    step chrom cSizes ln s = ({ s with loc := { s.loc with cName := ln.ChromName } }, .ok .next) := by
  unfold step
  rw [if_pos hname]
  simp only [hun, ↓reduceIte, hmode, Bool.false_eq_true]
  rw [if_neg (by simpa using hend), if_neg (by simpa using hns), if_pos hst]

/-- A line that names the requested chromosome, before any region has been
initialised. -/
theorem step_single_open (chrom : Chrom) (cSizes : Option (Nat → Nat)) (ln : Line) (s : Session)
    (hname : s.loc.cName ≠ ln.ChromName) (hun : chrom.ID ln.ChromName ≠ chrom.UnID)
    (hmode : chrom.StatedAll = false) (hend : s.loc.rgn.End = 0)
    (hns : s.loc.needSortChrom = false) (hst : chrom.ID ln.ChromName = chrom.StatedID) :
    step chrom cSizes ln s =
      openChrom cSizes ln (chrom.ID ln.ChromName)
        { s with loc := { s.loc with cName := ln.ChromName } } := by
  unfold step
  rw [if_pos hname]
  simp only [hun, ↓reduceIte, hmode, Bool.false_eq_true]
  rw [if_neg (by simpa using hend), if_neg (by simpa using hns), if_neg (by simpa using hst)]

/-- The loop over a list of lines, by the outcome of the first turn. -/
theorem readLines_fail (chrom : Chrom) (cSizes : Option (Nat → Nat)) (ln : Line) (rest : List Line)
    (S S1 : Session) (e : Err) (h : step chrom cSizes ln S = (S1, .fail e)) :
    readLines chrom cSizes (ln :: rest) S = (S1, .fail e) := by
  simp only [readLines, h]

theorem readLines_stop (chrom : Chrom) (cSizes : Option (Nat → Nat)) (ln : Line) (rest : List Line)
    (S S1 : Session) (h : step chrom cSizes ln S = (S1, .ok .stop)) :
    readLines chrom cSizes (ln :: rest) S = (S1, .ok ()) := by
  simp only [readLines, h]

theorem readLines_next (chrom : Chrom) (cSizes : Option (Nat → Nat)) (ln : Line) (rest : List Line)
    (S S1 : Session) (h : step chrom cSizes ln S = (S1, .ok .next)) :
    readLines chrom cSizes (ln :: rest) S = readLines chrom cSizes rest S1 := by
  simp only [readLines, h]

/-! ## Single-chromosome mode: the test of unsorted chromosomes -/

/-- In single-chromosome mode a turn of the loop leaves `needSortChrom` unset
and does not throw "is unsorted". -/
theorem step_single_sorted (chrom : Chrom) (cSizes : Option (Nat → Nat)) (ln : Line) (s : Session)
    (hmode : chrom.StatedAll = false) (hns : s.loc.needSortChrom = false) :
    (step chrom cSizes ln s).1.loc.needSortChrom = false ∧
    (step chrom cSizes ln s).2 ≠ .fail .UnsortedChroms := by
  by_cases hname : s.loc.cName ≠ ln.ChromName
  · by_cases hun : chrom.ID ln.ChromName = chrom.UnID
    · rw [step_unrecognised chrom cSizes ln s hname hun]
      exact ⟨hns, by simp⟩
    · by_cases hend : s.loc.rgn.End ≠ 0
      · rw [step_single_stop chrom cSizes ln s hname hun hmode hend]
        exact ⟨hns, by simp⟩
      · have hend : s.loc.rgn.End = 0 := by simpa using hend
        by_cases hst : chrom.ID ln.ChromName ≠ chrom.StatedID
        · rw [step_single_skip chrom cSizes ln s hname hun hmode hend hns hst]
          exact ⟨hns, by simp⟩
        · have hst : chrom.ID ln.ChromName = chrom.StatedID := by simpa using hst
          rw [step_single_open chrom cSizes ln s hname hun hmode hend hns hst]
          obtain ⟨_, _, _, h4, _, _, _, h8⟩ := openChrom_shape cSizes ln (chrom.ID ln.ChromName)
            { s with loc := { s.loc with cName := ln.ChromName } } _ rfl
          refine ⟨h4.trans hns, ?_⟩
          rcases h8 with ⟨⟨e, he, hk⟩ | he, _⟩ | ⟨he, _⟩
          · rw [he]
            rcases hk with hk | hk | hk <;> simp [hk]
          · rw [he]; simp
          · rw [he]; simp
  · rw [step_same_name chrom cSizes ln s (by simpa using hname)]
    obtain ⟨_, _, _, h4, _, _, h7⟩ := sameChrom_shape chrom ln s _ rfl
    refine ⟨h4.trans hns, ?_⟩
    rcases h7 with ⟨_, ho⟩ | ⟨_, _, h8⟩
    · rw [ho]; simp
    · rcases h8 with ⟨⟨e, he, hk⟩ | he, _⟩ | ⟨_, _, _, h9⟩
      · rw [he]
        rcases hk with hk | hk | hk <;> simp [hk]
      · rw [he]; simp
      · rcases h9 with ⟨_, _, he, _⟩ | ⟨init, last, last1, _, _, h10⟩
        · rw [he]; simp
        · rcases h10 with ⟨⟨c, he⟩ | he, _⟩ | ⟨he, _⟩
          · rw [he]; simp
          · rw [he]; simp
          · rw [he]; simp

/-- In single-chromosome mode the loop of `InitChild` never throws "is
unsorted": `needSortChrom` is only set in the branch of all chromosomes. -/
theorem readLines_single_sorted (chrom : Chrom) (cSizes : Option (Nat → Nat))
    (hmode : chrom.StatedAll = false) (lines : List Line) :
    ∀ S : Session, S.loc.needSortChrom = false →
      (readLines chrom cSizes lines S).1.loc.needSortChrom = false ∧
      (readLines chrom cSizes lines S).2 ≠ .fail .UnsortedChroms := by
  induction lines with
  | nil => intro S hns; exact ⟨hns, by simp [readLines]⟩
  | cons ln rest ih =>
    intro S hns
    have hs := step_single_sorted chrom cSizes ln S hmode hns
    rcases hS : step chrom cSizes ln S with ⟨S1, r⟩
    rw [hS] at hs
    cases r with
    | fail e =>
      rw [readLines_fail chrom cSizes ln rest S S1 e hS]
      refine ⟨hs.1, fun h => hs.2 ?_⟩
      have h2 : e = Err.UnsortedChroms := by simpa using h
      rw [h2]
    | ok f =>
      cases f with
      | stop =>
        rw [readLines_stop chrom cSizes ln rest S S1 hS]
        exact ⟨hs.1, by simp⟩
      | next =>
        rw [readLines_next chrom cSizes ln rest S S1 hS]
        exact ih S1 hs.1

/-- C16: the code at the failing input. Chromosome 3 is requested and the file
presents the blocks of chromosomes 2, 1 and 3, out of ascending order: the
chromosome changes to 1 and to 3 are met before a region of chromosome 3 is
complete, and ingestion ends normally with the item of chromosome 3, one line
counted. -/
theorem single_mode_unsorted_blocks_accepted :
    ((BedF.new 0).InitChild (chromSingle 3) none (Ambig.newDefault eInfo.iSTAT false)
      [⟨"2", 10, 20, 1⟩, ⟨"1", 10, 20, 1⟩, ⟨"3", 30, 40, 1⟩]).2.2 = Outcome.ok (1, 1) ∧
    ((BedF.new 0).InitChild (chromSingle 3) none (Ambig.newDefault eInfo.iSTAT false)
      [⟨"2", 10, 20, 1⟩, ⟨"1", 10, 20, 1⟩, ⟨"3", 30, 40, 1⟩]).1.items = [⟨⟨30, 40⟩, 1⟩] ∧
    ((BedF.new 0).InitChild (chromSingle 3) none (Ambig.newDefault eInfo.iSTAT false)
      [⟨"2", 10, 20, 1⟩, ⟨"1", 10, 20, 1⟩, ⟨"3", 30, 40, 1⟩]).1.chroms = [(3, ⟨true, 0, 0⟩)] := by
  refine ⟨by decide, by decide, by decide⟩

/-! ## The pair returned by `InitChild` -/

/-- A line that names another recognised chromosome, one chromosome being
requested, when `needSortChrom` is set and no region has been initialised. -/
theorem step_single_unsorted (chrom : Chrom) (cSizes : Option (Nat → Nat)) (ln : Line) (s : Session)
    (hname : s.loc.cName ≠ ln.ChromName) (hun : chrom.ID ln.ChromName ≠ chrom.UnID)
    (hmode : chrom.StatedAll = false) (hend : s.loc.rgn.End = 0)
    (hns : s.loc.needSortChrom = true) :
    step chrom cSizes ln s =
      ({ s with loc := { s.loc with cName := ln.ChromName } }, .fail .UnsortedChroms) := by
  unfold step
  rw [if_pos hname]
  simp only [hun, ↓reduceIte, hmode, Bool.false_eq_true]
  rw [if_neg (by simpa using hend), if_pos (by simpa using hns)]

/-- A turn of the loop counts at most one line. -/
theorem step_cnt_le (chrom : Chrom) (cSizes : Option (Nat → Nat)) (ln : Line) (s : Session) :
    (step chrom cSizes ln s).1.loc.cntLines ≤ s.loc.cntLines + 1 := by
  by_cases hname : s.loc.cName ≠ ln.ChromName
  · by_cases hun : chrom.ID ln.ChromName = chrom.UnID
    · rw [step_unrecognised chrom cSizes ln s hname hun]
      exact Nat.le_succ _
    · by_cases hmode : chrom.StatedAll = true
      · rw [step_all_change chrom cSizes ln s hname hun hmode]
        obtain ⟨_, _, _, _, _, _, h7, _⟩ := openChrom_shape cSizes ln (chrom.ID ln.ChromName) _ _ rfl
        rw [h7]
      · have hmode : chrom.StatedAll = false := by simpa using hmode
        by_cases hend : s.loc.rgn.End ≠ 0
        · rw [step_single_stop chrom cSizes ln s hname hun hmode hend]
          exact Nat.le_succ _
        · have hend : s.loc.rgn.End = 0 := by simpa using hend
          cases hns : s.loc.needSortChrom with
          | true =>
            rw [step_single_unsorted chrom cSizes ln s hname hun hmode hend hns]
            exact Nat.le_succ _
          | false =>
            by_cases hst : chrom.ID ln.ChromName ≠ chrom.StatedID
            · rw [step_single_skip chrom cSizes ln s hname hun hmode hend hns hst]
              exact Nat.le_succ _
            · have hst : chrom.ID ln.ChromName = chrom.StatedID := by simpa using hst
              rw [step_single_open chrom cSizes ln s hname hun hmode hend hns hst]
              obtain ⟨_, _, _, _, _, _, h7, _⟩ :=
                openChrom_shape cSizes ln (chrom.ID ln.ChromName) _ _ rfl
              rw [h7]
  · rw [step_same_name chrom cSizes ln s (by simpa using hname)]
    obtain ⟨_, _, _, _, _, _, h7⟩ := sameChrom_shape chrom ln s _ rfl
    rcases h7 with ⟨_, ho⟩ | ⟨_, h8, _⟩
    · rw [ho]
      exact Nat.le_succ _
    · rw [h8]

/-- When all chromosomes are requested and the line names a recognised
chromosome, a turn of the loop counts the line, does not leave the loop, and
the current chromosome stays a recognised one. -/
theorem step_all_counts (chrom : Chrom) (cSizes : Option (Nat → Nat)) (ln : Line) (s : Session)
    (hmode : chrom.StatedAll = true) (hun : chrom.ID ln.ChromName ≠ chrom.UnID)
    (hcur : s.loc.cCurrID ≠ chrom.UnID) :
    (step chrom cSizes ln s).1.loc.cntLines = s.loc.cntLines + 1 ∧
    (step chrom cSizes ln s).1.loc.cCurrID ≠ chrom.UnID ∧
    (step chrom cSizes ln s).2 ≠ .ok .stop := by
  by_cases hname : s.loc.cName ≠ ln.ChromName
  · rw [step_all_change chrom cSizes ln s hname hun hmode]
    obtain ⟨_, _, _, _, h5, _, h7, h8⟩ := openChrom_shape cSizes ln (chrom.ID ln.ChromName) _ _ rfl
    refine ⟨h7, by rw [h5]; exact hun, ?_⟩
    rcases h8 with ⟨⟨e, he, _⟩ | he, _⟩ | ⟨he, _⟩ <;> rw [he] <;> simp
  · rw [step_same_name chrom cSizes ln s (by simpa using hname)]
    obtain ⟨_, _, _, _, h5, _, h7⟩ := sameChrom_shape chrom ln s _ rfl
    rcases h7 with ⟨hs, _⟩ | ⟨_, h8, h9⟩
    · rcases hs with hs | hs
      · exact absurd hs hcur
      · exact absurd hmode hs.1
    · refine ⟨h8, by rw [h5]; exact hcur, ?_⟩
      rcases h9 with ⟨⟨e, he, _⟩ | he, _⟩ | ⟨_, _, _, h10⟩
      · rw [he]; simp
      · rw [he]; simp
      · rcases h10 with ⟨_, _, he, _⟩ | ⟨init, last, last1, _, _, h11⟩
        · rw [he]; simp
        · rcases h11 with ⟨⟨c, he⟩ | he, _⟩ | ⟨he, _⟩ <;> rw [he] <;> simp

/-- The loop counts at most as many lines as it is given. -/
theorem readLines_cnt_le (chrom : Chrom) (cSizes : Option (Nat → Nat)) (lines : List Line) :
    ∀ S : Session,
      (readLines chrom cSizes lines S).1.loc.cntLines ≤ S.loc.cntLines + lines.length := by
  induction lines with
  | nil => intro S; exact Nat.le_refl _
  | cons ln rest ih =>
    intro S
    have hs := step_cnt_le chrom cSizes ln S
    rcases hS : step chrom cSizes ln S with ⟨S1, r⟩
    rw [hS] at hs
    simp only [List.length_cons]
    cases r with
    | fail e =>
      rw [readLines_fail chrom cSizes ln rest S S1 e hS]
      exact Nat.le_trans hs (by omega)
    | ok f =>
      cases f with
      | stop =>
        rw [readLines_stop chrom cSizes ln rest S S1 hS]
        exact Nat.le_trans hs (by omega)
      | next =>
        rw [readLines_next chrom cSizes ln rest S S1 hS]
        have := ih S1
        have hs1 : S1.loc.cntLines ≤ S.loc.cntLines + 1 := hs
        omega

/-- When all chromosomes are requested and every line names a recognised
chromosome, a loop that ends normally has counted every line. -/
theorem readLines_cnt_all (chrom : Chrom) (cSizes : Option (Nat → Nat))
    (hmode : chrom.StatedAll = true) (lines : List Line) :
    ∀ S : Session, (∀ ln ∈ lines, chrom.ID ln.ChromName ≠ chrom.UnID) →
      S.loc.cCurrID ≠ chrom.UnID → (readLines chrom cSizes lines S).2 = .ok () →
      (readLines chrom cSizes lines S).1.loc.cntLines = S.loc.cntLines + lines.length := by
  induction lines with
  | nil => intro S _ _ _; rfl
  | cons ln rest ih =>
    intro S hall hcur hok
    have hs := step_all_counts chrom cSizes ln S hmode (hall ln (List.mem_cons_self _ _)) hcur
    rcases hS : step chrom cSizes ln S with ⟨S1, r⟩
    rw [hS] at hs
    simp only [List.length_cons]
    cases r with
    | fail e =>
      rw [readLines_fail chrom cSizes ln rest S S1 e hS] at hok
      simp at hok
    | ok f =>
      cases f with
      | stop => exact absurd rfl hs.2.2
      | next =>
        rw [readLines_next chrom cSizes ln rest S S1 hS] at hok ⊢
        have := ih S1 (fun x hx => hall x (List.mem_cons_of_mem _ hx)) hs.2.1 hok
        have hs1 : S1.loc.cntLines = S.loc.cntLines + 1 := hs.1
        omega

/-- The pair returned after the sort-and-recheck pass. -/
theorem SortItems_counts (b2 : BedF) (a0 : Ambig) (c n k : Nat)
    (h : (match b2.SortItems a0 with
        | (b3, a, .fail e) => ((b3, a, .fail e) : BedF × Ambig × Outcome (Nat × Nat))
        | (b3, a, .ok _) => ({ b3 with itemsCnt := b3.items.length }, a,
            .ok (c, b3.items.length))).2.2 = .ok (n, k)) :
    n = c ∧
    k = (match b2.SortItems a0 with
        | (b3, a, .fail e) => ((b3, a, .fail e) : BedF × Ambig × Outcome (Nat × Nat))
        | (b3, a, .ok _) => ({ b3 with itemsCnt := b3.items.length }, a,
            .ok (c, b3.items.length))).1.items.length ∧
    k = (match b2.SortItems a0 with
        | (b3, a, .fail e) => ((b3, a, .fail e) : BedF × Ambig × Outcome (Nat × Nat))
        | (b3, a, .ok _) => ({ b3 with itemsCnt := b3.items.length }, a,
            .ok (c, b3.items.length))).1.itemsCnt := by
  rcases hS : b2.SortItems a0 with ⟨b3, a, r⟩
  rw [hS] at h
  cases r with
  | fail e => simp at h
  | ok u =>
    simp only [Outcome.ok.injEq, Prod.mk.injEq] at h
    exact ⟨h.1.symm, h.2.symm, h.2.symm⟩

/-- The statements after the loop return the line counter and the length of
the buffer they leave, which is also the item count they store. -/
theorem finish_counts (chrom : Chrom) (s : Session) (n k : Nat)
    (h : (finish chrom s).2.2 = .ok (n, k)) :
    n = s.loc.cntLines ∧ k = (finish chrom s).1.items.length ∧
    k = (finish chrom s).1.itemsCnt := by
  unfold finish at h ⊢
  split_ifs at h ⊢
  · exact SortItems_counts _ _ _ n k h
  · simp only [Outcome.ok.injEq, Prod.mk.injEq] at h
    exact ⟨h.1.symm, h.2.symm, h.2.symm⟩
  · exact SortItems_counts _ _ _ n k h
  · simp only [Outcome.ok.injEq, Prod.mk.injEq] at h
    exact ⟨h.1.symm, h.2.symm, h.2.symm⟩
  · exact SortItems_counts _ _ _ n k h
  · simp only [Outcome.ok.injEq, Prod.mk.injEq] at h
    exact ⟨h.1.symm, h.2.symm, h.2.symm⟩
  · exact SortItems_counts _ _ _ n k h
  · simp only [Outcome.ok.injEq, Prod.mk.injEq] at h
    exact ⟨h.1.symm, h.2.symm, h.2.symm⟩
  · simp only [Outcome.ok.injEq, Prod.mk.injEq] at h
    exact ⟨h.1.symm, h.2.symm, h.2.symm⟩

/-- In single-chromosome mode the line counter is not the number of records of
the requested chromosome either. Chromosome 1 is requested and every
chromosome has length 100: the first record of chromosome 2 is skipped while
`cCurrID` stays the requested chromosome, so the next record of chromosome 2
is counted (and omitted as exceeding). The three records return `(2, 0)`, the
first two alone `(1, 0)`. -/
theorem InitChild_single_counts_follower :
    ((BedF.new 0).InitChild (chromSingle 1) (some (fun _ => 100)) (Ambig.newDefault eInfo.iSTAT false)
      [⟨"1", 10, 200, 1⟩, ⟨"2", 10, 200, 1⟩, ⟨"2", 20, 300, 1⟩]).2.2 = Outcome.ok (2, 0) ∧
    ((BedF.new 0).InitChild (chromSingle 1) (some (fun _ => 100)) (Ambig.newDefault eInfo.iSTAT false)
      [⟨"1", 10, 200, 1⟩, ⟨"2", 10, 200, 1⟩]).2.2 = Outcome.ok (1, 0) := by
  refine ⟨by decide, by decide⟩

/-- C19, as stated, fails: chromosome 1 is requested and the file holds a
record of chromosome 2 and a record of chromosome 1. Ingestion completes and
returns `(1, 1)`: the first component is 1 although the input has 2 records,
the record of the other chromosome being skipped before it is counted. -/
theorem InitChild_skips_uncounted :
    ((BedF.new 0).InitChild (chromSingle 1) none (Ambig.newDefault eInfo.iSTAT false)
      [⟨"2", 10, 20, 1⟩, ⟨"1", 10, 20, 1⟩]).2.2 = Outcome.ok (1, 1) ∧
    ([⟨"2", 10, 20, 1⟩, ⟨"1", 10, 20, 1⟩] : List Line).length = 2 := by
  refine ⟨by decide, rfl⟩

/-- C19 (amended): whenever `InitChild` completes and returns `(n, k)`, `k` is
the length of the item buffer after all passes and the stored item count, `n`
does not exceed the number of records, and `n` is the number of records when
all chromosomes are requested and every record names a recognised chromosome. -/
theorem InitChild_returns_counts (chrom : Chrom) (cSizes : Option (Nat → Nat)) (m : Nat)
    (ambig : Ambig) (lines : List Line) (n k : Nat)
    (h : ((BedF.new m).InitChild chrom cSizes ambig lines).2.2 = .ok (n, k)) :
    k = ((BedF.new m).InitChild chrom cSizes ambig lines).1.items.length ∧
    k = ((BedF.new m).InitChild chrom cSizes ambig lines).1.itemsCnt ∧
    n ≤ lines.length ∧
    (chrom.StatedAll = true → (∀ ln ∈ lines, chrom.ID ln.ChromName ≠ chrom.UnID) →
      n = lines.length) := by
  cases lines with
  | nil =>
    simp only [BedF.InitChild, Outcome.ok.injEq, Prod.mk.injEq] at h
    obtain ⟨h1, h2⟩ := h
    subst h1
    subst h2
    exact ⟨rfl, rfl, Nat.le_refl _, fun _ _ => rfl⟩
  | cons first rest =>
    have hle := readLines_cnt_le chrom cSizes (first :: rest)
      { bed := BedF.new m, ambig := ambig, loc := initLocals chrom cSizes first }
    have hall := readLines_cnt_all chrom cSizes
    rcases hR : readLines chrom cSizes (first :: rest)
      { bed := BedF.new m, ambig := ambig, loc := initLocals chrom cSizes first } with ⟨S, r⟩
    have ho : (BedF.new m).InitChild chrom cSizes ambig (first :: rest) =
        match r with
        | .fail e => (S.bed, S.ambig, .fail e)
        | .ok _ => finish chrom S := by
      simp only [BedF.InitChild, hR]
      cases r <;> rfl
    rw [ho] at h ⊢
    rw [hR] at hle
    cases r with
    | fail e => simp at h
    | ok u =>
      simp only at h ⊢
      obtain ⟨h1, h2, h3⟩ := finish_counts chrom S n k h
      refine ⟨h2, h3, ?_, ?_⟩
      · rw [h1]
        simpa [initLocals] using hle
      · intro hmode hres
        have := hall hmode (first :: rest)
          { bed := BedF.new m, ambig := ambig, loc := initLocals chrom cSizes first } hres
          (hres first (List.mem_cons_self _ _)) (by rw [hR])
        rw [hR] at this
        rw [h1]
        simpa [initLocals] using this

/-- Witness for C19: three records of chromosomes 1 and 2, the second a copy of
the first, all chromosomes requested; `InitChild` returns `(3, 2)`. -/
theorem InitChild_returns_counts_witness :
    ((BedF.new 0).InitChild chromNumbered none (Ambig.newDefault eInfo.iSTAT false)
      [⟨"1", 10, 20, 1⟩, ⟨"1", 10, 20, 1⟩, ⟨"2", 10, 20, 1⟩]).2.2 = Outcome.ok (3, 2) ∧
    (2 = ((BedF.new 0).InitChild chromNumbered none (Ambig.newDefault eInfo.iSTAT false)
      [⟨"1", 10, 20, 1⟩, ⟨"1", 10, 20, 1⟩, ⟨"2", 10, 20, 1⟩]).1.items.length ∧
    2 = ((BedF.new 0).InitChild chromNumbered none (Ambig.newDefault eInfo.iSTAT false)
      [⟨"1", 10, 20, 1⟩, ⟨"1", 10, 20, 1⟩, ⟨"2", 10, 20, 1⟩]).1.itemsCnt ∧
    3 ≤ ([⟨"1", 10, 20, 1⟩, ⟨"1", 10, 20, 1⟩, ⟨"2", 10, 20, 1⟩] : List Line).length ∧
    (chromNumbered.StatedAll = true →
      (∀ ln ∈ ([⟨"1", 10, 20, 1⟩, ⟨"1", 10, 20, 1⟩, ⟨"2", 10, 20, 1⟩] : List Line),
        chromNumbered.ID ln.ChromName ≠ chromNumbered.UnID) →
      3 = ([⟨"1", 10, 20, 1⟩, ⟨"1", 10, 20, 1⟩, ⟨"2", 10, 20, 1⟩] : List Line).length)) :=
  ⟨by decide,
    InitChild_returns_counts chromNumbered none 0 (Ambig.newDefault eInfo.iSTAT false)
      [⟨"1", 10, 20, 1⟩, ⟨"1", 10, 20, 1⟩, ⟨"2", 10, 20, 1⟩] 3 2 (by decide)⟩

/-! ## What the sort-and-recheck pass keeps -/

/-- `CheckItemPos` leaves `unsortedItems` as it is. -/
theorem CheckItemPos_unsorted (m : Nat) (it : Featr) (rgn : Region) (a : Ambig) :
    (CheckItemPos m it rgn a).2.1.unsortedItems = a.unsortedItems := by
  rcases (CheckItemPos_cases m it rgn a).2.2 with h | ⟨c, h⟩
  · rw [h]
  · rw [h, TreatCase_unsorted]

/-- A property of features that survives a merge (the end of a feature
replaced by the end of another) holds of every feature the recheck loop
leaves, and the loop leaves `unsortedItems` as it is. -/
theorem recheck_keeps (P : Featr → Prop)
    (hP : ∀ f g : Featr, P f → P g → P { f with End := g.End }) (m : Nat) (xs : List Featr) :
    ∀ (prev : Featr) (a : Ambig), P prev → (∀ x ∈ xs, P x) →
      (∀ f ∈ (recheck m prev xs a).1, P f) ∧
      (recheck m prev xs a).2.1.unsortedItems = a.unsortedItems := by
  induction xs with
  | nil =>
    intro prev a hp _
    refine ⟨?_, rfl⟩
    intro f hf
    simp only [recheck, List.mem_singleton] at hf
    rw [hf]
    exact hp
  | cons x xs ih =>
    intro prev a hp hxs
    have hx : P x := hxs x (List.mem_cons_self _ _)
    have hrest : ∀ y ∈ xs, P y := fun y hy => hxs y (List.mem_cons_of_mem _ hy)
    have hc := (CheckItemPos_cases m prev x.toRegion a).1
    have hu := CheckItemPos_unsorted m prev x.toRegion a
    rcases hC : CheckItemPos m prev x.toRegion a with ⟨prev1, a1, r⟩
    rw [hC] at hc hu
    simp only at hc hu
    have hp1 : P prev1 := by
      rcases hc with h | h
      · rw [h]; exact hp
      · rw [h]; exact hP prev x hp hx
    cases r with
    | fail e =>
      have ho : recheck m prev (x :: xs) a = (prev1 :: x :: xs, a1, 0, .fail e) := by
        simp only [recheck, hC]
      rw [ho]
      refine ⟨?_, hu⟩
      intro f hf
      simp only [List.mem_cons] at hf
      rcases hf with hf | hf | hf
      · rw [hf]; exact hp1
      · rw [hf]; exact hx
      · exact hrest f hf
    | ok b =>
      cases b with
      | true =>
        have ho : recheck m prev (x :: xs) a =
            (prev1 :: (recheck m x xs a1).1, (recheck m x xs a1).2.1, (recheck m x xs a1).2.2.1,
              (recheck m x xs a1).2.2.2) := by
          simp only [recheck, hC]
        rw [ho]
        obtain ⟨h1, h2⟩ := ih x a1 hx hrest
        refine ⟨?_, h2.trans hu⟩
        intro f hf
        simp only [List.mem_cons] at hf
        rcases hf with hf | hf
        · rw [hf]; exact hp1
        · exact h1 f hf
      | false =>
        have ho : recheck m prev (x :: xs) a =
            ((recheck m prev1 xs a1).1, (recheck m prev1 xs a1).2.1,
              (recheck m prev1 xs a1).2.2.1 + 1, (recheck m prev1 xs a1).2.2.2) := by
          simp only [recheck, hC]
        rw [ho]
        obtain ⟨h1, h2⟩ := ih prev1 a1 hp1 hrest
        exact ⟨h1, h2.trans hu⟩

/-- The same for the range of one chromosome. -/
theorem recheckRange_keeps (P : Featr → Prop)
    (hP : ∀ f g : Featr, P f → P g → P { f with End := g.End }) (m : Nat) (seg : List Featr)
    (a : Ambig) (hseg : ∀ x ∈ seg, P x) :
    (∀ f ∈ (recheckRange m seg a).1, P f) ∧
    (recheckRange m seg a).2.1.unsortedItems = a.unsortedItems := by
  unfold recheckRange
  cases hs : sortByStart seg with
  | nil => exact ⟨fun f hf => by simp at hf, rfl⟩
  | cons p rest =>
    have hmem : ∀ y, y ∈ p :: rest → P y := by
      intro y hy
      rw [← hs, sortByStart_mem] at hy
      exact hseg y hy
    exact recheck_keeps P hP m rest p a (hmem p (List.mem_cons_self _ _))
      (fun y hy => hmem y (List.mem_cons_of_mem _ hy))

/-- The same for one turn of the chromosome loop of `SortItems`. -/
theorem turn_keeps (P : Featr → Prop)
    (hP : ∀ f g : Featr, P f → P g → P { f with End := g.End }) (m : Nat)
    (cit : Nat × ChromItemsInd) (items : List Featr) (cnt : Nat) (a : Ambig) (rmv : Nat)
    (hit : ∀ x ∈ items, P x) :
    (∀ f ∈ (SortItems.turn m cit items cnt a rmv).2.1, P f) ∧
    (SortItems.turn m cit items cnt a rmv).2.2.2.1.unsortedItems = a.unsortedItems := by
  by_cases h1 : rmv > cit.2.FirstInd ∨ rmv > cit.2.LastInd
  · have ho : SortItems.turn m cit items cnt a rmv = (cit, items, cnt, a, rmv, .fail .OutOfRange) := by
      unfold SortItems.turn
      rw [if_pos h1]
    rw [ho]
    exact ⟨hit, rfl⟩
  · by_cases h2 : cit.2.FirstInd - rmv ≤ cit.2.LastInd - rmv + 1 ∧
        cit.2.LastInd - rmv + 1 ≤ items.length
    · have hk := recheckRange_keeps P hP m
        ((items.drop (cit.2.FirstInd - rmv)).take
          (cit.2.LastInd - rmv + 1 - (cit.2.FirstInd - rmv))) a
        (fun x hx => hit x (List.mem_of_mem_drop (List.mem_of_mem_take hx)))
      rcases hR : recheckRange m ((items.drop (cit.2.FirstInd - rmv)).take
          (cit.2.LastInd - rmv + 1 - (cit.2.FirstInd - rmv))) a with ⟨seg, a1, n, r⟩
      rw [hR] at hk
      have ho : SortItems.turn m cit items cnt a rmv =
          ((cit.1, { cit.2 with FirstInd := cit.2.FirstInd - rmv,
                                LastInd := cit.2.LastInd - rmv - n }),
            items.take (cit.2.FirstInd - rmv) ++ seg ++ items.drop (cit.2.LastInd - rmv + 1),
            cnt - rmv, a1, n, r) := by
        unfold SortItems.turn
        rw [if_neg h1]
        simp only [h2, and_self, ↓reduceIte, hR]
      rw [ho]
      refine ⟨?_, hk.2⟩
      intro f hf
      simp only [List.mem_append] at hf
      rcases hf with (hf | hf) | hf
      · exact hit f (List.mem_of_mem_take hf)
      · exact hk.1 f hf
      · exact hit f (List.mem_of_mem_drop hf)
    · have ho : SortItems.turn m cit items cnt a rmv =
          ((cit.1, { cit.2 with FirstInd := cit.2.FirstInd - rmv, LastInd := cit.2.LastInd - rmv }),
            items, cnt - rmv, a, rmv, .fail .OutOfRange) := by
        unfold SortItems.turn
        rw [if_neg h1]
        simp only [h2, ↓reduceIte]
      rw [ho]
      exact ⟨hit, rfl⟩

/-- The same for the chromosome loop of `SortItems`. -/
theorem loop_keeps (P : Featr → Prop)
    (hP : ∀ f g : Featr, P f → P g → P { f with End := g.End }) (m : Nat)
    (cs : List (Nat × ChromItemsInd)) :
    ∀ (items : List Featr) (cnt : Nat) (a : Ambig) (rmv : Nat), (∀ x ∈ items, P x) →
      (∀ f ∈ (SortItems.loop m cs items cnt a rmv).2.1, P f) ∧
      (SortItems.loop m cs items cnt a rmv).2.2.2.1.unsortedItems = a.unsortedItems := by
  induction cs with
  | nil => intro items cnt a rmv hit; exact ⟨hit, rfl⟩
  | cons cit cs ih =>
    intro items cnt a rmv hit
    have ht := turn_keeps P hP m cit items cnt a rmv hit
    rcases hT : SortItems.turn m cit items cnt a rmv with ⟨cit1, items1, cnt1, a1, n, r⟩
    rw [hT] at ht
    simp only at ht
    cases r with
    | fail e =>
      have ho : SortItems.loop m (cit :: cs) items cnt a rmv =
          (cit1 :: cs, items1, cnt1, a1, .fail e) := by
        simp only [SortItems.loop, hT]
      rw [ho]
      exact ht
    | ok u =>
      have ho : SortItems.loop m (cit :: cs) items cnt a rmv =
          (cit1 :: (SortItems.loop m cs items1 cnt1 a1 n).1,
            (SortItems.loop m cs items1 cnt1 a1 n).2.1,
            (SortItems.loop m cs items1 cnt1 a1 n).2.2.1,
            (SortItems.loop m cs items1 cnt1 a1 n).2.2.2.1,
            (SortItems.loop m cs items1 cnt1 a1 n).2.2.2.2) := by
        simp only [SortItems.loop, hT]
      rw [ho]
      obtain ⟨h1, h2⟩ := ih items1 cnt1 a1 n ht.1
      exact ⟨h1, h2.trans ht.2⟩

/-- `SortItems` keeps a property of features that survives a merge, and leaves
`unsortedItems` as it is. -/
theorem SortItems_keeps (P : Featr → Prop)
    (hP : ∀ f g : Featr, P f → P g → P { f with End := g.End }) (b : BedF) (a : Ambig)
    (hit : ∀ x ∈ b.items, P x) :
    (∀ f ∈ (b.SortItems a).1.items, P f) ∧ (b.SortItems a).2.1.unsortedItems = a.unsortedItems := by
  unfold BedF.SortItems
  exact loop_keeps P hP b.minFtrLen b.chroms b.items b.itemsCnt a 0 hit
/-! ## Single-chromosome mode: only the requested chromosome is stored -/

/-- `InitChild` on a file with at least one line: the loop, then `finish`. -/
theorem InitChild_cons (b : BedF) (chrom : Chrom) (cSizes : Option (Nat → Nat)) (ambig : Ambig)
    (first : Line) (rest : List Line) :
    b.InitChild chrom cSizes ambig (first :: rest) =
      match (readLines chrom cSizes (first :: rest)
          { bed := b, ambig := ambig, loc := initLocals chrom cSizes first }).2 with
      | .fail e =>
        ((readLines chrom cSizes (first :: rest)
            { bed := b, ambig := ambig, loc := initLocals chrom cSizes first }).1.bed,
          (readLines chrom cSizes (first :: rest)
            { bed := b, ambig := ambig, loc := initLocals chrom cSizes first }).1.ambig, .fail e)
      | .ok _ => finish chrom (readLines chrom cSizes (first :: rest)
          { bed := b, ambig := ambig, loc := initLocals chrom cSizes first }).1 := by
  rcases hR : readLines chrom cSizes (first :: rest)
    { bed := b, ambig := ambig, loc := initLocals chrom cSizes first } with ⟨S, r⟩
  simp only [BedF.InitChild, hR]
  cases r <;> rfl

/-- The requested chromosome 1 (length 100) is opened by a record that is
omitted as exceeding, so no region is initialised and `cCurrID` stays 1 while
the records of chromosome 2 are read: the first of them is skipped at the
chromosome change, the second is taken as a record of the open chromosome,
counted, and checked against the last item of a buffer that is still empty,
an access outside the buffer. -/
theorem single_mode_foreign_record_checked :
    ((BedF.new 0).InitChild (chromSingle 1) (some (fun _ => 100))
      (Ambig.newDefault eInfo.iSTAT false)
      [⟨"1", 10, 200, 1⟩, ⟨"2", 10, 20, 1⟩, ⟨"2", 30, 40, 1⟩]).2.2 =
      Outcome.fail Err.OutOfRange ∧
    ((BedF.new 0).InitChild (chromSingle 1) (some (fun _ => 100))
      (Ambig.newDefault eInfo.iSTAT false)
      [⟨"1", 10, 200, 1⟩, ⟨"2", 10, 20, 1⟩, ⟨"2", 30, 40, 1⟩]).1.items = [] := by
  refine ⟨by decide, by decide⟩

theorem flat_append (s t : List (Nat × List (Nat × Int))) : flat (s ++ t) = flat s ++ flat t := by
  induction s with
  | nil => rfl
  | cons p s ih =>
    show p.2 ++ flat (s ++ t) = (p.2 ++ flat s) ++ flat t
    rw [ih, List.append_assoc]

theorem rangesOf_append (s t : List (Nat × List (Nat × Int))) :
    ∀ off, rangesOf off (s ++ t) = rangesOf off s ++ rangesOf (off + (flat s).length) t := by
  induction s with
  | nil => intro off; simp [rangesOf, flat]
  | cons p s ih =>
    intro off
    show (p.1, (⟨true, off, off + p.2.length - 1⟩ : ChromItemsInd)) ::
        rangesOf (off + p.2.length) (s ++ t) =
      ((p.1, (⟨true, off, off + p.2.length - 1⟩ : ChromItemsInd)) ::
        rangesOf (off + p.2.length) s) ++ rangesOf (off + (p.2 ++ flat s).length) t
    rw [ih, List.length_append, Nat.add_assoc]
    rfl

theorem rangesOf_ids (s : List (Nat × List (Nat × Int))) :
    ∀ off, (rangesOf off s).map Prod.fst = s.map Prod.fst := by
  induction s with
  | nil => intro off; rfl
  | cons p s ih => intro off; simp only [rangesOf, List.map_cons, ih]

/-- An entry of `rangesOf` is the entry of one of the segments. -/
theorem rangesOf_mem (s : List (Nat × List (Nat × Int))) :
    ∀ off id r, (id, r) ∈ rangesOf off s →
      ∃ pre seg post, s = pre ++ (id, seg) :: post ∧
        r = ⟨true, off + (flat pre).length, off + (flat pre).length + seg.length - 1⟩ := by
  induction s with
  | nil => intro off id r h; simp [rangesOf] at h
  | cons p s ih =>
    intro off id r h
    simp only [rangesOf, List.mem_cons] at h
    rcases h with h | h
    · refine ⟨[], p.2, s, ?_, ?_⟩
      · simp only [Prod.mk.injEq] at h
        rw [h.1]
        rfl
      · simp only [Prod.mk.injEq] at h
        rw [h.2]
        simp [flat]
    · obtain ⟨pre, seg, post, h1, h2⟩ := ih _ id r h
      refine ⟨p :: pre, seg, post, by rw [h1]; rfl, ?_⟩
      rw [h2]
      simp only [flat, List.length_append, Nat.add_assoc]

theorem insertByID_perm (x : Nat × ChromItemsInd) (l : List (Nat × ChromItemsInd)) :
    (insertByID x l).Perm (x :: l) := by
  induction l with
  | nil => exact List.Perm.refl _
  | cons y ys ih =>
    unfold insertByID
    split_ifs
    · exact (List.Perm.cons y ih).trans (List.Perm.swap x y ys)
    · exact List.Perm.refl _

theorem sortByID_perm (l : List (Nat × ChromItemsInd)) : (sortByID l).Perm l := by
  induction l with
  | nil => exact List.Perm.refl _
  | cons x xs ih => exact (insertByID_perm x (sortByID xs)).trans (List.Perm.cons x ih)

theorem insertByID_sorted (x : Nat × ChromItemsInd) (l : List (Nat × ChromItemsInd))
    (h : l.Pairwise (fun p q => p.1 ≤ q.1)) :
    (insertByID x l).Pairwise (fun p q => p.1 ≤ q.1) := by
  induction l with
  | nil => exact List.pairwise_singleton _ _
  | cons y ys ih =>
    unfold insertByID
    rw [List.pairwise_cons] at h
    split_ifs with hlt
    · rw [List.pairwise_cons]
      refine ⟨?_, ih h.2⟩
      intro z hz
      rcases List.mem_cons.mp ((insertByID_perm x ys).mem_iff.mp hz) with hz | hz
      · rw [hz]
        exact Nat.le_of_lt hlt
      · exact h.1 z hz
    · have hxy : x.1 ≤ y.1 := Nat.le_of_not_lt hlt
      rw [List.pairwise_cons]
      refine ⟨?_, List.pairwise_cons.mpr h⟩
      intro z hz
      rcases List.mem_cons.mp hz with hz | hz
      · rw [hz]; exact hxy
      · exact Nat.le_trans hxy (h.1 z hz)

theorem sortByID_sorted (l : List (Nat × ChromItemsInd)) :
    (sortByID l).Pairwise (fun p q => p.1 ≤ q.1) := by
  induction l with
  | nil => exact List.Pairwise.nil
  | cons x xs ih => exact insertByID_sorted x (sortByID xs) ih

/-- `Sort` on entries with pairwise different ids leaves them strictly
ascending by id. -/
theorem sortByID_strict (l : List (Nat × ChromItemsInd)) (h : (l.map Prod.fst).Nodup) :
    ((sortByID l).map Prod.fst).Pairwise (fun a b => a < b) := by
  have hp : ((sortByID l).map Prod.fst).Perm (l.map Prod.fst) := (sortByID_perm l).map _
  have hn : ((sortByID l).map Prod.fst).Nodup := hp.nodup_iff.mpr h
  have hs : ((sortByID l).map Prod.fst).Pairwise (fun a b => a ≤ b) := by
    rw [List.pairwise_map]
    exact sortByID_sorted l
  have hne : ((sortByID l).map Prod.fst).Pairwise (fun a b => a ≠ b) := hn
  exact (hs.and hne).imp (fun h => Nat.lt_of_le_of_ne h.1 h.2)

theorem blockIds_change (chrom : Chrom) (name : String) (ln : Line) (rest : List Line)
    (h : name ≠ ln.ChromName) :
    blockIds chrom name (ln :: rest) = chrom.ID ln.ChromName :: blockIds chrom ln.ChromName rest := by
  simp only [blockIds, h, ne_eq, not_false_eq_true, ↓reduceIte]

theorem blockIds_same (chrom : Chrom) (name : String) (ln : Line) (rest : List Line)
    (h : name = ln.ChromName) :
    blockIds chrom name (ln :: rest) = blockIds chrom name rest := by
  simp only [blockIds, h, ne_eq, not_true_eq_false, ↓reduceIte]

theorem featr_keyFor (chrom : Chrom) (lines : List Line) (ln : Line) (hln : ln ∈ lines) :
    keyFor chrom lines (chrom.ID ln.ChromName) ln.featr.key :=
  ⟨ln, hln, rfl, rfl, rfl⟩

/-- A turn of the loop on a line that opens a block, all chromosomes being
requested: `AllInv` holds again after it. -/
theorem step_all_inv_change (chrom : Chrom) (cSizes : Option (Nat → Nat)) (lines : List Line)
    (ln : Line) (rest : List Line) (segs : List (Nat × List (Nat × Int))) (cur : List (Nat × Int))
    (S : Session) (hmode : chrom.StatedAll = true) (hln : ln ∈ lines)
    (hres : chrom.ID ln.ChromName ≠ chrom.UnID) (hne : ln.ChromName ≠ "")
    (hname : S.loc.cName ≠ ln.ChromName)
    (hK : AllInv chrom lines (ln :: rest) segs cur S) :
    ∃ segs1 cur1, AllInv chrom lines rest segs1 cur1 (step chrom cSizes ln S).1 := by
  rw [step_all_change chrom cSizes ln S hname hres hmode]
  have hlen : S.bed.items.length = (flat segs).length + cur.length := by
    have := congrArg List.length hK.hKeys
    simpa using this
  have hblk := blockIds_change chrom S.loc.cName ln rest hname
  -- the segments recorded once the open chromosome is closed
  obtain ⟨segs1, hF1, hF2, hF3, hF4⟩ : ∃ segs1 : List (Nat × List (Nat × Int)),
      flat segs1 = flat segs ++ cur ∧
      (if S.loc.currInd ≠ S.loc.firstInd then
          S.bed.AddVal S.loc.cCurrID (ChromItemsInd.new S.loc.firstInd S.loc.currInd)
        else S.bed).chroms = rangesOf 0 segs1 ∧
      (∀ p ∈ segs1, p.2 ≠ [] ∧ ∀ k ∈ p.2, keyFor chrom lines p.1 k) ∧
      (segs1.map Prod.fst ++ [chrom.ID ln.ChromName] ++ blockIds chrom ln.ChromName rest).Nodup := by
    by_cases hc : S.loc.currInd ≠ S.loc.firstInd
    · have hcur : cur ≠ [] := by
        intro h
        apply hc
        rw [hK.hCurr, hK.hFirst, hlen, h]
        rfl
      have hcn : S.loc.cName ≠ "" := fun h => hcur (hK.hStart h).2
      refine ⟨segs ++ [(S.loc.cCurrID, cur)], ?_, ?_, ?_, ?_⟩
      · rw [flat_append]
        simp [flat]
      · rw [if_pos hc, rangesOf_append]
        simp only [BedF.AddVal, hK.hChroms, rangesOf, ChromItemsInd.new, Nat.zero_add]
        rw [hK.hCurr, hK.hFirst, hlen]
      · intro p hp
        rcases List.mem_append.mp hp with hp | hp
        · exact hK.hSegs p hp
        · rw [List.mem_singleton.mp hp]
          exact ⟨hcur, hK.hCur⟩
      · have := hK.hNodup
        rw [hblk, if_neg hcn] at this
        simpa [List.append_assoc] using this
    · have hc : S.loc.currInd = S.loc.firstInd := by simpa using hc
      have hcur : cur = [] := by
        have : cur.length = 0 := by
          have h1 := hK.hCurr
          have h2 := hK.hFirst
          omega
        exact List.length_eq_zero.mp this
      refine ⟨segs, by rw [hcur, List.append_nil], ?_, hK.hSegs, ?_⟩
      · rw [if_neg (by simpa using hc)]
        exact hK.hChroms
      · have := hK.hNodup
        rw [hblk] at this
        refine this.sublist ?_
        rw [List.append_assoc, List.append_assoc]
        exact List.Sublist.append (List.Sublist.refl _) (List.sublist_append_right _ _)
  generalize ho : openChrom cSizes ln (chrom.ID ln.ChromName)
    { S with
      bed := if S.loc.currInd ≠ S.loc.firstInd then
          S.bed.AddVal S.loc.cCurrID (ChromItemsInd.new S.loc.firstInd S.loc.currInd)
        else S.bed,
      loc := { S.loc with
        cName := ln.ChromName,
        needSortChrom := if chrom.ID ln.ChromName < S.loc.cCurrID ∧ chrom.ID ln.ChromName ≠ chrom.M
          then true else S.loc.needSortChrom } } = o
  obtain ⟨h1, _, h3, h4, h5, h6, _, h8⟩ := openChrom_shape cSizes ln (chrom.ID ln.ChromName) _ o ho
  have h1 : o.1.bed.chroms = rangesOf 0 segs1 := h1.trans hF2
  have h3 : o.1.loc.cName = ln.ChromName := h3
  have h4 : o.1.loc.needSortChrom = (if chrom.ID ln.ChromName < S.loc.cCurrID ∧
      chrom.ID ln.ChromName ≠ chrom.M then true else S.loc.needSortChrom) := h4
  have h6 : o.1.loc.firstInd = S.loc.currInd := h6
  have hitems0 : (if S.loc.currInd ≠ S.loc.firstInd then
          S.bed.AddVal S.loc.cCurrID (ChromItemsInd.new S.loc.firstInd S.loc.currInd)
        else S.bed).items = S.bed.items := by
    split_ifs <;> rfl
  have hND : (segs1.map Prod.fst ++ (if o.1.loc.cName = "" then [] else [o.1.loc.cCurrID]) ++
      blockIds chrom o.1.loc.cName rest).Nodup := by
    rw [h3, if_neg hne, h5]
    exact hF4
  have hD : o.1.loc.needSortChrom = true ∨
      descends chrom.M (o.1.loc.cCurrID :: blockIds chrom o.1.loc.cName rest) := by
    rw [h3, h4, h5]
    rcases hK.hDesc with hd | hd
    · left
      rw [hd]
      simp
    · rw [hblk] at hd
      rcases hd with hd | hd
      · left
        rw [if_pos hd]
      · right
        exact hd
  have hflen : o.1.loc.firstInd = (flat segs1).length := by
    rw [h6, hF1, List.length_append, hK.hCurr, hlen]
  rcases h8 with ⟨_, hi, hr, hci⟩ | ⟨_, h0, h1', hi, hr, hci⟩
  · have hi : o.1.bed.items = S.bed.items := hi.trans hitems0
    have hr : o.1.loc.rgn = S.loc.rgn := hr
    have hci : o.1.loc.currInd = S.loc.currInd := hci
    refine ⟨segs1, [], ⟨?_, h1, hflen, ?_, hF3, ?_, hND, hD, ?_, ?_, ?_, ?_⟩⟩
    · rw [hi, hK.hKeys, hF1, List.append_nil]
    · rw [hci, hi, hK.hCurr]
    · intro k hk
      simp at hk
    · rw [h5]; exact hres
    · intro h
      rw [h3] at h
      exact absurd h hne
    · intro _
      rw [h3, h5]
    · intro h
      rw [hr] at h
      rw [hi]
      exact hK.hEmpty h
  · have hi : o.1.bed.items = S.bed.items ++ [ln.featr] := by
      rw [hi, hitems0]
    have hci : o.1.loc.currInd = S.loc.currInd + 1 := hci
    refine ⟨segs1, [ln.featr.key], ⟨?_, h1, hflen, ?_, hF3, ?_, hND, hD, ?_, ?_, ?_, ?_⟩⟩
    · rw [hi, List.map_append, hK.hKeys, hF1]
      rfl
    · rw [hci, hi, hK.hCurr, List.length_append]
      rfl
    · intro k hk
      rw [List.mem_singleton.mp hk, h5]
      exact featr_keyFor chrom lines ln hln
    · rw [h5]; exact hres
    · intro h
      rw [h3] at h
      exact absurd h hne
    · intro _
      rw [h3, h5]
    · intro h
      rw [hr] at h
      simp only [Line.featr] at h
      omega

/-- A turn of the loop on a further line of the open block, all chromosomes
being requested: `AllInv` holds again when the loop goes on. -/
theorem step_all_inv_same (chrom : Chrom) (cSizes : Option (Nat → Nat)) (lines : List Line)
    (ln : Line) (rest : List Line) (segs : List (Nat × List (Nat × Int))) (cur : List (Nat × Int))
    (S : Session) (hln : ln ∈ lines) (hne : ln.ChromName ≠ "")
    (hname : S.loc.cName = ln.ChromName)
    (hK : AllInv chrom lines (ln :: rest) segs cur S)
    (hnext : (step chrom cSizes ln S).2 = .ok .next) :
    ∃ segs1 cur1, AllInv chrom lines rest segs1 cur1 (step chrom cSizes ln S).1 := by
  rw [step_same_name chrom cSizes ln S hname] at hnext ⊢
  have hblk := blockIds_same chrom S.loc.cName ln rest hname
  have hcn : S.loc.cName ≠ "" := by rw [hname]; exact hne
  generalize ho : sameChrom chrom ln S = o at hnext ⊢
  obtain ⟨h1, _, h3, h4, h5, h6, h7⟩ := sameChrom_shape chrom ln S o ho
  have hND : (segs.map Prod.fst ++ (if o.1.loc.cName = "" then [] else [o.1.loc.cCurrID]) ++
      blockIds chrom o.1.loc.cName rest).Nodup := by
    rw [h3, h5, ← hblk]
    exact hK.hNodup
  have hD : o.1.loc.needSortChrom = true ∨
      descends chrom.M (o.1.loc.cCurrID :: blockIds chrom o.1.loc.cName rest) := by
    rw [h3, h4, h5, ← hblk]
    exact hK.hDesc
  have hID : o.1.loc.cCurrID ≠ chrom.UnID := by rw [h5]; exact hK.hID
  have hSt : o.1.loc.cName = "" → segs = [] ∧ cur = [] := by rw [h3]; exact hK.hStart
  have hNm : o.1.loc.cName ≠ "" → chrom.ID o.1.loc.cName = o.1.loc.cCurrID := by
    rw [h3, h5]; exact hK.hName
  have hCh : o.1.bed.chroms = rangesOf 0 segs := h1.trans hK.hChroms
  have hFi : o.1.loc.firstInd = (flat segs).length := h6.trans hK.hFirst
  rcases h7 with ⟨_, hs⟩ | ⟨_, _, h8⟩
  · subst hs
    exact ⟨segs, cur, ⟨hK.hKeys, hK.hChroms, hK.hFirst, hK.hCurr, hK.hSegs, hK.hCur, hND, hD,
      hK.hID, hK.hStart, hK.hName, hK.hEmpty⟩⟩
  · rcases h8 with ⟨_, hi, hr, hci⟩ | ⟨h0, h1', hr, h9⟩
    · refine ⟨segs, cur, ⟨?_, hCh, hFi, ?_, hK.hSegs, ?_, hND, hD, hID, hSt, hNm, ?_⟩⟩
      · rw [hi]; exact hK.hKeys
      · rw [hci, hi]; exact hK.hCurr
      · rw [h5]; exact hK.hCur
      · intro h
        rw [hr] at h
        rw [hi]
        exact hK.hEmpty h
    · have hE : o.1.loc.rgn.End = 0 → o.1.bed.items = [] := by
        intro h
        rw [hr] at h
        simp only [Line.featr] at h
        omega
      rcases h9 with ⟨_, _, he, _⟩ | ⟨init, last, last1, hi0, hl, h10⟩
      · rw [he] at hnext
        simp at hnext
      · have hkey : last1.key = last.key := by
          rcases hl with hl | hl
          · rw [hl]
          · rw [hl]
            rfl
        have hkeys : (init ++ [last1]).map Featr.key = flat segs ++ cur := by
          rw [← hK.hKeys, hi0]
          simp [hkey]
        rcases h10 with ⟨_, hi, hci⟩ | ⟨_, hi, hci⟩
        · refine ⟨segs, cur, ⟨?_, hCh, hFi, ?_, hK.hSegs, ?_, hND, hD, hID, hSt, hNm, hE⟩⟩
          · rw [hi]; exact hkeys
          · rw [hci, hi, hK.hCurr, hi0]
            simp
          · rw [h5]; exact hK.hCur
        · refine ⟨segs, cur ++ [ln.featr.key],
            ⟨?_, hCh, hFi, ?_, hK.hSegs, ?_, hND, hD, hID, ?_, hNm, hE⟩⟩
          · rw [hi, List.map_append, hkeys, List.append_assoc]
            rfl
          · rw [hci, hi, hK.hCurr, hi0]
            simp
          · intro k hk
            rw [h5]
            rcases List.mem_append.mp hk with hk | hk
            · exact hK.hCur k hk
            · rw [List.mem_singleton.mp hk, ← hK.hName hcn, hname]
              exact featr_keyFor chrom lines ln hln
          · intro h
            rw [h3] at h
            exact absurd h hcn

/-- The loop on lines that all name recognised chromosomes, all chromosomes
being requested: `AllInv` holds at the end of a loop that ends normally. -/
theorem readLines_all_inv (chrom : Chrom) (cSizes : Option (Nat → Nat)) (lines : List Line)
    (hmode : chrom.StatedAll = true) (rest : List Line) :
    ∀ (S : Session) (segs : List (Nat × List (Nat × Int))) (cur : List (Nat × Int)),
      AllInv chrom lines rest segs cur S →
      (∀ ln ∈ rest, ln ∈ lines ∧ chrom.ID ln.ChromName ≠ chrom.UnID ∧ ln.ChromName ≠ "") →
      (readLines chrom cSizes rest S).2 = .ok () →
      ∃ segs1 cur1, AllInv chrom lines [] segs1 cur1 (readLines chrom cSizes rest S).1 := by
  induction rest with
  | nil => intro S segs cur hK _ _; exact ⟨segs, cur, hK⟩
  | cons ln rest ih =>
    intro S segs cur hK hall hok
    obtain ⟨hln, hres, hne⟩ := hall ln (List.mem_cons_self _ _)
    have hstop := (step_all_counts chrom cSizes ln S hmode hres hK.hID).2.2
    have hinv : (step chrom cSizes ln S).2 = .ok .next →
        ∃ segs1 cur1, AllInv chrom lines rest segs1 cur1 (step chrom cSizes ln S).1 := by
      intro hnext
      by_cases hname : S.loc.cName ≠ ln.ChromName
      · exact step_all_inv_change chrom cSizes lines ln rest segs cur S hmode hln hres hne hname hK
      · exact step_all_inv_same chrom cSizes lines ln rest segs cur S hln hne
          (by simpa using hname) hK hnext
    rcases hS : step chrom cSizes ln S with ⟨S1, r⟩
    rw [hS] at hstop hinv
    cases r with
    | fail e =>
      rw [readLines_fail chrom cSizes ln rest S S1 e hS] at hok
      simp at hok
    | ok fl =>
      cases fl with
      | stop => exact absurd rfl hstop
      | next =>
        rw [readLines_next chrom cSizes ln rest S S1 hS] at hok ⊢
        obtain ⟨segs1, cur1, hK1⟩ := hinv rfl
        exact ih S1 segs1 cur1 hK1 (fun x hx => hall x (List.mem_cons_of_mem _ hx)) hok

/-- The statements after the loop leave `unsortedItems` set when the loop has
set it. -/
theorem finish_unsorted (chrom : Chrom) (s : Session) (h : s.ambig.unsortedItems = true) :
    (finish chrom s).2.1.unsortedItems = true := by
  have key : ∀ (b2 : BedF) (c : Nat),
      (match b2.SortItems { s.ambig with out := s.ambig.out ++ [Output.UnsortedWarning] } with
        | (b3, a, .fail e) => ((b3, a, .fail e) : BedF × Ambig × Outcome (Nat × Nat))
        | (b3, a, .ok _) => ({ b3 with itemsCnt := b3.items.length }, a,
            .ok (c, b3.items.length))).2.1.unsortedItems = true := by
    intro b2 c
    have hk := (SortItems_keeps (fun _ => True) (fun _ _ _ _ => trivial) b2
      { s.ambig with out := s.ambig.out ++ [Output.UnsortedWarning] } (fun _ _ => trivial)).2
    rcases hS : b2.SortItems { s.ambig with out := s.ambig.out ++ [Output.UnsortedWarning] }
      with ⟨b3, a, r⟩
    rw [hS] at hk
    cases r with
    | fail e => exact hk.trans h
    | ok u => exact hk.trans h
  unfold finish
  split_ifs
  · exact key _ _
  · exact key _ _
  · exact key _ _
  · exact key _ _
  · exact h

/-- The statements after the loop when the items have been read in order and
the chromosomes out of order: the open chromosome is recorded, the index is
sorted by id, and the buffer is as the loop left it. -/
theorem finish_sorts_index (chrom : Chrom) (s : Session) (hend : s.loc.rgn.End ≠ 0)
    (hcur : s.loc.currInd ≠ 0) (huns : s.ambig.unsortedItems = false)
    (hid : s.loc.cCurrID ≠ chrom.UnID) (hns : s.loc.needSortChrom = true) :
    (finish chrom s).1.chroms =
      sortByID (s.bed.chroms ++
        [(s.loc.cCurrID, ChromItemsInd.new s.loc.firstInd s.loc.currInd)]) ∧
    (finish chrom s).1.items = s.bed.items := by
  unfold finish
  rw [if_pos ⟨hend, hcur⟩]
  simp only [huns, Bool.false_eq_true, ↓reduceIte, hid, ne_eq, not_false_eq_true, hns,
    BedF.AddVal, and_self]

/-- The statements after the loop when no item has been stored. -/
theorem finish_empty (chrom : Chrom) (s : Session)
    (h : ¬ (s.loc.rgn.End ≠ 0 ∧ s.loc.currInd ≠ 0)) :
    (finish chrom s).1.chroms = s.bed.chroms ∧ (finish chrom s).1.items = s.bed.items := by
  unfold finish
  rw [if_neg h]
  exact ⟨rfl, rfl⟩

/-- The features of a stretch of the buffer whose starts and scores are those
of records of a chromosome have been appended for that chromosome. -/
theorem range_appendedFor (chrom : Chrom) (lines : List Line) (id : Nat) (items : List Featr)
    (pre seg post : List (Nat × Int)) (hk : items.map Featr.key = pre ++ seg ++ post)
    (hseg : ∀ k ∈ seg, keyFor chrom lines id k) :
    ∀ f ∈ (items.drop pre.length).take seg.length, appendedFor chrom lines id f := by
  intro f hf
  have h1 : f.key ∈ ((items.drop pre.length).take seg.length).map Featr.key :=
    List.mem_map_of_mem _ hf
  rw [List.map_take, List.map_drop, hk, List.append_assoc, List.drop_left, List.take_left] at h1
  exact hseg f.key h1

/-- The session in which the loop starts satisfies `AllInv`. -/
theorem AllInv_start (chrom : Chrom) (cSizes : Option (Nat → Nat)) (m : Nat) (ambig : Ambig)
    (first : Line) (rest : List Line)
    (hres : chrom.ID first.ChromName ≠ chrom.UnID) (hne : first.ChromName ≠ "")
    (hblocks : (blockIds chrom "" (first :: rest)).Nodup)
    (hdesc : descends chrom.M (blockIds chrom "" (first :: rest))) :
    AllInv chrom (first :: rest) (first :: rest) [] []
      { bed := BedF.new m, ambig := ambig, loc := initLocals chrom cSizes first } := by
  refine ⟨rfl, rfl, rfl, rfl, fun p hp => by simp at hp, fun k hk => by simp at hk, ?_, ?_, hres,
    fun _ => ⟨rfl, rfl⟩, fun h => absurd rfl h, fun _ => rfl⟩
  · simpa [initLocals] using hblocks
  · right
    have hb := blockIds_change chrom "" first rest (fun h => hne h.symm)
    show descends chrom.M (chrom.ID first.ChromName :: blockIds chrom "" (first :: rest))
    rw [hb] at hdesc ⊢
    exact Or.inr hdesc

/-- An entry recorded for a segment of the buffer: it lies in the buffer and
its items have been appended for its chromosome. -/
theorem segment_entry (chrom : Chrom) (lines : List Line) (b : BedF) (id : Nat)
    (pre seg post : List (Nat × Int)) (hk : b.items.map Featr.key = pre ++ seg ++ post)
    (hseg : ∀ k ∈ seg, keyFor chrom lines id k) (hpos : 0 < pre.length + seg.length) :
    (⟨true, pre.length, pre.length + seg.length - 1⟩ : ChromItemsInd).FirstInd ≤
      (⟨true, pre.length, pre.length + seg.length - 1⟩ : ChromItemsInd).LastInd + 1 ∧
    (⟨true, pre.length, pre.length + seg.length - 1⟩ : ChromItemsInd).LastInd < b.items.length ∧
    ∀ f ∈ b.rangeItems ⟨true, pre.length, pre.length + seg.length - 1⟩,
      appendedFor chrom lines id f := by
  have hlen : b.items.length = pre.length + seg.length + post.length := by
    have := congrArg List.length hk
    simp only [List.length_map, List.length_append] at this
    exact this
  refine ⟨by simp only; omega, by simp only; omega, ?_⟩
  have hcnt : pre.length + seg.length - 1 + 1 - pre.length = seg.length := by omega
  unfold BedF.rangeItems
  simp only [hcnt]
  exact range_appendedFor chrom lines id b.items pre seg post hk hseg

theorem rangesOf_first_ge (s : List (Nat × List (Nat × Int))) :
    ∀ off, ∀ e ∈ rangesOf off s, off ≤ e.2.FirstInd := by
  induction s with
  | nil => intro off e h; simp [rangesOf] at h
  | cons p s ih =>
    intro off e h
    simp only [rangesOf, List.mem_cons] at h
    rcases h with h | h
    · rw [h]
    · exact Nat.le_trans (Nat.le_add_right _ _) (ih _ e h)

/-- The entries of non-empty consecutive segments lie one after the other. -/
theorem rangesOf_ordered (s : List (Nat × List (Nat × Int))) (hs : ∀ p ∈ s, p.2 ≠ []) :
    ∀ off, (rangesOf off s).Pairwise (fun p q => p.2.LastInd < q.2.FirstInd) := by
  induction s with
  | nil => intro off; exact List.Pairwise.nil
  | cons p s ih =>
    intro off
    have hp : 0 < p.2.length := List.length_pos.mpr (hs p (List.mem_cons_self _ _))
    simp only [rangesOf]
    rw [List.pairwise_cons]
    refine ⟨?_, ih (fun q hq => hs q (List.mem_cons_of_mem _ hq)) _⟩
    intro e he
    have := rangesOf_first_ge s _ e he
    simp only
    omega

/-- The entries of non-empty consecutive segments end before the end of the
last segment. -/
theorem rangesOf_last_lt (s : List (Nat × List (Nat × Int))) (hs : ∀ p ∈ s, p.2 ≠ []) :
    ∀ off, ∀ e ∈ rangesOf off s, e.2.LastInd < off + (flat s).length := by
  induction s with
  | nil => intro off e h; simp [rangesOf] at h
  | cons p s ih =>
    intro off e h
    have hp : 0 < p.2.length := List.length_pos.mpr (hs p (List.mem_cons_self _ _))
    simp only [rangesOf, List.mem_cons] at h
    simp only [flat, List.length_append]
    rcases h with h | h
    · rw [h]
      simp only
      omega
    · have := ih (fun q hq => hs q (List.mem_cons_of_mem _ hq)) _ e h
      omega

/-- The item counts of the entries of non-empty consecutive segments add up to
the length of the segments. -/
theorem rangesOf_counts (s : List (Nat × List (Nat × Int))) (hs : ∀ p ∈ s, p.2 ≠ []) :
    ∀ off, ((rangesOf off s).map (fun e => e.2.ItemsCount)).sum = (flat s).length := by
  induction s with
  | nil => intro off; rfl
  | cons p s ih =>
    intro off
    have hp : 0 < p.2.length := List.length_pos.mpr (hs p (List.mem_cons_self _ _))
    simp only [rangesOf, List.map_cons, List.sum_cons, flat, List.length_append]
    rw [ih (fun q hq => hs q (List.mem_cons_of_mem _ hq))]
    simp only [ChromItemsInd.ItemsCount]
    omega

/-- C15, as stated, fails: all chromosomes are requested and the file
presents the blocks of chromosomes X, Y and M (ids 88, 89 and 77, the id of M
being the mitochondrial exception), so out of ascending order of id. The index
is not sorted: its entries keep the order of the file, ids 88, 89, 77. -/
theorem mitochondrial_block_not_sorted :
    ((BedF.new 0).InitChild chromLettered none (Ambig.newDefault eInfo.iSTAT false)
      [⟨"X", 10, 20, 1⟩, ⟨"Y", 10, 20, 1⟩, ⟨"M", 10, 20, 1⟩]).2.2 = Outcome.ok (3, 3) ∧
    ((BedF.new 0).InitChild chromLettered none (Ambig.newDefault eInfo.iSTAT false)
      [⟨"X", 10, 20, 1⟩, ⟨"Y", 10, 20, 1⟩, ⟨"M", 10, 20, 1⟩]).1.chroms =
      [(88, ⟨true, 0, 0⟩), (89, ⟨true, 1, 1⟩), (77, ⟨true, 2, 2⟩)] ∧
    blockIds chromLettered "" [⟨"X", 10, 20, 1⟩, ⟨"Y", 10, 20, 1⟩, ⟨"M", 10, 20, 1⟩] =
      [88, 89, 77] := by
  refine ⟨by decide, by decide, by decide⟩

/-- C15 (amended): all chromosomes are requested, every record names a
recognised chromosome, the chromosome blocks have pairwise different ids, and
some block has an id below the id of the block before it that is not the
mitochondrial id. When ingestion completes without raising `unsortedItems`,
the loop has raised `needSortChrom`, the entries of the index are strictly
ascending by id, every entry is a stretch of the buffer whose items have been
appended for records of its chromosome, the stretches lie apart from each
other, and their item counts add up to the length of the buffer. -/
theorem out_of_order_blocks_sorted (chrom : Chrom) (cSizes : Option (Nat → Nat)) (m : Nat)
    (ambig : Ambig) (first : Line) (rest : List Line) (n k : Nat)
    (hmode : chrom.StatedAll = true)
    (hres : ∀ ln ∈ first :: rest, chrom.ID ln.ChromName ≠ chrom.UnID)
    (hne : ∀ ln ∈ first :: rest, ln.ChromName ≠ "")
    (hblocks : (blockIds chrom "" (first :: rest)).Nodup)
    (hdesc : descends chrom.M (blockIds chrom "" (first :: rest)))
    (hok : ((BedF.new m).InitChild chrom cSizes ambig (first :: rest)).2.2 = .ok (n, k))
    (hsorted :
      ((BedF.new m).InitChild chrom cSizes ambig (first :: rest)).2.1.unsortedItems = false) :
    (readLines chrom cSizes (first :: rest)
      { bed := BedF.new m, ambig := ambig,
        loc := initLocals chrom cSizes first }).1.loc.needSortChrom = true ∧
    (((BedF.new m).InitChild chrom cSizes ambig (first :: rest)).1.chroms.map Prod.fst).Pairwise
      (fun a b => a < b) ∧
    (∀ id r, (id, r) ∈ ((BedF.new m).InitChild chrom cSizes ambig (first :: rest)).1.chroms →
      r.FirstInd ≤ r.LastInd + 1 ∧
      r.LastInd < ((BedF.new m).InitChild chrom cSizes ambig (first :: rest)).1.items.length ∧
      ∀ f ∈ ((BedF.new m).InitChild chrom cSizes ambig (first :: rest)).1.rangeItems r,
        appendedFor chrom (first :: rest) id f) ∧
    ((BedF.new m).InitChild chrom cSizes ambig (first :: rest)).1.chroms.Pairwise
      (fun p q => p.2.LastInd < q.2.FirstInd ∨ q.2.LastInd < p.2.FirstInd) ∧
    (((BedF.new m).InitChild chrom cSizes ambig (first :: rest)).1.chroms.map
      (fun e => e.2.ItemsCount)).sum =
      ((BedF.new m).InitChild chrom cSizes ambig (first :: rest)).1.items.length := by
  have hstart := AllInv_start chrom cSizes m ambig first rest (hres first (List.mem_cons_self _ _))
    (hne first (List.mem_cons_self _ _)) hblocks hdesc
  have hloop := readLines_all_inv chrom cSizes (first :: rest) hmode (first :: rest)
    { bed := BedF.new m, ambig := ambig, loc := initLocals chrom cSizes first } [] [] hstart
    (fun ln h => ⟨h, hres ln h, hne ln h⟩)
  rw [InitChild_cons] at hok hsorted ⊢
  generalize readLines chrom cSizes (first :: rest)
    { bed := BedF.new m, ambig := ambig, loc := initLocals chrom cSizes first } = Rr
    at hok hsorted hloop ⊢
  obtain ⟨R, r⟩ := Rr
  cases r with
  | fail e => simp at hok
  | ok u =>
    obtain ⟨segs, cur, hK⟩ := hloop rfl
    have hK : AllInv chrom (first :: rest) [] segs cur R := hK
    simp only at hok hsorted ⊢
    have hns : R.loc.needSortChrom = true := by
      rcases hK.hDesc with h | h
      · exact h
      · simp [blockIds, descends] at h
    have hu : R.ambig.unsortedItems = false := by
      cases hb : R.ambig.unsortedItems with
      | false => rfl
      | true =>
        rw [finish_unsorted chrom R hb] at hsorted
        simp at hsorted
    have hlen : R.bed.items.length = (flat segs).length + cur.length := by
      have := congrArg List.length hK.hKeys
      simpa using this
    have hsegs : ∀ p ∈ segs, p.2 ≠ [] := fun p hp => (hK.hSegs p hp).1
    refine ⟨hns, ?_⟩
    by_cases hfin : R.loc.rgn.End ≠ 0 ∧ R.loc.currInd ≠ 0
    · obtain ⟨hc, hi⟩ := finish_sorts_index chrom R hfin.1 hfin.2 hu hK.hID hns
      have hitems : R.bed.items ≠ [] := by
        intro h
        apply hfin.2
        rw [hK.hCurr, h]
        rfl
      have hcn : R.loc.cName ≠ "" := by
        intro h
        obtain ⟨h1, h2⟩ := hK.hStart h
        rw [h1, h2] at hlen
        exact hitems (List.length_eq_zero.mp hlen)
      have hperm := sortByID_perm (R.bed.chroms ++
        [(R.loc.cCurrID, ChromItemsInd.new R.loc.firstInd R.loc.currInd)])
      have hpos : 0 < (flat segs).length + cur.length := by
        rw [← hlen]
        exact List.length_pos.mpr hitems
      have hlast : ChromItemsInd.new R.loc.firstInd R.loc.currInd =
          ⟨true, (flat segs).length, (flat segs).length + cur.length - 1⟩ := by
        unfold ChromItemsInd.new
        rw [hK.hFirst, hK.hCurr, hlen]
      have hrange : ∀ r, (finish chrom R).1.rangeItems r = R.bed.rangeItems r := by
        intro r
        unfold BedF.rangeItems
        rw [hi]
      simp only [hrange]
      rw [hc, hi]
      rw [hlast, hK.hChroms] at hperm ⊢
      refine ⟨?_, ?_, ?_, ?_⟩
      · apply sortByID_strict
        rw [List.map_append, rangesOf_ids]
        have := hK.hNodup
        rw [if_neg hcn] at this
        simpa [blockIds] using this
      · intro id r hmem
        rcases List.mem_append.mp (hperm.mem_iff.mp hmem) with h | h
        · obtain ⟨pre, seg, post, h1, h2⟩ := rangesOf_mem segs 0 id r h
          have hseg := hK.hSegs (id, seg) (by rw [h1]; simp)
          have hkeys : R.bed.items.map Featr.key = flat pre ++ seg ++ (flat post ++ cur) := by
            rw [hK.hKeys, h1, flat_append]
            simp [flat, List.append_assoc]
          rw [h2, Nat.zero_add]
          exact segment_entry chrom (first :: rest) R.bed id (flat pre) seg (flat post ++ cur)
            hkeys hseg.2 (by have h3 : 0 < seg.length := List.length_pos.mpr hseg.1; omega)
        · simp only [List.mem_singleton, Prod.mk.injEq] at h
          rw [h.1, h.2]
          exact segment_entry chrom (first :: rest) R.bed R.loc.cCurrID (flat segs) cur []
            (by rw [hK.hKeys, List.append_nil]) hK.hCur hpos
      · refine (hperm.pairwise_iff ?_).mpr ?_
        · intro p q h
          exact h.symm
        · rw [List.pairwise_append]
          refine ⟨(rangesOf_ordered segs hsegs 0).imp (fun h => Or.inl h),
            List.pairwise_singleton _ _, ?_⟩
          intro e he e2 he2
          rw [List.mem_singleton.mp he2]
          have := rangesOf_last_lt segs hsegs 0 e he
          left
          simp only
          omega
      · have hsum := (hperm.map (fun e => e.2.ItemsCount)).sum_eq
        rw [hsum, List.map_append, List.sum_append, rangesOf_counts segs hsegs 0, hlen]
        simp only [List.map_cons, List.map_nil, List.sum_cons, List.sum_nil,
          ChromItemsInd.ItemsCount]
        omega
    · obtain ⟨hc, hi⟩ := finish_empty chrom R hfin
      have hitems : R.bed.items = [] := by
        by_cases h : R.loc.rgn.End = 0
        · exact hK.hEmpty h
        · have h2 : R.loc.currInd = 0 := by
            by_contra h3
            exact hfin ⟨h, h3⟩
          rw [hK.hCurr] at h2
          exact List.length_eq_zero.mp h2
      have hseg0 : segs = [] := by
        cases segs with
        | nil => rfl
        | cons p t =>
          exfalso
          have h1 := List.length_pos.mpr (hsegs p (List.mem_cons_self _ _))
          rw [hitems] at hlen
          simp only [flat, List.length_append, List.length_nil] at hlen
          omega
      rw [hc, hi, hK.hChroms, hseg0, hitems]
      simp [rangesOf]

/-- Witness for C15: the block of chromosome 2 comes before the block of
chromosome 1; the index ends with the ids 1, 2 in ascending order and counts
the four items of the buffer. -/
theorem out_of_order_blocks_sorted_witness :
    (((BedF.new 0).InitChild chromNumbered none (Ambig.newDefault eInfo.iSTAT false)
      (⟨"2", 20, 30, 1⟩ :: [⟨"2", 50, 60, 1⟩, ⟨"1", 10, 20, 1⟩, ⟨"1", 30, 40, 1⟩])).1.chroms.map
        Prod.fst).Pairwise (fun a b => a < b) ∧
    (((BedF.new 0).InitChild chromNumbered none (Ambig.newDefault eInfo.iSTAT false)
      (⟨"2", 20, 30, 1⟩ :: [⟨"2", 50, 60, 1⟩, ⟨"1", 10, 20, 1⟩, ⟨"1", 30, 40, 1⟩])).1.chroms.map
        (fun e => e.2.ItemsCount)).sum =
      ((BedF.new 0).InitChild chromNumbered none (Ambig.newDefault eInfo.iSTAT false)
        (⟨"2", 20, 30, 1⟩ :: [⟨"2", 50, 60, 1⟩, ⟨"1", 10, 20, 1⟩, ⟨"1", 30, 40, 1⟩])).1.items.length := by
  have h := out_of_order_blocks_sorted chromNumbered none 0 (Ambig.newDefault eInfo.iSTAT false)
    ⟨"2", 20, 30, 1⟩ [⟨"2", 50, 60, 1⟩, ⟨"1", 10, 20, 1⟩, ⟨"1", 30, 40, 1⟩] 4 4 rfl
    (by decide) (by decide) (by decide) (Or.inl ⟨by decide, by decide⟩) (by decide) (by decide)
  exact ⟨h.2.1, h.2.2.2.2⟩

/-! ## The Covered case -/

/-- The first matching case when the previous interval contains the candidate. -/
theorem firstCase_covered (m : Nat) (it rgn : Region)
    (hne : rgn ≠ it) (hlen : ¬ rgn.Length < m) (hadj : rgn.Start ≠ it.End)
    (hcov : it.Start ≤ rgn.Start ∧ rgn.End ≤ it.End) :
    firstCase m it rgn = some eCase.COVER := by
  have h1 : ¬ (rgn.Start = it.Start ∧ rgn.End = it.End) := fun h => hne ((Region.eq_iff rgn it).2 h)
  have h2 : ¬ rgn.End - rgn.Start < m := hlen
  unfold firstCase
  rw [if_neg h1, if_neg h2, if_neg hadj, if_pos (Or.inl hcov)]

/-- C27: for a previous feature `it` that fully contains the candidate `rgn`,
the two not equal, the candidate not too short and not adjacent:
`CheckItemPos` calls `TreatCase(COVER)` once (the engine after the call is
the engine after that `TreatCase`), the previous feature is returned
unmodified whatever the decision, and the candidate is accepted on Accept and
on Handle (Merge), rejected on Omit and OmitSilent; on Abort the exception of
the case leaves the function. -/
theorem CheckItemPos_covered (m : Nat) (it : Featr) (rgn : Region) (a : Ambig)
    (hne : rgn ≠ it.toRegion) (hlen : ¬ rgn.Length < m) (hadj : rgn.Start ≠ it.End)
    (hcov : it.Start ≤ rgn.Start ∧ rgn.End ≤ it.End) :
    (CheckItemPos m it rgn a).1 = it ∧
    (CheckItemPos m it rgn a).2.1 = (a.TreatCase eCase.COVER).1 ∧
    (∀ r : Int, (a.TreatCase eCase.COVER).2 = Outcome.ok r →
      (CheckItemPos m it rgn a).2.2 = Outcome.ok (decide (r ≥ 0))) ∧
    ((a.cases eCase.COVER).Type_ = eAction.ACCEPT ∨ (a.cases eCase.COVER).Type_ = eAction.HANDLE →
      (CheckItemPos m it rgn a).2.2 = Outcome.ok true) ∧
    ((a.cases eCase.COVER).Type_ = eAction.OMIT ∨
        (a.cases eCase.COVER).Type_ = eAction.OMIT_SILENT →
      (CheckItemPos m it rgn a).2.2 = Outcome.ok false) ∧
    ((a.cases eCase.COVER).Type_ = eAction.ABORTING →
      (CheckItemPos m it rgn a).2.2 = Outcome.fail (Err.LineExcept eCase.COVER)) := by
  have hf := firstCase_covered m it.toRegion rgn hne hlen hadj hcov
  have hr := TreatCase_result a eCase.COVER
  unfold Ambig.act at hr
  have hnc : ¬ (eCase.COVER = eCase.ADJAC ∨ eCase.COVER = eCase.CROSS) := by decide
  have key : ∀ r : Int, (a.TreatCase eCase.COVER).2 = Outcome.ok r →
      CheckItemPos m it rgn a = (it, (a.TreatCase eCase.COVER).1, Outcome.ok (decide (r ≥ 0))) :=
    fun r h => CheckItemPos_plain m it rgn a eCase.COVER r hf hnc h
  have hfail : ∀ e, (a.TreatCase eCase.COVER).2 = Outcome.fail e →
      CheckItemPos m it rgn a = (it, (a.TreatCase eCase.COVER).1, Outcome.fail e) := by
    intro e h
    rw [CheckItemPos_eq, hf]
    simp only [h]
  have h12 : (CheckItemPos m it rgn a).1 = it ∧
      (CheckItemPos m it rgn a).2.1 = (a.TreatCase eCase.COVER).1 := by
    cases h : (a.TreatCase eCase.COVER).2 with
    | ok r => rw [key r h]; exact ⟨rfl, rfl⟩
    | fail e => rw [hfail e h]; exact ⟨rfl, rfl⟩
  refine ⟨h12.1, h12.2, fun r h => by rw [key r h], fun h => ?_, fun h => ?_, fun h => ?_⟩
  · rcases h with h | h
    · rw [h] at hr
      rw [key 1 hr]
      rfl
    · rw [h] at hr
      rw [key 0 hr]
      rfl
  · rcases h with h | h
    · rw [h] at hr
      rw [key (-1) hr]
      rfl
    · rw [h] at hr
      rw [key (-1) hr]
      rfl
  · rw [h] at hr
    rw [hfail _ hr]

/-- Witness for C27: previous feature `[10,50)`, candidate `[20,30)`; under
the default policy (COVER is Omit) the candidate is rejected and the previous
feature stays `[10,50)`. -/
theorem CheckItemPos_covered_witness :
    (CheckItemPos 0 ⟨⟨10, 50⟩, 1⟩ ⟨20, 30⟩ (Ambig.newDefault eInfo.iSTAT false)).1 = ⟨⟨10, 50⟩, 1⟩ ∧
    (CheckItemPos 0 ⟨⟨10, 50⟩, 1⟩ ⟨20, 30⟩ (Ambig.newDefault eInfo.iSTAT false)).2.2 =
      Outcome.ok false := by
  have h := CheckItemPos_covered 0 ⟨⟨10, 50⟩, 1⟩ ⟨20, 30⟩ (Ambig.newDefault eInfo.iSTAT false)
    (by decide) (by decide) (by decide) (by decide)
  exact ⟨h.1, h.2.2.2.2.1 (Or.inl rfl)⟩

/-! ## The constructor of the engine -/

/-- C29: the code at every call of the constructor. The nine counters are 0
and the actions of COVER, SHORT, SCORE and EXCEED are Omit, those of DUPL,
CROSS, ADJAC and DIFFSZ the arguments; the action of NEGL is never assigned
and keeps the zero byte of `memset`, which is Accept, not Omit: `TreatCase` on
NEGL returns +1. -/
theorem Ambig_new_leaves_NEGL_accept (info : eInfo) (alarm : Bool)
    (dupl crossANDadjac diffsz : eAction) :
    (∀ c, ((Ambig.new info alarm dupl crossANDadjac diffsz).cases c).Count = 0) ∧
    ((Ambig.new info alarm dupl crossANDadjac diffsz).cases eCase.COVER).Type_ = eAction.OMIT ∧
    ((Ambig.new info alarm dupl crossANDadjac diffsz).cases eCase.SHORT).Type_ = eAction.OMIT ∧
    ((Ambig.new info alarm dupl crossANDadjac diffsz).cases eCase.SCORE).Type_ = eAction.OMIT ∧
    ((Ambig.new info alarm dupl crossANDadjac diffsz).cases eCase.EXCEED).Type_ = eAction.OMIT ∧
    ((Ambig.new info alarm dupl crossANDadjac diffsz).cases eCase.DUPL).Type_ = dupl ∧
    ((Ambig.new info alarm dupl crossANDadjac diffsz).cases eCase.CROSS).Type_ = crossANDadjac ∧
    ((Ambig.new info alarm dupl crossANDadjac diffsz).cases eCase.ADJAC).Type_ = crossANDadjac ∧
    ((Ambig.new info alarm dupl crossANDadjac diffsz).cases eCase.DIFFSZ).Type_ = diffsz ∧
    ((Ambig.new info alarm dupl crossANDadjac diffsz).cases eCase.NEGL).Type_ = eAction.ACCEPT ∧
    ((Ambig.new info alarm dupl crossANDadjac diffsz).TreatCase eCase.NEGL).2 = Outcome.ok 1 := by
  refine ⟨fun c => by cases c <;> rfl, rfl, rfl, rfl, rfl, rfl, rfl, rfl, rfl, rfl, ?_⟩
  rw [TreatCase_result]
  rfl

/-- C21: the code at the failing input. The three features of
`bedThreeFeatures` are sorted and do not conflict. Extended by 10, the second
is merged into the first and marked as removed; the third is kept, which adds
the removal to `allrmvCnt` and resets `rmvCnt`, so the compaction under
`if(rmvCnt)` is skipped: the buffer keeps its 3 items, the marked one among
them, the range of the chromosome is still `[0,2]`, and the stored item count
is 2. -/
theorem Extend_leaves_marked_item :
    ((bedThreeFeatures.Extend ⟨false, false⟩ 255 10 none eInfo.iSTAT).2.2.2 = Outcome.ok true) ∧
    ((bedThreeFeatures.Extend ⟨false, false⟩ 255 10 none eInfo.iSTAT).1.items
      = [⟨⟨90, 310⟩, 1⟩, ⟨⟨UNDEFINED, 310⟩, 1⟩, ⟨⟨490, 610⟩, 1⟩]) ∧
    ((bedThreeFeatures.Extend ⟨false, false⟩ 255 10 none eInfo.iSTAT).1.chroms
      = [(1, ⟨true, 0, 2⟩)]) ∧
    ((bedThreeFeatures.Extend ⟨false, false⟩ 255 10 none eInfo.iSTAT).1.itemsCnt = 2) := by
  refine ⟨by decide, by decide, by decide, by decide⟩

/-- C25: the code at the failing input. All chromosomes are requested; the
file holds `[10,20)` of chromosome 1 twice and one record of the unrecognised
chromosome `Un`. `InitChild` returns `(2, 1)`: the record of `Un` is not among
the 2 counted. With the Duplicate counter at 1 the statistics compute
`2 - 1 - 1 = 0` for the negligible chromosomes, and print no line for them,
although one record names an unrecognised chromosome. -/
theorem negligible_records_not_reconciled :
    ((BedF.new 0).InitChild chromNumbered none (Ambig.newDefault eInfo.iSTAT false)
      [⟨"1", 10, 20, 1⟩, ⟨"1", 10, 20, 1⟩, ⟨"Un", 5, 6, 1⟩]).2.2 = Outcome.ok (2, 1) ∧
    ((BedF.new 0).Init chromNumbered none (Ambig.newDefault eInfo.iSTAT false)
      [⟨"1", 10, 20, 1⟩, ⟨"1", 10, 20, 1⟩, ⟨"Un", 5, 6, 1⟩] true true).2.2.2 = Outcome.ok () ∧
    (((BedF.new 0).Init chromNumbered none (Ambig.newDefault eInfo.iSTAT false)
      [⟨"1", 10, 20, 1⟩, ⟨"1", 10, 20, 1⟩, ⟨"Un", 5, 6, 1⟩] true true).2.2.1.cases
        eCase.NEGL).Count = 0 ∧
    ((BedF.new 0).Init chromNumbered none (Ambig.newDefault eInfo.iSTAT false)
      [⟨"1", 10, 20, 1⟩, ⟨"1", 10, 20, 1⟩, ⟨"Un", 5, 6, 1⟩] true true).2.2.1.out =
      [Output.FileName, Output.TotalCount 2 true, Output.Entity 1 false, Output.Comma,
        Output.FromWhich, Output.EOL, Output.CaseStat eCase.DUPL 1 2,
        Output.TotalAccepted 1 2, Output.EOL] ∧
    (([⟨"1", 10, 20, 1⟩, ⟨"1", 10, 20, 1⟩, ⟨"Un", 5, 6, 1⟩] : List Line).filter
      (fun ln => decide (chromNumbered.ID ln.ChromName = chromNumbered.UnID))).length = 1 := by
  refine ⟨by decide, by decide, by decide, by decide, by decide⟩

/-! ## The counter of the negligible chromosomes in the statistics -/

theorem chrlenWrap_add (x : Int) (y : Nat) :
    chrlenWrap ((chrlenWrap x : Nat) + (y : Int)) = chrlenWrap (x + y) := by
  unfold chrlenWrap
  have h : ((x % 4294967296).toNat : Int) = x % 4294967296 :=
    Int.toNat_of_nonneg (Int.emod_nonneg x (by decide))
  rw [h]
  congr 1
  omega

/-- The loop that adds the counters of the accepted cases, in unsigned
arithmetic: the sum of those counters is added. -/
theorem negl_fold (a : Ambig) (l : List eCase) :
    ∀ x : Int,
      l.foldl (fun n c => if (a.cases c).Type_ = eAction.ACCEPT
          then chrlenWrap ((n : Int) + (a.cases c).Count) else n) (chrlenWrap x) =
        chrlenWrap (x + (((l.filter (fun c => decide ((a.cases c).Type_ = eAction.ACCEPT))).map
          (fun c => (a.cases c).Count)).sum : Nat)) := by
  induction l with
  | nil => intro x; simp
  | cons c l ih =>
    intro x
    by_cases h : (a.cases c).Type_ = eAction.ACCEPT
    · simp only [List.foldl_cons, h, ↓reduceIte, decide_True, List.filter_cons_of_pos,
        List.map_cons, List.sum_cons]
      rw [chrlenWrap_add, ih]
      congr 1
      push_cast
      omega
    · simp only [List.foldl_cons, h, ↓reduceIte, decide_False, Bool.false_eq_true,
        not_false_eq_true, List.filter_cons_of_neg]
      exact ih x

theorem PrintCaseStat_cases (a : Ambig) (c : eCase) (n : Nat) :
    (a.PrintCaseStat c n).cases = a.cases := by
  unfold Ambig.PrintCaseStat
  split_ifs <;> rfl

theorem PrintCaseStat_fold_cases (l : List eCase) (n : Nat) :
    ∀ a : Ambig, (l.foldl (fun x c => x.PrintCaseStat c n) a).cases = a.cases := by
  induction l with
  | nil => intro a; rfl
  | cons c l ih =>
    intro a
    rw [List.foldl_cons, ih, PrintCaseStat_cases]

/-- The second part of `Ambig::Print` when the run is for all chromosomes, the
statistics are asked for, the count of ambiguities has not been computed
before and is not zero: the cases after it are those before it, NEGL apart,
whose counter is the one computed by the loop. -/
theorem PrintStat_cases (a : Ambig) (unID : Nat) (title : Option String) (T A : Nat) (res : Bool)
    (hinfo : a.info = eInfo.iSTAT) (hcache : a.count = none)
    (hcnt : (eCase.all.map (fun c => (a.cases c).Count)).sum ≠ 0) :
    (a.PrintStat unID unID title T A res).2 = true ∧
    (a.PrintStat unID unID title T A res).1.cases = fun d =>
      if d = eCase.NEGL then
        ⟨(a.cases d).Type_,
          chrlenWrap ((T : Int) - A - ((eCase.all.map (fun c => (a.cases c).Count)).sum : Nat) +
            a.sumAccepted)⟩
      else a.cases d := by
  have hC : a.Count = ({ a with count := some (eCase.all.map (fun c => (a.cases c).Count)).sum },
      (eCase.all.map (fun c => (a.cases c).Count)).sum) := by
    unfold Ambig.Count
    rw [hcache]
  have key : ∀ a2 : Ambig, a2.cases = a.cases →
      ((let a3 := eCase.all.foldl (fun x c => x.PrintCaseStat c T) a2
        let negl := (eCase.all.dropLast).foldl
          (fun n c => if (a3.cases c).Type_ = eAction.ACCEPT
            then chrlenWrap (n + (a3.cases c).Count) else n)
          (chrlenWrap ((T : Int) - A - (eCase.all.map (fun c => (a.cases c).Count)).sum))
        let a31 : Ambig := { a3 with cases := fun d =>
          if d = eCase.NEGL then ⟨(a3.cases d).Type_, negl⟩ else a3.cases d }
        a31.PrintCaseStat eCase.NEGL T).cases = fun d =>
      if d = eCase.NEGL then
        ⟨(a.cases d).Type_,
          chrlenWrap ((T : Int) - A - ((eCase.all.map (fun c => (a.cases c).Count)).sum : Nat) +
            a.sumAccepted)⟩
      else a.cases d) := by
    intro a2 h2
    simp only [PrintCaseStat_cases, PrintCaseStat_fold_cases, h2]
    funext d
    by_cases hd : d = eCase.NEGL
    · simp only [hd, ↓reduceIte]
      congr 1
      exact negl_fold a eCase.all.dropLast _
    · simp only [hd, ↓reduceIte]
  unfold Ambig.PrintStat
  rw [hC]
  simp only [hinfo, hcnt, ne_eq, not_false_eq_true, and_self, ↓reduceIte, true_and]
  cases title with
  | none => exact key _ rfl
  | some t => exact key _ rfl

theorem PrintItems_fields (a : Ambig) (unID cID : Nat) (p : Bool) (n : Nat) :
    (a.PrintItems unID cID p n).cases = a.cases ∧ (a.PrintItems unID cID p n).count = a.count ∧
    (a.PrintItems unID cID p n).info = a.info := by
  unfold Ambig.PrintItems
  cases p <;> simp only [Bool.false_eq_true, ↓reduceIte] <;> split_ifs <;> exact ⟨rfl, rfl, rfl⟩

/-- `Ambig::Print` at the statistics level with a total that is not zero (and,
with a title, differs from the accepted count): the first part only writes,
then the second part runs. -/
theorem Print_eq_PrintStat (a : Ambig) (unID cID : Nat) (title : Option String) (T A : Nat)
    (hinfo : a.info = eInfo.iSTAT) (hT : T ≠ 0) (htitle : title = none ∨ T ≠ A) :
    ∃ (a1 : Ambig) (res : Bool), a.Print unID cID title T A = a1.PrintStat unID cID title T A res ∧
      a1.cases = a.cases ∧ a1.count = a.count ∧ a1.info = a.info := by
  have h1 : ¬ (a.info.toNat ≤ eInfo.iLAC.toNat ∨ T = 0) := by
    rw [hinfo]
    intro h
    rcases h with h | h
    · exact absurd h (by decide)
    · exact hT h
  unfold Ambig.Print
  rw [if_neg h1]
  cases title with
  | none =>
    simp only
    refine ⟨_, true, rfl, ?_, ?_, ?_⟩
    · rw [(PrintItems_fields _ _ _ _ _).1]
      split_ifs <;> rfl
    · rw [(PrintItems_fields _ _ _ _ _).2.1]
      split_ifs <;> rfl
    · rw [(PrintItems_fields _ _ _ _ _).2.2]
      split_ifs <;> rfl
  | some t =>
    have h2 : ¬ (a.info.toNat < eInfo.iEXT.toNat ∨ T = A) := by
      rw [hinfo]
      intro h
      rcases h with h | h
      · exact absurd h (by decide)
      · rcases htitle with ht | ht
        · exact absurd ht (by simp)
        · exact ht h
    simp only
    rw [if_neg h2]
    have h3 : ¬ (a.info = eInfo.iEXT) := by rw [hinfo]; decide
    simp only [h3, ↓reduceIte]
    exact ⟨_, false, rfl, rfl, rfl, rfl⟩

theorem sum_all_cases (a : Ambig) :
    (eCase.all.map (fun c => (a.cases c).Count)).sum = a.sumOthers + (a.cases eCase.NEGL).Count := by
  simp only [eCase.all, Ambig.sumOthers, otherCases, List.map_cons, List.map_nil, List.sum_cons,
    List.sum_nil]
  omega

/-- C24, as stated, fails, in four ways. (1) With `totalItemCnt = 0`, `Print`
returns at once: on the default engine after one Duplicate, `Print` for all
chromosomes (id 255) with totals `0, 0` leaves the NEGL counter 0, while the
formula gives `0 - 0 - 1`. (2) `Count()` adds the NEGL counter too: after one
NEGL and one Duplicate, totals `5, 3` give `5 - 3 - 2 = 0`, the formula
`5 - 3 - 1 = 1`. (3) `Count()` is computed once and kept: a second `Print`
after a further Duplicate, totals `6, 4`, gives `6 - 4 - 1 = 1`, the formula
`6 - 4 - 2 = 0`. (4) With a title and equal totals `Print` returns before the
statistics: after one Duplicate and one DifferentSize (accepted), totals
`5, 5` leave the NEGL counter 0, the formula gives `5 - 5 - 2 + 1 = -1`. -/
theorem Print_NEGL_not_always_formula :
    (((((Ambig.newDefault eInfo.iSTAT false).TreatCase eCase.DUPL).1.Print 255 255 none 0 0).1.cases
      eCase.NEGL).Count = 0 ∧
      ((Ambig.newDefault eInfo.iSTAT false).TreatCase eCase.DUPL).1.sumOthers = 1) ∧
    ((((((Ambig.newDefault eInfo.iSTAT false).TreatCase eCase.NEGL).1.TreatCase eCase.DUPL).1.Print
      255 255 none 5 3).1.cases eCase.NEGL).Count = 0 ∧
      (((Ambig.newDefault eInfo.iSTAT false).TreatCase eCase.NEGL).1.TreatCase
        eCase.DUPL).1.sumOthers = 1) ∧
    (((((((Ambig.newDefault eInfo.iSTAT false).TreatCase eCase.DUPL).1.Print 255 255 none 5 4).1.TreatCase
      eCase.DUPL).1.Print 255 255 none 6 4).1.cases eCase.NEGL).Count = 1 ∧
      ((((Ambig.newDefault eInfo.iSTAT false).TreatCase eCase.DUPL).1.Print 255 255 none 5 4).1.TreatCase
        eCase.DUPL).1.sumOthers = 2) ∧
    ((((((Ambig.newDefault eInfo.iSTAT false).TreatCase eCase.DUPL).1.TreatCase eCase.DIFFSZ).1.Print
      255 255 (some "after extension") 5 5).1.cases eCase.NEGL).Count = 0 ∧
      (((Ambig.newDefault eInfo.iSTAT false).TreatCase eCase.DUPL).1.TreatCase
        eCase.DIFFSZ).1.sumOthers = 2 ∧
      (((Ambig.newDefault eInfo.iSTAT false).TreatCase eCase.DUPL).1.TreatCase
        eCase.DIFFSZ).1.sumAccepted = 1) := by
  refine ⟨⟨by decide, by decide⟩, ⟨by decide, by decide⟩, ⟨by decide, by decide⟩,
    ⟨by decide, by decide, by decide⟩⟩

/-- C24 (amended): `Print` for all chromosomes (`cID` is `UnID`) at the
statistics level, with a total that is not zero (and, when a title is given,
differs from the accepted count), on an engine whose count of ambiguities has
not been computed before, whose NEGL counter is 0 and whose other counters
are not all 0: the NEGL counter becomes
`totalItemCnt - acceptItemCnt - (sum of the other eight counters) +
(sum of the counters of those of them configured as Accept)`, computed in
unsigned arithmetic, so it is that number whenever it fits; the action of NEGL
and the other eight cases are left as they are. -/
theorem Print_sets_NEGL (a : Ambig) (unID cID : Nat) (title : Option String) (T A : Nat)
    (hid : cID = unID) (hinfo : a.info = eInfo.iSTAT) (hT : T ≠ 0) (htitle : title = none ∨ T ≠ A)
    (hcache : a.count = none) (hneg : (a.cases eCase.NEGL).Count = 0) (hcnt : a.sumOthers ≠ 0) :
    ((a.Print unID cID title T A).1.cases eCase.NEGL).Count =
      chrlenWrap ((T : Int) - A - a.sumOthers + a.sumAccepted) ∧
    (∀ n : Nat, (T : Int) - A - a.sumOthers + a.sumAccepted = n → n < 4294967296 →
      ((a.Print unID cID title T A).1.cases eCase.NEGL).Count = n) ∧
    ((a.Print unID cID title T A).1.cases eCase.NEGL).Type_ = (a.cases eCase.NEGL).Type_ ∧
    (∀ c, c ≠ eCase.NEGL → (a.Print unID cID title T A).1.cases c = a.cases c) := by
  obtain ⟨a1, res, hP, hc, hk, hi⟩ := Print_eq_PrintStat a unID cID title T A hinfo hT htitle
  have hsum : (eCase.all.map (fun c => (a1.cases c).Count)).sum = a.sumOthers := by
    rw [hc, sum_all_cases, hneg, Nat.add_zero]
  have hS := (PrintStat_cases a1 unID title T A res (hi.trans hinfo) (hk.trans hcache)
    (by rw [hsum]; exact hcnt)).2
  have hacc : a1.sumAccepted = a.sumAccepted := by
    unfold Ambig.sumAccepted
    rw [hc]
  rw [hsum, hacc, hc] at hS
  rw [hP, hid, hS]
  refine ⟨by simp, ?_, by simp, fun c hc => by simp [hc]⟩
  intro n hn hlt
  simp only [↓reduceIte]
  rw [hn]
  unfold chrlenWrap
  omega

/-- Witness for C24 (amended): the default engine after one Duplicate (Omit)
and one DifferentSize (Accept), totals `5, 3`: the NEGL counter becomes
`5 - 3 - 2 + 1 = 1`. -/
theorem Print_sets_NEGL_witness :
    (((((Ambig.newDefault eInfo.iSTAT false).TreatCase eCase.DUPL).1.TreatCase eCase.DIFFSZ).1.Print
      255 255 none 5 3).1.cases eCase.NEGL).Count = 1 :=
  (Print_sets_NEGL (((Ambig.newDefault eInfo.iSTAT false).TreatCase eCase.DUPL).1.TreatCase
    eCase.DIFFSZ).1 255 255 none 5 3 rfl (by decide) (by decide) (Or.inl rfl) (by decide) (by decide)
    (by decide)).2.1 1 (by decide) (by decide)

/-! ## Cross-reference of two chromosome collections -/

theorem FindChrom_eq (cs : List (Nat × ChromItemsInd)) (cID : Nat) :
    Chroms.FindChrom cs cID = decide (cID ∈ cs.map Prod.fst) := by
  induction cs with
  | nil => simp [Chroms.FindChrom]
  | cons it rest ih =>
    unfold Chroms.FindChrom
    by_cases h : it.1 = cID
    · simp [h]
    · rw [if_neg h, ih]
      have h' : ¬ cID = it.1 := fun e => h e.symm
      simp [h']

theorem own_entries (obj : List (Nat × ChromItemsInd)) (printWarn : Bool)
    (l : List (Nat × ChromItemsInd)) (c : Nat) (out : List Output) :
    (Chroms.SetCommonChroms.own obj printWarn l c out).1
        = l.map (markTreated (obj.map Prod.fst)) ∧
      (Chroms.SetCommonChroms.own obj printWarn l c out).2.1
        = c + commonEntries l (obj.map Prod.fst) := by
  induction l generalizing c out with
  | nil => simp [Chroms.SetCommonChroms.own, commonEntries]
  | cons it rest ih =>
    unfold Chroms.SetCommonChroms.own
    by_cases h : it.1 ∈ obj.map Prod.fst
    · have hf : Chroms.FindChrom obj it.1 = true := by rw [FindChrom_eq]; exact decide_eq_true h
      simp only [hf, if_true]
      refine ⟨?_, ?_⟩
      · rw [(ih (c + 1) out).1]
        simp [markTreated, h]
      · rw [(ih (c + 1) out).2]
        simp only [commonEntries, List.filter_cons, decide_eq_true h, if_true, List.length_cons]
        omega
    · have hf : Chroms.FindChrom obj it.1 = false := by rw [FindChrom_eq]; exact decide_eq_false h
      simp only [hf]
      cases printWarn
      · refine ⟨?_, ?_⟩
        · simp only [Bool.false_eq_true, if_false]
          rw [(ih c out).1]
          simp [markTreated, h]
        · simp only [Bool.false_eq_true, if_false]
          rw [(ih c out).2]
          simp only [commonEntries, List.filter_cons, decide_eq_false h, Bool.false_eq_true,
            if_false]
      · refine ⟨?_, ?_⟩
        · simp only [Bool.false_eq_true, if_false, if_true]
          rw [(ih c _).1]
          simp [markTreated, h]
        · simp only [Bool.false_eq_true, if_false, if_true]
          rw [(ih c _).2]
          simp only [commonEntries, List.filter_cons, decide_eq_false h, Bool.false_eq_true,
            if_false]

theorem compared_entries (this : List (Nat × ChromItemsInd)) (printWarn : Bool)
    (l : List (Nat × ChromItemsInd)) (out : List Output) :
    (Chroms.SetCommonChroms.compared this printWarn l out).1
      = l.map (clearAbsent (this.map Prod.fst)) := by
  induction l generalizing out with
  | nil => simp [Chroms.SetCommonChroms.compared]
  | cons it rest ih =>
    unfold Chroms.SetCommonChroms.compared
    by_cases h : it.1 ∈ this.map Prod.fst
    · have hf : Chroms.FindChrom this it.1 = true := by rw [FindChrom_eq]; exact decide_eq_true h
      simp only [hf, Bool.not_true, Bool.false_eq_true, if_false]
      rw [ih]
      simp [clearAbsent, h]
    · have hf : Chroms.FindChrom this it.1 = false := by
        rw [FindChrom_eq]; exact decide_eq_false h
      simp only [hf, Bool.not_false, if_true]
      rw [ih]
      simp [clearAbsent, h]

theorem markTreated_ids (ids : List Nat) (l : List (Nat × ChromItemsInd)) :
    (l.map (markTreated ids)).map Prod.fst = l.map Prod.fst := by
  induction l with
  | nil => rfl
  | cons it rest ih => simp [markTreated]

/-- What `SetCommonChroms` leaves and returns, in closed form. -/
theorem SetCommonChroms_eq (A B : List (Nat × ChromItemsInd))
    (printWarn throwExcept : Bool) (out : List Output) :
    (Chroms.SetCommonChroms A B printWarn throwExcept out).1
        = A.map (markTreated (B.map Prod.fst)) ∧
      (Chroms.SetCommonChroms A B printWarn throwExcept out).2.1
        = B.map (clearAbsent (A.map Prod.fst)) ∧
      (Chroms.SetCommonChroms A B printWarn throwExcept out).2.2.2
        = (if commonEntries A (B.map Prod.fst) = 0 ∧ throwExcept = true
            then Outcome.fail Err.NoCommonChroms
            else Outcome.ok (commonEntries A (B.map Prod.fst))) := by
  have h1 := own_entries B printWarn A 0 out
  unfold Chroms.SetCommonChroms
  generalize Chroms.SetCommonChroms.own B printWarn A 0 out = X at h1 ⊢
  obtain ⟨this1, commCnt, out1⟩ := X
  simp only at h1 ⊢
  obtain ⟨h1a, h1b⟩ := h1
  have h2 := compared_entries this1 printWarn B out1
  generalize Chroms.SetCommonChroms.compared this1 printWarn B out1 = Y at h2 ⊢
  obtain ⟨obj1, out2⟩ := Y
  simp only at h2 ⊢
  rw [h1a, markTreated_ids] at h2
  rw [Nat.zero_add] at h1b
  subst h1b
  by_cases hc : commonEntries A (B.map Prod.fst) = 0
  · cases throwExcept
    · simp [hc, h1a, h2]
    · simp [hc, h1a, h2]
  · simp [hc, h1a, h2]

theorem commonEntries_zero_iff (A : List (Nat × ChromItemsInd)) (ids : List Nat) :
    commonEntries A ids = 0 ↔ ∀ cID, ¬ (cID ∈ A.map Prod.fst ∧ cID ∈ ids) := by
  unfold commonEntries
  rw [List.length_eq_zero, List.filter_eq_nil_iff]
  constructor
  · intro h cID ⟨h1, h2⟩
    obtain ⟨p, hp, rfl⟩ := List.mem_map.mp h1
    exact h p hp (decide_eq_true h2)
  · intro h p hp hd
    exact h p.1 ⟨List.mem_map_of_mem _ hp, of_decide_eq_true hd⟩

/-- C23, counterexample: called with `throwExcept` unset on two collections
without a common chromosome, `SetCommonChroms` does not fail: it prints the
warning and returns 0. -/
theorem SetCommonChroms_no_common_returns :
    (∀ cID, ¬ (cID ∈ [(1, (⟨true, 0, 0⟩ : ChromItemsInd))].map Prod.fst ∧
        cID ∈ [(2, (⟨true, 0, 0⟩ : ChromItemsInd))].map Prod.fst)) ∧
      Chroms.SetCommonChroms [(1, ⟨true, 0, 0⟩)] [(2, ⟨true, 0, 0⟩)] false false []
        = ([(1, ⟨false, 0, 0⟩)], [(2, ⟨false, 0, 0⟩)],
            [Output.Warning Err.NoCommonChroms], Outcome.ok 0) := by
  refine ⟨?_, by decide⟩
  intro cID h
  simp at h
  omega

/-- C23, amended: `SetCommonChroms` fails with the "no common chromosomes"
error if and only if it is called with `throwExcept` set and no chromosome
id is present in both collections; it fails with no other error. -/
theorem SetCommonChroms_fails_iff (A B : List (Nat × ChromItemsInd))
    (printWarn throwExcept : Bool) (out : List Output) :
    ((Chroms.SetCommonChroms A B printWarn throwExcept out).2.2.2
          = Outcome.fail Err.NoCommonChroms ↔
        (throwExcept = true ∧
          ∀ cID, ¬ (cID ∈ A.map Prod.fst ∧ cID ∈ B.map Prod.fst))) ∧
      (∀ e, (Chroms.SetCommonChroms A B printWarn throwExcept out).2.2.2 = Outcome.fail e →
        e = Err.NoCommonChroms) := by
  obtain ⟨_, _, h3⟩ := SetCommonChroms_eq A B printWarn throwExcept out
  rw [h3]
  have hz := commonEntries_zero_iff A (B.map Prod.fst)
  by_cases hc : commonEntries A (B.map Prod.fst) = 0 ∧ throwExcept = true
  · rw [if_pos hc]
    refine ⟨⟨fun _ => ⟨hc.2, hz.mp hc.1⟩, fun _ => rfl⟩, ?_⟩
    intro e he
    injection he with he
    exact he.symm
  · rw [if_neg hc]
    refine ⟨⟨fun h => (by cases h), fun h => absurd ⟨hz.mpr h.2, h.1⟩ hc⟩, ?_⟩
    intro e he
    cases he

/-- C23, amended, with `throwExcept` set on two collections without a common
chromosome: the call fails with the "no common chromosomes" error. -/
theorem SetCommonChroms_fails_iff_witness :
    (Chroms.SetCommonChroms [(1, ⟨true, 0, 0⟩)] [(2, ⟨true, 0, 0⟩)] false true []).2.2.2
      = Outcome.fail Err.NoCommonChroms :=
  (SetCommonChroms_fails_iff [(1, ⟨true, 0, 0⟩)] [(2, ⟨true, 0, 0⟩)] false true []).1.mpr
    ⟨rfl, by intro cID h; simp at h; omega⟩

/-! ## Every stored feature is well formed -/

/-- `CheckItemPos` changes the end of the previous feature only in the
Adjacent and the Crossed case, where the start of the previous feature lies
before the end of the candidate or the candidate starts at its end. -/
theorem CheckItemPos_end (m : Nat) (it : Featr) (rgn : Region) (a : Ambig) :
    (CheckItemPos m it rgn a).1 = it ∨
    ((CheckItemPos m it rgn a).1 = { it with End := rgn.End } ∧
      (rgn.Start = it.End ∨ it.Start < rgn.End)) := by
  have h := CheckItemPos_eq m it rgn a
  cases hf : firstCase m it.toRegion rgn with
  | none =>
    rw [hf] at h
    rw [h]
    exact Or.inl rfl
  | some c =>
    rw [hf] at h
    cases h5 : (a.TreatCase c).2 with
    | fail e =>
      simp only [h5] at h
      rw [h]
      exact Or.inl rfl
    | ok r =>
      by_cases hc : c = eCase.ADJAC ∨ c = eCase.CROSS
      · have hgeo : rgn.Start = it.End ∨ it.Start < rgn.End := by
          rcases hc with hc | hc
          · subst hc
            unfold firstCase at hf
            split_ifs at hf with h1 h2 h3 h4 h5 <;> first | exact Or.inl h3 | simp at hf
          · subst hc
            unfold firstCase at hf
            split_ifs at hf with h1 h2 h3 h4 h5 <;> first | exact Or.inr h5.2 | simp at hf
        simp only [h5, hc, ↓reduceIte] at h
        rw [h]
        unfold CorrectItemsEnd
        split_ifs
        · exact Or.inl rfl
        · exact Or.inr ⟨rfl, hgeo⟩
        · exact Or.inl rfl
      · simp only [h5, hc, ↓reduceIte] at h
        rw [h]
        exact Or.inl rfl

/-- The feature `CheckItemPos` leaves is well formed when the previous feature
is and the candidate has `Start < End`. -/
theorem CheckItemPos_wellFormed (lines : List Line) (m : Nat) (it : Featr) (rgn : Region)
    (a : Ambig) (hit : wellFormedFrom lines it) (hr : rgn.Start < rgn.End) :
    wellFormedFrom lines (CheckItemPos m it rgn a).1 := by
  rcases CheckItemPos_end m it rgn a with h | ⟨h, hg⟩
  · rw [h]; exact hit
  · rw [h]
    obtain ⟨hv, hp⟩ := hit
    refine ⟨?_, hp⟩
    show it.Start < rgn.End
    rcases hg with hg | hg
    · omega
    · exact hg

/-- A property of features that every call of `CheckItemPos` on two features
having it leaves to the previous feature holds of every feature the recheck
loop leaves. -/
theorem recheck_keeps_checked (P : Featr → Prop)
    (hP : ∀ (m : Nat) (f g : Featr) (a : Ambig), P f → P g → P (CheckItemPos m f g.toRegion a).1)
    (m : Nat) (xs : List Featr) :
    ∀ (prev : Featr) (a : Ambig), P prev → (∀ x ∈ xs, P x) →
      ∀ f ∈ (recheck m prev xs a).1, P f := by
  induction xs with
  | nil =>
    intro prev a hp _ f hf
    simp only [recheck, List.mem_singleton] at hf
    rw [hf]
    exact hp
  | cons x xs ih =>
    intro prev a hp hxs
    have hx : P x := hxs x (List.mem_cons_self _ _)
    have hrest : ∀ y ∈ xs, P y := fun y hy => hxs y (List.mem_cons_of_mem _ hy)
    have hc := hP m prev x a hp hx
    rcases hC : CheckItemPos m prev x.toRegion a with ⟨prev1, a1, r⟩
    rw [hC] at hc
    simp only at hc
    cases r with
    | fail e =>
      have ho : recheck m prev (x :: xs) a = (prev1 :: x :: xs, a1, 0, .fail e) := by
        simp only [recheck, hC]
      rw [ho]
      intro f hf
      simp only [List.mem_cons] at hf
      rcases hf with hf | hf | hf
      · rw [hf]; exact hc
      · rw [hf]; exact hx
      · exact hrest f hf
    | ok b =>
      cases b with
      | true =>
        have ho : recheck m prev (x :: xs) a =
            (prev1 :: (recheck m x xs a1).1, (recheck m x xs a1).2.1, (recheck m x xs a1).2.2.1,
              (recheck m x xs a1).2.2.2) := by
          simp only [recheck, hC]
        rw [ho]
        have h1 := ih x a1 hx hrest
        intro f hf
        simp only [List.mem_cons] at hf
        rcases hf with hf | hf
        · rw [hf]; exact hc
        · exact h1 f hf
      | false =>
        have ho : recheck m prev (x :: xs) a =
            ((recheck m prev1 xs a1).1, (recheck m prev1 xs a1).2.1,
              (recheck m prev1 xs a1).2.2.1 + 1, (recheck m prev1 xs a1).2.2.2) := by
          simp only [recheck, hC]
        rw [ho]
        exact ih prev1 a1 hc hrest

/-- The same for the range of one chromosome. -/
theorem recheckRange_keeps_checked (P : Featr → Prop)
    (hP : ∀ (m : Nat) (f g : Featr) (a : Ambig), P f → P g → P (CheckItemPos m f g.toRegion a).1)
    (m : Nat) (seg : List Featr) (a : Ambig) (hseg : ∀ x ∈ seg, P x) :
    ∀ f ∈ (recheckRange m seg a).1, P f := by
  unfold recheckRange
  cases hs : sortByStart seg with
  | nil => exact fun f hf => by simp at hf
  | cons p rest =>
    have hmem : ∀ y, y ∈ p :: rest → P y := by
      intro y hy
      rw [← hs, sortByStart_mem] at hy
      exact hseg y hy
    exact recheck_keeps_checked P hP m rest p a (hmem p (List.mem_cons_self _ _))
      (fun y hy => hmem y (List.mem_cons_of_mem _ hy))

/-- The same for one turn of the chromosome loop of `SortItems`. -/
theorem turn_keeps_checked (P : Featr → Prop)
    (hP : ∀ (m : Nat) (f g : Featr) (a : Ambig), P f → P g → P (CheckItemPos m f g.toRegion a).1)
    (m : Nat) (cit : Nat × ChromItemsInd) (items : List Featr) (cnt : Nat) (a : Ambig) (rmv : Nat)
    (hit : ∀ x ∈ items, P x) :
    ∀ f ∈ (SortItems.turn m cit items cnt a rmv).2.1, P f := by
  by_cases h1 : rmv > cit.2.FirstInd ∨ rmv > cit.2.LastInd
  · have ho : SortItems.turn m cit items cnt a rmv = (cit, items, cnt, a, rmv, .fail .OutOfRange) := by
      unfold SortItems.turn
      rw [if_pos h1]
    rw [ho]
    exact hit
  · by_cases h2 : cit.2.FirstInd - rmv ≤ cit.2.LastInd - rmv + 1 ∧
        cit.2.LastInd - rmv + 1 ≤ items.length
    · have hk := recheckRange_keeps_checked P hP m
        ((items.drop (cit.2.FirstInd - rmv)).take
          (cit.2.LastInd - rmv + 1 - (cit.2.FirstInd - rmv))) a
        (fun x hx => hit x (List.mem_of_mem_drop (List.mem_of_mem_take hx)))
      rcases hR : recheckRange m ((items.drop (cit.2.FirstInd - rmv)).take
          (cit.2.LastInd - rmv + 1 - (cit.2.FirstInd - rmv))) a with ⟨seg, a1, n, r⟩
      rw [hR] at hk
      have ho : SortItems.turn m cit items cnt a rmv =
          ((cit.1, { cit.2 with FirstInd := cit.2.FirstInd - rmv,
                                LastInd := cit.2.LastInd - rmv - n }),
            items.take (cit.2.FirstInd - rmv) ++ seg ++ items.drop (cit.2.LastInd - rmv + 1),
            cnt - rmv, a1, n, r) := by
        unfold SortItems.turn
        rw [if_neg h1]
        simp only [h2, and_self, ↓reduceIte, hR]
      rw [ho]
      intro f hf
      simp only [List.mem_append] at hf
      rcases hf with (hf | hf) | hf
      · exact hit f (List.mem_of_mem_take hf)
      · exact hk f hf
      · exact hit f (List.mem_of_mem_drop hf)
    · have ho : SortItems.turn m cit items cnt a rmv =
          ((cit.1, { cit.2 with FirstInd := cit.2.FirstInd - rmv, LastInd := cit.2.LastInd - rmv }),
            items, cnt - rmv, a, rmv, .fail .OutOfRange) := by
        unfold SortItems.turn
        rw [if_neg h1]
        simp only [h2, ↓reduceIte]
      rw [ho]
      exact hit

/-- The same for the chromosome loop of `SortItems`. -/
theorem loop_keeps_checked (P : Featr → Prop)
    (hP : ∀ (m : Nat) (f g : Featr) (a : Ambig), P f → P g → P (CheckItemPos m f g.toRegion a).1)
    (m : Nat) (cs : List (Nat × ChromItemsInd)) :
    ∀ (items : List Featr) (cnt : Nat) (a : Ambig) (rmv : Nat), (∀ x ∈ items, P x) →
      ∀ f ∈ (SortItems.loop m cs items cnt a rmv).2.1, P f := by
  induction cs with
  | nil => intro items cnt a rmv hit; exact hit
  | cons cit cs ih =>
    intro items cnt a rmv hit
    have ht := turn_keeps_checked P hP m cit items cnt a rmv hit
    rcases hT : SortItems.turn m cit items cnt a rmv with ⟨cit1, items1, cnt1, a1, n, r⟩
    rw [hT] at ht
    simp only at ht
    cases r with
    | fail e =>
      have ho : SortItems.loop m (cit :: cs) items cnt a rmv =
          (cit1 :: cs, items1, cnt1, a1, .fail e) := by
        simp only [SortItems.loop, hT]
      rw [ho]
      exact ht
    | ok u =>
      have ho : SortItems.loop m (cit :: cs) items cnt a rmv =
          (cit1 :: (SortItems.loop m cs items1 cnt1 a1 n).1,
            (SortItems.loop m cs items1 cnt1 a1 n).2.1,
            (SortItems.loop m cs items1 cnt1 a1 n).2.2.1,
            (SortItems.loop m cs items1 cnt1 a1 n).2.2.2.1,
            (SortItems.loop m cs items1 cnt1 a1 n).2.2.2.2) := by
        simp only [SortItems.loop, hT]
      rw [ho]
      exact ih items1 cnt1 a1 n ht

/-- The same for `SortItems`. -/
theorem SortItems_keeps_checked (P : Featr → Prop)
    (hP : ∀ (m : Nat) (f g : Featr) (a : Ambig), P f → P g → P (CheckItemPos m f g.toRegion a).1)
    (b : BedF) (a : Ambig) (hit : ∀ x ∈ b.items, P x) :
    ∀ f ∈ (b.SortItems a).1.items, P f := by
  unfold BedF.SortItems
  exact loop_keeps_checked P hP b.minFtrLen b.chroms b.items b.itemsCnt a 0 hit

/-- The same for the buffer as `finish` stores it after the pass. -/
theorem SortItems_stored_keeps_checked (P : Featr → Prop)
    (hP : ∀ (m : Nat) (f g : Featr) (a : Ambig), P f → P g → P (CheckItemPos m f g.toRegion a).1)
    (b2 : BedF) (a0 : Ambig) (c : Nat) (hit : ∀ x ∈ b2.items, P x) :
    ∀ f ∈ (match b2.SortItems a0 with
        | (b3, a, .fail e) => ((b3, a, .fail e) : BedF × Ambig × Outcome (Nat × Nat))
        | (b3, a, .ok _) => ({ b3 with itemsCnt := b3.items.length }, a,
            .ok (c, b3.items.length))).1.items, P f := by
  have hk := SortItems_keeps_checked P hP b2 a0 hit
  rcases hS : b2.SortItems a0 with ⟨b3, a, r⟩
  rw [hS] at hk
  cases r with
  | fail e => exact hk
  | ok u => exact hk

/-- The same for the statements after the loop. -/
theorem finish_keeps_checked (P : Featr → Prop)
    (hP : ∀ (m : Nat) (f g : Featr) (a : Ambig), P f → P g → P (CheckItemPos m f g.toRegion a).1)
    (chrom : Chrom) (s : Session) (hit : ∀ x ∈ s.bed.items, P x) :
    ∀ f ∈ (finish chrom s).1.items, P f := by
  unfold finish
  split_ifs
  · exact SortItems_stored_keeps_checked P hP _ _ _ hit
  · exact hit
  · exact SortItems_stored_keeps_checked P hP _ _ _ hit
  · exact hit
  · exact SortItems_stored_keeps_checked P hP _ _ _ hit
  · exact hit
  · exact SortItems_stored_keeps_checked P hP _ _ _ hit
  · exact hit
  · exact hit

/-- `CheckLastPos` leaves the buffer as it was or with its last item replaced
by the feature that `CheckItemPos` leaves. -/
theorem CheckLastPos_items (b : BedF) (rgn : Region) (a : Ambig) :
    (b.CheckLastPos rgn a).1.items = b.items ∨
    ∃ init last, b.items = init ++ [last] ∧
      (b.CheckLastPos rgn a).1.items = init ++ [(CheckItemPos b.minFtrLen last rgn a).1] := by
  cases hl : b.items.getLast? with
  | none =>
    have ho : b.CheckLastPos rgn a = (b, a, .fail .OutOfRange) := by
      unfold BedF.CheckLastPos
      simp only [hl]
    rw [ho]
    exact Or.inl rfl
  | some last =>
    rcases hC : CheckItemPos b.minFtrLen last rgn a with ⟨last1, a1, r⟩
    have ho : b.CheckLastPos rgn a = ({ b with items := b.items.dropLast ++ [last1] }, a1, r) := by
      unfold BedF.CheckLastPos
      simp only [hl, hC]
    rw [ho]
    refine Or.inr ⟨b.items.dropLast, last, ?_, ?_⟩
    · have := List.dropLast_append_getLast? last (by simpa using hl)
      exact this.symm
    · rw [hC]

/-- `CheckLastPos` on a buffer of well-formed features, for a candidate with
`Start < End`, leaves a buffer of well-formed features. -/
theorem CheckLastPos_wellFormed (lines : List Line) (b : BedF) (rgn : Region) (a : Ambig)
    (hit : ∀ f ∈ b.items, wellFormedFrom lines f) (hr : rgn.Start < rgn.End) :
    ∀ f ∈ (b.CheckLastPos rgn a).1.items, wellFormedFrom lines f := by
  rcases CheckLastPos_items b rgn a with h | ⟨init, last, hi, h⟩
  · rw [h]; exact hit
  · rw [h]
    intro f hf
    simp only [List.mem_append, List.mem_singleton] at hf
    rcases hf with hf | hf
    · exact hit f (by rw [hi]; simp [hf])
    · rw [hf]
      exact CheckItemPos_wellFormed lines b.minFtrLen last rgn a (hit last (by rw [hi]; simp)) hr

/-- The buffer `sameChrom` leaves: the buffer as it was, or, for a line with
`0 ≤ start < end`, the buffer `CheckLastPos` leaves for the region of the
line, with or without the item of the line appended. -/
theorem sameChrom_items (chrom : Chrom) (ln : Line) (s : Session) :
    (sameChrom chrom ln s).1.bed.items = s.bed.items ∨
    (0 ≤ ln.start ∧ ln.start < ln.end_ ∧ ∃ a,
      ((sameChrom chrom ln s).1.bed.items = (s.bed.CheckLastPos ln.featr.toRegion a).1.items ∨
        (sameChrom chrom ln s).1.bed.items
          = (s.bed.CheckLastPos ln.featr.toRegion a).1.items ++ [ln.featr])) := by
  by_cases hs : s.loc.cCurrID = chrom.UnID ∨ (¬ chrom.StatedAll ∧ s.loc.cCurrID ≠ chrom.StatedID)
  · have ho : sameChrom chrom ln s = (s, .ok .next) := by
      unfold sameChrom
      rw [if_pos hs]
    rw [ho]
    exact Or.inl rfl
  · have hc := InitRegn_cases s.ambig ln.start ln.end_ s.loc.rgn s.loc.cLen
    rcases hI : s.ambig.InitRegn ln.start ln.end_ s.loc.rgn s.loc.cLen with ⟨a, rgn, r⟩
    rw [hI] at hc
    simp only at hc
    rcases hc with ⟨e, he, _⟩ | ⟨hr, _, _⟩ | ⟨hr, hg, h0, h1, _⟩
    · subst he
      have ho : sameChrom chrom ln s =
          ({ s with ambig := a,
                    loc := { s.loc with cntLines := s.loc.cntLines + 1, rgn := rgn } },
            .fail e) := by
        unfold sameChrom
        rw [if_neg hs]
        simp only [hI]
      rw [ho]
      exact Or.inl rfl
    · subst hr
      have ho : sameChrom chrom ln s =
          ({ s with ambig := a,
                    loc := { s.loc with cntLines := s.loc.cntLines + 1, rgn := rgn } },
            .ok .next) := by
        unfold sameChrom
        rw [if_neg hs]
        simp only [hI]
      rw [ho]
      exact Or.inl rfl
    · subst hr
      subst hg
      right
      refine ⟨h0, h1,
        (if ln.start.toNat < s.loc.prevStart then { a with unsortedItems := true } else a), ?_⟩
      rcases hC : s.bed.CheckLastPos ⟨ln.start.toNat, ln.end_.toNat⟩
        (if ln.start.toNat < s.loc.prevStart then { a with unsortedItems := true } else a)
        with ⟨b1, a2, r⟩
      have hC' : s.bed.CheckLastPos ln.featr.toRegion
          (if ln.start.toNat < s.loc.prevStart then { a with unsortedItems := true } else a)
          = (b1, a2, r) := hC
      rw [hC']
      cases r with
      | fail e =>
        have ho : sameChrom chrom ln s =
            ({ bed := b1, ambig := a2,
               loc := { s.loc with cntLines := s.loc.cntLines + 1,
                                   rgn := ⟨ln.start.toNat, ln.end_.toNat⟩ } },
              .fail e) := by
          unfold sameChrom
          rw [if_neg hs]
          simp only [hI, hC]
        rw [ho]
        exact Or.inl rfl
      | ok r =>
        cases r with
        | false =>
          have ho : sameChrom chrom ln s =
              ({ bed := b1, ambig := a2,
                 loc := { s.loc with cntLines := s.loc.cntLines + 1,
                                     rgn := ⟨ln.start.toNat, ln.end_.toNat⟩ } },
                .ok .next) := by
            unfold sameChrom
            rw [if_neg hs]
            simp only [hI, hC]
          rw [ho]
          exact Or.inl rfl
        | true =>
          have ho : sameChrom chrom ln s =
              addItem ln { bed := b1, ambig := a2,
                           loc := { s.loc with cntLines := s.loc.cntLines + 1,
                                               rgn := ⟨ln.start.toNat, ln.end_.toNat⟩ } } := by
            unfold sameChrom
            rw [if_neg hs]
            simp only [hI, hC]
          rw [ho, addItem_eq]
          exact Or.inr rfl

/-- The item of a line with `0 ≤ start < end` is well formed. -/
theorem featr_wellFormed (lines : List Line) (ln : Line) (hln : ln ∈ lines)
    (h0 : 0 ≤ ln.start) (h1 : ln.start < ln.end_) : wellFormedFrom lines ln.featr := by
  refine ⟨?_, ln, hln, h0, ?_⟩
  · show ln.start.toNat < ln.end_.toNat
    omega
  · show ((ln.start.toNat : Nat) : Int) = ln.start
    omega

/-- The buffer a turn of the loop leaves: the buffer as it was, the buffer
that `openChrom` leaves on a session with the same buffer, or the buffer that
`sameChrom` leaves. -/
theorem step_items (chrom : Chrom) (cSizes : Option (Nat → Nat)) (ln : Line) (s : Session) :
    (step chrom cSizes ln s).1.bed.items = s.bed.items ∨
    (∃ s1 : Session, s1.bed.items = s.bed.items ∧
      step chrom cSizes ln s = openChrom cSizes ln (chrom.ID ln.ChromName) s1) ∨
    step chrom cSizes ln s = sameChrom chrom ln s := by
  by_cases hname : s.loc.cName ≠ ln.ChromName
  · by_cases hun : chrom.ID ln.ChromName = chrom.UnID
    · rw [step_unrecognised chrom cSizes ln s hname hun]
      exact Or.inl rfl
    · by_cases hmode : chrom.StatedAll = true
      · right; left
        refine ⟨_, ?_, step_all_change chrom cSizes ln s hname hun hmode⟩
        show (if s.loc.currInd ≠ s.loc.firstInd then
            s.bed.AddVal s.loc.cCurrID (ChromItemsInd.new s.loc.firstInd s.loc.currInd)
          else s.bed).items = s.bed.items
        split_ifs <;> rfl
      · have hmode : chrom.StatedAll = false := by simpa using hmode
        by_cases hend : s.loc.rgn.End ≠ 0
        · rw [step_single_stop chrom cSizes ln s hname hun hmode hend]
          exact Or.inl rfl
        · have hend : s.loc.rgn.End = 0 := by simpa using hend
          by_cases hns : s.loc.needSortChrom = true
          · have ho : step chrom cSizes ln s =
                ({ s with loc := { s.loc with cName := ln.ChromName } }, .fail .UnsortedChroms) := by
              unfold step
              rw [if_pos hname]
              simp only [hun, ↓reduceIte, hmode, Bool.false_eq_true]
              rw [if_neg (by simpa using hend), if_pos hns]
            rw [ho]
            exact Or.inl rfl
          · have hns : s.loc.needSortChrom = false := by simpa using hns
            by_cases hst : chrom.ID ln.ChromName ≠ chrom.StatedID
            · rw [step_single_skip chrom cSizes ln s hname hun hmode hend hns hst]
              exact Or.inl rfl
            · have hst : chrom.ID ln.ChromName = chrom.StatedID := by simpa using hst
              right; left
              exact ⟨{ s with loc := { s.loc with cName := ln.ChromName } }, rfl,
                step_single_open chrom cSizes ln s hname hun hmode hend hns hst⟩
  · have hname : s.loc.cName = ln.ChromName := by simpa using hname
    exact Or.inr (Or.inr (step_same_name chrom cSizes ln s hname))

/-- A turn of the loop on a buffer of well-formed features leaves a buffer of
well-formed features, whatever its outcome. -/
theorem step_wellFormed (chrom : Chrom) (cSizes : Option (Nat → Nat)) (lines : List Line)
    (ln : Line) (s : Session) (hln : ln ∈ lines)
    (hit : ∀ f ∈ s.bed.items, wellFormedFrom lines f) :
    ∀ f ∈ (step chrom cSizes ln s).1.bed.items, wellFormedFrom lines f := by
  rcases step_items chrom cSizes ln s with h | ⟨s1, hs1, h⟩ | h
  · rw [h]; exact hit
  · rw [h]
    obtain ⟨_, _, _, _, _, _, _, h8⟩ := openChrom_shape cSizes ln (chrom.ID ln.ChromName) s1 _ rfl
    rcases h8 with ⟨_, hi, _⟩ | ⟨_, h0, h1, hi, _⟩
    · rw [hi, hs1]; exact hit
    · rw [hi, hs1]
      intro f hf
      simp only [List.mem_append, List.mem_singleton] at hf
      rcases hf with hf | hf
      · exact hit f hf
      · rw [hf]; exact featr_wellFormed lines ln hln h0 h1
  · rw [h]
    rcases sameChrom_items chrom ln s with hi | ⟨h0, h1, a, hi⟩
    · rw [hi]; exact hit
    · have hr : ln.featr.toRegion.Start < ln.featr.toRegion.End :=
        (featr_wellFormed lines ln hln h0 h1).1
      have hk := CheckLastPos_wellFormed lines s.bed ln.featr.toRegion a hit hr
      rcases hi with hi | hi
      · rw [hi]; exact hk
      · rw [hi]
        intro f hf
        simp only [List.mem_append, List.mem_singleton] at hf
        rcases hf with hf | hf
        · exact hk f hf
        · rw [hf]; exact featr_wellFormed lines ln hln h0 h1

/-- The loop on a buffer of well-formed features leaves a buffer of
well-formed features, whatever its outcome. -/
theorem readLines_wellFormed (chrom : Chrom) (cSizes : Option (Nat → Nat)) (lines : List Line)
    (rest : List Line) :
    ∀ (s : Session), (∀ ln ∈ rest, ln ∈ lines) → (∀ f ∈ s.bed.items, wellFormedFrom lines f) →
      ∀ f ∈ (readLines chrom cSizes rest s).1.bed.items, wellFormedFrom lines f := by
  induction rest with
  | nil => intro s _ hit; exact hit
  | cons ln rest ih =>
    intro s hsub hit
    have hst := step_wellFormed chrom cSizes lines ln s (hsub ln (List.mem_cons_self _ _)) hit
    rcases hS : step chrom cSizes ln s with ⟨s1, r⟩
    rw [hS] at hst
    cases r with
    | fail e =>
      rw [readLines_fail chrom cSizes ln rest s s1 e hS]
      exact hst
    | ok fl =>
      cases fl with
      | stop =>
        rw [readLines_stop chrom cSizes ln rest s s1 hS]
        exact hst
      | next =>
        rw [readLines_next chrom cSizes ln rest s s1 hS]
        exact ih s1 (fun l hl => hsub l (List.mem_cons_of_mem _ hl)) hst

/-- Ingestion into a buffer of well-formed features leaves a buffer of
well-formed features, whatever its outcome. -/
theorem InitChild_wellFormed (b : BedF) (chrom : Chrom) (cSizes : Option (Nat → Nat))
    (a : Ambig) (lines : List Line) (hit : ∀ f ∈ b.items, wellFormedFrom lines f) :
    ∀ f ∈ (b.InitChild chrom cSizes a lines).1.items, wellFormedFrom lines f := by
  cases lines with
  | nil => exact hit
  | cons first rest =>
    have hR := readLines_wellFormed chrom cSizes (first :: rest) (first :: rest)
      { bed := b, ambig := a, loc := initLocals chrom cSizes first } (fun _ h => h) hit
    rw [InitChild_cons]
    cases hO : (readLines chrom cSizes (first :: rest)
        { bed := b, ambig := a, loc := initLocals chrom cSizes first }).2 with
    | fail e => exact hR
    | ok u =>
      exact finish_keeps_checked (wellFormedFrom (first :: rest))
        (fun m f g a1 hf hg => CheckItemPos_wellFormed _ m f g.toRegion a1 hf hg.1) chrom _ hR

/-- C30: after feature ingestion, under any policy and with or without the
sort-and-recheck pass, every feature stored in the buffer satisfies
`0 ≤ Start < End`, and its start is the start field, not negative, of a line
of the file. This holds when the ingestion completes and also of the buffer
left by an ingestion that throws. -/
theorem InitChild_features_well_formed (chrom : Chrom) (cSizes : Option (Nat → Nat)) (m : Nat)
    (a : Ambig) (lines : List Line) :
    ∀ f ∈ ((BedF.new m).InitChild chrom cSizes a lines).1.items,
      0 ≤ f.Start ∧ f.Start < f.End ∧
      ∃ ln ∈ lines, 0 ≤ ln.start ∧ (f.Start : Int) = ln.start := by
  intro f hf
  have h := InitChild_wellFormed (BedF.new m) chrom cSizes a lines
    (fun g hg => by simp [BedF.new] at hg) f hf
  exact ⟨Nat.zero_le _, h.1, h.2⟩

/-- C30, on a file whose second line starts before the first and whose
third line crosses both, under the policy that merges: the ingestion
completes with the sort-and-recheck pass and the merged feature `[10, 40)`
is stored. -/
theorem InitChild_features_well_formed_witness :
    ((BedF.new 0).InitChild chromNumbered none
        (Ambig.new eInfo.iSTAT false eAction.HANDLE eAction.HANDLE eAction.ACCEPT)
        [⟨"1", 30, 40, 1⟩, ⟨"1", 10, 20, 1⟩, ⟨"1", 15, 35, 1⟩]).2.2 = Outcome.ok (3, 1) ∧
      ((BedF.new 0).InitChild chromNumbered none
        (Ambig.new eInfo.iSTAT false eAction.HANDLE eAction.HANDLE eAction.ACCEPT)
        [⟨"1", 30, 40, 1⟩, ⟨"1", 10, 20, 1⟩, ⟨"1", 15, 35, 1⟩]).1.items = [⟨⟨10, 40⟩, 1⟩] ∧
      (0 ≤ (⟨⟨10, 40⟩, 1⟩ : Featr).Start ∧ (⟨⟨10, 40⟩, 1⟩ : Featr).Start < (⟨⟨10, 40⟩, 1⟩ : Featr).End ∧
        ∃ ln ∈ ([⟨"1", 30, 40, 1⟩, ⟨"1", 10, 20, 1⟩, ⟨"1", 15, 35, 1⟩] : List Line),
          0 ≤ ln.start ∧ (((⟨⟨10, 40⟩, 1⟩ : Featr).Start : Nat) : Int) = ln.start) :=
  ⟨by decide, by decide,
    InitChild_features_well_formed chromNumbered none 0
      (Ambig.new eInfo.iSTAT false eAction.HANDLE eAction.HANDLE eAction.ACCEPT)
      [⟨"1", 30, 40, 1⟩, ⟨"1", 10, 20, 1⟩, ⟨"1", 15, 35, 1⟩] ⟨⟨10, 40⟩, 1⟩ (by decide)⟩

/-! ## The check of reads -/

/-- `BedR::CheckItemPos` when the first statement treats no case. -/
theorem BedR_CheckItemPos_same_length (b : BedR) (it : Read) (rgn : Region) (a : Ambig)
    (h : ¬ (b.readLen ≠ 0 ∧ b.readLen ≠ rgn.Length - 1)) :
    b.CheckItemPos it rgn a =
      if rgn.Start = it.Pos then
        (b.recorded rgn, (decided (a.TreatCase .DUPL)).1, (decided (a.TreatCase .DUPL)).2)
      else (b.recorded rgn, a, .ok true) := by
  unfold BedR.CheckItemPos BedR.recorded decided
  by_cases h0 : b.readLen = 0
  · simp only [h0, ↓reduceIte]
    by_cases hd : rgn.Start = it.Pos
    · simp only [hd, ↓reduceIte]
      rcases a.TreatCase eCase.DUPL with ⟨a2, r⟩
      cases r with
      | fail e => rfl
      | ok r => simp
    · simp only [hd, ↓reduceIte]
  · have h1 : b.readLen = rgn.Length - 1 := by
      by_contra h1
      exact h ⟨h0, h1⟩
    simp only [if_neg h0, if_neg (not_not.mpr h1)]
    by_cases hd : rgn.Start = it.Pos
    · simp only [hd, ↓reduceIte]
      rcases a.TreatCase eCase.DUPL with ⟨a2, r⟩
      cases r with
      | fail e => rfl
      | ok r => simp
    · simp only [hd, ↓reduceIte]

/-- `BedR::CheckItemPos` when the first statement treats DifferentSize. -/
theorem BedR_CheckItemPos_other_length (b : BedR) (it : Read) (rgn : Region) (a : Ambig)
    (h : b.readLen ≠ 0 ∧ b.readLen ≠ rgn.Length - 1) :
    b.CheckItemPos it rgn a =
      match (a.TreatCase .DIFFSZ).2 with
      | .fail e => (b, (a.TreatCase .DIFFSZ).1, .fail e)
      | .ok r =>
        if r < 0 then (b, (a.TreatCase .DIFFSZ).1, .ok false)
        else if rgn.Start = it.Pos then
          (b, (decided ((a.TreatCase .DIFFSZ).1.TreatCase .DUPL)).1,
            (decided ((a.TreatCase .DIFFSZ).1.TreatCase .DUPL)).2)
        else (b, (a.TreatCase .DIFFSZ).1, .ok true) := by
  unfold BedR.CheckItemPos decided
  simp only [h.1, ↓reduceIte, ne_eq, h.2, not_false_eq_true]
  rcases a.TreatCase eCase.DIFFSZ with ⟨a1, r⟩
  cases r with
  | fail e => rfl
  | ok r =>
    by_cases hr : r < 0
    · simp [hr]
    · simp only [hr, not_false_eq_true, decide_True, ↓reduceIte]
      by_cases hd : rgn.Start = it.Pos
      · simp only [hd, ↓reduceIte]
        rcases a1.TreatCase eCase.DUPL with ⟨a2, r2⟩
        cases r2 with
        | fail e => rfl
        | ok r2 => simp
      · simp only [hd, ↓reduceIte]

/-! ## The cases that the ingestion of reads treats -/

theorem onlyReadCases_refl (a : Ambig) : onlyReadCases a a := fun _ _ _ _ _ => rfl

theorem onlyReadCases_trans (a a1 a2 : Ambig) (h1 : onlyReadCases a a1)
    (h2 : onlyReadCases a1 a2) : onlyReadCases a a2 :=
  fun d h3 h4 h5 h6 => (h2 d h3 h4 h5 h6).trans (h1 d h3 h4 h5 h6)

theorem TreatCase_onlyReadCases (a : Ambig) (c : eCase)
    (hc : c = eCase.EXCEED ∨ c = eCase.DIFFSZ ∨ c = eCase.DUPL ∨ c = eCase.SCORE) :
    onlyReadCases a (a.TreatCase c).1 := by
  intro d h1 h2 h3 h4
  rw [TreatCase_cases]
  have hd : d ≠ c := by
    rcases hc with hc | hc | hc | hc <;> rw [hc] <;> assumption
  simp [Ambig.incr, hd]

theorem decided_fst (o : Ambig × Outcome Int) : (decided o).1 = o.1 := by
  rcases o with ⟨a, r⟩
  cases r <;> rfl

theorem InitRegn_onlyReadCases (a : Ambig) (start end_ : Int) (rgn : Region) (cLen : Nat) :
    onlyReadCases a (a.InitRegn start end_ rgn cLen).1 := by
  have h := TreatCase_onlyReadCases a eCase.EXCEED (Or.inl rfl)
  unfold Ambig.InitRegn
  split_ifs
  · exact onlyReadCases_refl a
  · exact onlyReadCases_refl a
  · rcases hT : a.TreatCase eCase.EXCEED with ⟨a1, r⟩
    rw [hT] at h
    cases r with
    | fail e => exact h
    | ok r =>
      simp only
      split_ifs
      · exact h
      · exact h
  · exact onlyReadCases_refl a

theorem BedR_CheckItemPos_onlyReadCases (b : BedR) (it : Read) (rgn : Region) (a : Ambig) :
    onlyReadCases a (b.CheckItemPos it rgn a).2.1 := by
  have hD := TreatCase_onlyReadCases a eCase.DUPL (Or.inr (Or.inr (Or.inl rfl)))
  have hZ := TreatCase_onlyReadCases a eCase.DIFFSZ (Or.inr (Or.inl rfl))
  have hZD := TreatCase_onlyReadCases (a.TreatCase eCase.DIFFSZ).1 eCase.DUPL
    (Or.inr (Or.inr (Or.inl rfl)))
  by_cases h : b.readLen ≠ 0 ∧ b.readLen ≠ rgn.Length - 1
  · rw [BedR_CheckItemPos_other_length b it rgn a h]
    cases (a.TreatCase eCase.DIFFSZ).2 with
    | fail e => exact hZ
    | ok r =>
      simp only
      split_ifs
      · exact hZ
      · simp only [decided_fst]
        exact onlyReadCases_trans _ _ _ hZ hZD
      · exact hZ
  · rw [BedR_CheckItemPos_same_length b it rgn a h]
    split_ifs
    · simp only [decided_fst]
      exact hD
    · exact onlyReadCases_refl a

theorem BedR_CheckLastPos_onlyReadCases (b : BedR) (rgn : Region) (a : Ambig) :
    onlyReadCases a (b.CheckLastPos rgn a).2.1 := by
  unfold BedR.CheckLastPos
  cases b.items.getLast? with
  | none => exact onlyReadCases_refl a
  | some last => exact BedR_CheckItemPos_onlyReadCases b last rgn a

theorem BedR_recheck_onlyReadCases (xs : List Read) :
    ∀ (b : BedR) (prev : Read) (a : Ambig), onlyReadCases a (BedR.recheck b prev xs a).2.2.1 := by
  induction xs with
  | nil => intro b prev a; exact onlyReadCases_refl a
  | cons x xs ih =>
    intro b prev a
    have hc := BedR_CheckItemPos_onlyReadCases b prev (b.Regn x) a
    rcases hC : b.CheckItemPos prev (b.Regn x) a with ⟨b1, a1, r⟩
    rw [hC] at hc
    simp only at hc
    cases r with
    | fail e =>
      simp only [BedR.recheck, hC]
      exact hc
    | ok v =>
      cases v with
      | true =>
        simp only [BedR.recheck, hC]
        exact onlyReadCases_trans _ _ _ hc (ih b1 x a1)
      | false =>
        simp only [BedR.recheck, hC]
        exact onlyReadCases_trans _ _ _ hc (ih b1 prev a1)

theorem BedR_recheckRange_onlyReadCases (b : BedR) (seg : List Read) (a : Ambig) :
    onlyReadCases a (BedR.recheckRange b seg a).2.2.1 := by
  unfold BedR.recheckRange
  cases sortByPos seg with
  | nil => exact onlyReadCases_refl a
  | cons p rest => exact BedR_recheck_onlyReadCases rest b p a

theorem BedR_turn_onlyReadCases (b : BedR) (cit : Nat × ChromItemsInd) (a : Ambig) (rmv : Nat) :
    onlyReadCases a (BedR.SortItems.turn b cit a rmv).2.2.1 := by
  unfold BedR.SortItems.turn
  split_ifs
  · exact onlyReadCases_refl a
  · simp only
    split_ifs
    · exact BedR_recheckRange_onlyReadCases _ _ a
    · exact onlyReadCases_refl a

theorem BedR_loop_onlyReadCases (cs : List (Nat × ChromItemsInd)) :
    ∀ (b : BedR) (a : Ambig) (rmv : Nat),
      onlyReadCases a (BedR.SortItems.loop cs b a rmv).2.2.1 := by
  induction cs with
  | nil => intro b a rmv; exact onlyReadCases_refl a
  | cons cit cs ih =>
    intro b a rmv
    have ht := BedR_turn_onlyReadCases b cit a rmv
    rcases hT : BedR.SortItems.turn b cit a rmv with ⟨cit1, b1, a1, n, r⟩
    rw [hT] at ht
    simp only at ht
    cases r with
    | fail e =>
      simp only [BedR.SortItems.loop, hT]
      exact ht
    | ok u =>
      simp only [BedR.SortItems.loop, hT]
      exact onlyReadCases_trans _ _ _ ht (ih b1 a1 n)

theorem BedR_SortItems_onlyReadCases (b : BedR) (a : Ambig) :
    onlyReadCases a (b.SortItems a).2.1 := by
  unfold BedR.SortItems
  exact BedR_loop_onlyReadCases b.chroms b a 0

theorem BedR_addItem_onlyReadCases (ln : Line) (s : SessionR) :
    onlyReadCases s.ambig (BedR.addItem ln s).1.ambig := by
  have h := TreatCase_onlyReadCases s.ambig eCase.SCORE (Or.inr (Or.inr (Or.inr rfl)))
  unfold BedR.addItem
  rcases s.bed.AddPos s.loc.rgn ln.score with ⟨b, v⟩
  cases v with
  | true => exact onlyReadCases_refl _
  | false =>
    simp only
    rcases hT : s.ambig.TreatCase eCase.SCORE with ⟨a, r⟩
    rw [hT] at h
    cases r with
    | fail e => exact h
    | ok r => exact h

theorem BedR_openChrom_onlyReadCases (unID : Nat) (cSizes : Option (Nat → Nat)) (ln : Line)
    (id : Nat) (s : SessionR) :
    onlyReadCases s.ambig (BedR.openChrom unID cSizes ln id s).1.ambig := by
  have hI := InitRegn_onlyReadCases s.ambig ln.start ln.end_ s.loc.rgn
    (chromLen cSizes id s.loc.cLen)
  unfold BedR.openChrom
  simp only
  rcases hR : s.ambig.InitRegn ln.start ln.end_ s.loc.rgn (chromLen cSizes id s.loc.cLen)
    with ⟨a, rgn, r⟩
  rw [hR] at hI
  cases r with
  | fail e => exact hI
  | ok v =>
    cases v with
    | false => exact hI
    | true =>
      simp only
      exact onlyReadCases_trans _ _ _ hI (BedR_addItem_onlyReadCases ln _)

theorem BedR_sameChrom_onlyReadCases (chrom : Chrom) (ln : Line) (s : SessionR) :
    onlyReadCases s.ambig (BedR.sameChrom chrom ln s).1.ambig := by
  have hI := InitRegn_onlyReadCases s.ambig ln.start ln.end_ s.loc.rgn s.loc.cLen
  unfold BedR.sameChrom
  split_ifs
  · exact onlyReadCases_refl _
  · simp only
    rcases hR : s.ambig.InitRegn ln.start ln.end_ s.loc.rgn s.loc.cLen with ⟨a, rgn, r⟩
    rw [hR] at hI
    cases r with
    | fail e => exact hI
    | ok v =>
      cases v with
      | false => exact hI
      | true =>
        simp only
        have hU : onlyReadCases a
            (if rgn.Start < s.loc.prevStart then { a with unsortedItems := true } else a) := by
          split_ifs
          · exact fun _ _ _ _ _ => rfl
          · exact onlyReadCases_refl a
        have hL := BedR_CheckLastPos_onlyReadCases s.bed rgn
          (if rgn.Start < s.loc.prevStart then { a with unsortedItems := true } else a)
        rcases hC : s.bed.CheckLastPos rgn
          (if rgn.Start < s.loc.prevStart then { a with unsortedItems := true } else a)
          with ⟨b, a2, r2⟩
        rw [hC] at hL
        have h2 : onlyReadCases s.ambig a2 :=
          onlyReadCases_trans _ _ _ hI (onlyReadCases_trans _ _ _ hU hL)
        cases r2 with
        | fail e => exact h2
        | ok v2 =>
          cases v2 with
          | false => exact h2
          | true =>
            simp only
            exact onlyReadCases_trans _ _ _ h2 (BedR_addItem_onlyReadCases ln _)

/-- The ways a turn of the loop goes, for reads: the session is left with
other local variables only, or the turn is `openChrom` on a session with the
same engine, minimum score and buffer, or the turn is `sameChrom`. -/
theorem BedR_step_cases (chrom : Chrom) (cSizes : Option (Nat → Nat)) (ln : Line) (s : SessionR) :
    (∃ loc r, BedR.step chrom cSizes ln s = ({ s with loc := loc }, r)) ∨
    (∃ s1 : SessionR, s1.ambig = s.ambig ∧ s1.bed.items = s.bed.items ∧
      s1.bed.minScore = s.bed.minScore ∧ s1.loc.currInd = s.loc.currInd ∧
      s.loc.cName ≠ ln.ChromName ∧
      BedR.step chrom cSizes ln s = BedR.openChrom chrom.UnID cSizes ln (chrom.ID ln.ChromName) s1) ∨
    (s.loc.cName = ln.ChromName ∧ BedR.step chrom cSizes ln s = BedR.sameChrom chrom ln s) := by
  by_cases hname : s.loc.cName ≠ ln.ChromName
  · by_cases hun : chrom.ID ln.ChromName = chrom.UnID
    · left
      refine ⟨{ s.loc with cCurrID := chrom.UnID }, .ok .next, ?_⟩
      unfold BedR.step
      rw [if_pos hname]
      simp only [hun, ↓reduceIte]
    · by_cases hmode : chrom.StatedAll = true
      · right; left
        refine ⟨{ s with
            bed := if s.loc.currInd ≠ s.loc.firstInd then
                s.bed.AddVal s.loc.cCurrID (ChromItemsInd.new s.loc.firstInd s.loc.currInd)
              else s.bed,
            loc := { s.loc with
              cName := ln.ChromName,
              needSortChrom :=
                if chrom.ID ln.ChromName < s.loc.cCurrID ∧ chrom.ID ln.ChromName ≠ chrom.M
                then true else s.loc.needSortChrom } }, ?_, ?_, ?_, ?_, hname, ?_⟩
        rotate_left 4
        · unfold BedR.step
          rw [if_pos hname]
          simp only [hun, ↓reduceIte, hmode]
        · rfl
        · show (if s.loc.currInd ≠ s.loc.firstInd then
              s.bed.AddVal s.loc.cCurrID (ChromItemsInd.new s.loc.firstInd s.loc.currInd)
            else s.bed).items = s.bed.items
          split_ifs <;> rfl
        · show (if s.loc.currInd ≠ s.loc.firstInd then
              s.bed.AddVal s.loc.cCurrID (ChromItemsInd.new s.loc.firstInd s.loc.currInd)
            else s.bed).minScore = s.bed.minScore
          split_ifs <;> rfl
        · rfl
      · have hmode : chrom.StatedAll = false := by simpa using hmode
        by_cases hend : s.loc.rgn.End ≠ 0
        · left
          refine ⟨{ s.loc with cName := ln.ChromName }, .ok .stop, ?_⟩
          unfold BedR.step
          rw [if_pos hname]
          simp only [hun, ↓reduceIte, hmode, Bool.false_eq_true]
          rw [if_pos hend]
        · by_cases hns : s.loc.needSortChrom = true
          · left
            refine ⟨{ s.loc with cName := ln.ChromName }, .fail .UnsortedChroms, ?_⟩
            unfold BedR.step
            rw [if_pos hname]
            simp only [hun, ↓reduceIte, hmode, Bool.false_eq_true]
            rw [if_neg hend, if_pos hns]
          · by_cases hst : chrom.ID ln.ChromName ≠ chrom.StatedID
            · left
              refine ⟨{ s.loc with cName := ln.ChromName }, .ok .next, ?_⟩
              unfold BedR.step
              rw [if_pos hname]
              simp only [hun, ↓reduceIte, hmode, Bool.false_eq_true]
              rw [if_neg hend, if_neg hns, if_pos hst]
            · right; left
              refine ⟨{ s with loc := { s.loc with cName := ln.ChromName } }, rfl, rfl, rfl, rfl,
                hname, ?_⟩
              unfold BedR.step
              rw [if_pos hname]
              simp only [hun, ↓reduceIte, hmode, Bool.false_eq_true]
              rw [if_neg hend, if_neg hns, if_neg hst]
  · have hname : s.loc.cName = ln.ChromName := by simpa using hname
    right; right
    refine ⟨hname, ?_⟩
    unfold BedR.step
    rw [if_neg (by simpa using hname)]

theorem BedR_step_onlyReadCases (chrom : Chrom) (cSizes : Option (Nat → Nat)) (ln : Line)
    (s : SessionR) : onlyReadCases s.ambig (BedR.step chrom cSizes ln s).1.ambig := by
  rcases BedR_step_cases chrom cSizes ln s with ⟨loc, r, h⟩ | ⟨s1, h1, _, _, _, _, h⟩ | ⟨_, h⟩
  · rw [h]
    exact onlyReadCases_refl _
  · rw [h, ← h1]
    exact BedR_openChrom_onlyReadCases _ _ _ _ _
  · rw [h]
    exact BedR_sameChrom_onlyReadCases chrom ln s

theorem BedR_readLines_onlyReadCases (chrom : Chrom) (cSizes : Option (Nat → Nat))
    (lines : List Line) :
    ∀ s : SessionR, onlyReadCases s.ambig (BedR.readLines chrom cSizes lines s).1.ambig := by
  induction lines with
  | nil => intro s; exact onlyReadCases_refl _
  | cons ln rest ih =>
    intro s
    have hs := BedR_step_onlyReadCases chrom cSizes ln s
    rcases hS : BedR.step chrom cSizes ln s with ⟨s1, r⟩
    rw [hS] at hs
    cases r with
    | fail e =>
      simp only [BedR.readLines, hS]
      exact hs
    | ok fl =>
      cases fl with
      | stop =>
        simp only [BedR.readLines, hS]
        exact hs
      | next =>
        simp only [BedR.readLines, hS]
        exact onlyReadCases_trans _ _ _ hs (ih s1)

theorem BedR_finish_onlyReadCases (chrom : Chrom) (s : SessionR) :
    onlyReadCases s.ambig (BedR.finish chrom s).2.1 := by
  have key : ∀ (b2 : BedR) (c : Nat),
      onlyReadCases s.ambig
        (match b2.SortItems { s.ambig with out := s.ambig.out ++ [Output.UnsortedWarning] } with
          | (b3, a, .fail e) => ((b3, a, .fail e) : BedR × Ambig × Outcome (Nat × Nat))
          | (b3, a, .ok _) => ({ b3 with itemsCnt := b3.items.length }, a,
              .ok (c, b3.items.length))).2.1 := by
    intro b2 c
    have h := BedR_SortItems_onlyReadCases b2
      { s.ambig with out := s.ambig.out ++ [Output.UnsortedWarning] }
    rcases hS : b2.SortItems { s.ambig with out := s.ambig.out ++ [Output.UnsortedWarning] }
      with ⟨b3, a, r⟩
    rw [hS] at h
    have h' : onlyReadCases s.ambig a := fun d h1 h2 h3 h4 => h d h1 h2 h3 h4
    cases r with
    | fail e => exact h'
    | ok u => exact h'
  unfold BedR.finish
  split_ifs
  · exact key _ _
  · exact onlyReadCases_refl _
  · exact key _ _
  · exact onlyReadCases_refl _
  · exact key _ _
  · exact onlyReadCases_refl _
  · exact key _ _
  · exact onlyReadCases_refl _
  · exact onlyReadCases_refl _

/-- The ingestion of reads changes no slot of the engine other than those of
PositionExceedsLength, DifferentSize, Duplicate and FilteredByScore,
whatever its outcome. -/
theorem BedR_InitChild_onlyReadCases (b : BedR) (chrom : Chrom) (cSizes : Option (Nat → Nat))
    (a : Ambig) (t : Int) (lines : List Line) :
    onlyReadCases a (b.InitChild chrom cSizes a t lines).2.1 := by
  cases lines with
  | nil => exact onlyReadCases_refl a
  | cons first rest =>
    have hR := BedR_readLines_onlyReadCases chrom cSizes (first :: rest)
      { bed := b, ambig := a, treatcID := t, loc := initLocals chrom cSizes first }
    rcases hS : BedR.readLines chrom cSizes (first :: rest)
      { bed := b, ambig := a, treatcID := t, loc := initLocals chrom cSizes first } with ⟨s, r⟩
    rw [hS] at hR
    cases r with
    | fail e =>
      simp only [BedR.InitChild, hS]
      exact hR
    | ok u =>
      simp only [BedR.InitChild, hS]
      exact onlyReadCases_trans _ _ _ hR (BedR_finish_onlyReadCases chrom s)

theorem TreatCase_cases_other (a : Ambig) (c d : eCase) (h : d ≠ c) :
    (a.TreatCase c).1.cases d = a.cases d := by
  rw [TreatCase_cases]
  simp [Ambig.incr, h]

/-- `BedR::CheckItemPos` changes no slot of the engine other than those of
DifferentSize and Duplicate. -/
theorem BedR_CheckItemPos_other_cases (b : BedR) (it : Read) (rgn : Region) (a : Ambig)
    (c : eCase) (h1 : c ≠ eCase.DIFFSZ) (h2 : c ≠ eCase.DUPL) :
    (b.CheckItemPos it rgn a).2.1.cases c = a.cases c := by
  have hD := TreatCase_cases_other a eCase.DUPL c h2
  have hZ := TreatCase_cases_other a eCase.DIFFSZ c h1
  have hZD := TreatCase_cases_other (a.TreatCase eCase.DIFFSZ).1 eCase.DUPL c h2
  by_cases h : b.readLen ≠ 0 ∧ b.readLen ≠ rgn.Length - 1
  · rw [BedR_CheckItemPos_other_length b it rgn a h]
    cases (a.TreatCase eCase.DIFFSZ).2 with
    | fail e => exact hZ
    | ok r =>
      simp only
      split_ifs
      · exact hZ
      · simp only [decided_fst]
        exact hZD.trans hZ
      · exact hZ
  · rw [BedR_CheckItemPos_same_length b it rgn a h]
    split_ifs
    · simp only [decided_fst]
      exact hD
    · rfl

/-- C26: `BedR::CheckItemPos` treats two cases and no other. When a read
length is recorded (`_readLen` is not zero) and the length of the candidate
differs from it, `TreatCase(DIFFSZ)` is called: the check throws if it
throws and rejects the candidate on a negative decision, in both cases
without treating Duplicate. Otherwise DifferentSize is not treated (and the
length is recorded if none was). Then, when the start of the candidate
equals the position of the previous read, `TreatCase(DUPL)` is called and
the candidate is rejected exactly on a negative decision; when it does not,
the candidate is accepted. No slot of the engine other than those of
DifferentSize and Duplicate is changed by the check, and the counters of
Crossed, Adjacent and Covered are left as they were by the whole ingestion
of reads, whatever its input and outcome. -/
theorem BedR_CheckItemPos_treats_two_cases (b : BedR) (it : Read) (rgn : Region) (a : Ambig) :
    ((b.readLen ≠ 0 ∧ b.readLen ≠ rgn.Length - 1) →
      (∀ e, (a.TreatCase eCase.DIFFSZ).2 = Outcome.fail e →
        b.CheckItemPos it rgn a = (b, (a.TreatCase eCase.DIFFSZ).1, Outcome.fail e)) ∧
      (∀ r, (a.TreatCase eCase.DIFFSZ).2 = Outcome.ok r → r < 0 →
        b.CheckItemPos it rgn a = (b, (a.TreatCase eCase.DIFFSZ).1, Outcome.ok false)) ∧
      (∀ r, (a.TreatCase eCase.DIFFSZ).2 = Outcome.ok r → 0 ≤ r → rgn.Start = it.Pos →
        b.CheckItemPos it rgn a
          = (b, decided ((a.TreatCase eCase.DIFFSZ).1.TreatCase eCase.DUPL))) ∧
      (∀ r, (a.TreatCase eCase.DIFFSZ).2 = Outcome.ok r → 0 ≤ r → rgn.Start ≠ it.Pos →
        b.CheckItemPos it rgn a = (b, (a.TreatCase eCase.DIFFSZ).1, Outcome.ok true))) ∧
    (¬ (b.readLen ≠ 0 ∧ b.readLen ≠ rgn.Length - 1) →
      (rgn.Start = it.Pos →
        b.CheckItemPos it rgn a = (b.recorded rgn, decided (a.TreatCase eCase.DUPL))) ∧
      (rgn.Start ≠ it.Pos → b.CheckItemPos it rgn a = (b.recorded rgn, a, Outcome.ok true))) ∧
    (∀ c, c ≠ eCase.DIFFSZ → c ≠ eCase.DUPL →
      (b.CheckItemPos it rgn a).2.1.cases c = a.cases c) ∧
    (∀ (chrom : Chrom) (cSizes : Option (Nat → Nat)) (t : Int) (lines : List Line) (c : eCase),
      c = eCase.CROSS ∨ c = eCase.ADJAC ∨ c = eCase.COVER →
        (b.InitChild chrom cSizes a t lines).2.1.cnt c = a.cnt c) := by
  refine ⟨?_, ?_, BedR_CheckItemPos_other_cases b it rgn a, ?_⟩
  · intro h
    have hE := BedR_CheckItemPos_other_length b it rgn a h
    refine ⟨?_, ?_, ?_, ?_⟩
    · intro e he
      rw [hE]
      simp only [he]
    · intro r hr hneg
      rw [hE]
      simp only [hr, hneg, ↓reduceIte]
    · intro r hr hpos hd
      rw [hE]
      have hn : ¬ r < 0 := by omega
      simp only [hr, hn, ↓reduceIte, hd]
    · intro r hr hpos hd
      rw [hE]
      have hn : ¬ r < 0 := by omega
      simp only [hr, hn, ↓reduceIte, hd]
  · intro h
    have hE := BedR_CheckItemPos_same_length b it rgn a h
    refine ⟨?_, ?_⟩
    · intro hd
      rw [hE, if_pos hd]
    · intro hd
      rw [hE, if_neg hd]
  · intro chrom cSizes t lines c hc
    have h := BedR_InitChild_onlyReadCases b chrom cSizes a t lines c
    unfold Ambig.cnt
    rcases hc with hc | hc | hc <;> subst hc <;>
      rw [h (by decide) (by decide) (by decide) (by decide)]

/-- C26, on a read of recorded length 35 checked against a candidate of
another length at the same position, with the engine of `BedR` that rejects
duplicates: only DifferentSize is treated and the candidate is rejected. -/
theorem BedR_CheckItemPos_treats_two_cases_witness :
    ((⟨[], [⟨100⟩], 1, 35, -1, 0⟩ : BedR).CheckItemPos ⟨100⟩ ⟨100, 140⟩
        (BedR.newAmbig eInfo.iSTAT false false)
      = (⟨[], [⟨100⟩], 1, 35, -1, 0⟩,
          ((BedR.newAmbig eInfo.iSTAT false false).TreatCase eCase.DIFFSZ).1, Outcome.ok false)) ∧
    (((BedR.newAmbig eInfo.iSTAT false false).TreatCase eCase.DIFFSZ).1.cnt eCase.DIFFSZ = 1 ∧
      ((BedR.newAmbig eInfo.iSTAT false false).TreatCase eCase.DIFFSZ).1.cnt eCase.DUPL = 0) :=
  ⟨((BedR_CheckItemPos_treats_two_cases ⟨[], [⟨100⟩], 1, 35, -1, 0⟩ ⟨100⟩ ⟨100, 140⟩
      (BedR.newAmbig eInfo.iSTAT false false)).1 ⟨by decide, by decide⟩).2.1 (-1) (by decide)
      (by decide),
    by decide, by decide⟩

/-! ## Reads below the score threshold -/

/-- C31, failing input: chromosome 2 has the length 100. The record of
chromosome 1 is stored (`prevStart = 500`); the first record of chromosome 2
is omitted as exceeding, so `prevStart` stays 500; the second record of
chromosome 2, `[20,30)`, is compared with it and `unsortedItems` is set,
the warning is printed and the sort-and-recheck pass runs, although the
records of each chromosome come in ascending order of start (500; 10, 20) and
chromosome 2 has no item before `[20,30)`. -/
theorem unsortedItems_set_by_other_chromosome :
    ((BedF.new 0).InitChild chromNumbered sizesSecond (Ambig.newDefault eInfo.iSTAT false)
      [⟨"1", 500, 600, 1⟩, ⟨"2", 10, 200, 1⟩, ⟨"2", 20, 30, 1⟩]).2.2 = Outcome.ok (3, 2) ∧
    ((BedF.new 0).InitChild chromNumbered sizesSecond (Ambig.newDefault eInfo.iSTAT false)
      [⟨"1", 500, 600, 1⟩, ⟨"2", 10, 200, 1⟩, ⟨"2", 20, 30, 1⟩]).1.items
        = [⟨⟨500, 600⟩, 1⟩, ⟨⟨20, 30⟩, 1⟩] ∧
    ((BedF.new 0).InitChild chromNumbered sizesSecond (Ambig.newDefault eInfo.iSTAT false)
      [⟨"1", 500, 600, 1⟩, ⟨"2", 10, 200, 1⟩, ⟨"2", 20, 30, 1⟩]).2.1.unsortedItems = true ∧
    ((BedF.new 0).InitChild chromNumbered sizesSecond (Ambig.newDefault eInfo.iSTAT false)
      [⟨"1", 500, 600, 1⟩, ⟨"2", 10, 200, 1⟩, ⟨"2", 20, 30, 1⟩]).2.1.out
        = [Output.UnsortedWarning] ∧
    ((BedF.new 0).InitChild chromNumbered sizesSecond (Ambig.newDefault eInfo.iSTAT false)
      [⟨"2", 10, 200, 1⟩, ⟨"2", 20, 30, 1⟩]).2.1.unsortedItems = false := by
  refine ⟨by decide, by decide, by decide, by decide, by decide⟩

/-- C32, failing input: all chromosomes are requested and the ids at the
chromosome changes ascend (1, then 2). The record of the unrecognised
chromosome sets `cCurrID` to `UnID` (255), so at the change to chromosome 2
the test `cNextID < cCurrID` compares 2 with 255 and sets `needSortChrom`;
without that record the flag stays unset. With the flag set, `InitChild`
sorts the collection. A file that starts with an unrecognised record sets
the flag at its first recognised chromosome. -/
theorem unrecognised_line_sets_needSortChrom :
    (readLines chromNumbered none [⟨"1", 10, 20, 1⟩, ⟨"Un", 5, 6, 1⟩, ⟨"2", 30, 40, 1⟩]
      (startSession "1")).1.loc.needSortChrom = true ∧
    (readLines chromNumbered none [⟨"1", 10, 20, 1⟩, ⟨"2", 30, 40, 1⟩]
      (startSession "1")).1.loc.needSortChrom = false ∧
    ((BedF.new 0).InitChild chromNumbered none (Ambig.newDefault eInfo.iSTAT false)
      [⟨"1", 10, 20, 1⟩, ⟨"Un", 5, 6, 1⟩, ⟨"2", 30, 40, 1⟩]).1.chroms
        = [(2, ⟨true, 1, 1⟩), (255, ⟨true, 0, 0⟩)] ∧
    (readLines chromNumbered none [⟨"Un", 5, 6, 1⟩, ⟨"1", 10, 20, 1⟩]
      (startSession "Un")).1.loc.needSortChrom = true := by
  refine ⟨by decide, by decide, by decide, by decide⟩

/-! ## The check of the last item -/

/-- C34, failing inputs. (1) Chromosome 2 has the length 100: its first
record is omitted as exceeding, and its second record is checked against the
last item of the buffer, `[20,30)` of chromosome 1; it is taken as its
duplicate and omitted, so no record of chromosome 2 is stored. (2) The same
with chromosome 2 alone: the buffer is empty when the second record is
checked, an access outside the buffer. (3) Reads with the threshold 5: the
first read is filtered by its score, the buffer is empty when the second read
is checked. -/
theorem CheckLastPos_without_item_of_chromosome :
    (((BedF.new 0).InitChild chromNumbered sizesSecond (Ambig.newDefault eInfo.iSTAT false)
        [⟨"1", 20, 30, 1⟩, ⟨"2", 10, 200, 1⟩, ⟨"2", 20, 30, 1⟩]).2.2 = Outcome.ok (3, 1) ∧
      ((BedF.new 0).InitChild chromNumbered sizesSecond (Ambig.newDefault eInfo.iSTAT false)
        [⟨"1", 20, 30, 1⟩, ⟨"2", 10, 200, 1⟩, ⟨"2", 20, 30, 1⟩]).1.items = [⟨⟨20, 30⟩, 1⟩] ∧
      (((BedF.new 0).InitChild chromNumbered sizesSecond (Ambig.newDefault eInfo.iSTAT false)
        [⟨"1", 20, 30, 1⟩, ⟨"2", 10, 200, 1⟩, ⟨"2", 20, 30, 1⟩]).2.1.cases eCase.DUPL).Count
          = 1) ∧
    (((BedF.new 0).InitChild chromNumbered sizesSecond (Ambig.newDefault eInfo.iSTAT false)
        [⟨"2", 10, 200, 1⟩, ⟨"2", 20, 30, 1⟩]).2.2 = Outcome.fail Err.OutOfRange ∧
      ((BedF.new 0).InitChild chromNumbered sizesSecond (Ambig.newDefault eInfo.iSTAT false)
        [⟨"2", 10, 200, 1⟩, ⟨"2", 20, 30, 1⟩]).1.items = []) ∧
    (((BedR.new 5 0).InitChild chromNumbered none (BedR.newAmbig eInfo.iSTAT false true) (-1)
        [⟨"1", 100, 136, 3⟩, ⟨"1", 200, 236, 7⟩]).2.2 = Outcome.fail Err.OutOfRange ∧
      ((BedR.new 5 0).InitChild chromNumbered none (BedR.newAmbig eInfo.iSTAT false true) (-1)
        [⟨"1", 100, 136, 3⟩, ⟨"1", 200, 236, 7⟩]).1.items = []) := by
  refine ⟨⟨by decide, by decide, by decide⟩, ⟨by decide, by decide⟩, ⟨by decide, by decide⟩⟩

/-! ## Merges and short features -/

/-- C35, failing input: the previous feature is `[20,40)` and the candidate
`[10,22)` starts before it. The candidate is classified as Crossed and, on
the decision Handle, the end of the previous feature becomes the end of the
candidate: `[20,40)` shrinks to `[20,22)`. The file with these two records
leaves the single feature `[20,22)`. -/
theorem merge_shrinks_previous_feature :
    firstCase 0 ⟨20, 40⟩ ⟨10, 22⟩ = some eCase.CROSS ∧
    (CheckItemPos 0 ⟨⟨20, 40⟩, 1⟩ ⟨10, 22⟩ (Ambig.newDefault eInfo.iSTAT false)).1
      = ⟨⟨20, 22⟩, 1⟩ ∧
    (CheckItemPos 0 ⟨⟨20, 40⟩, 1⟩ ⟨10, 22⟩ (Ambig.newDefault eInfo.iSTAT false)).2.2
      = Outcome.ok false ∧
    ((BedF.new 0).InitChild chromNumbered none (Ambig.newDefault eInfo.iSTAT false)
      [⟨"1", 20, 40, 1⟩, ⟨"1", 10, 22, 1⟩]).2.2 = Outcome.ok (2, 1) ∧
    ((BedF.new 0).InitChild chromNumbered none (Ambig.newDefault eInfo.iSTAT false)
      [⟨"1", 20, 40, 1⟩, ⟨"1", 10, 22, 1⟩]).1.items = [⟨⟨20, 22⟩, 1⟩] ∧
    (((BedF.new 0).InitChild chromNumbered none (Ambig.newDefault eInfo.iSTAT false)
      [⟨"1", 20, 40, 1⟩, ⟨"1", 10, 22, 1⟩]).2.1.cases eCase.CROSS).Count = 1 := by
  refine ⟨by decide, by decide, by decide, by decide, by decide, by decide⟩

/-- C36, failing input: with the minimum feature length 50 and the default
engine, the only record `[10,20)` of the file is the first record of its
chromosome; it is appended without `CheckItemPos` and stored with the length
10. A second short record of the chromosome is omitted as TooShort. -/
theorem short_first_record_stored :
    ((BedF.new 50).InitChild chromNumbered none (Ambig.newDefault eInfo.iSTAT false)
      [⟨"1", 10, 20, 1⟩]).2.2 = Outcome.ok (1, 1) ∧
    ((BedF.new 50).InitChild chromNumbered none (Ambig.newDefault eInfo.iSTAT false)
      [⟨"1", 10, 20, 1⟩]).1.items = [⟨⟨10, 20⟩, 1⟩] ∧
    (⟨⟨10, 20⟩, 1⟩ : Featr).toRegion.Length = 10 ∧
    ((Ambig.newDefault eInfo.iSTAT false).cases eCase.SHORT).Type_ = eAction.OMIT ∧
    ((BedF.new 50).InitChild chromNumbered none (Ambig.newDefault eInfo.iSTAT false)
      [⟨"1", 10, 20, 1⟩, ⟨"1", 30, 40, 1⟩]).1.items = [⟨⟨10, 20⟩, 1⟩] ∧
    (((BedF.new 50).InitChild chromNumbered none (Ambig.newDefault eInfo.iSTAT false)
      [⟨"1", 10, 20, 1⟩, ⟨"1", 30, 40, 1⟩]).2.1.cases eCase.SHORT).Count = 1 := by
  refine ⟨by decide, by decide, by decide, by decide, by decide, by decide⟩

/-! ## `CheckFeaturesLength` -/

/-- C38, failing input: a `BedF` with the single feature `[10,20)` of length
10. `CheckFeaturesLength(10)` completes although the length of the feature
does not exceed 10; `CheckFeaturesLength(11)` throws. -/
theorem CheckFeaturesLength_passes_equal_length :
    ((⟨[(1, ⟨true, 0, 0⟩)], [⟨⟨10, 20⟩, 1⟩], 1, 0, 1⟩ : BedF).CheckFeaturesLength 10).2
      = Outcome.ok () ∧
    (⟨⟨10, 20⟩, 1⟩ : Featr).toRegion.Length = 10 ∧
    ((⟨[(1, ⟨true, 0, 0⟩)], [⟨⟨10, 20⟩, 1⟩], 1, 0, 1⟩ : BedF).CheckFeaturesLength 11).2
      = Outcome.fail (Err.FeatureSize 10 11) := by
  refine ⟨by decide, by decide, by decide⟩

/-! ## What a sequence of `TreatCase` calls writes -/

/-- What one call of `TreatCase` writes, and the flags after it. -/
theorem TreatCase_emits (a : Ambig) (c : eCase) :
    (a.TreatCase c).1.out = a.out ++
      (if a.alarm = true ∧ (a.act c = eAction.HANDLE ∨ a.act c = eAction.OMIT) then
        (if a.alarmPrinted = true then [] else [Output.EOL]) ++ [Output.LineWarning c]
      else []) ∧
    (a.TreatCase c).1.alarmPrinted =
      (if a.alarm = true ∧ (a.act c = eAction.HANDLE ∨ a.act c = eAction.OMIT) then true
      else a.alarmPrinted) ∧
    (a.TreatCase c).1.alarm = a.alarm := by
  have h := incr_act a c c
  unfold Ambig.act at h
  simp only [Ambig.TreatCase, Ambig.Actions, Ambig.act, h]
  obtain ⟨t, hT⟩ : ∃ t, (a.cases c).Type_ = t := ⟨_, rfl⟩
  simp only [hT]
  cases t <;>
    cases hA : a.alarm <;> cases hP : a.alarmPrinted <;>
    simp [Ambig.Accept, Ambig.Handle, Ambig.Omit, Ambig.OmitQuiet, Ambig.Abort,
      Ambig.PrintLineAlarm, Ambig.incr, hA, hP]

theorem alarmsOf_TreatCase (a : Ambig) (c : eCase) (cs : List eCase) :
    alarmsOf (a.TreatCase c).1 cs = alarmsOf a cs := by
  unfold alarmsOf
  simp only [TreatCase_act, (TreatCase_emits a c).2.2]

theorem alarmsOf_cons (a : Ambig) (c : eCase) (cs : List eCase) :
    alarmsOf a (c :: cs) =
      (if a.alarm = true ∧ (a.act c = eAction.HANDLE ∨ a.act c = eAction.OMIT) then
        [Output.LineWarning c] else []) ++ alarmsOf a cs := by
  unfold alarmsOf
  by_cases hA : a.alarm = true
  · by_cases hc : a.act c = eAction.HANDLE ∨ a.act c = eAction.OMIT
    · simp [hA, hc, List.filter_cons]
    · simp [hA, hc, List.filter_cons]
  · simp [hA]

/-- What a sequence of `TreatCase` calls writes: at most one line break, then
the line alarms of the calls. -/
theorem treatAll_out (cs : List eCase) :
    ∀ a : Ambig, (treatAll a cs).out = a.out ++ lineBreak a cs ++ alarmsOf a cs := by
  induction cs with
  | nil =>
    intro a
    have h0 : alarmsOf a [] = [] := by unfold alarmsOf; split_ifs <;> rfl
    simp [treatAll, lineBreak, h0]
  | cons c cs ih =>
    intro a
    obtain ⟨ho, hp, _⟩ := TreatCase_emits a c
    have hI := ih (a.TreatCase c).1
    have hal := alarmsOf_TreatCase a c cs
    have hcons := alarmsOf_cons a c cs
    show (treatAll (a.TreatCase c).1 cs).out = _
    rw [hI, ho]
    unfold lineBreak
    rw [hal, hp, hcons]
    by_cases hc : a.alarm = true ∧ (a.act c = eAction.HANDLE ∨ a.act c = eAction.OMIT)
    · rw [if_pos hc, if_pos hc, if_pos hc]
      by_cases hP : a.alarmPrinted = true
      · simp [hP]
      · have hP' : a.alarmPrinted = false := by simpa using hP
        simp [hP']
    · rw [if_neg hc, if_neg hc, if_neg hc]
      simp

/-- C33: over every sequence of `TreatCase` calls on one engine the output
grows by at most one line break followed by the line alarms of the calls, so
a line break is written only immediately before the first alarm (and only
when none has been printed before); a call whose action is Handle or Omit
writes exactly one line alarm (after the line break, if it is the first
alarm) when the alarm flag is enabled and nothing when it is disabled; a call
whose action is Accept or OmitSilent writes nothing. -/
theorem TreatCase_alarms_and_line_break (a : Ambig) (cs : List eCase) :
    (treatAll a cs).out = a.out ++ lineBreak a cs ++ alarmsOf a cs ∧
    (lineBreak a cs = [] ∨ (lineBreak a cs = [Output.EOL] ∧ alarmsOf a cs ≠ [])) ∧
    (∀ x ∈ alarmsOf a cs, ∃ c ∈ cs, x = Output.LineWarning c) ∧
    (∀ c, (a.act c = eAction.HANDLE ∨ a.act c = eAction.OMIT) →
      (a.alarm = true →
        (a.TreatCase c).1.out = a.out ++
          (if a.alarmPrinted = true then [] else [Output.EOL]) ++ [Output.LineWarning c] ∧
        (a.TreatCase c).1.alarmPrinted = true) ∧
      (a.alarm = false → (a.TreatCase c).1.out = a.out)) ∧
    (∀ c, (a.act c = eAction.ACCEPT ∨ a.act c = eAction.OMIT_SILENT) →
      (a.TreatCase c).1.out = a.out ∧ (a.TreatCase c).1.alarmPrinted = a.alarmPrinted) := by
  refine ⟨treatAll_out cs a, ?_, ?_, ?_, ?_⟩
  · unfold lineBreak
    split_ifs with h
    · exact Or.inr ⟨rfl, h.2⟩
    · exact Or.inl rfl
  · intro x hx
    unfold alarmsOf at hx
    split_ifs at hx
    · obtain ⟨c, hc, rfl⟩ := List.mem_map.mp hx
      exact ⟨c, (List.mem_filter.mp hc).1, rfl⟩
    · simp at hx
  · intro c hc
    obtain ⟨ho, hp, _⟩ := TreatCase_emits a c
    refine ⟨fun hA => ?_, fun hA => ?_⟩
    · have hcond : a.alarm = true ∧ (a.act c = eAction.HANDLE ∨ a.act c = eAction.OMIT) :=
        ⟨hA, hc⟩
      rw [ho, hp, if_pos hcond, if_pos hcond, List.append_assoc]
      exact ⟨rfl, rfl⟩
    · rw [ho, if_neg (by rw [hA]; simp)]
      simp
  · intro c hc
    obtain ⟨ho, hp, _⟩ := TreatCase_emits a c
    have hn : ¬ (a.alarm = true ∧ (a.act c = eAction.HANDLE ∨ a.act c = eAction.OMIT)) := by
      rintro ⟨_, h | h⟩ <;> rcases hc with hc | hc <;> rw [hc] at h <;> cases h
    rw [ho, hp, if_neg hn, if_neg hn]
    simp

/-- C33, on the default engine with the alarm flag enabled and no line break
printed yet, for the calls Duplicate (Omit), DifferentSize (Accept), Crossed
(Handle): one line break, then the alarm of Duplicate and the alarm of
Crossed. -/
theorem TreatCase_alarms_and_line_break_witness :
    (treatAll (Ambig.newDefault eInfo.iSTAT true) [eCase.DUPL, eCase.DIFFSZ, eCase.CROSS]).out
        = [Output.EOL, Output.LineWarning eCase.DUPL, Output.LineWarning eCase.CROSS] ∧
      ((Ambig.newDefault eInfo.iSTAT true).TreatCase eCase.DUPL).1.out
        = [Output.EOL, Output.LineWarning eCase.DUPL] ∧
      ((Ambig.newDefault eInfo.iSTAT false).TreatCase eCase.DUPL).1.out = [] ∧
      ((Ambig.newDefault eInfo.iSTAT true).TreatCase eCase.DIFFSZ).1.out = [] :=
  ⟨(TreatCase_alarms_and_line_break (Ambig.newDefault eInfo.iSTAT true)
      [eCase.DUPL, eCase.DIFFSZ, eCase.CROSS]).1,
    ((TreatCase_alarms_and_line_break (Ambig.newDefault eInfo.iSTAT true) []).2.2.2.1
      eCase.DUPL (by decide)).1 (by decide) |>.1,
    ((TreatCase_alarms_and_line_break (Ambig.newDefault eInfo.iSTAT false) []).2.2.2.1
      eCase.DUPL (by decide)).2 (by decide),
    ((TreatCase_alarms_and_line_break (Ambig.newDefault eInfo.iSTAT true) []).2.2.2.2
      eCase.DIFFSZ (by decide)).1⟩

/-- C37: `TreatCase(c)` adds 1 to the counter of `c` and changes nothing else
in the table of the cases: the counter of every other case and the action of
every case, `c` included, are after the call as before it, whatever the
decision (also when the call throws). The level of information, the alarm
flag, the kept count of ambiguities and `unsortedItems` are unchanged too. -/
theorem TreatCase_changes_only_own_counter (a : Ambig) (c : eCase) :
    ((a.TreatCase c).1.cases c).Count = (a.cases c).Count + 1 ∧
    (∀ d, d ≠ c → ((a.TreatCase c).1.cases d).Count = (a.cases d).Count) ∧
    (∀ d, ((a.TreatCase c).1.cases d).Type_ = (a.cases d).Type_) ∧
    (a.TreatCase c).1.info = a.info ∧ (a.TreatCase c).1.alarm = a.alarm ∧
    (a.TreatCase c).1.count = a.count ∧
    (a.TreatCase c).1.unsortedItems = a.unsortedItems := by
  have h1 := TreatCase_cnt_self a c
  have h2 := TreatCase_cnt_other a c
  have h3 := TreatCase_act a c
  unfold Ambig.cnt at h1 h2
  unfold Ambig.act at h3
  refine ⟨h1, fun d hd => h2 d hd, h3, ?_, (TreatCase_emits a c).2.2, ?_,
    TreatCase_unsorted a c⟩
  · simp only [Ambig.TreatCase, Ambig.Actions]
    split <;>
      simp [Ambig.Accept, Ambig.Handle, Ambig.Omit, Ambig.OmitQuiet, Ambig.Abort,
        Ambig.PrintLineAlarm, Ambig.incr] <;> split_ifs <;> rfl
  · simp only [Ambig.TreatCase, Ambig.Actions]
    split <;>
      simp [Ambig.Accept, Ambig.Handle, Ambig.Omit, Ambig.OmitQuiet, Ambig.Abort,
        Ambig.PrintLineAlarm, Ambig.incr] <;> split_ifs <;> rfl

/-- C37, on the default engine for the case Crossed (Handle): the counter of
Crossed becomes 1, the counter of Adjacent stays 0 and the action of Crossed
stays Handle. -/
theorem TreatCase_changes_only_own_counter_witness :
    (((Ambig.newDefault eInfo.iSTAT true).TreatCase eCase.CROSS).1.cases eCase.CROSS).Count = 1 ∧
    (((Ambig.newDefault eInfo.iSTAT true).TreatCase eCase.CROSS).1.cases eCase.ADJAC).Count = 0 ∧
    (((Ambig.newDefault eInfo.iSTAT true).TreatCase eCase.CROSS).1.cases eCase.CROSS).Type_
      = eAction.HANDLE :=
  ⟨(TreatCase_changes_only_own_counter (Ambig.newDefault eInfo.iSTAT true) eCase.CROSS).1,
    (TreatCase_changes_only_own_counter (Ambig.newDefault eInfo.iSTAT true) eCase.CROSS).2.1
      eCase.ADJAC (by decide),
    (TreatCase_changes_only_own_counter (Ambig.newDefault eInfo.iSTAT true) eCase.CROSS).2.2.1
      eCase.CROSS⟩

/-! ## When `unsortedItems` is set -/

theorem InitRegn_unsorted (a : Ambig) (start end_ : Int) (rgn : Region) (cLen : Nat) :
    (a.InitRegn start end_ rgn cLen).1.unsortedItems = a.unsortedItems := by
  have h := TreatCase_unsorted a eCase.EXCEED
  unfold Ambig.InitRegn
  split_ifs
  · rfl
  · rfl
  · rcases hT : a.TreatCase eCase.EXCEED with ⟨a1, r⟩
    rw [hT] at h
    cases r with
    | fail e => exact h
    | ok r =>
      simp only
      split_ifs
      · exact h
      · exact h
  · rfl

theorem CheckLastPos_unsorted (b : BedF) (rgn : Region) (a : Ambig) :
    (b.CheckLastPos rgn a).2.1.unsortedItems = a.unsortedItems := by
  cases hl : b.items.getLast? with
  | none =>
    simp only [BedF.CheckLastPos, hl]
  | some last =>
    have h := CheckItemPos_unsorted b.minFtrLen last rgn a
    rcases hC : CheckItemPos b.minFtrLen last rgn a with ⟨last1, a1, r⟩
    rw [hC] at h
    simp only [BedF.CheckLastPos, hl, hC]
    exact h

/-- Opening a chromosome leaves `unsortedItems` as it is. -/
theorem openChrom_unsorted (cSizes : Option (Nat → Nat)) (ln : Line) (id : Nat) (s : Session) :
    (openChrom cSizes ln id s).1.ambig.unsortedItems = s.ambig.unsortedItems := by
  have hI := InitRegn_unsorted s.ambig ln.start ln.end_ s.loc.rgn (chromLen cSizes id s.loc.cLen)
  rcases hR : s.ambig.InitRegn ln.start ln.end_ s.loc.rgn (chromLen cSizes id s.loc.cLen)
    with ⟨a, rgn, r⟩
  rw [hR] at hI
  cases r with
  | fail e =>
    simp only [openChrom, hR]
    exact hI
  | ok v =>
    cases v with
    | false =>
      simp only [openChrom, hR]
      exact hI
    | true =>
      simp only [openChrom, hR, addItem_eq]
      exact hI

/-- A record with the chromosome name of the record before sets
`unsortedItems` exactly when it is not skipped, `InitRegn` initialises the
region and the start of the record lies before `prevStart`; otherwise the
flag is as it was. -/
theorem sameChrom_unsorted (chrom : Chrom) (ln : Line) (s : Session) :
    ((sameChrom chrom ln s).1.ambig.unsortedItems = true ↔
      (s.ambig.unsortedItems = true ∨
        (¬ (s.loc.cCurrID = chrom.UnID ∨ (¬ chrom.StatedAll ∧ s.loc.cCurrID ≠ chrom.StatedID)) ∧
          (s.ambig.InitRegn ln.start ln.end_ s.loc.rgn s.loc.cLen).2.2 = Outcome.ok true ∧
          ln.start.toNat < s.loc.prevStart))) := by
  by_cases hs : s.loc.cCurrID = chrom.UnID ∨ (¬ chrom.StatedAll ∧ s.loc.cCurrID ≠ chrom.StatedID)
  · have ho : sameChrom chrom ln s = (s, .ok .next) := by
      unfold sameChrom
      rw [if_pos hs]
    rw [ho]
    exact ⟨fun h => Or.inl h, fun h => h.elim id (fun h2 => absurd hs h2.1)⟩
  · have hc := InitRegn_cases s.ambig ln.start ln.end_ s.loc.rgn s.loc.cLen
    have hu := InitRegn_unsorted s.ambig ln.start ln.end_ s.loc.rgn s.loc.cLen
    rcases hI : s.ambig.InitRegn ln.start ln.end_ s.loc.rgn s.loc.cLen with ⟨a, rgn, r⟩
    rw [hI] at hc hu
    simp only at hc hu
    rcases hc with ⟨e, he, _⟩ | ⟨hr, _, _⟩ | ⟨hr, hg, _, _, _⟩
    · subst he
      have ho : sameChrom chrom ln s =
          ({ s with ambig := a,
                    loc := { s.loc with cntLines := s.loc.cntLines + 1, rgn := rgn } },
            .fail e) := by
        unfold sameChrom
        rw [if_neg hs]
        simp only [hI]
      rw [ho]
      show a.unsortedItems = true ↔ _
      rw [hu]
      exact ⟨fun h => Or.inl h, fun h => h.elim id (fun h2 => by simp at h2)⟩
    · subst hr
      have ho : sameChrom chrom ln s =
          ({ s with ambig := a,
                    loc := { s.loc with cntLines := s.loc.cntLines + 1, rgn := rgn } },
            .ok .next) := by
        unfold sameChrom
        rw [if_neg hs]
        simp only [hI]
      rw [ho]
      show a.unsortedItems = true ↔ _
      rw [hu]
      exact ⟨fun h => Or.inl h, fun h => h.elim id (fun h2 => by simp at h2)⟩
    · subst hr
      subst hg
      have hL := CheckLastPos_unsorted s.bed ⟨ln.start.toNat, ln.end_.toNat⟩
        (if ln.start.toNat < s.loc.prevStart then { a with unsortedItems := true } else a)
      rcases hC : s.bed.CheckLastPos ⟨ln.start.toNat, ln.end_.toNat⟩
        (if ln.start.toNat < s.loc.prevStart then { a with unsortedItems := true } else a)
        with ⟨b1, a2, r⟩
      rw [hC] at hL
      simp only at hL
      have hflag : (sameChrom chrom ln s).1.ambig.unsortedItems = a2.unsortedItems := by
        cases r with
        | fail e =>
          have ho : sameChrom chrom ln s =
              ({ bed := b1, ambig := a2,
                 loc := { s.loc with cntLines := s.loc.cntLines + 1,
                                     rgn := ⟨ln.start.toNat, ln.end_.toNat⟩ } },
                .fail e) := by
            unfold sameChrom
            rw [if_neg hs]
            simp only [hI, hC]
          rw [ho]
        | ok v =>
          cases v with
          | false =>
            have ho : sameChrom chrom ln s =
                ({ bed := b1, ambig := a2,
                   loc := { s.loc with cntLines := s.loc.cntLines + 1,
                                       rgn := ⟨ln.start.toNat, ln.end_.toNat⟩ } },
                  .ok .next) := by
              unfold sameChrom
              rw [if_neg hs]
              simp only [hI, hC]
            rw [ho]
          | true =>
            have ho : sameChrom chrom ln s =
                addItem ln { bed := b1, ambig := a2,
                             loc := { s.loc with cntLines := s.loc.cntLines + 1,
                                                 rgn := ⟨ln.start.toNat, ln.end_.toNat⟩ } } := by
              unfold sameChrom
              rw [if_neg hs]
              simp only [hI, hC]
            rw [ho, addItem_eq]
      rw [hflag, hL]
      by_cases hlt : ln.start.toNat < s.loc.prevStart
      · rw [if_pos hlt]
        exact ⟨fun _ => Or.inr ⟨hs, rfl, hlt⟩, fun _ => rfl⟩
      · rw [if_neg hlt, hu]
        exact ⟨fun h => Or.inl h, fun h => h.elim id (fun h2 => absurd h2.2.2 hlt)⟩

/-- The ways a turn of the loop goes: the session is left with other local
variables only, or the turn is `openChrom` on a session with the same engine,
or the turn is `sameChrom`. -/
theorem step_cases (chrom : Chrom) (cSizes : Option (Nat → Nat)) (ln : Line) (s : Session) :
    (∃ loc r, step chrom cSizes ln s = ({ s with loc := loc }, r)) ∨
    (∃ s1 : Session, s1.ambig = s.ambig ∧ s.loc.cName ≠ ln.ChromName ∧
      step chrom cSizes ln s = openChrom cSizes ln (chrom.ID ln.ChromName) s1) ∨
    (s.loc.cName = ln.ChromName ∧ step chrom cSizes ln s = sameChrom chrom ln s) := by
  by_cases hname : s.loc.cName ≠ ln.ChromName
  · by_cases hun : chrom.ID ln.ChromName = chrom.UnID
    · left
      exact ⟨{ s.loc with cCurrID := chrom.UnID }, .ok .next,
        step_unrecognised chrom cSizes ln s hname hun⟩
    · by_cases hmode : chrom.StatedAll = true
      · right; left
        exact ⟨{ s with
            bed := if s.loc.currInd ≠ s.loc.firstInd then
                s.bed.AddVal s.loc.cCurrID (ChromItemsInd.new s.loc.firstInd s.loc.currInd)
              else s.bed,
            loc := { s.loc with
              cName := ln.ChromName,
              needSortChrom :=
                if chrom.ID ln.ChromName < s.loc.cCurrID ∧ chrom.ID ln.ChromName ≠ chrom.M
                then true else s.loc.needSortChrom } }, rfl, hname,
          step_all_change chrom cSizes ln s hname hun hmode⟩
      · have hmode : chrom.StatedAll = false := by simpa using hmode
        by_cases hend : s.loc.rgn.End ≠ 0
        · left
          exact ⟨_, _, step_single_stop chrom cSizes ln s hname hun hmode hend⟩
        · have hend : s.loc.rgn.End = 0 := by simpa using hend
          by_cases hns : s.loc.needSortChrom = true
          · left
            exact ⟨_, _, step_single_unsorted chrom cSizes ln s hname hun hmode hend hns⟩
          · have hns : s.loc.needSortChrom = false := by simpa using hns
            by_cases hst : chrom.ID ln.ChromName ≠ chrom.StatedID
            · left
              exact ⟨_, _, step_single_skip chrom cSizes ln s hname hun hmode hend hns hst⟩
            · have hst : chrom.ID ln.ChromName = chrom.StatedID := by simpa using hst
              right; left
              exact ⟨{ s with loc := { s.loc with cName := ln.ChromName } }, rfl, hname,
                step_single_open chrom cSizes ln s hname hun hmode hend hns hst⟩
  · have hname : s.loc.cName = ln.ChromName := by simpa using hname
    exact Or.inr (Or.inr ⟨hname, step_same_name chrom cSizes ln s hname⟩)

/-- A turn of the loop never clears `unsortedItems`, and only a record with
the chromosome name of the record before can set it. -/
theorem step_unsorted (chrom : Chrom) (cSizes : Option (Nat → Nat)) (ln : Line) (s : Session) :
    (s.ambig.unsortedItems = true → (step chrom cSizes ln s).1.ambig.unsortedItems = true) ∧
    (s.loc.cName ≠ ln.ChromName →
      (step chrom cSizes ln s).1.ambig.unsortedItems = s.ambig.unsortedItems) := by
  rcases step_cases chrom cSizes ln s with ⟨loc, r, h⟩ | ⟨s1, h1, _, h⟩ | ⟨hn, h⟩
  · rw [h]
    exact ⟨fun h => h, fun _ => rfl⟩
  · rw [h, openChrom_unsorted, h1]
    exact ⟨fun h => h, fun _ => rfl⟩
  · rw [h]
    exact ⟨fun hu => (sameChrom_unsorted chrom ln s).mpr (Or.inl hu), fun hne => absurd hn hne⟩

/-- The reading loop never clears `unsortedItems`. -/
theorem readLines_unsorted (chrom : Chrom) (cSizes : Option (Nat → Nat)) (lines : List Line) :
    ∀ s : Session, s.ambig.unsortedItems = true →
      (readLines chrom cSizes lines s).1.ambig.unsortedItems = true := by
  induction lines with
  | nil => intro s h; exact h
  | cons ln rest ih =>
    intro s h
    have hs := (step_unsorted chrom cSizes ln s).1 h
    rcases hS : step chrom cSizes ln s with ⟨s1, r⟩
    rw [hS] at hs
    cases r with
    | fail e =>
      rw [readLines_fail chrom cSizes ln rest s s1 e hS]
      exact hs
    | ok fl =>
      cases fl with
      | stop =>
        rw [readLines_stop chrom cSizes ln rest s s1 hS]
        exact hs
      | next =>
        rw [readLines_next chrom cSizes ln rest s s1 hS]
        exact ih s1 hs

/-! ## Merges in the order of the starts -/

/-- A candidate that does not start before the previous feature never shrinks
it: `CheckItemPos` leaves the start of the previous feature as it is and its
end at least where it was. -/
theorem CheckItemPos_grows_in_order (m : Nat) (it : Featr) (rgn : Region) (a : Ambig)
    (hr : rgn.Start < rgn.End) (hle : it.Start ≤ rgn.Start) :
    (CheckItemPos m it rgn a).1.Start = it.Start ∧ it.End ≤ (CheckItemPos m it rgn a).1.End ∧
    (CheckItemPos m it rgn a).1.Score = it.Score := by
  have h := CheckItemPos_eq m it rgn a
  cases hf : firstCase m it.toRegion rgn with
  | none =>
    rw [hf] at h
    rw [h]
    exact ⟨rfl, le_refl _, rfl⟩
  | some c =>
    rw [hf] at h
    cases h5 : (a.TreatCase c).2 with
    | fail e =>
      simp only [h5] at h
      rw [h]
      exact ⟨rfl, le_refl _, rfl⟩
    | ok r =>
      by_cases hc : c = eCase.ADJAC ∨ c = eCase.CROSS
      · have hgeo : it.End ≤ rgn.End := by
          rcases hc with hc | hc
          · subst hc
            unfold firstCase at hf
            split_ifs at hf with h1 h2 h3 h4 h5 <;> first | omega | simp at hf
          · subst hc
            unfold firstCase at hf
            split_ifs at hf with h1 h2 h3 h4 h5 <;> first | omega | simp at hf
        simp only [h5, hc, ↓reduceIte] at h
        rw [h]
        unfold CorrectItemsEnd
        split_ifs
        · exact ⟨rfl, le_refl _, rfl⟩
        · exact ⟨rfl, hgeo, rfl⟩
        · exact ⟨rfl, le_refl _, rfl⟩
      · simp only [h5, hc, ↓reduceIte] at h
        rw [h]
        exact ⟨rfl, le_refl _, rfl⟩

/-! ## What `CheckFeaturesLength` checks -/

theorem scan_ok_iff (items : List Featr) (len : Nat) (n : Nat) :
    ∀ i, CheckFeaturesLength.scan items len i n = .ok () ↔
      ∀ j, i ≤ j → j < i + n → ∃ f, items.get? j = some f ∧ len ≤ f.toRegion.Length := by
  induction n with
  | zero =>
    intro i
    simp only [CheckFeaturesLength.scan, true_iff]
    intro j h1 h2
    omega
  | succ n ih =>
    intro i
    unfold CheckFeaturesLength.scan
    cases hg : items.get? i with
    | none =>
      simp only
      constructor
      · intro h; cases h
      · intro h
        obtain ⟨f, hf, _⟩ := h i (le_refl _) (by omega)
        rw [hg] at hf
        cases hf
    | some f =>
      simp only
      by_cases hlt : f.toRegion.Length < len
      · rw [if_pos hlt]
        constructor
        · intro h; cases h
        · intro h
          obtain ⟨f1, hf1, hl⟩ := h i (le_refl _) (by omega)
          rw [hg] at hf1
          cases hf1
          omega
      · rw [if_neg hlt, ih (i + 1)]
        constructor
        · intro h j h1 h2
          by_cases hj : j = i
          · subst hj
            exact ⟨f, hg, by omega⟩
          · exact h j (by omega) (by omega)
        · intro h j h1 h2
          exact h j (by omega) (by omega)

theorem scan_fail (items : List Featr) (len : Nat) (n : Nat) :
    ∀ i e, CheckFeaturesLength.scan items len i n = .fail e →
      e = Err.OutOfRange ∨ ∃ f ∈ items, f.toRegion.Length < len ∧
        e = Err.FeatureSize f.toRegion.Length len := by
  induction n with
  | zero => intro i e h; simp [CheckFeaturesLength.scan] at h
  | succ n ih =>
    intro i e h
    unfold CheckFeaturesLength.scan at h
    cases hg : items.get? i with
    | none =>
      rw [hg] at h
      simp only [Outcome.fail.injEq] at h
      exact Or.inl h.symm
    | some f =>
      rw [hg] at h
      simp only at h
      by_cases hlt : f.toRegion.Length < len
      · rw [if_pos hlt] at h
        simp only [Outcome.fail.injEq] at h
        exact Or.inr ⟨f, List.get?_mem hg, hlt, h.symm⟩
      · rw [if_neg hlt] at h
        exact ih (i + 1) e h

theorem chroms_ok_iff (items : List Featr) (len : Nat) (cs : List (Nat × ChromItemsInd)) :
    CheckFeaturesLength.chroms items len cs = .ok () ↔
      ∀ cit ∈ cs, CheckFeaturesLength.scan items len cit.2.FirstInd
        (if cit.2.FirstInd ≤ cit.2.LastInd + 1 then cit.2.LastInd + 1 - cit.2.FirstInd
          else items.length + 1) = .ok () := by
  induction cs with
  | nil => simp [CheckFeaturesLength.chroms]
  | cons cit cs ih =>
    unfold CheckFeaturesLength.chroms
    simp only
    cases hS : CheckFeaturesLength.scan items len cit.2.FirstInd
        (if cit.2.FirstInd ≤ cit.2.LastInd + 1 then cit.2.LastInd + 1 - cit.2.FirstInd
          else items.length + 1) with
    | fail e =>
      simp only
      constructor
      · intro h; cases h
      · intro h
        have := h cit (List.mem_cons_self _ _)
        rw [hS] at this
        cases this
    | ok u =>
      simp only
      rw [ih]
      constructor
      · intro h c hc
        rcases List.mem_cons.mp hc with rfl | hc
        · exact hS
        · exact h c hc
      · intro h c hc
        exact h c (List.mem_cons_of_mem _ hc)

/-- `CheckFeaturesLength(len)` leaves the instance as it is; on a collection
whose ranges are not reversed it completes exactly when every range lies in
the buffer and every feature of a range has a length not less than `len`. -/
theorem CheckFeaturesLength_ok_iff (b : BedF) (len : Nat)
    (hr : ∀ cit ∈ b.chroms, cit.2.FirstInd ≤ cit.2.LastInd + 1) :
    (b.CheckFeaturesLength len).1 = b ∧
    ((b.CheckFeaturesLength len).2 = .ok () ↔
      ∀ cit ∈ b.chroms, ∀ j, cit.2.FirstInd ≤ j → j ≤ cit.2.LastInd →
        ∃ f, b.items.get? j = some f ∧ len ≤ f.toRegion.Length) := by
  refine ⟨rfl, ?_⟩
  show CheckFeaturesLength.chroms b.items len b.chroms = .ok () ↔ _
  rw [chroms_ok_iff]
  constructor
  · intro h cit hc j h1 h2
    have hs := h cit hc
    rw [if_pos (hr cit hc), scan_ok_iff] at hs
    exact hs j h1 (by have := hr cit hc; omega)
  · intro h cit hc
    rw [if_pos (hr cit hc), scan_ok_iff]
    intro j h1 h2
    exact h cit hc j h1 (by have := hr cit hc; omega)

/-- Ingestion never clears `unsortedItems`. -/
theorem InitChild_unsorted (b : BedF) (chrom : Chrom) (cSizes : Option (Nat → Nat)) (a : Ambig)
    (lines : List Line) (h : a.unsortedItems = true) :
    (b.InitChild chrom cSizes a lines).2.1.unsortedItems = true := by
  cases lines with
  | nil => exact h
  | cons first rest =>
    have hR := readLines_unsorted chrom cSizes (first :: rest)
      { bed := b, ambig := a, loc := initLocals chrom cSizes first } h
    rw [InitChild_cons]
    cases hO : (readLines chrom cSizes (first :: rest)
        { bed := b, ambig := a, loc := initLocals chrom cSizes first }).2 with
    | fail e => exact hR
    | ok u => exact finish_unsorted chrom _ hR

/-! ## When `needSortChrom` is set -/

/-- A turn of the loop sets `needSortChrom` exactly when all chromosomes are
requested, the line names another, recognised chromosome, and its id is less
than `cCurrID` and is not the id of `M`; it never clears it. `cCurrID` is the
id of the open chromosome, or `UnID` after a line of an unrecognised
chromosome. -/
theorem step_needSortChrom (chrom : Chrom) (cSizes : Option (Nat → Nat)) (ln : Line)
    (s : Session) :
    ((step chrom cSizes ln s).1.loc.needSortChrom = true ↔
      (s.loc.needSortChrom = true ∨
        (s.loc.cName ≠ ln.ChromName ∧ chrom.ID ln.ChromName ≠ chrom.UnID ∧
          chrom.StatedAll = true ∧ chrom.ID ln.ChromName < s.loc.cCurrID ∧
          chrom.ID ln.ChromName ≠ chrom.M))) := by
  by_cases hname : s.loc.cName ≠ ln.ChromName
  · by_cases hun : chrom.ID ln.ChromName = chrom.UnID
    · rw [step_unrecognised chrom cSizes ln s hname hun]
      exact ⟨fun h => Or.inl h, fun h => h.elim id (fun h2 => absurd hun h2.2.1)⟩
    · by_cases hmode : chrom.StatedAll = true
      · rw [step_all_change chrom cSizes ln s hname hun hmode]
        obtain ⟨_, _, _, h4, _⟩ := openChrom_shape cSizes ln (chrom.ID ln.ChromName)
          { s with
            bed := if s.loc.currInd ≠ s.loc.firstInd then
                s.bed.AddVal s.loc.cCurrID (ChromItemsInd.new s.loc.firstInd s.loc.currInd)
              else s.bed,
            loc := { s.loc with
              cName := ln.ChromName,
              needSortChrom :=
                if chrom.ID ln.ChromName < s.loc.cCurrID ∧ chrom.ID ln.ChromName ≠ chrom.M
                then true else s.loc.needSortChrom } } _ rfl
        rw [h4]
        show (if chrom.ID ln.ChromName < s.loc.cCurrID ∧ chrom.ID ln.ChromName ≠ chrom.M
          then true else s.loc.needSortChrom) = true ↔ _
        by_cases hlt : chrom.ID ln.ChromName < s.loc.cCurrID ∧ chrom.ID ln.ChromName ≠ chrom.M
        · rw [if_pos hlt]
          exact ⟨fun _ => Or.inr ⟨hname, hun, hmode, hlt.1, hlt.2⟩, fun _ => rfl⟩
        · rw [if_neg hlt]
          exact ⟨fun h => Or.inl h,
            fun h => h.elim id (fun h2 => absurd ⟨h2.2.2.2.1, h2.2.2.2.2⟩ hlt)⟩
      · have hmode' : chrom.StatedAll = false := by simpa using hmode
        by_cases hend : s.loc.rgn.End ≠ 0
        · rw [step_single_stop chrom cSizes ln s hname hun hmode' hend]
          exact ⟨fun h => Or.inl h, fun h => h.elim id (fun h2 => absurd h2.2.2.1 hmode)⟩
        · have hend : s.loc.rgn.End = 0 := by simpa using hend
          by_cases hns : s.loc.needSortChrom = true
          · rw [step_single_unsorted chrom cSizes ln s hname hun hmode' hend hns]
            exact ⟨fun h => Or.inl h, fun h => h.elim id (fun h2 => absurd h2.2.2.1 hmode)⟩
          · have hns : s.loc.needSortChrom = false := by simpa using hns
            by_cases hst : chrom.ID ln.ChromName ≠ chrom.StatedID
            · rw [step_single_skip chrom cSizes ln s hname hun hmode' hend hns hst]
              exact ⟨fun h => Or.inl h, fun h => h.elim id (fun h2 => absurd h2.2.2.1 hmode)⟩
            · have hst : chrom.ID ln.ChromName = chrom.StatedID := by simpa using hst
              rw [step_single_open chrom cSizes ln s hname hun hmode' hend hns hst]
              obtain ⟨_, _, _, h4, _⟩ := openChrom_shape cSizes ln (chrom.ID ln.ChromName)
                { s with loc := { s.loc with cName := ln.ChromName } } _ rfl
              rw [h4]
              exact ⟨fun h => Or.inl h,
                fun h => h.elim id (fun h2 => absurd h2.2.2.1 hmode)⟩
  · have hname : s.loc.cName = ln.ChromName := by simpa using hname
    rw [step_same_name chrom cSizes ln s hname]
    obtain ⟨_, _, _, h4, _⟩ := sameChrom_shape chrom ln s _ rfl
    rw [h4]
    exact ⟨fun h => Or.inl h, fun h => h.elim id (fun h2 => absurd hname h2.1)⟩

/-! ## Duplicates in files of several chromosomes and in unsorted files -/

theorem chromLen_next (cSizes : Option (Nat → Nat)) (cID cID2 : Nat) :
    chromLen cSizes cID (chromLen cSizes cID2 0) = chromLen cSizes cID 0 := by
  cases cSizes <;> rfl

/-- The loop body on the first record of the next block, all chromosomes being
requested: the record is appended. -/
theorem step_next_block (chrom : Chrom) (cSizes : Option (Nat → Nat)) (name name1 : String)
    (m : Nat) (g g1 : Group) (pre : List Featr) (S : Session)
    (hne : name ≠ name1) (hid1 : chrom.ID name1 ≠ chrom.UnID) (hall : chrom.StatedAll = true)
    (hg1 : g1.inside (chromLen cSizes (chrom.ID name1) 0))
    (inv : Inv chrom name m (chromLen cSizes (chrom.ID name) 0) g pre S) :
    ∃ S1, step chrom cSizes ⟨name1, g1.Start, g1.End, g1.score⟩ S = (S1, .ok .next) ∧
      Inv chrom name1 m (chromLen cSizes (chrom.ID name1) 0) g1 (pre ++ [g.featr]) S1 ∧
      S1.loc.cntLines = S.loc.cntLines + 1 ∧
      (S1.ambig.cases eCase.DUPL).Count = (S.ambig.cases eCase.DUPL).Count := by
  obtain ⟨hName, hID, hLen, hMin, hItems, hRgn, hPrev, hCur, hSort, hDupl⟩ := inv
  have hst := step_all_change chrom cSizes ⟨name1, g1.Start, g1.End, g1.score⟩ S
    (by rw [hName]; exact hne) hid1 hall
  have hin := InitRegn_inside S.ambig (g1.Start : Int) (g1.End : Int) S.loc.rgn
    (chromLen cSizes (chrom.ID name1) S.loc.cLen) (by simp) (by simpa using hg1.1)
    (by rw [hLen, chromLen_next]; simpa using hg1.2)
  rw [hst]
  unfold openChrom
  simp only [hin, addItem, BedF.AddPos]
  refine ⟨_, rfl, ⟨rfl, rfl, ?_, ?_, ?_, ?_, ?_, ?_, hSort, hDupl⟩, rfl, rfl⟩
  · simp only [hLen, chromLen_next]
  · simp only; split_ifs <;> simpa [BedF.AddVal] using hMin
  · simp only; split_ifs <;> simp [BedF.AddVal, hItems, Group.featr]
  · simp
  · simp
  · simp

/-- A sorted block of separated groups followed by further lines, read from a
session that has stored the first record of the group `g`. -/
theorem readLines_groups_then (chrom : Chrom) (cSizes : Option (Nat → Nat)) (name : String) (m L : Nat)
    (hid : chrom.ID name ≠ chrom.UnID)
    (hmode : chrom.StatedAll = true ∨ chrom.ID name = chrom.StatedID) (rest : List Line)
    (gs : List Group) :
    ∀ (g : Group) (pre : List Featr) (S : Session), Inv chrom name m L g pre S →
      g.inside L → (∀ x ∈ gs, x.inside L) → separatedFrom m g gs →
    ∃ S1 g1 pre1, readLines chrom cSizes
          (g.more.map (fun sc => ⟨name, g.Start, g.End, sc⟩) ++ groupLines name gs ++ rest) S =
          readLines chrom cSizes rest S1 ∧
      Inv chrom name m L g1 pre1 S1 ∧ g1.inside L ∧
      S1.bed.items = S.bed.items ++ gs.map Group.featr ∧
      S1.loc.cntLines = S.loc.cntLines + g.more.length + (groupLines name gs).length ∧
      (S1.ambig.cases eCase.DUPL).Count = (S.ambig.cases eCase.DUPL).Count + dupCount (g :: gs) := by
  induction gs with
  | nil =>
    intro g pre S inv hg _ _
    obtain ⟨S1, hs, inv1, hc1, hd1⟩ :=
      readLines_dups chrom cSizes name m L g pre hid hmode hg g.more rest S inv
    refine ⟨S1, g, pre, ?_, inv1, hg, ?_, ?_, ?_⟩
    · simpa [groupLines] using hs
    · rw [inv1.hItems, inv.hItems]; simp
    · simp [groupLines, hc1]
    · simp [dupCount, hd1]
  | cons g1 gs ih =>
    intro g pre S inv hg hall hsep
    obtain ⟨S1, hs, inv1, hc1, hd1⟩ := readLines_dups chrom cSizes name m L g pre hid hmode hg g.more
      (groupLines name (g1 :: gs) ++ rest) S inv
    have hg1 : g1.inside L := hall g1 (List.mem_cons_self _ _)
    obtain ⟨S2, hs2, inv2, hc2, hd2⟩ := step_fresh chrom cSizes name m L g g1 pre S1 hid hmode hg hg1
      hsep.1 hsep.2.1 inv1
    obtain ⟨S3, g3, pre3, hs3, inv3, hg3, hi3, hc3, hd3⟩ := ih g1 (pre ++ [g.featr]) S2 inv2 hg1
      (fun x hx => hall x (List.mem_cons_of_mem _ hx)) hsep.2.2
    refine ⟨S3, g3, pre3, ?_, inv3, hg3, ?_, ?_, ?_⟩
    · rw [List.append_assoc, hs]
      simp only [groupLines, Group.lines, List.cons_append, readLines, hs2, List.append_assoc]
      simpa [List.append_assoc] using hs3
    · rw [hi3, inv2.hItems, inv.hItems]; simp
    · rw [hc3, hc2, hc1]; simp [groupLines, Group.lines]; omega
    · rw [hd3, hd2, hd1]; simp [dupCount]; omega

/-- A file of blocks has one line per distinct record and one per further copy. -/
theorem blockLines_length (bs : List Block) :
    (blockLines bs).length = (blockItems bs).length + blockDups bs := by
  induction bs with
  | nil => rfl
  | cons b bs ih =>
    simp only [blockLines, blockItems, blockDups, List.length_append, List.length_map, ih,
      groupLines_length]
    omega

/-- The blocks after the first record of the block `name`, whose first group
`g` has been stored: every further block opens a chromosome, its first record
is appended and its copies are counted. -/
theorem readLines_blocks (chrom : Chrom) (cSizes : Option (Nat → Nat)) (m : Nat) (bs : List Block) :
    ∀ (name : String) (g : Group) (gs : List Group) (pre : List Featr) (S : Session),
      Inv chrom name m (chromLen cSizes (chrom.ID name) 0) g pre S →
      chrom.ID name ≠ chrom.UnID →
      (chrom.StatedAll = true ∨ (bs = [] ∧ chrom.ID name = chrom.StatedID)) →
      (∀ x ∈ g :: gs, x.inside (chromLen cSizes (chrom.ID name) 0)) → separatedFrom m g gs →
      (∀ x ∈ bs, x.admissible chrom cSizes m) →
      (chrom.ID name :: bs.map (fun x => chrom.ID x.name)).Nodup →
    ∃ S1 name1 g1 pre1, readLines chrom cSizes
          (g.more.map (fun sc => ⟨name, g.Start, g.End, sc⟩) ++ groupLines name gs ++ blockLines bs) S =
          (S1, .ok ()) ∧
      Inv chrom name1 m (chromLen cSizes (chrom.ID name1) 0) g1 pre1 S1 ∧
      g1.inside (chromLen cSizes (chrom.ID name1) 0) ∧
      S1.bed.items = S.bed.items ++ gs.map Group.featr ++ blockItems bs ∧
      S1.loc.cntLines = S.loc.cntLines + g.more.length + (groupLines name gs).length +
        (blockLines bs).length ∧
      (S1.ambig.cases eCase.DUPL).Count =
        (S.ambig.cases eCase.DUPL).Count + dupCount (g :: gs) + blockDups bs := by
  induction bs with
  | nil =>
    intro name g gs pre S inv hid hmode hin hsep _ _
    have hmode1 : chrom.StatedAll = true ∨ chrom.ID name = chrom.StatedID :=
      hmode.elim Or.inl (fun h => Or.inr h.2)
    obtain ⟨S1, g1, pre1, hs, inv1, hg1, hi, hc, hd⟩ :=
      readLines_groups_then chrom cSizes name m _ hid hmode1 [] gs g pre S inv
        (hin g (List.mem_cons_self _ _)) (fun x hx => hin x (List.mem_cons_of_mem _ hx)) hsep
    refine ⟨S1, name, g1, pre1, ?_, inv1, hg1, ?_, ?_, ?_⟩
    · simpa [blockLines, readLines] using hs
    · simp [blockItems, hi]
    · simp [blockLines, hc]
    · simp [blockDups, hd]
  | cons b bs ih =>
    intro name g gs pre S inv hid hmode hin hsep hadm hnd
    have hall : chrom.StatedAll = true := hmode.elim id (fun h => absurd h.1 (List.cons_ne_nil _ _))
    obtain ⟨S1, g1, pre1, hs, inv1, hg1, hi, hc, hd⟩ :=
      readLines_groups_then chrom cSizes name m _ hid (Or.inl hall) (blockLines (b :: bs)) gs g pre S inv
        (hin g (List.mem_cons_self _ _)) (fun x hx => hin x (List.mem_cons_of_mem _ hx)) hsep
    obtain ⟨hbid, hbin, _, hbsep⟩ := hadm b (List.mem_cons_self _ _)
    have hnd1 := List.nodup_cons.1 hnd
    have hne : name ≠ b.name := by
      intro h
      apply hnd1.1
      rw [h]
      exact List.mem_cons_self _ _
    obtain ⟨S2, hs2, inv2, hc2, hd2⟩ := step_next_block chrom cSizes name b.name m g1 b.first pre1 S1
      hne hbid hall (hbin b.first (List.mem_cons_self _ _)) inv1
    obtain ⟨S3, name3, g3, pre3, hs3, inv3, hg3, hi3, hc3, hd3⟩ :=
      ih b.name b.first b.rest (pre1 ++ [g1.featr]) S2 inv2 hbid (Or.inl hall) hbin hbsep
        (fun x hx => hadm x (List.mem_cons_of_mem _ hx)) hnd1.2
    refine ⟨S3, name3, g3, pre3, ?_, inv3, hg3, ?_, ?_, ?_⟩
    · rw [hs]
      simp only [blockLines, Block.groups, groupLines, Group.lines, List.cons_append, readLines, hs2,
        List.append_assoc]
      simpa [List.append_assoc] using hs3
    · rw [hi3, inv2.hItems, ← inv1.hItems, hi]
      simp [blockItems, Block.groups]
    · rw [hc3, hc2, hc]
      simp [blockLines, Block.groups, groupLines, Group.lines]
      omega
    · rw [hd3, hd2, hd]
      simp [blockDups, Block.groups, dupCount]
      omega

theorem separatedF_concat (pre : List Featr) (last f : Featr) (h : separatedF (pre ++ [last]))
    (hsep : last.End < f.Start) : separatedF (pre ++ [last] ++ [f]) := by
  induction pre with
  | nil => exact ⟨hsep, trivial⟩
  | cons x xs ih =>
    cases xs with
    | nil => exact ⟨h.1, hsep, trivial⟩
    | cons y ys => exact ⟨h.1, ih h.2⟩

/-- The loop body on a further record of a one-chromosome file in any order:
a copy of the last stored record is counted as Duplicate and omitted, a
record apart from it is appended. -/
theorem step_any_order (chrom : Chrom) (cSizes : Option (Nat → Nat)) (name : String) (m L c0 : Nat)
    (seen : List Featr) (S : Session) (f : Featr)
    (hid : chrom.ID name ≠ chrom.UnID)
    (hmode : chrom.StatedAll = true ∨ chrom.ID name = chrom.StatedID)
    (hseen : ∀ x ∈ seen, x.admissible m L) (hf : f.admissible m L)
    (hpair : ∀ x ∈ seen, x.sameOrApart f)
    (inv : InvU chrom name m L c0 seen S) :
    ∃ S1, step chrom cSizes ⟨name, f.Start, f.End, f.Score⟩ S = (S1, .ok .next) ∧
      InvU chrom name m L c0 (seen ++ [f]) S1 := by
  obtain ⟨hName, hID, hLen, hMin, ⟨pre, last, hItems, hPrev⟩, hMem, hEnd, hCur, hFirst, hChroms, hNeed,
    hCnt, hDupl, hCount, hSorted⟩ := inv
  have hst := step_same chrom cSizes ⟨name, f.Start, f.End, f.Score⟩ S pre last hName
    (by rw [hID]; exact hid) (by rw [hID]; exact hmode) (by simp) (by simpa using hf.1)
    (by rw [hLen]; simpa using hf.2.1) hItems
  -- the last stored record is a record seen before
  obtain ⟨y, hy, hyl⟩ : ∃ y ∈ seen, y.toRegion = last.toRegion := by
    have : last.toRegion ∈ S.bed.items.map Featr.toRegion := by
      rw [hItems]; simp
    obtain ⟨y, hy, hyl⟩ := List.mem_map.1 ((hMem _).1 this)
    exact ⟨y, hy, hyl⟩
  have hyS : y.Start = last.Start := congrArg Region.Start hyl
  have hyE : y.End = last.End := congrArg Region.End hyl
  have hlast : last.Start < last.End := by
    have := (hseen y hy).1
    omega
  have hfw := hf.1
  have hflen := hf.2.2
  by_cases heq : f.Start = last.Start ∧ f.End = last.End
  · -- a copy of the last stored record
    have hfc : firstCase m last.toRegion ⟨f.Start, f.End⟩ = some eCase.DUPL := by
      simp [firstCase, heq.1, heq.2]
    have hlt : ¬ f.Start < S.loc.prevStart := by rw [hPrev]; omega
    have hch := CheckItemPos_plain m last ⟨f.Start, f.End⟩ S.ambig eCase.DUPL (-1) hfc (by decide)
      (TreatCase_omit _ _ hDupl)
    simp only [Int.toNat_ofNat, hlt, ↓reduceIte, hMin, hch] at hst
    have hc := TreatCase_cnt_self S.ambig eCase.DUPL
    have ht := TreatCase_act S.ambig eCase.DUPL eCase.DUPL
    unfold Ambig.cnt at hc
    unfold Ambig.act at ht
    refine ⟨_, hst, ⟨hName, hID, hLen, rfl, ⟨pre, last, rfl, hPrev⟩, ?_, ?_, ?_, hFirst, hChroms, hNeed,
      ?_, ?_, ?_, ?_⟩⟩
    · intro r
      simp only [← hItems, hMem r, List.map_append, List.mem_append, List.map_cons, List.map_nil,
        List.mem_singleton]
      constructor
      · exact Or.inl
      · rintro (h | h)
        · exact h
        · have : r = y.toRegion := by
            rw [h, hyl]
            cases hfr : f.toRegion
            cases hlr : last.toRegion
            have h1 : f.Start = _ := congrArg Region.Start hfr
            have h2 : f.End = _ := congrArg Region.End hfr
            have h3 : last.Start = _ := congrArg Region.Start hlr
            have h4 : last.End = _ := congrArg Region.End hlr
            simp only at h1 h2 h3 h4
            simp only [Region.mk.injEq]
            omega
          rw [this]
          exact List.mem_map_of_mem _ hy
    · simp only; omega
    · simp only [← hItems]; exact hCur
    · simp only [List.length_append, List.length_singleton, hCnt]
    · simp only [ht, hDupl]
    · simp only [← hItems, hc, List.length_append, List.length_singleton]; omega
    · intro hu
      simp only [TreatCase_unsorted] at hu
      simp only [← hItems]
      exact hSorted hu
  · -- a record apart from the last stored one
    have hsep : last.End < f.Start ∨ f.End < last.Start := by
      rcases hpair y hy with h | h | h
      · exfalso
        apply heq
        have h1 : y.Start = f.Start := congrArg Region.Start h
        have h2 : y.End = f.End := congrArg Region.End h
        omega
      · left; omega
      · right; omega
    have hfc : firstCase m last.toRegion ⟨f.Start, f.End⟩ = none := by
      have c3 : ¬ (f.Start = last.End) := by omega
      have c4 : ¬ ((last.Start ≤ f.Start ∧ f.End ≤ last.End) ∨ (f.Start ≤ last.Start ∧ last.End ≤ f.End)) := by
        omega
      have c5 : ¬ (f.Start < last.End ∧ last.Start < f.End) := by omega
      simp only [firstCase]
      rw [if_neg heq, if_neg hflen, if_neg c3, if_neg c4, if_neg c5]
    simp only [Int.toNat_ofNat, hMin, CheckItemPos_none _ _ _ _ hfc] at hst
    have hfe : (Line.featr ⟨name, f.Start, f.End, f.Score⟩) = f := by
      simp [Line.featr]
    rw [hfe] at hst
    refine ⟨_, hst, ⟨hName, hID, hLen, rfl, ⟨pre ++ [last], f, rfl, rfl⟩, ?_, ?_, ?_, hFirst, hChroms,
      hNeed, ?_, ?_, ?_, ?_⟩⟩
    · intro r
      have := hMem r
      simp only [← hItems, List.map_append, List.mem_append, List.map_cons, List.map_nil,
        List.mem_singleton, this]
    · simp only; omega
    · simp only [← hItems, List.length_append, List.length_singleton, hCur]
    · simp only [List.length_append, List.length_singleton, hCnt]
    · by_cases hlt : f.Start < S.loc.prevStart
      · simp only [hlt, ↓reduceIte]; exact hDupl
      · simp only [hlt, ↓reduceIte]; exact hDupl
    · by_cases hlt : f.Start < S.loc.prevStart
      · simp only [hlt, ↓reduceIte, ← hItems, List.length_append, List.length_singleton]; omega
      · simp only [hlt, ↓reduceIte, ← hItems, List.length_append, List.length_singleton]; omega
    · by_cases hlt : f.Start < S.loc.prevStart
      · simp only [hlt, ↓reduceIte]; intro hu; simp at hu
      · simp only [hlt, ↓reduceIte]
        intro hu
        rw [hPrev] at hlt
        apply separatedF_concat
        · rw [← hItems]; exact hSorted hu
        · omega

/-- The first line of a one-chromosome file: the record is appended. -/
theorem step_first_any (chrom : Chrom) (cSizes : Option (Nat → Nat)) (m : Nat) (a : Ambig)
    (name : String) (f : Featr)
    (hname : name ≠ "") (hid : chrom.ID name ≠ chrom.UnID)
    (hmode : chrom.StatedAll = true ∨ chrom.ID name = chrom.StatedID)
    (hdupl : (a.cases eCase.DUPL).Type_ = eAction.OMIT)
    (hf : f.admissible m (chromLen cSizes (chrom.ID name) 0)) :
    ∃ S1, step chrom cSizes ⟨name, f.Start, f.End, f.Score⟩
        { bed := BedF.new m, ambig := a,
          loc := initLocals chrom cSizes ⟨name, f.Start, f.End, f.Score⟩ } = (S1, .ok .next) ∧
      InvU chrom name m (chromLen cSizes (chrom.ID name) 0) (a.cases eCase.DUPL).Count [f] S1 := by
  have hstep := step_open_first chrom cSizes ⟨name, f.Start, f.End, f.Score⟩
    { bed := BedF.new m, ambig := a,
      loc := initLocals chrom cSizes ⟨name, f.Start, f.End, f.Score⟩ }
    (by simpa [initLocals] using hname.symm) hid hmode rfl rfl rfl rfl
    (by simp) (by simpa using hf.1) (by simpa [initLocals, chromLen_idem] using hf.2.1)
  have hfe : (Line.featr ⟨name, f.Start, f.End, f.Score⟩) = f := by
    simp [Line.featr]
  have hfw := hf.1
  refine ⟨_, hstep, ⟨rfl, rfl, by simp [initLocals, chromLen_idem], rfl,
    ⟨[], f, by simp [BedF.new, hfe], by simp⟩, ?_, ?_, ?_, rfl, rfl, rfl, ?_, hdupl, ?_, ?_⟩⟩
  · intro r; simp [BedF.new, hfe]
  · simp; omega
  · simp [BedF.new, initLocals]
  · simp [initLocals]
  · simp [BedF.new]
  · intro _; simp [BedF.new, hfe, separatedF]

/-- The further lines of a one-chromosome file in any order. -/
theorem readLines_any_order (chrom : Chrom) (cSizes : Option (Nat → Nat)) (name : String) (m L c0 : Nat)
    (hid : chrom.ID name ≠ chrom.UnID)
    (hmode : chrom.StatedAll = true ∨ chrom.ID name = chrom.StatedID) (fs : List Featr) :
    ∀ (seen : List Featr) (S : Session), InvU chrom name m L c0 seen S →
      (∀ x ∈ seen ++ fs, x.admissible m L) →
      (∀ x ∈ seen ++ fs, ∀ y ∈ seen ++ fs, x.sameOrApart y) →
    ∃ S1, readLines chrom cSizes (featrLines name fs) S = (S1, .ok ()) ∧
      InvU chrom name m L c0 (seen ++ fs) S1 := by
  induction fs with
  | nil =>
    intro seen S inv _ _
    exact ⟨S, rfl, by simpa using inv⟩
  | cons f fs ih =>
    intro seen S inv hadm hpair
    have hmf : f ∈ seen ++ f :: fs := by simp
    obtain ⟨S1, hs, inv1⟩ := step_any_order chrom cSizes name m L c0 seen S f hid hmode
      (fun x hx => hadm x (List.mem_append_left _ hx)) (hadm f hmf)
      (fun x hx => hpair x (List.mem_append_left _ hx) f hmf) inv
    have heq : seen ++ f :: fs = (seen ++ [f]) ++ fs := by simp
    obtain ⟨S2, hs2, inv2⟩ := ih (seen ++ [f]) S1 inv1 (by rw [← heq]; exact hadm)
      (by rw [← heq]; exact hpair)
    refine ⟨S2, ?_, by rw [heq]; exact inv2⟩
    simp only [featrLines, List.map_cons, readLines, hs]
    exact hs2

theorem ascendingFrom_le (l : List Featr) : ∀ n, ascendingFrom n l → ∀ x ∈ l, n ≤ x.Start := by
  induction l with
  | nil => intro n _ x hx; cases hx
  | cons y ys ih =>
    intro n h x hx
    rcases List.mem_cons.1 hx with rfl | hx
    · exact h.1
    · have := ih y.Start h.2 x hx
      have := h.1
      omega

theorem ascendingFrom_mono (l : List Featr) (n k : Nat) (hk : k ≤ n) (h : ascendingFrom n l) :
    ascendingFrom k l := by
  cases l with
  | nil => trivial
  | cons y ys => exact ⟨by have := h.1; omega, h.2⟩

theorem insertByStart_length (x : Featr) (l : List Featr) :
    (insertByStart x l).length = l.length + 1 := by
  induction l with
  | nil => rfl
  | cons w ws ihw => unfold insertByStart; split_ifs <;> simp [ihw]

theorem sortByStart_length (l : List Featr) : (sortByStart l).length = l.length := by
  induction l with
  | nil => rfl
  | cons z zs ih => simp only [sortByStart, insertByStart_length, List.length_cons, ih]

/-- The recheck loop on a range in ascending order of start whose features are
copies of each other or apart, with Duplicate configured as Omit: every
feature that repeats the one before it is counted as Duplicate and erased, no
other case arises. -/
theorem recheck_dedup (m : Nat) (xs : List Featr) :
    ∀ (prev : Featr) (a : Ambig), (a.cases eCase.DUPL).Type_ = eAction.OMIT →
      (∀ x ∈ prev :: xs, x.Start < x.End ∧ ¬ (x.End - x.Start < m)) →
      (∀ x ∈ prev :: xs, ∀ y ∈ prev :: xs, x.sameOrApart y) →
      ascendingFrom prev.Start xs →
      (recheck m prev xs a).2.2.2 = Outcome.ok () ∧
      (∃ tl, (recheck m prev xs a).1 = prev :: tl) ∧
      (∀ x ∈ (recheck m prev xs a).1, x ∈ prev :: xs) ∧
      (∀ x ∈ prev :: xs, x.toRegion ∈ (recheck m prev xs a).1.map Featr.toRegion) ∧
      ((recheck m prev xs a).1.map Featr.toRegion).Nodup ∧
      (recheck m prev xs a).1.length + (recheck m prev xs a).2.2.1 = xs.length + 1 ∧
      ((recheck m prev xs a).2.1.cases eCase.DUPL).Count + (recheck m prev xs a).1.length =
        (a.cases eCase.DUPL).Count + xs.length + 1 := by
  induction xs with
  | nil =>
    intro prev a _ _ _ _
    simp [recheck]
  | cons x xs ih =>
    intro prev a hd hv hp hasc
    have hpv := hv prev (List.mem_cons_self _ _)
    have hxm : x ∈ prev :: x :: xs := List.mem_cons_of_mem _ (List.mem_cons_self _ _)
    have hxv := hv x hxm
    obtain ⟨hle, hasc2⟩ := hasc
    by_cases heq : x.Start = prev.Start ∧ x.End = prev.End
    · -- a copy of the feature before it
      have hfc : firstCase m prev.toRegion x.toRegion = some eCase.DUPL := by
        simp [firstCase, heq.1, heq.2]
      have hch := CheckItemPos_plain m prev x.toRegion a eCase.DUPL (-1) hfc (by decide)
        (TreatCase_omit _ _ hd)
      have hc := TreatCase_cnt_self a eCase.DUPL
      have ht := TreatCase_act a eCase.DUPL eCase.DUPL
      unfold Ambig.cnt at hc
      unfold Ambig.act at ht
      have hsub : ∀ z ∈ prev :: xs, z ∈ prev :: x :: xs := by
        intro z hz
        rcases List.mem_cons.1 hz with rfl | hz
        · exact List.mem_cons_self _ _
        · exact List.mem_cons_of_mem _ (List.mem_cons_of_mem _ hz)
      have ih1 := ih prev (a.TreatCase eCase.DUPL).1 (by rw [ht]; exact hd)
        (fun z hz => hv z (hsub z hz)) (fun z hz w hw => hp z (hsub z hz) w (hsub w hw))
        (ascendingFrom_mono xs x.Start prev.Start hle hasc2)
      rcases hrec : recheck m prev xs (a.TreatCase eCase.DUPL).1 with ⟨l, a2, n, r⟩
      rw [hrec] at ih1
      obtain ⟨r1, ⟨tl, r2⟩, r3, r4, r5, r6, r7⟩ := ih1
      simp only at r1 r2 r3 r4 r5 r6 r7
      have hdec : decide ((-1 : Int) ≥ 0) = false := by decide
      simp only [recheck, hch, hdec, hrec]
      refine ⟨r1, ⟨tl, r2⟩, ?_, ?_, r5, ?_, ?_⟩
      · intro z hz
        exact hsub z (r3 z hz)
      · intro z hz
        rcases List.mem_cons.1 hz with rfl | hz
        · exact r4 z (List.mem_cons_self _ _)
        · rcases List.mem_cons.1 hz with rfl | hz
          · have hzr : z.toRegion = prev.toRegion := by
              cases hzr : z.toRegion
              cases hpr : prev.toRegion
              have h1 : z.Start = _ := congrArg Region.Start hzr
              have h2 : z.End = _ := congrArg Region.End hzr
              have h3 : prev.Start = _ := congrArg Region.Start hpr
              have h4 : prev.End = _ := congrArg Region.End hpr
              simp only at h1 h2 h3 h4
              simp only [Region.mk.injEq]
              omega
            rw [hzr]
            exact r4 prev (List.mem_cons_self _ _)
          · exact r4 z (List.mem_cons_of_mem _ hz)
      · simp only [List.length_cons]; omega
      · rw [hc] at r7
        simp only [List.length_cons]; omega
    · -- a feature apart from the one before it
      have hsep : prev.End < x.Start := by
        rcases hp prev (List.mem_cons_self _ _) x hxm with h | h | h
        · exfalso
          apply heq
          have h1 : prev.Start = x.Start := congrArg Region.Start h
          have h2 : prev.End = x.End := congrArg Region.End h
          omega
        · exact h
        · omega
      have hfc : firstCase m prev.toRegion x.toRegion = none := by
        have c2 : ¬ (x.End - x.Start < m) := hxv.2
        have c3 : ¬ (x.Start = prev.End) := by omega
        have c4 : ¬ ((prev.Start ≤ x.Start ∧ x.End ≤ prev.End) ∨
            (x.Start ≤ prev.Start ∧ prev.End ≤ x.End)) := by omega
        have c5 : ¬ (x.Start < prev.End ∧ prev.Start < x.End) := by omega
        simp only [firstCase]
        rw [if_neg heq, if_neg c2, if_neg c3, if_neg c4, if_neg c5]
      have hsub : ∀ z ∈ x :: xs, z ∈ prev :: x :: xs := fun z hz => List.mem_cons_of_mem _ hz
      have ih1 := ih x a hd (fun z hz => hv z (hsub z hz))
        (fun z hz w hw => hp z (hsub z hz) w (hsub w hw)) hasc2
      rcases hrec : recheck m x xs a with ⟨l, a2, n, r⟩
      rw [hrec] at ih1
      obtain ⟨r1, ⟨tl, r2⟩, r3, r4, r5, r6, r7⟩ := ih1
      simp only at r1 r2 r3 r4 r5 r6 r7
      simp only [recheck, CheckItemPos_none m prev x.toRegion a hfc, hrec]
      refine ⟨r1, ⟨l, rfl⟩, ?_, ?_, ?_, ?_, ?_⟩
      · intro z hz
        rcases List.mem_cons.1 hz with rfl | hz
        · exact List.mem_cons_self _ _
        · exact hsub z (r3 z hz)
      · intro z hz
        rcases List.mem_cons.1 hz with rfl | hz
        · simp
        · simp only [List.map_cons, List.mem_cons]
          exact Or.inr (r4 z hz)
      · simp only [List.map_cons, List.nodup_cons]
        refine ⟨?_, r5⟩
        intro hmem
        obtain ⟨z, hz, hzr⟩ := List.mem_map.1 hmem
        have hz2 := r3 z hz
        have hzs : x.Start ≤ z.Start := by
          rcases List.mem_cons.1 hz2 with rfl | hz3
          · exact Nat.le_refl _
          · exact ascendingFrom_le xs x.Start hasc2 z hz3
        have h1 : z.Start = prev.Start := congrArg Region.Start hzr
        omega
      · simp only [List.length_cons]; omega
      · simp only [List.length_cons]; omega

/-- Sorting and rechecking one range whose features are copies of each other
or apart. -/
theorem recheckRange_dedup (m : Nat) (seg : List Featr) (a : Ambig)
    (hd : (a.cases eCase.DUPL).Type_ = eAction.OMIT)
    (hv : ∀ x ∈ seg, x.Start < x.End ∧ ¬ (x.End - x.Start < m))
    (hp : ∀ x ∈ seg, ∀ y ∈ seg, x.sameOrApart y) :
    (recheckRange m seg a).2.2.2 = Outcome.ok () ∧
    (∀ r, r ∈ (recheckRange m seg a).1.map Featr.toRegion ↔ r ∈ seg.map Featr.toRegion) ∧
    ((recheckRange m seg a).1.map Featr.toRegion).Nodup ∧
    (recheckRange m seg a).1.length + (recheckRange m seg a).2.2.1 = seg.length ∧
    ((recheckRange m seg a).2.1.cases eCase.DUPL).Count + (recheckRange m seg a).1.length =
      (a.cases eCase.DUPL).Count + seg.length := by
  have hasc := sortByStart_ascending seg
  have hmem := fun y => sortByStart_mem y seg
  have hlen := sortByStart_length seg
  unfold recheckRange
  cases hs : sortByStart seg with
  | nil =>
    rw [hs] at hlen
    have : seg = [] := List.length_eq_zero.1 hlen.symm
    subst this
    simp
  | cons p rest =>
    rw [hs] at hasc hlen
    have hin : ∀ z ∈ p :: rest, z ∈ seg := fun z hz => (hmem z).1 (by rw [hs]; exact hz)
    have hout : ∀ z ∈ seg, z ∈ p :: rest := fun z hz => by rw [← hs]; exact (hmem z).2 hz
    obtain ⟨r1, _, r3, r4, r5, r6, r7⟩ := recheck_dedup m rest p a hd (fun z hz => hv z (hin z hz))
      (fun z hz w hw => hp z (hin z hz) w (hin w hw)) hasc.2
    refine ⟨r1, ?_, r5, ?_, ?_⟩
    · intro r
      constructor
      · intro h
        obtain ⟨z, hz, hzr⟩ := List.mem_map.1 h
        exact List.mem_map.2 ⟨z, hin z (r3 z hz), hzr⟩
      · intro h
        obtain ⟨z, hz, hzr⟩ := List.mem_map.1 h
        rw [← hzr]
        exact r4 z (hout z hz)
    · rw [r6, ← hlen]; rfl
    · rw [r7, ← hlen]; rfl

/-- On a buffer that is the range of a single chromosome and whose features
are copies of each other or apart, `SortItems` ends normally, leaves one
feature for every distinct record and counts every erased feature as
Duplicate. -/
theorem SortItems_single_dedup (b : BedF) (a : Ambig) (cID : Nat) (t : Bool)
    (hd : (a.cases eCase.DUPL).Type_ = eAction.OMIT)
    (hv : ∀ x ∈ b.items, x.Start < x.End ∧ ¬ (x.End - x.Start < b.minFtrLen))
    (hp : ∀ x ∈ b.items, ∀ y ∈ b.items, x.sameOrApart y) (hne : b.items ≠ [])
    (hch : b.chroms = [(cID, ⟨t, 0, b.items.length - 1⟩)]) :
    (b.SortItems a).2.2 = Outcome.ok () ∧
    (∀ r, r ∈ (b.SortItems a).1.items.map Featr.toRegion ↔ r ∈ b.items.map Featr.toRegion) ∧
    ((b.SortItems a).1.items.map Featr.toRegion).Nodup ∧
    ((b.SortItems a).2.1.cases eCase.DUPL).Count + (b.SortItems a).1.items.length =
      (a.cases eCase.DUPL).Count + b.items.length := by
  have hpos : 0 < b.items.length := List.length_pos.2 hne
  have hlast : b.items.length - 1 + 1 = b.items.length := by omega
  obtain ⟨r1, r2, r3, r4, r5⟩ := recheckRange_dedup b.minFtrLen b.items a hd hv hp
  rcases hrec : recheckRange b.minFtrLen b.items a with ⟨seg, a1, n, r⟩
  rw [hrec] at r1 r2 r3 r4 r5
  simp only at r1 r2 r3 r4 r5
  simp only [BedF.SortItems, hch, SortItems.loop, SortItems.turn, Nat.not_lt_zero, false_or,
    Nat.sub_zero, hlast, List.drop_zero, List.take_length, List.take_zero, List.nil_append,
    List.drop_length, List.append_nil, hrec, r1, if_false, Nat.zero_le, le_refl, and_self, if_true]
  exact ⟨trivial, r2, r3, r5⟩

theorem length_eq_dedup_length (l1 l2 : List Region) (hn : l1.Nodup) (hm : ∀ r, r ∈ l1 ↔ r ∈ l2) :
    l1.length = l2.dedup.length := by
  rw [← List.toFinset_card_of_nodup hn, ← List.card_toFinset]
  congr 1
  ext r
  simp [hm r]

theorem sum_pred_add_length (l : List Region) (f : Region → Nat) (h : ∀ r ∈ l, 1 ≤ f r) :
    (l.map (fun r => f r - 1)).sum + l.length = (l.map f).sum := by
  induction l with
  | nil => rfl
  | cons x xs ih =>
    have h1 := h x (List.mem_cons_self _ _)
    have h2 := ih (fun r hr => h r (List.mem_cons_of_mem _ hr))
    simp only [List.map_cons, List.sum_cons, List.length_cons]
    omega

/-- The lines of a file are its distinct records and the lines that repeat an
earlier record. -/
theorem repeats_add (fs : List Featr) : repeats fs + (distinctRegions fs).length = fs.length := by
  unfold repeats distinctRegions
  rw [sum_pred_add_length _ _ (fun r hr => List.count_pos_iff.2 (List.mem_dedup.1 hr))]
  rw [List.sum_map_count_dedup_eq_length, List.length_map]

/-- The statements after the loop on a one-chromosome file in any order: the
buffer is left with one feature for every distinct record, and every line
that is not stored has been counted as Duplicate, while it was read or by the
sort-and-recheck pass. -/
theorem finish_any_order (chrom : Chrom) (name : String) (m L c0 : Nat) (seen : List Featr)
    (S : Session) (hid : chrom.ID name ≠ chrom.UnID)
    (hseen : ∀ x ∈ seen, x.admissible m L)
    (hpair : ∀ x ∈ seen, ∀ y ∈ seen, x.sameOrApart y)
    (inv : InvU chrom name m L c0 seen S) :
    (finish chrom S).2.2 = .ok (seen.length, (finish chrom S).1.items.length) ∧
    (∀ r, r ∈ (finish chrom S).1.items.map Featr.toRegion ↔ r ∈ seen.map Featr.toRegion) ∧
    ((finish chrom S).1.items.map Featr.toRegion).Nodup ∧
    ((finish chrom S).2.1.cases eCase.DUPL).Count + (finish chrom S).1.items.length =
      c0 + seen.length := by
  obtain ⟨hName, hID, hLen, hMin, ⟨pre, last, hItems, hPrev⟩, hMem, hEnd, hCur, hFirst, hChroms, hNeed,
    hCnt, hDupl, hCount, hSorted⟩ := inv
  have hne : S.bed.items ≠ [] := by rw [hItems]; simp
  have hpos : 0 < S.bed.items.length := List.length_pos.2 hne
  have hcur : S.loc.currInd ≠ 0 := by omega
  -- every stored feature has the bounds of a record of the file
  have hfrom : ∀ x ∈ S.bed.items, ∃ y ∈ seen, y.Start = x.Start ∧ y.End = x.End := by
    intro x hx
    obtain ⟨y, hy, hyr⟩ := List.mem_map.1 ((hMem _).1 (List.mem_map_of_mem Featr.toRegion hx))
    exact ⟨y, hy, congrArg Region.Start hyr, congrArg Region.End hyr⟩
  have hwf : ∀ x ∈ S.bed.items, x.Start < x.End ∧ ¬ (x.End - x.Start < m) := by
    intro x hx
    obtain ⟨y, hy, h1, h2⟩ := hfrom x hx
    have := hseen y hy
    exact ⟨by have := this.1; omega, by have := this.2.2; omega⟩
  by_cases hu : S.ambig.unsortedItems = true
  · -- the sort-and-recheck pass runs
    have hpa : ∀ x ∈ S.bed.items, ∀ y ∈ S.bed.items, x.sameOrApart y := by
      intro x hx y hy
      obtain ⟨x1, hx1, h1, h2⟩ := hfrom x hx
      obtain ⟨y1, hy1, h3, h4⟩ := hfrom y hy
      rcases hpair x1 hx1 y1 hy1 with h | h | h
      · left
        have h5 : x1.Start = y1.Start := congrArg Region.Start h
        have h6 : x1.End = y1.End := congrArg Region.End h
        cases hxr : x.toRegion
        cases hyr : y.toRegion
        have h7 : x.Start = _ := congrArg Region.Start hxr
        have h8 : x.End = _ := congrArg Region.End hxr
        have h9 : y.Start = _ := congrArg Region.Start hyr
        have h10 : y.End = _ := congrArg Region.End hyr
        simp only at h7 h8 h9 h10
        simp only [Region.mk.injEq]
        omega
      · right; left; omega
      · right; right; omega
    have hS := SortItems_single_dedup
      (S.bed.AddVal S.loc.cCurrID (ChromItemsInd.new S.loc.firstInd S.loc.currInd))
      { S.ambig with out := S.ambig.out ++ [Output.UnsortedWarning] } S.loc.cCurrID true hDupl
      (by simpa [BedF.AddVal, hMin] using hwf) (by simpa [BedF.AddVal] using hpa)
      (by simpa [BedF.AddVal] using hne)
      (by simp [BedF.AddVal, hChroms, ChromItemsInd.new, hFirst, hCur])
    rcases hrun : (S.bed.AddVal S.loc.cCurrID (ChromItemsInd.new S.loc.firstInd S.loc.currInd)).SortItems
      { S.ambig with out := S.ambig.out ++ [Output.UnsortedWarning] } with ⟨b3, a3, r⟩
    rw [hrun] at hS
    obtain ⟨s1, s2, s3, s4⟩ := hS
    simp only at s1 s2 s3 s4
    subst s1
    have hidc : S.loc.cCurrID ≠ chrom.UnID := by rw [hID]; exact hid
    have hfin : finish chrom S = ({ b3 with itemsCnt := b3.items.length }, a3,
        .ok (S.loc.cntLines, b3.items.length)) := by
      unfold finish
      rw [if_pos ⟨hEnd, hcur⟩]
      simp only [hidc, hNeed, ne_eq, not_false_eq_true, ↓reduceIte, Bool.false_eq_true]
      rw [if_pos hu]
      simp only [hrun]
    rw [hfin]
    refine ⟨by simp only [hCnt], ?_, s3, ?_⟩
    · intro r
      rw [← hMem r]
      simpa [BedF.AddVal] using s2 r
    · simp only [BedF.AddVal] at s4
      simp only
      omega
  · -- the records came in order
    have hu2 : S.ambig.unsortedItems = false := by simpa using hu
    obtain ⟨f1, f2, f3⟩ := finish_sorted chrom S hEnd hcur hu2
    rw [f3, f2, f1]
    refine ⟨by rw [hCnt], hMem, ?_, hCount⟩
    -- features in ascending order, each ending before the next starts, are distinct
    have hsep := hSorted hu2
    have hnd : ∀ (l : List Featr), (∀ x ∈ l, x.Start < x.End) → separatedF l →
        (∀ x ∈ l, ∀ k, (∀ hd tl, l = hd :: tl → k < hd.Start) → k < x.Start) ∧
        (l.map Featr.toRegion).Nodup := by
      intro l
      induction l with
      | nil => intro _ _; exact ⟨fun x hx => (by cases hx), List.nodup_nil⟩
      | cons z zs ih =>
        intro hw hs
        have hzs : separatedF zs := by
          cases zs with
          | nil => trivial
          | cons w ws => exact hs.2
        obtain ⟨i1, i2⟩ := ih (fun x hx => hw x (List.mem_cons_of_mem _ hx)) hzs
        have hzw := hw z (List.mem_cons_self _ _)
        refine ⟨?_, ?_⟩
        · intro x hx k hk
          have hkz := hk z zs rfl
          rcases List.mem_cons.1 hx with rfl | hx
          · exact hkz
          · apply i1 x hx k
            intro hd tl htl
            subst htl
            have := hs.1
            omega
        · simp only [List.map_cons, List.nodup_cons]
          refine ⟨?_, i2⟩
          intro hmem
          obtain ⟨x, hx, hxr⟩ := List.mem_map.1 hmem
          have h1 : x.Start = z.Start := congrArg Region.Start hxr
          have := i1 x hx z.Start (by
            intro hd tl htl
            subst htl
            have := hs.1
            omega)
          omega
    exact (hnd S.bed.items (fun x hx => (hwf x hx).1) hsep).2

/-- C8 (amended): ingestion with Duplicate configured as Omit, of an input in
which every record names a recognised and requested chromosome (all
chromosomes requested, or a file of the requested chromosome only), is
well-formed, does not end beyond the chromosome length and is not shorter
than the configured minimum length (the first record included), and two
different records of a chromosome are apart (one ends strictly before the
other starts). First part: the records of each chromosome form one block and
are sorted by start; `blockLines` is such a file, every record with its
copies. Second part: all records name one chromosome and come in any order;
`featrLines` is such a file. In both, one copy of every distinct record is
stored (the buffer is `blockItems`; in the second part the stored records are
exactly the distinct records of the file, each once), the Duplicate counter
grows by the sum of `k - 1` over the distinct records (`blockDups`,
`repeats`), `k` being the number of times the record occurs, and `InitChild`
returns the number of lines and, as item count, the number of lines minus the
number of duplicates. The engine is as its constructor leaves it
(`unsortedItems` false) and the first chromosome name is not empty, the loop
starting with an empty `cName`. -/
theorem duplicates_omitted (chrom : Chrom) (cSizes : Option (Nat → Nat)) (m : Nat) (a : Ambig)
    (hdupl : (a.cases eCase.DUPL).Type_ = eAction.OMIT) (huns : a.unsortedItems = false) :
    (∀ (b : Block) (bs : List Block),
      b.name ≠ "" →
      (∀ x ∈ b :: bs, x.admissible chrom cSizes m) →
      ((b :: bs).map (fun x => chrom.ID x.name)).Nodup →
      (chrom.StatedAll = true ∨ (bs = [] ∧ chrom.ID b.name = chrom.StatedID)) →
      ((BedF.new m).InitChild chrom cSizes a (blockLines (b :: bs))).1.items = blockItems (b :: bs) ∧
      ((BedF.new m).InitChild chrom cSizes a (blockLines (b :: bs))).2.2 =
        Outcome.ok ((blockLines (b :: bs)).length,
          (blockLines (b :: bs)).length - blockDups (b :: bs)) ∧
      (((BedF.new m).InitChild chrom cSizes a (blockLines (b :: bs))).2.1.cases eCase.DUPL).Count =
        (a.cases eCase.DUPL).Count + blockDups (b :: bs)) ∧
    (∀ (name : String) (f : Featr) (fs : List Featr),
      name ≠ "" → chrom.ID name ≠ chrom.UnID →
      (chrom.StatedAll = true ∨ chrom.ID name = chrom.StatedID) →
      (∀ x ∈ f :: fs, x.admissible m (chromLen cSizes (chrom.ID name) 0)) →
      (∀ x ∈ f :: fs, ∀ y ∈ f :: fs, x.sameOrApart y) →
      (∀ r, r ∈ ((BedF.new m).InitChild chrom cSizes a (featrLines name (f :: fs))).1.items.map
          Featr.toRegion ↔ r ∈ (f :: fs).map Featr.toRegion) ∧
      (((BedF.new m).InitChild chrom cSizes a (featrLines name (f :: fs))).1.items.map
          Featr.toRegion).Nodup ∧
      ((BedF.new m).InitChild chrom cSizes a (featrLines name (f :: fs))).2.2 =
        Outcome.ok ((featrLines name (f :: fs)).length,
          (featrLines name (f :: fs)).length - repeats (f :: fs)) ∧
      (((BedF.new m).InitChild chrom cSizes a (featrLines name (f :: fs))).2.1.cases eCase.DUPL).Count =
        (a.cases eCase.DUPL).Count + repeats (f :: fs)) := by
  constructor
  · -- files sorted by start, one block for each chromosome
    intro b bs hname hadm hnd hmode
    obtain ⟨hbid, hbin, _, hbsep⟩ := hadm b (List.mem_cons_self _ _)
    have hmode1 : chrom.StatedAll = true ∨ chrom.ID b.name = chrom.StatedID :=
      hmode.elim Or.inl (fun h => Or.inr h.2)
    have hlen := blockLines_length (b :: bs)
    obtain ⟨S0, hstep, inv0, hc0, ha0⟩ := step_first chrom cSizes m a b.name b.first hname hbid hmode1
      hdupl huns (hbin b.first (List.mem_cons_self _ _))
    obtain ⟨S1, name1, g1, pre1, hs, inv1, hg1, hi, hc, hd⟩ :=
      readLines_blocks chrom cSizes m bs b.name b.first b.rest [] S0 inv0 hbid hmode hbin hbsep
        (fun x hx => hadm x (List.mem_cons_of_mem _ hx)) hnd
    have hfin := finish_sorted chrom S1 (by rw [inv1.hRgn]; have := hg1.1; simp; omega) inv1.hCur
      inv1.hSort
    have hrun : (BedF.new m).InitChild chrom cSizes a (blockLines (b :: bs)) = finish chrom S1 := by
      simp only [List.append_assoc] at hs
      simp only [blockLines, Block.groups, groupLines, Group.lines, List.cons_append, BedF.InitChild,
        readLines, hstep, List.append_eq, List.append_assoc, hs]
    have hitems : S1.bed.items = blockItems (b :: bs) := by
      rw [hi, inv0.hItems]
      simp [blockItems, Block.groups]
    rw [hrun]
    refine ⟨?_, ?_, ?_⟩
    · rw [hfin.1, hitems]
    · rw [hfin.2.2, hc, hitems, hc0]
      have h1 : (blockLines (b :: bs)).length =
          1 + b.first.more.length + (groupLines b.name b.rest).length + (blockLines bs).length := by
        simp [blockLines, Block.groups, groupLines, Group.lines]
        omega
      rw [← h1, hlen]
      simp
    · rw [hfin.2.1, hd, ha0]
      simp [blockDups, Block.groups, Nat.add_assoc]
  · -- files of one chromosome in any order
    intro name f fs hname hid hmode hadm hpair
    obtain ⟨S0, hstep, inv0⟩ := step_first_any chrom cSizes m a name f hname hid hmode hdupl
      (hadm f (List.mem_cons_self _ _))
    obtain ⟨S1, hs, inv1⟩ := readLines_any_order chrom cSizes name m _ _ hid hmode fs [f] S0 inv0
      (by simpa using hadm) (by simpa using hpair)
    have hfin := finish_any_order chrom name m _ _ ([f] ++ fs) S1 hid (by simpa using hadm)
      (by simpa using hpair) inv1
    have hrun : (BedF.new m).InitChild chrom cSizes a (featrLines name (f :: fs)) = finish chrom S1 := by
      have hs2 : readLines chrom cSizes (List.map (fun f => (⟨name, f.Start, f.End, f.Score⟩ : Line)) fs)
          S0 = (S1, .ok ()) := hs
      simp only [featrLines, List.map_cons, BedF.InitChild, readLines, hstep, hs2]
    rw [hrun]
    obtain ⟨f1, f2, f3, f4⟩ := hfin
    simp only [List.singleton_append] at f1 f2 f3 f4
    have hdist : (finish chrom S1).1.items.length = (distinctRegions (f :: fs)).length := by
      have := length_eq_dedup_length _ _ f3 f2
      rw [List.length_map] at this
      exact this
    have hrep := repeats_add (f :: fs)
    refine ⟨f2, f3, ?_, ?_⟩
    · rw [f1, hdist]
      simp only [featrLines, List.length_map, Outcome.ok.injEq, Prod.mk.injEq, true_and]
      omega
    · omega

/-- Witness for C8 (amended). First part: chromosome 1 with `[10,20)` three
times and `[50,60)` twice, then chromosome 2 with `[10,20)` twice; three
features are stored and four lines counted as Duplicate. Second part:
chromosome 1 with the lines `[50,60)`, `[10,20)`, `[50,60)`, `[10,20)`;
`InitChild` returns 4 lines and 2 items, two lines are counted as Duplicate. -/
theorem duplicates_omitted_witness :
    (((BedF.new 0).InitChild chromNumbered none (Ambig.newDefault eInfo.iSTAT false)
      (blockLines [⟨"1", ⟨10, 20, 1, [2, 3]⟩, [⟨50, 60, 4, [5]⟩]⟩, ⟨"2", ⟨10, 20, 6, [7]⟩, []⟩])).1.items
      = blockItems [⟨"1", ⟨10, 20, 1, [2, 3]⟩, [⟨50, 60, 4, [5]⟩]⟩, ⟨"2", ⟨10, 20, 6, [7]⟩, []⟩] ∧
     (((BedF.new 0).InitChild chromNumbered none (Ambig.newDefault eInfo.iSTAT false)
      (blockLines [⟨"1", ⟨10, 20, 1, [2, 3]⟩, [⟨50, 60, 4, [5]⟩]⟩, ⟨"2", ⟨10, 20, 6, [7]⟩, []⟩])).2.1.cases
        eCase.DUPL).Count = 0 + 4) ∧
    (((BedF.new 0).InitChild chromNumbered none (Ambig.newDefault eInfo.iSTAT false)
      (featrLines "1" [⟨⟨50, 60⟩, 1⟩, ⟨⟨10, 20⟩, 2⟩, ⟨⟨50, 60⟩, 3⟩, ⟨⟨10, 20⟩, 4⟩])).2.2
      = Outcome.ok (4, 4 - 2) ∧
     (((BedF.new 0).InitChild chromNumbered none (Ambig.newDefault eInfo.iSTAT false)
      (featrLines "1" [⟨⟨50, 60⟩, 1⟩, ⟨⟨10, 20⟩, 2⟩, ⟨⟨50, 60⟩, 3⟩, ⟨⟨10, 20⟩, 4⟩])).2.1.cases
        eCase.DUPL).Count = 0 + 2) :=
  ⟨⟨((duplicates_omitted chromNumbered none 0 (Ambig.newDefault eInfo.iSTAT false) rfl rfl).1
      ⟨"1", ⟨10, 20, 1, [2, 3]⟩, [⟨50, 60, 4, [5]⟩]⟩ [⟨"2", ⟨10, 20, 6, [7]⟩, []⟩] (by decide)
      (by simp [Block.admissible, Block.groups, Group.inside, separatedFrom, chromNumbered, chromLen])
      (by decide) (Or.inl rfl)).1,
    ((duplicates_omitted chromNumbered none 0 (Ambig.newDefault eInfo.iSTAT false) rfl rfl).1
      ⟨"1", ⟨10, 20, 1, [2, 3]⟩, [⟨50, 60, 4, [5]⟩]⟩ [⟨"2", ⟨10, 20, 6, [7]⟩, []⟩] (by decide)
      (by simp [Block.admissible, Block.groups, Group.inside, separatedFrom, chromNumbered, chromLen])
      (by decide) (Or.inl rfl)).2.2⟩,
   ⟨((duplicates_omitted chromNumbered none 0 (Ambig.newDefault eInfo.iSTAT false) rfl rfl).2
      "1" ⟨⟨50, 60⟩, 1⟩ [⟨⟨10, 20⟩, 2⟩, ⟨⟨50, 60⟩, 3⟩, ⟨⟨10, 20⟩, 4⟩] (by decide) (by decide) (Or.inl rfl)
      (by simp [Featr.admissible, chromLen])
      (by simp [Featr.sameOrApart])).2.2.1,
    ((duplicates_omitted chromNumbered none 0 (Ambig.newDefault eInfo.iSTAT false) rfl rfl).2
      "1" ⟨⟨50, 60⟩, 1⟩ [⟨⟨10, 20⟩, 2⟩, ⟨⟨50, 60⟩, 3⟩, ⟨⟨10, 20⟩, 4⟩] (by decide) (by decide) (Or.inl rfl)
      (by simp [Featr.admissible, chromLen])
      (by simp [Featr.sameOrApart])).2.2.2⟩⟩

/-- C8, as stated, fails; every part is an input under the default policy on
which a record that occurs twice is not stored exactly once with the
Duplicate counter grown by 1.
(1) On a chromosome of length 1000 the record `[10,2000)` occurring twice is
stored zero times and the Duplicate counter stays 0: both copies are omitted
as exceeding the chromosome.
(2) In the sorted file `[10,20)`, `[15,30)`, `[15,30)` the first `[15,30)` is
merged into `[10,30)` as Crossed and its copy is omitted as Covered: no copy
of `[15,30)` is stored, the Duplicate counter stays 0 and one item is left of
three lines.
(3) A record of an unrecognised chromosome occurring twice is skipped: nothing
is stored or counted.
(4) With chromosome 1 requested, a record of chromosome 2 occurring twice is
skipped: nothing is stored or counted.
(5) With the minimum length 50, in the sorted file `[100,200)`, `[300,310)`,
`[300,310)` both copies of `[300,310)` are omitted as TooShort: none is
stored and the Duplicate counter stays 0.
(6) In the file `(1,[10,20))`, `(2,[10,20))`, `(1,[10,20))` the record of
chromosome 1 occurs in two blocks: both copies are stored, each as the first
record of its block, and the Duplicate counter stays 0.
(7) A record whose start is not below its end: ingestion ends with the
bad-end error.
(8) In the file `(1,[10,20))`, `(1,[50,60))`, `(1,[10,20))`, `(2,[10,20))`,
`(3,[10,20))` the copies of `[10,20)` are apart from each other, so the file
is not sorted; the sort-and-recheck pass erases the copy from the range of
chromosome 1 and then takes the range of chromosome 3 unshifted, outside the
buffer (the range shift of `SortItems`): ingestion does not complete. -/
theorem duplicates_not_always_counted :
    (((BedF.new 0).InitChild chromNumbered (some (fun _ => 1000)) (Ambig.newDefault eInfo.iSTAT false)
      [⟨"1", 10, 2000, 1⟩, ⟨"1", 10, 2000, 1⟩]).1.items = [] ∧
     (((BedF.new 0).InitChild chromNumbered (some (fun _ => 1000)) (Ambig.newDefault eInfo.iSTAT false)
      [⟨"1", 10, 2000, 1⟩, ⟨"1", 10, 2000, 1⟩]).2.1.cases eCase.DUPL).Count = 0) ∧
    (((BedF.new 0).InitChild chromNumbered none (Ambig.newDefault eInfo.iSTAT false)
      [⟨"1", 10, 20, 1⟩, ⟨"1", 15, 30, 1⟩, ⟨"1", 15, 30, 1⟩]).1.items = [⟨⟨10, 30⟩, 1⟩] ∧
     ((BedF.new 0).InitChild chromNumbered none (Ambig.newDefault eInfo.iSTAT false)
      [⟨"1", 10, 20, 1⟩, ⟨"1", 15, 30, 1⟩, ⟨"1", 15, 30, 1⟩]).2.2 = Outcome.ok (3, 1) ∧
     (((BedF.new 0).InitChild chromNumbered none (Ambig.newDefault eInfo.iSTAT false)
      [⟨"1", 10, 20, 1⟩, ⟨"1", 15, 30, 1⟩, ⟨"1", 15, 30, 1⟩]).2.1.cases eCase.DUPL).Count = 0) ∧
    (((BedF.new 0).InitChild chromNumbered none (Ambig.newDefault eInfo.iSTAT false)
      [⟨"Un", 10, 20, 1⟩, ⟨"Un", 10, 20, 1⟩]).1.items = [] ∧
     ((BedF.new 0).InitChild chromNumbered none (Ambig.newDefault eInfo.iSTAT false)
      [⟨"Un", 10, 20, 1⟩, ⟨"Un", 10, 20, 1⟩]).2.2 = Outcome.ok (0, 0) ∧
     (((BedF.new 0).InitChild chromNumbered none (Ambig.newDefault eInfo.iSTAT false)
      [⟨"Un", 10, 20, 1⟩, ⟨"Un", 10, 20, 1⟩]).2.1.cases eCase.DUPL).Count = 0) ∧
    (((BedF.new 0).InitChild (chromSingle 1) none (Ambig.newDefault eInfo.iSTAT false)
      [⟨"2", 10, 20, 1⟩, ⟨"2", 10, 20, 1⟩]).1.items = [] ∧
     ((BedF.new 0).InitChild (chromSingle 1) none (Ambig.newDefault eInfo.iSTAT false)
      [⟨"2", 10, 20, 1⟩, ⟨"2", 10, 20, 1⟩]).2.2 = Outcome.ok (0, 0) ∧
     (((BedF.new 0).InitChild (chromSingle 1) none (Ambig.newDefault eInfo.iSTAT false)
      [⟨"2", 10, 20, 1⟩, ⟨"2", 10, 20, 1⟩]).2.1.cases eCase.DUPL).Count = 0) ∧
    (((BedF.new 50).InitChild chromNumbered none (Ambig.newDefault eInfo.iSTAT false)
      [⟨"1", 100, 200, 1⟩, ⟨"1", 300, 310, 1⟩, ⟨"1", 300, 310, 1⟩]).1.items = [⟨⟨100, 200⟩, 1⟩] ∧
     ((BedF.new 50).InitChild chromNumbered none (Ambig.newDefault eInfo.iSTAT false)
      [⟨"1", 100, 200, 1⟩, ⟨"1", 300, 310, 1⟩, ⟨"1", 300, 310, 1⟩]).2.2 = Outcome.ok (3, 1) ∧
     (((BedF.new 50).InitChild chromNumbered none (Ambig.newDefault eInfo.iSTAT false)
      [⟨"1", 100, 200, 1⟩, ⟨"1", 300, 310, 1⟩, ⟨"1", 300, 310, 1⟩]).2.1.cases eCase.DUPL).Count = 0) ∧
    (((BedF.new 0).InitChild chromNumbered none (Ambig.newDefault eInfo.iSTAT false)
      [⟨"1", 10, 20, 1⟩, ⟨"2", 10, 20, 1⟩, ⟨"1", 10, 20, 1⟩]).1.items
      = [⟨⟨10, 20⟩, 1⟩, ⟨⟨10, 20⟩, 1⟩, ⟨⟨10, 20⟩, 1⟩] ∧
     ((BedF.new 0).InitChild chromNumbered none (Ambig.newDefault eInfo.iSTAT false)
      [⟨"1", 10, 20, 1⟩, ⟨"2", 10, 20, 1⟩, ⟨"1", 10, 20, 1⟩]).2.2 = Outcome.ok (3, 3) ∧
     (((BedF.new 0).InitChild chromNumbered none (Ambig.newDefault eInfo.iSTAT false)
      [⟨"1", 10, 20, 1⟩, ⟨"2", 10, 20, 1⟩, ⟨"1", 10, 20, 1⟩]).2.1.cases eCase.DUPL).Count = 0) ∧
    ((BedF.new 0).InitChild chromNumbered none (Ambig.newDefault eInfo.iSTAT false)
      [⟨"1", 20, 10, 1⟩, ⟨"1", 20, 10, 1⟩]).2.2 = Outcome.fail Err.BP_BADEND ∧
    ((BedF.new 0).InitChild chromNumbered none (Ambig.newDefault eInfo.iSTAT false)
      [⟨"1", 10, 20, 1⟩, ⟨"1", 50, 60, 1⟩, ⟨"1", 10, 20, 1⟩, ⟨"2", 10, 20, 1⟩, ⟨"3", 10, 20, 1⟩]).2.2
      = Outcome.fail Err.OutOfRange := by
  refine ⟨⟨by decide, by decide⟩, ⟨by decide, by decide, by decide⟩, ⟨by decide, by decide, by decide⟩,
    ⟨by decide, by decide, by decide⟩, ⟨by decide, by decide, by decide⟩,
    ⟨by decide, by decide, by decide⟩, by decide, by decide⟩

end IsChIP
